import Mathlib

/-!
# try: fuzzy ranking engine and terminal selector

A shallow embedding of `fuzzy.go`, of the selector state machine of `tui.go` with the text
of the frame that `render` writes, and of the quoting function `q` with the script lines
that `main.go` emits (`util.go`, `main.go`).

Conventions of the embedding:

* a Go `string` is a list of bytes (`GoString`); `[]rune(s)` and `range s` decode UTF-8 the
  way Go does (an invalid byte yields U+FFFD and advances one byte);
* a `float64` score is an element of an arbitrary linearly ordered field `K`: arithmetic is
  exact and there is no NaN; `math.Sqrt` is a parameter of the environment. This reading
  covers the runs in which every score is a number. The part on `F64` follows the same lines
  of `fuzzy.go` and of `loadAllTries` with infinities and NaN, which arise from a
  modification time one hour or more ahead of the clock;
* Go `int` values that can be negative are `Int`, slice indices and lengths are `Nat`;
* everything the code asks of the outside world (the file system, the clock, the terminal,
  standard-library tables) is a field of `Env`.
-/

set_option linter.unusedSectionVars false

namespace Try

/-! ## Go strings -/

/-- A byte. -/
abbrev Byte := Fin 256

/-- A Go string: a sequence of bytes. -/
abbrev GoString := List Byte

/-- A Go rune holding a decoded code point. -/
abbrev Rune := Char

/-- The rune U+FFFD, produced by decoding an invalid byte. -/
def runeError : Rune := Char.ofNat 0xFFFD

/-- Continuation-byte test of the UTF-8 decoder, with the accepted range `lo..hi`. -/
def inRange (lo hi : Nat) (b : Byte) : Bool := decide (lo ≤ b.val) && decide (b.val ≤ hi)

/-- The decoder `utf8.DecodeRuneInString`: the first rune of a non-empty string and its
width in bytes. Overlong forms, surrogates and values above U+10FFFF are invalid. -/
def decodeRune (b0 : Byte) (rest : GoString) : Rune × Nat :=
  if b0.val < 0x80 then (Char.ofNat b0.val, 1)
  else if 0xC2 ≤ b0.val ∧ b0.val ≤ 0xDF then
    match rest with
    | b1 :: _ =>
      if inRange 0x80 0xBF b1 then (Char.ofNat ((b0.val - 0xC0) * 64 + (b1.val - 0x80)), 2)
      else (runeError, 1)
    | [] => (runeError, 1)
  else if 0xE0 ≤ b0.val ∧ b0.val ≤ 0xEF then
    let lo := if b0.val = 0xE0 then 0xA0 else 0x80
    let hi := if b0.val = 0xED then 0x9F else 0xBF
    match rest with
    | b1 :: b2 :: _ =>
      if inRange lo hi b1 && inRange 0x80 0xBF b2 then
        (Char.ofNat ((b0.val - 0xE0) * 4096 + (b1.val - 0x80) * 64 + (b2.val - 0x80)), 3)
      else (runeError, 1)
    | _ => (runeError, 1)
  else if 0xF0 ≤ b0.val ∧ b0.val ≤ 0xF4 then
    let lo := if b0.val = 0xF0 then 0x90 else 0x80
    let hi := if b0.val = 0xF4 then 0x8F else 0xBF
    match rest with
    | b1 :: b2 :: b3 :: _ =>
      if inRange lo hi b1 && inRange 0x80 0xBF b2 && inRange 0x80 0xBF b3 then
        (Char.ofNat ((b0.val - 0xF0) * 262144 + (b1.val - 0x80) * 4096
          + (b2.val - 0x80) * 64 + (b3.val - 0x80)), 4)
      else (runeError, 1)
    | _ => (runeError, 1)
  else (runeError, 1)

/-- The loop `for i, ch := range s` from byte offset `i`: `skip` bytes of the rune decoded
last are still to be passed over. -/
def rangeFrom : GoString → Nat → Nat → List (Nat × Rune)
  | [], _, _ => []
  | _ :: rest, i, skip + 1 => rangeFrom rest (i + 1) skip
  | b :: rest, i, 0 => (i, (decodeRune b rest).1) :: rangeFrom rest (i + 1) ((decodeRune b rest).2 - 1)

/-- The pairs (byte offset, rune) visited by `for i, ch := range s`. -/
def rangeString (s : GoString) : List (Nat × Rune) := rangeFrom s 0 0

/-- The conversion `[]rune(s)`. -/
def runes (s : GoString) : List Rune := (rangeString s).map Prod.snd

/-- UTF-8 encoding of one rune. -/
def encodeRune (c : Rune) : GoString :=
  let n := c.toNat
  if n < 0x80 then [Fin.ofNat n]
  else if n < 0x800 then [Fin.ofNat (0xC0 + n / 64), Fin.ofNat (0x80 + n % 64)]
  else if n < 0x10000 then
    [Fin.ofNat (0xE0 + n / 4096), Fin.ofNat (0x80 + n / 64 % 64), Fin.ofNat (0x80 + n % 64)]
  else
    [Fin.ofNat (0xF0 + n / 262144), Fin.ofNat (0x80 + n / 4096 % 64),
      Fin.ofNat (0x80 + n / 64 % 64), Fin.ofNat (0x80 + n % 64)]

/-- The conversion `string(rs)` of a rune slice. -/
def encodeRunes (rs : List Rune) : GoString := rs.flatMap encodeRune

/-- A Go string literal. -/
def str (s : String) : GoString := encodeRunes s.toList

/-! ## The environment -/

/-- One entry of `os.ReadDir` as `loadAllTries` reads it. -/
structure DirEntry (K : Type) where
  /-- The result of `entry.Name()`. -/
  Name : GoString
  /-- The result of `entry.IsDir()`. -/
  IsDir : Bool
  /-- The result of `entry.Info()`: `none` on error, else the modification time and
  `now.Sub(mtime).Hours()`. -/
  Info : Option (Int × K)

/-- What `os.Stdin.Read` gives back on one call of `readKey`. -/
structure ReadEvent where
  /-- The resize handler ran while the read was blocked: `needsRedraw` was set. -/
  resized : Bool
  /-- The bytes `buf[:n]`, or `none` when the read returned an error. -/
  data : Option GoString
deriving DecidableEq

/-- The outside world of one session. -/
structure Env (K : Type) where
  /-- The function `math.Sqrt`. -/
  sqrt : K → K
  /-- The function `unicode.ToLower`. -/
  unicodeToLower : Rune → Rune
  /-- The function `filepath.EvalSymlinks`; `none` is an error. -/
  evalSymlinks : GoString → Option GoString
  /-- Whether `os.Stat` succeeds on a path. -/
  statOk : GoString → Bool
  /-- The function `filepath.Join` on two elements. -/
  filepathJoin : GoString → GoString → GoString
  /-- The function `strings.TrimSpace`. -/
  trimSpace : GoString → GoString
  /-- The value of `time.Now().Format("2006-01-02")`. -/
  today : GoString
  /-- The result of `os.ReadDir(basePath)`; `none` is an error. -/
  readDir : Option (List (DirEntry K))
  /-- The value of `os.Getenv("TRY_WIDTH")`. -/
  envWidth : GoString
  /-- The value of `os.Getenv("TRY_HEIGHT")`. -/
  envHeight : GoString
  /-- What `fmt.Sscanf(s, "%d", &n)` stores; `none` leaves `n` as it was. -/
  sscanInt : GoString → Option Int
  /-- The result of `term.GetSize`; `none` is an error. -/
  termSize : Option (Int × Int)

/-! ## fuzzy.go -/

/-- The struct `TryItem`: a directory entry. Times are opaque instants. -/
structure TryItem (K : Type) where
  Text : GoString
  Basename : GoString
  Path : GoString
  IsNew : Bool
  Ctime : Int
  Mtime : Int
  BaseScore : K
deriving DecidableEq

/-- The struct `FuzzyEntry`. -/
structure FuzzyEntry (K : Type) where
  Data : TryItem K
  Text : GoString
  TextLower : GoString
  BaseScore : K
  TextRunes : List Rune
deriving DecidableEq

/-- The struct `Fuzzy`. -/
structure Fuzzy (K : Type) where
  Entries : List (FuzzyEntry K)
deriving DecidableEq

/-- The struct `FuzzyMatch`. -/
structure FuzzyMatch (K : Type) where
  Entry : TryItem K
  Positions : List Nat
  Score : K
deriving DecidableEq

section fuzzy

variable {K : Type} [LinearOrderedField K]

/-- The runes `[]rune(strings.ToLower(s))`: `strings.ToLower` maps `unicode.ToLower` over
the runes of `s` and the conversion decodes them again. -/
def lowerRunes (env : Env K) (s : GoString) : List Rune := (runes s).map env.unicodeToLower

/-- The function `strings.ToLower`. -/
def stringsToLower (env : Env K) (s : GoString) : GoString := encodeRunes (lowerRunes env s)

/-- The constructor `NewFuzzy`. -/
def NewFuzzy (env : Env K) (entries : List (TryItem K)) : Fuzzy K :=
  { Entries := entries.map fun e =>
      { Data := e
        Text := e.Text
        TextLower := stringsToLower env e.Text
        BaseScore := e.BaseScore
        TextRunes := lowerRunes env e.Text } }

/-- The function `isAlphaNum`. -/
def isAlphaNum (r : Rune) : Bool :=
  (decide ('a' ≤ r) && decide (r ≤ 'z')) || (decide ('0' ≤ r) && decide (r ≤ '9'))

/-- The table `sqrtTable`: 17 entries, `table[i] = 2.0 / math.Sqrt(float64(i+1))`. -/
def sqrtTable (env : Env K) : List K :=
  (List.range 17).map fun i => 2 / env.sqrt (((i + 1 : Nat) : K))

/-- The inner loop of `calculateMatch`, `for i := pos; i < len(textRunes); i++`, with `k`
iterations left: the first index at or after `i` holding `qc`, or `none` for `found == -1`. -/
def findLoop (textRunes : List Rune) (qc : Rune) : Nat → Nat → Option Nat
  | 0, _ => none
  | k + 1, i => if textRunes[i]? = some qc then some i else findLoop textRunes qc k (i + 1)

/-- The local variables of the outer loop of `calculateMatch`. -/
structure ScanState (K : Type) where
  score : K
  positions : List Nat
  lastPos : Int
  pos : Nat

/-- The word-boundary test `found == 0 || !isAlphaNum(textRunes[found-1])`. -/
def atBoundary (textRunes : List Rune) (found : Nat) : Bool :=
  found = 0 || !(isAlphaNum (textRunes.getD (found - 1) ' '))

/-- The contiguity bonus for a gap: read from `sqrtTable` when `gap < 16`, computed
otherwise. -/
def gapBonus (env : Env K) (gap : Int) : K :=
  if gap < 16 then (sqrtTable env).getD gap.toNat 0
  else 2 / env.sqrt (((gap + 1 : Int) : K))

/-- One iteration of the outer loop of `calculateMatch` once `found` is known. -/
def scanStep (env : Env K) (textRunes : List Rune) (st : ScanState K) (found : Nat) :
    ScanState K :=
  let score := st.score + 1
  let score := if atBoundary textRunes found then score + 1 else score
  let score :=
    if st.lastPos ≥ 0 then score + gapBonus env ((found : Int) - st.lastPos - 1) else score
  { score := score
    positions := st.positions ++ [found]
    lastPos := found
    pos := found + 1 }

/-- The outer loop of `calculateMatch`, `for _, qc := range queryRunes`; `none` is the
early `return 0, nil, false`. -/
def scanLoop (env : Env K) (textRunes : List Rune) : List Rune → ScanState K →
    Option (ScanState K)
  | [], st => some st
  | qc :: qs, st =>
    match findLoop textRunes qc (textRunes.length - st.pos) st.pos with
    | none => none
    | some found => scanLoop env textRunes qs (scanStep env textRunes st found)

/-- The function `calculateMatch`: `some (score, positions)` when the third result is
`true`, `none` when it is `false`. -/
def calculateMatch (env : Env K) (entry : FuzzyEntry K) (query : GoString) :
    Option (K × List Nat) :=
  if query = [] then some (entry.BaseScore, [])
  else
    let queryRunes := lowerRunes env query
    match scanLoop env entry.TextRunes queryRunes
        { score := entry.BaseScore, positions := [], lastPos := -1, pos := 0 } with
    | none => none
    | some st =>
      let score :=
        if st.lastPos ≥ 0 then
          st.score * (((queryRunes.length : Nat) : K) / (((st.lastPos + 1 : Int)) : K))
        else st.score
      let score := score * (10 / ((((runes entry.Text).length : Nat) : K) + 10))
      some (score, st.positions)

/-- The exchange `matches[i], matches[j] = matches[j], matches[i]`. -/
def swapAt (ms : List (FuzzyMatch K)) (i j : Nat) : List (FuzzyMatch K) :=
  match ms[i]?, ms[j]? with
  | some a, some b => (ms.set i b).set j a
  | _, _ => ms

/-- The test `matches[j].Score > matches[i].Score` on scores that are numbers of `K`;
`Ieee.scoreGt` is the same test on `float64` values, false when either score is NaN. -/
def scoreGt (ms : List (FuzzyMatch K)) (j i : Nat) : Bool :=
  match ms[j]?, ms[i]? with
  | some b, some a => decide (b.Score > a.Score)
  | _, _ => false

/-- The inner loop of `sortByScore`, `for j := i + 1; j < len(matches); j++`, with `k`
iterations left. -/
def sortInner (i : Nat) : Nat → Nat → List (FuzzyMatch K) → List (FuzzyMatch K)
  | 0, _, ms => ms
  | k + 1, j, ms => sortInner i k (j + 1) (if scoreGt ms j i then swapAt ms i j else ms)

/-- The outer loop of `sortByScore`, `for i := 0; i < len(matches); i++`, with `k`
iterations left. -/
def sortOuter : Nat → Nat → List (FuzzyMatch K) → List (FuzzyMatch K)
  | 0, _, ms => ms
  | k + 1, i, ms => sortOuter k (i + 1) (sortInner i (ms.length - (i + 1)) (i + 1) ms)

/-- The function `sortByScore`; the slice keeps its length, so the loop bounds are those of
the argument. -/
def sortByScore (ms : List (FuzzyMatch K)) : List (FuzzyMatch K) :=
  sortOuter ms.length 0 ms

/-- The loop of `Fuzzy.Match` that scores every entry and drops the rejected ones. -/
def scoreEntries (env : Env K) (entries : List (FuzzyEntry K)) (query : GoString) :
    List (FuzzyMatch K) :=
  entries.filterMap fun entry =>
    match calculateMatch env entry query with
    | none => none
    | some (score, positions) =>
      some { Entry := entry.Data, Positions := positions, Score := score }

/-- The method `Fuzzy.Match`. -/
def Fuzzy.Match (env : Env K) (f : Fuzzy K) (query : GoString) : List (FuzzyMatch K) :=
  sortByScore (scoreEntries env f.Entries query)

end fuzzy

/-! ## tui.go: the selector -/

/-- The struct `TryEntry`: a `TryItem` with its match data. -/
structure TryEntry (K : Type) where
  Item : TryItem K
  Score : K
  HighlightPositions : List Nat
deriving DecidableEq

/-- The struct `DeletePath`. -/
structure DeletePath where
  Path : GoString
  Basename : GoString
deriving DecidableEq

/-- The struct `SelectionResult`; `Kind` is the field `Type`, one of "cd", "mkdir", "delete",
"rename". -/
structure SelectionResult where
  Kind : GoString
  Path : GoString
  Paths : List DeletePath
  BasePath : GoString
  OldName : GoString
  NewName : GoString
deriving DecidableEq

/-- The struct `TrySelector`. A nil pointer or nil slice that the code tests against `nil`
is `none`; `stdin` lists what the coming calls of `os.Stdin.Read` return (an exhausted list
reads as end of file). The terminal handles `io` and `oldState` carry no state of the model. -/
structure TrySelector (K : Type) where
  searchTerm : GoString
  cursorPos : Int
  inputCursorPos : Nat
  scrollOffset : Int
  inputBuffer : GoString
  selected : Option SelectionResult
  allTries : Option (List (TryItem K))
  basePath : GoString
  deleteStatus : GoString
  deleteMode : Bool
  markedForDelete : List GoString
  testRenderOnce : Bool
  testNoCls : Bool
  testKeys : List GoString
  testHadKeys : Bool
  testConfirm : GoString
  needsRedraw : Bool
  fuzzy : Option (Fuzzy K)
  width : Int
  height : Int
  stdin : List ReadEvent
deriving DecidableEq

section selector

variable {K : Type} [LinearOrderedField K]

/-- The call `strings.ReplaceAll(s, " ", "-")`. -/
def replaceSpaces (s : GoString) : GoString := s.map fun b => if b = 32 then 45 else b

/-- The constructor `NewTrySelector`; `stdin` is the input the session will read. -/
def NewTrySelector (searchTerm basePath andType : GoString) (andExit : Bool)
    (andKeys : List GoString) (andConfirm : GoString) (stdin : List ReadEvent) :
    TrySelector K :=
  let initialInput := replaceSpaces (if andType ≠ [] then andType else searchTerm)
  { searchTerm := replaceSpaces searchTerm
    cursorPos := 0
    inputCursorPos := initialInput.length
    scrollOffset := 0
    inputBuffer := initialInput
    selected := none
    allTries := none
    basePath := basePath
    deleteStatus := []
    deleteMode := false
    markedForDelete := []
    testRenderOnce := andExit
    testNoCls := andExit || decide (andKeys.length > 0)
    testKeys := andKeys
    testHadKeys := decide (andKeys.length > 0)
    testConfirm := andConfirm
    needsRedraw := false
    fuzzy := none
    width := 80
    height := 24
    stdin := stdin }

/-- The method `refreshSize`. -/
def refreshSize (env : Env K) (s : TrySelector K) : TrySelector K :=
  let w := if env.envWidth ≠ [] then (env.sscanInt env.envWidth).getD s.width else s.width
  let h := if env.envHeight ≠ [] then (env.sscanInt env.envHeight).getD s.height else s.height
  let wh : Int × Int :=
    if w = 0 ∨ h = 0 ∨ env.envWidth = [] then
      match env.termSize with
      | some (tw, th) =>
        (if env.envWidth = [] then tw else w, if env.envHeight = [] then th else h)
      | none => (w, h)
    else (w, h)
  { s with
    width := if wh.1 ≤ 0 then 80 else wh.1
    height := if wh.2 ≤ 0 then 24 else wh.2 }

/-- The test `regexp.MatchString("^\d{4}-\d{2}-\d{2}-", name)`. -/
def hasDatePrefix (name : GoString) : Bool :=
  let digit := fun (b : Byte) => decide (48 ≤ b.val) && decide (b.val ≤ 57)
  match name with
  | y1 :: y2 :: y3 :: y4 :: h1 :: m1 :: m2 :: h2 :: d1 :: d2 :: h3 :: _ =>
    digit y1 && digit y2 && digit y3 && digit y4 && decide (h1 = 45) && digit m1 && digit m2
      && decide (h2 = 45) && digit d1 && digit d2 && decide (h3 = 45)
  | _ => false

/-- The loop body of `loadAllTries` for one directory entry: the item it appends, if any.
The base score is a number of `K`, which is what the code computes when
`hoursSinceAccess + 1` is positive; `Ieee.loadEntry` follows the same lines for every
`float64`, with NaN for a negative argument of `math.Sqrt`. -/
def loadEntry (env : Env K) (basePath : GoString) (entry : DirEntry K) : Option (TryItem K) :=
  if entry.Name.head? = some 46 then none
  else if !entry.IsDir then none
  else
    match entry.Info with
    | none => none
    | some (mtime, hoursSinceAccess) =>
      let baseScore := 3 / env.sqrt (hoursSinceAccess + 1)
      let baseScore := if hasDatePrefix entry.Name then baseScore + 2 else baseScore
      some
        { Text := entry.Name
          Basename := entry.Name
          Path := env.filepathJoin basePath entry.Name
          IsNew := false
          Ctime := 0
          Mtime := mtime
          BaseScore := baseScore }

/-- The method `loadAllTries`. -/
def loadAllTries (env : Env K) (s : TrySelector K) : TrySelector K :=
  match s.allTries with
  | some _ => s
  | none =>
    match env.readDir with
    | none => { s with allTries := some [] }
    | some entries => { s with allTries := some (entries.filterMap (loadEntry env s.basePath)) }

/-- The method `getTries`: the ranked entries and the selector with its caches filled. -/
def getTries (env : Env K) (s : TrySelector K) : List (TryEntry K) × TrySelector K :=
  let s := loadAllTries env s
  let f := match s.fuzzy with
    | some f => f
    | none => NewFuzzy env (s.allTries.getD [])
  let s := { s with fuzzy := some f }
  ((Fuzzy.Match env f s.inputBuffer).map fun m =>
      { Item := m.Entry, Score := m.Score, HighlightPositions := m.Positions }, s)

/-- The method `readKey`: the key and the selector after the read. -/
def readKey (env : Env K) (s : TrySelector K) : GoString × TrySelector K :=
  match s.testKeys with
  | key :: rest => (key, { s with testKeys := rest })
  | [] =>
    if s.testHadKeys then ([27], s)
    else
      let ev : ReadEvent := s.stdin.headD { resized := false, data := none }
      let s := { s with stdin := s.stdin.tail, needsRedraw := s.needsRedraw || ev.resized }
      match ev.data with
      | none =>
        if s.needsRedraw then ([], refreshSize env { s with needsRedraw := false })
        else ([], s)
      | some bytes =>
        if s.needsRedraw then ([], refreshSize env { s with needsRedraw := false })
        else (bytes, s)

/-- The effect of the method `render` on the selector: the size is refreshed, a pending
status message is shown once and cleared, and the scroll offset follows the cursor. -/
def render (env : Env K) (s : TrySelector K) (_tries : List (TryEntry K)) : TrySelector K :=
  let s := refreshSize env s
  let s := if s.deleteStatus ≠ [] then { s with deleteStatus := [] } else s
  let maxVisible : Int := if s.height - 4 - 2 < 3 then 3 else s.height - 4 - 2
  let scrollOffset :=
    if s.cursorPos < s.scrollOffset then s.cursorPos
    else if s.cursorPos ≥ s.scrollOffset + maxVisible then s.cursorPos - maxVisible + 1
    else s.scrollOffset
  { s with scrollOffset := scrollOffset }

/-- The function `isWordChar`. -/
def isWordChar (r : Rune) : Bool :=
  (decide ('a' ≤ r) && decide (r ≤ 'z')) || (decide ('A' ≤ r) && decide (r ≤ 'Z'))
    || (decide ('0' ≤ r) && decide (r ≤ '9'))

/-- The function `isPrintable`. -/
def isPrintable (b : Byte) : Bool :=
  (decide (97 ≤ b.val) && decide (b.val ≤ 122)) || (decide (65 ≤ b.val) && decide (b.val ≤ 90))
    || (decide (48 ≤ b.val) && decide (b.val ≤ 57))
    || decide (b = 45) || decide (b = 95) || decide (b = 46) || decide (b = 32)

/-- The function `isRenamePrintable`. -/
def isRenamePrintable (b : Byte) : Bool :=
  (decide (97 ≤ b.val) && decide (b.val ≤ 122)) || (decide (65 ≤ b.val) && decide (b.val ≤ 90))
    || (decide (48 ≤ b.val) && decide (b.val ≤ 57))
    || decide (b = 45) || decide (b = 95) || decide (b = 46) || decide (b = 32)
    || decide (b = 47)

/-- The loop of `indexOf` from index `i`. -/
def indexOfFrom (item : GoString) : List GoString → Nat → Int
  | [], _ => -1
  | s :: rest, i => if s = item then (i : Int) else indexOfFrom item rest (i + 1)

/-- The function `indexOf`. -/
def indexOf (slice : List GoString) (item : GoString) : Int := indexOfFrom item slice 0

/-- The conversion `rune(buf[i])` of one byte of a string. -/
def byteRune (buf : GoString) (i : Nat) : Rune := Char.ofNat (buf.getD i 0).val

/-- The loops `for pos >= 0 && test(rune(buf[pos])) { pos-- }` of Ctrl-W in `mainLoop`; the
argument and the result are `pos + 1`. -/
def skipBack (test : Rune → Bool) (buf : GoString) : Nat → Nat
  | 0 => 0
  | n + 1 => if test (byteRune buf n) then skipBack test buf n else n + 1

/-- The method `handleSelection`. -/
def handleSelection (s : TrySelector K) (entry : TryEntry K) : TrySelector K :=
  { s with
    selected := some
      { Kind := str "cd", Path := entry.Item.Path, Paths := [], BasePath := [], OldName := [],
        NewName := [] } }

/-- The method `handleCreateNew`. -/
def handleCreateNew (env : Env K) (s : TrySelector K) : TrySelector K :=
  if s.inputBuffer ≠ [] then
    let finalName := env.today ++ str "-" ++ replaceSpaces s.inputBuffer
    { s with
      selected := some
        { Kind := str "mkdir", Path := env.filepathJoin s.basePath finalName, Paths := [],
          BasePath := [], OldName := [], NewName := [] } }
  else { s with selected := none }

/-- The loop of `processDeleteConfirmation` over the marked items: the paths collected, or
the status message of the first failed safety check. -/
def checkPaths (env : Env K) (baseReal : GoString) :
    List (TryEntry K) → List DeletePath → Except GoString (List DeletePath)
  | [], paths => .ok paths
  | item :: rest, paths =>
    let targetReal := (env.evalSymlinks item.Item.Path).getD item.Item.Path
    if !((baseReal ++ str "/").isPrefixOf targetReal) then
      .error (str "Safety check failed: " ++ targetReal ++ str " not in " ++ baseReal)
    else checkPaths env baseReal rest (paths ++ [{ Path := targetReal, Basename := item.Item.Basename }])

/-- The method `processDeleteConfirmation`. -/
def processDeleteConfirmation (env : Env K) (s : TrySelector K)
    (markedItems : List (TryEntry K)) (confirmation : GoString) : TrySelector K :=
  if confirmation = str "YES" then
    let baseReal := (env.evalSymlinks s.basePath).getD s.basePath
    match checkPaths env baseReal markedItems [] with
    | .error status => { s with deleteStatus := status }
    | .ok paths =>
      { s with
        selected := some
          { Kind := str "delete", Path := [], Paths := paths, BasePath := baseReal,
            OldName := [], NewName := [] }
        deleteStatus := str "Deleted: " ++ (str ", ").intercalate (paths.map fun p => p.Basename)
        allTries := none
        fuzzy := none
        markedForDelete := []
        deleteMode := false }
  else
    { s with deleteStatus := str "Delete cancelled", markedForDelete := [], deleteMode := false }

/-- The loop of `confirmBatchDelete` that reads the confirmation from the scripted keys: the
confirmation text and the keys left. -/
def readTestConfirmation : List GoString → GoString → GoString × List GoString
  | [], buf => (buf, [])
  | ch :: rest, buf =>
    if ch = [13] ∨ ch = [10] then (buf, rest) else readTestConfirmation rest (buf ++ ch)

/-- How one iteration of the interactive loop of `confirmBatchDelete` ends: with `return`
(`exit`), or with the next iteration (`again`) and its confirmation buffer and cursor. -/
inductive ConfirmStep (K : Type) where
  | exit (s : TrySelector K)
  | again (s : TrySelector K) (confirmationBuffer : GoString) (confirmationCursor : Nat)

/-- One iteration of the interactive loop of `confirmBatchDelete`. -/
def confirmIter (env : Env K) (markedItems : List (TryEntry K)) (s : TrySelector K)
    (confirmationBuffer : GoString) (confirmationCursor : Nat) : ConfirmStep K :=
  let (key, s) := readKey env s
  if key = [13] ∨ key = [10] then
    .exit (processDeleteConfirmation env s markedItems confirmationBuffer)
  else if key = [27] then
    .exit { s with deleteStatus := str "Delete cancelled", markedForDelete := [],
                   deleteMode := false }
  else if key = [127] ∨ key = [8] then
    if confirmationCursor > 0 then
      .again s
        (confirmationBuffer.take (confirmationCursor - 1)
          ++ confirmationBuffer.drop confirmationCursor)
        (confirmationCursor - 1)
    else .again s confirmationBuffer confirmationCursor
  else if key = [3] then
    .exit { s with deleteStatus := str "Delete cancelled", markedForDelete := [],
                   deleteMode := false }
  else
    match key with
    | [b] =>
      if b.val ≥ 32 then
        .again s
          (confirmationBuffer.take confirmationCursor ++ key
            ++ confirmationBuffer.drop confirmationCursor)
          (confirmationCursor + 1)
      else .again s confirmationBuffer confirmationCursor
    | _ => .again s confirmationBuffer confirmationCursor

/-- The interactive loop of `confirmBatchDelete`, for at most `fuel` keys; `none` when the
keys read do not end the dialog. -/
def confirmLoop (env : Env K) (markedItems : List (TryEntry K)) :
    Nat → TrySelector K → GoString → Nat → Option (TrySelector K)
  | 0, _, _, _ => none
  | fuel + 1, s, confirmationBuffer, confirmationCursor =>
    match confirmIter env markedItems s confirmationBuffer confirmationCursor with
    | .exit s => some s
    | .again s buf cur => confirmLoop env markedItems fuel s buf cur

/-- The method `confirmBatchDelete`. -/
def confirmBatchDelete (env : Env K) (fuel : Nat) (s : TrySelector K)
    (tries : List (TryEntry K)) : Option (TrySelector K) :=
  let markedItems := tries.filter fun t => decide (indexOf s.markedForDelete t.Item.Path ≥ 0)
  if markedItems.length = 0 then some s
  else if s.testKeys.length > 0 then
    let r := readTestConfirmation s.testKeys []
    some (processDeleteConfirmation env { s with testKeys := r.2 } markedItems r.1)
  else if s.testConfirm ≠ [] then
    some (processDeleteConfirmation env s markedItems s.testConfirm)
  else confirmLoop env markedItems fuel s [] 0

/-- The method `finalizeRename`: the error message (empty for none) and the selector. -/
def finalizeRename (env : Env K) (s : TrySelector K) (entry : TryEntry K)
    (renameBuffer : GoString) : GoString × TrySelector K :=
  let newName := env.trimSpace (replaceSpaces renameBuffer)
  let oldName := entry.Item.Basename
  if newName = [] then (str "Name cannot be empty", s)
  else if 47 ∈ newName then (str "Name cannot contain /", s)
  else if newName = oldName then ([], { s with needsRedraw := true })
  else if env.statOk (env.filepathJoin s.basePath newName) then
    (str "Directory exists: " ++ newName, s)
  else
    ([], { s with
      selected := some
        { Kind := str "rename", Path := [], Paths := [], BasePath := s.basePath,
          OldName := oldName, NewName := newName } })

/-- The first loop of Ctrl-W in `runRenameDialog`,
`for pos > 0 && !isWordChar(rune(buf[pos])) { pos-- }`. -/
def renameSkipNonWord (buf : GoString) : Nat → Nat
  | 0 => 0
  | p + 1 => if !isWordChar (byteRune buf (p + 1)) then renameSkipNonWord buf p else p + 1

/-- The second loop of Ctrl-W in `runRenameDialog`,
`for pos > 0 && isWordChar(rune(buf[pos-1])) { pos-- }`. -/
def renameSkipWord (buf : GoString) : Nat → Nat
  | 0 => 0
  | p + 1 => if isWordChar (byteRune buf p) then renameSkipWord buf p else p + 1

/-- How one iteration of the loop of `runRenameDialog` ends: with `return` (`exit`), or
with the next iteration (`again`) and its buffer, cursor and error message. -/
inductive RenameStep (K : Type) where
  | exit (s : TrySelector K)
  | again (s : TrySelector K) (renameBuffer : GoString) (renameCursor : Nat)
      (renameError : GoString)

/-- One iteration of the loop of `runRenameDialog`. -/
def renameIter (env : Env K) (entry : TryEntry K) (s : TrySelector K)
    (renameBuffer : GoString) (renameCursor : Nat) (renameError : GoString) : RenameStep K :=
  let (key, s) := readKey env s
  if key = [13] ∨ key = [10] then
    let r := finalizeRename env s entry renameBuffer
    if r.1 = [] then .exit r.2 else .again r.2 renameBuffer renameCursor r.1
  else if key = [27] ∨ key = [3] then .exit { s with needsRedraw := true }
  else if key = [127] ∨ key = [8] then
    if renameCursor > 0 then
      .again s (renameBuffer.take (renameCursor - 1) ++ renameBuffer.drop renameCursor)
        (renameCursor - 1) []
    else .again s renameBuffer renameCursor []
  else if key = [1] then .again s renameBuffer 0 renameError
  else if key = [5] then .again s renameBuffer renameBuffer.length renameError
  else if key = [2] then
    .again s renameBuffer (if renameCursor > 0 then renameCursor - 1 else renameCursor)
      renameError
  else if key = [6] then
    .again s renameBuffer
      (if renameCursor < renameBuffer.length then renameCursor + 1 else renameCursor)
      renameError
  else if key = [11] then .again s (renameBuffer.take renameCursor) renameCursor []
  else if key = [23] then
    if renameCursor > 0 then
      let pos := renameSkipWord renameBuffer (renameSkipNonWord renameBuffer (renameCursor - 1))
      .again s (renameBuffer.take pos ++ renameBuffer.drop renameCursor) pos []
    else .again s renameBuffer renameCursor []
  else
    match key with
    | [b] =>
      if isRenamePrintable b then
        .again s (renameBuffer.take renameCursor ++ key ++ renameBuffer.drop renameCursor)
          (renameCursor + 1) []
      else .again s renameBuffer renameCursor renameError
    | _ => .again s renameBuffer renameCursor renameError

/-- The loop of `runRenameDialog`, for at most `fuel` keys; `none` when the keys read do
not end the dialog. -/
def renameLoop (env : Env K) (entry : TryEntry K) :
    Nat → TrySelector K → GoString → Nat → GoString → Option (TrySelector K)
  | 0, _, _, _, _ => none
  | fuel + 1, s, renameBuffer, renameCursor, renameError =>
    match renameIter env entry s renameBuffer renameCursor renameError with
    | .exit s => some s
    | .again s buf cur err => renameLoop env entry fuel s buf cur err

/-- The method `runRenameDialog`. -/
def runRenameDialog (env : Env K) (fuel : Nat) (s : TrySelector K) (entry : TryEntry K) :
    Option (TrySelector K) :=
  renameLoop env entry fuel { s with deleteMode := false, markedForDelete := [] }
    entry.Item.Basename entry.Item.Basename.length []

/-- How one iteration of `mainLoop` ends: with `continue` or the end of the `switch`
(`next`), or with `return` (`done`). -/
inductive LoopStep (K : Type) where
  | next (s : TrySelector K)
  | done (s : TrySelector K)
deriving DecidableEq

/-- The `return` that follows a handler when it has set `selected`. -/
def returnIfSelected (s : TrySelector K) : LoopStep K :=
  if s.selected.isSome then .done s else .next s

/-- The Ctrl-D case of `mainLoop`. -/
def toggleMark (s : TrySelector K) (tries : List (TryEntry K)) : TrySelector K :=
  if s.cursorPos < tries.length then
    match tries[s.cursorPos.toNat]? with
    | none => s
    | some t =>
      let path := t.Item.Path
      let idx := indexOf s.markedForDelete path
      let s :=
        if idx ≥ 0 then
          { s with markedForDelete :=
              s.markedForDelete.take idx.toNat ++ s.markedForDelete.drop (idx.toNat + 1) }
        else { s with markedForDelete := s.markedForDelete ++ [path], deleteMode := true }
      if s.markedForDelete.length = 0 then { s with deleteMode := false } else s
  else s

/-- The Ctrl-W case of `mainLoop`. -/
def deleteWordBack (s : TrySelector K) : TrySelector K :=
  if s.inputCursorPos > 0 then
    let newPos :=
      skipBack isWordChar s.inputBuffer
        (skipBack (fun r => !isWordChar r) s.inputBuffer s.inputCursorPos)
    { s with
      inputBuffer := s.inputBuffer.take newPos ++ s.inputBuffer.drop s.inputCursorPos
      inputCursorPos := newPos }
  else s

/-- The `switch key` of `mainLoop`; dialogs read at most `fuel` keys. -/
def handleKey (env : Env K) (fuel : Nat) (s : TrySelector K) (tries : List (TryEntry K))
    (showCreateNew : Bool) (totalItems : Int) (key : GoString) : Option (LoopStep K) :=
  if key = [13] ∨ key = [10] then
    if s.deleteMode ∧ s.markedForDelete.length > 0 then
      (confirmBatchDelete env fuel s tries).map returnIfSelected
    else if s.cursorPos < tries.length then
      match tries[s.cursorPos.toNat]? with
      | some t => some (returnIfSelected (handleSelection s t))
      | none => some (.next s)
    else if showCreateNew then some (returnIfSelected (handleCreateNew env s))
    else some (.next s)
  else if key = [27, 91, 65] ∨ key = [16] then
    some (.next (if s.cursorPos > 0 then { s with cursorPos := s.cursorPos - 1 } else s))
  else if key = [27, 91, 66] ∨ key = [14] then
    some (.next
      (if s.cursorPos < totalItems - 1 then { s with cursorPos := s.cursorPos + 1 } else s))
  else if key = [27, 91, 67] ∨ key = [27, 91, 68] then some (.next s)
  else if key = [127] ∨ key = [8] then
    let s :=
      if s.inputCursorPos > 0 then
        { s with
          inputBuffer :=
            s.inputBuffer.take (s.inputCursorPos - 1) ++ s.inputBuffer.drop s.inputCursorPos
          inputCursorPos := s.inputCursorPos - 1 }
      else s
    some (.next { s with cursorPos := 0 })
  else if key = [1] then some (.next { s with inputCursorPos := 0 })
  else if key = [5] then some (.next { s with inputCursorPos := s.inputBuffer.length })
  else if key = [2] then
    some (.next
      (if s.inputCursorPos > 0 then { s with inputCursorPos := s.inputCursorPos - 1 } else s))
  else if key = [6] then
    some (.next
      (if s.inputCursorPos < s.inputBuffer.length then
        { s with inputCursorPos := s.inputCursorPos + 1 }
      else s))
  else if key = [11] then
    some (.next { s with inputBuffer := s.inputBuffer.take s.inputCursorPos })
  else if key = [23] then some (.next (deleteWordBack s))
  else if key = [4] then some (.next (toggleMark s tries))
  else if key = [20] then some (returnIfSelected (handleCreateNew env s))
  else if key = [18] then
    if s.cursorPos < tries.length then
      match tries[s.cursorPos.toNat]? with
      | some t => (runRenameDialog env fuel s t).map returnIfSelected
      | none => some (.next s)
    else some (.next s)
  else if key = [3] ∨ key = [27] then
    if s.deleteMode then some (.next { s with markedForDelete := [], deleteMode := false })
    else some (.done { s with selected := none })
  else
    match key with
    | [b] =>
      if isPrintable b then
        some (.next
          { s with
            inputBuffer :=
              s.inputBuffer.take s.inputCursorPos ++ key ++ s.inputBuffer.drop s.inputCursorPos
            inputCursorPos := s.inputCursorPos + 1
            cursorPos := 0 })
      else some (.next s)
    | _ => some (.next s)

/-- One iteration of the loop of `mainLoop`; dialogs read at most `fuel` keys, and `none`
means that a dialog did not end within them. -/
def mainLoopIter (env : Env K) (fuel : Nat) (s : TrySelector K) : Option (LoopStep K) :=
  let (tries, s) := getTries env s
  let showCreateNew := decide (s.inputBuffer ≠ [])
  let totalItems : Int := if showCreateNew then tries.length + 1 else tries.length
  let s := if s.cursorPos < 0 then { s with cursorPos := 0 } else s
  let maxPos : Int := if totalItems - 1 < 0 then 0 else totalItems - 1
  let s := if s.cursorPos > maxPos then { s with cursorPos := maxPos } else s
  let s := render env s tries
  let (key, s) := readKey env s
  if key = [] then some (.next s)
  else handleKey env fuel s tries showCreateNew totalItems key

/-- The method `mainLoop`, for at most `fuel` iterations: the selector when it returns. -/
def mainLoop (env : Env K) : Nat → TrySelector K → Option (TrySelector K)
  | 0, _ => none
  | fuel + 1, s =>
    match mainLoopIter env fuel s with
    | none => none
    | some (.done s) => some s
    | some (.next s) => mainLoop env fuel s

/-- The local variables of one iteration of `mainLoop` when it reaches the `switch`. -/
structure LoopHead (K : Type) where
  /-- The ranked list `tries` for the input buffer. -/
  tries : List (TryEntry K)
  /-- The flag `showCreateNew`. -/
  showCreateNew : Bool
  /-- The count `totalItems`. -/
  totalItems : Int
  /-- The selector after the cursor is clamped, as `render` receives it. -/
  clamped : TrySelector K
  /-- The selector as `render` leaves it. -/
  rendered : TrySelector K
  /-- The key read. -/
  key : GoString
  /-- The selector after `readKey`, as the `switch` receives it. -/
  sel : TrySelector K

/-- The part of one iteration of `mainLoop` that precedes the `switch`: the list is ranked,
the cursor clamped, the frame rendered and one key read. -/
def loopHead (env : Env K) (s : TrySelector K) : LoopHead K :=
  let (tries, s) := getTries env s
  let showCreateNew := decide (s.inputBuffer ≠ [])
  let totalItems : Int := if showCreateNew then tries.length + 1 else tries.length
  let s := if s.cursorPos < 0 then { s with cursorPos := 0 } else s
  let maxPos : Int := if totalItems - 1 < 0 then 0 else totalItems - 1
  let clamped := if s.cursorPos > maxPos then { s with cursorPos := maxPos } else s
  let rendered := render env clamped tries
  let (key, s) := readKey env rendered
  { tries := tries, showCreateNew := showCreateNew, totalItems := totalItems,
    clamped := clamped, rendered := rendered, key := key, sel := s }

/-- One line of the body region that `render` writes: the row of the entry with index `idx`,
the row "Create new", or an empty line (the separator before "Create new" and the filler at
the end are the same text). -/
inductive BodyLine where
  | entry (idx : Int) (isSelected : Bool)
  | create (isSelected : Bool)
  | blank
deriving DecidableEq

/-- The loop `for idx := s.scrollOffset; idx < visibleEnd; idx++` of `render` with `k`
iterations left; `n` is `bodyLinesRendered`. The `break` ends the loop after the separator. -/
def bodyLoop (nTries : Nat) (cursorPos scrollOffset maxVisible : Int) :
    Nat → Int → Int → List BodyLine
  | 0, _, _ => []
  | k + 1, idx, n =>
    let row : BodyLine :=
      if idx < nTries then .entry idx (decide (idx = cursorPos))
      else .create (decide (idx = cursorPos))
    if idx = nTries ∧ nTries > 0 ∧ idx ≥ scrollOffset then
      if n + 1 ≥ maxVisible then [.blank]
      else .blank :: row :: bodyLoop nTries cursorPos scrollOffset maxVisible k (idx + 1) (n + 2)
    else row :: bodyLoop nTries cursorPos scrollOffset maxVisible k (idx + 1) (n + 1)

/-- The rows of the body region that `render` writes before the filler, for the selector as
`render` leaves it (size refreshed, scroll offset adjusted). -/
def renderBodyRows (s : TrySelector K) (tries : List (TryEntry K)) : List BodyLine :=
  let maxVisible : Int := if s.height - 4 - 2 < 3 then 3 else s.height - 4 - 2
  let totalItems : Int := if s.inputBuffer ≠ [] then tries.length + 1 else tries.length
  let visibleEnd : Int :=
    if s.scrollOffset + maxVisible > totalItems then totalItems else s.scrollOffset + maxVisible
  bodyLoop tries.length s.cursorPos s.scrollOffset maxVisible
    (visibleEnd - s.scrollOffset).toNat s.scrollOffset 0

/-- The body region that `render` writes: the rows, then empty lines up to `maxVisible`. -/
def renderBody (s : TrySelector K) (tries : List (TryEntry K)) : List BodyLine :=
  let maxVisible : Int := if s.height - 4 - 2 < 3 then 3 else s.height - 4 - 2
  let rows := renderBodyRows s tries
  rows ++ List.replicate (maxVisible - rows.length).toNat .blank

/-- The constant `ansiReset`. -/
def ansiReset : GoString := str "\x1b[0m"

/-- The constant `ansiResetFG`. -/
def ansiResetFG : GoString := str "\x1b[39m"

/-- The constant `ansiBold`. -/
def ansiBold : GoString := str "\x1b[1m"

/-- The constant `colorMuted`. -/
def colorMuted : GoString := str "\x1b[38;5;245m"

/-- The constant `colorHighlight`. -/
def colorHighlight : GoString := str "\x1b[1m\x1b[33m"

/-- The constant `colorAccent`. -/
def colorAccent : GoString := str "\x1b[1m\x1b[38;5;214m"

/-- The function `ansiWrap`; `colorsEnabled` is the package variable of that name. -/
def ansiWrap (colorsEnabled : Bool) (text pre suf : GoString) : GoString :=
  if text = [] ∨ colorsEnabled = false then text else pre ++ text ++ suf

/-- The function `dim`. -/
def dim (colorsEnabled : Bool) (text : GoString) : GoString :=
  ansiWrap colorsEnabled text colorMuted ansiResetFG

/-- The function `bold`. -/
def bold (colorsEnabled : Bool) (text : GoString) : GoString :=
  ansiWrap colorsEnabled text ansiBold ansiReset

/-- The function `highlight`. -/
def highlight (colorsEnabled : Bool) (text : GoString) : GoString :=
  ansiWrap colorsEnabled text colorHighlight (ansiResetFG ++ str "\x1b[22m")

/-- The function `accent`. -/
def accent (colorsEnabled : Bool) (text : GoString) : GoString :=
  ansiWrap colorsEnabled text colorAccent (ansiResetFG ++ str "\x1b[22m")

/-- The function `contains`. -/
def contains : List Nat → Nat → Bool
  | [], _ => false
  | s :: rest, item => if s = item then true else contains rest item

/-- The function `highlightWithPositions`: `i` is the byte offset that `range text` yields
and `string(ch)` is the encoding of the rune. -/
def highlightWithPositions (colorsEnabled : Bool) (text : GoString) (positions : List Nat)
    (offset : Nat) : GoString :=
  (rangeString text).flatMap fun ic =>
    if contains positions (ic.1 + offset) then highlight colorsEnabled (encodeRune ic.2)
    else encodeRune ic.2

/-- The submatches 1 and 2 of `^(\d{4}-\d{2}-\d{2})-(.+)$` on `basename`, or `none`: the
date takes 10 bytes, a hyphen follows, and the rest is not empty and holds no line feed. -/
def dateMatch (basename : GoString) : Option (GoString × GoString) :=
  if hasDatePrefix basename = true ∧ basename.drop 11 ≠ [] ∧ (10 : Byte) ∉ basename.drop 11 then
    some (basename.take 10, basename.drop 11)
  else none

/-- The method `formattedEntryName`: the plain and the rendered name. -/
def formattedEntryName (colorsEnabled : Bool) (entry : TryEntry K) : GoString × GoString :=
  let basename := entry.Item.Basename
  let positions := entry.HighlightPositions
  match dateMatch basename with
  | some (datePart, namePart) =>
    let dateLen := datePart.length + 1
    (basename,
      dim colorsEnabled datePart
        ++ (if contains positions 10 then highlight colorsEnabled (str "-")
            else dim colorsEnabled (str "-"))
        ++ highlightWithPositions colorsEnabled namePart positions dateLen)
  | none => (basename, highlightWithPositions colorsEnabled basename positions 0)

/-- The class `[0-9;]` of the expression `ansiRe`. -/
def isAnsiParam (b : Byte) : Bool :=
  (decide (48 ≤ b.val) && decide (b.val ≤ 57)) || decide (b = 59)

/-- The class `[A-Za-z]` of the expression `ansiRe`. -/
def isAsciiLetter (b : Byte) : Bool :=
  (decide (65 ≤ b.val) && decide (b.val ≤ 90)) || (decide (97 ≤ b.val) && decide (b.val ≤ 122))

/-- A match of `ansiRe`, the expression `\x1b\[[0-9;]*[A-Za-z]`, at the start of `s`: the
text after the match, or `none`. -/
def ansiMatch (s : GoString) : Option GoString :=
  match s with
  | b0 :: b1 :: rest =>
    if b0 = 27 ∧ b1 = 91 then
      match rest.dropWhile isAnsiParam with
      | l :: after => if isAsciiLetter l then some after else none
      | [] => none
    else none
  | _ => none

/-- The scan of `ansiRe.ReplaceAllString(s, "")` with `k` steps left: a match is dropped, any
other byte is kept. -/
def stripLoop : Nat → GoString → GoString
  | 0, _ => []
  | _ + 1, [] => []
  | k + 1, b :: rest =>
    match ansiMatch (b :: rest) with
    | some after => stripLoop k after
    | none => b :: stripLoop k rest

/-- The call `ansiRe.ReplaceAllString(s, "")`. -/
def stripAnsi (s : GoString) : GoString := stripLoop s.length s

/-- The width `visibleLen` counts for one rune. -/
def runeWidth (r : Rune) : Int :=
  if 0xFE00 ≤ r.toNat ∧ r.toNat ≤ 0xFE0F then 0
  else if 0x1F300 ≤ r.toNat ∧ r.toNat ≤ 0x1FAFF then 2
  else 1

/-- The function `visibleLen`. -/
def visibleLen (s : GoString) : Int := ((runes (stripAnsi s)).map runeWidth).sum

/-- The width `cw` that `truncateWithAnsi` counts for one rune outside escape sequences. -/
def truncWidth (ch : Rune) : Int :=
  if 0x1F300 ≤ ch.toNat ∧ ch.toNat ≤ 0x1FAFF then 2 else 1

/-- The loop `for _, ch := range text` of `truncateWithAnsi`: the runes written to `result`
from the state `visibleCount`, `inAnsi` on. -/
def truncLoop (maxLen : Int) : List Rune → Int → Bool → List Rune
  | [], _, _ => []
  | ch :: rest, visibleCount, inAnsi =>
    if ch = Char.ofNat 0x1b then ch :: truncLoop maxLen rest visibleCount true
    else if inAnsi then
      ch :: truncLoop maxLen rest visibleCount
        (!((decide ('A' ≤ ch) && decide (ch ≤ 'Z')) || (decide ('a' ≤ ch) && decide (ch ≤ 'z'))))
    else if visibleCount + truncWidth ch > maxLen then []
    else ch :: truncLoop maxLen rest (visibleCount + truncWidth ch) false

/-- The call `strings.TrimRight(s, " ")`. -/
def trimRightSpaces (s : GoString) : GoString := s.rdropWhile fun b => decide (b = 32)

/-- The function `truncateWithAnsi`. -/
def truncateWithAnsi (text : GoString) (maxLen : Int) : GoString :=
  if visibleLen text ≤ maxLen then text
  else trimRightSpaces (encodeRunes (truncLoop maxLen (runes text) 0 false))

/-- The method `truncateLine`. -/
def truncateLine (s : TrySelector K) (line : GoString) : GoString :=
  if visibleLen line ≤ s.width - 1 then line
  else truncateWithAnsi line (s.width - 2) ++ str "…"

/-! ### tui.go: the input line and checked expressions -/

/-- The constant `ansiReverse`. -/
def ansiReverse : GoString := str "\x1b[7m"

/-- The constant `ansiReverseOff`. -/
def ansiReverseOff : GoString := str "\x1b[27m"

/-- The method `renderInput`; `string(text[cursor])` is the encoding of the rune whose code
point is the byte. -/
def renderInput (colorsEnabled : Bool) (text : GoString) (cursor : Nat) : GoString :=
  if text = [] then dim colorsEnabled []
  else
    let before := text.take cursor
    let cursorChar := if cursor < text.length then encodeRune (byteRune text cursor) else str " "
    let after := if cursor < text.length then text.drop (cursor + 1) else []
    before ++ (if colorsEnabled then ansiReverse else []) ++ cursorChar
      ++ (if colorsEnabled then ansiReverseOff else []) ++ after

/-- The slice expression `s[lo:hi]` of a string; `none` is the run-time panic for bounds out
of range. -/
def sliceChecked (s : GoString) (lo hi : Int) : Option GoString :=
  if 0 ≤ lo ∧ lo ≤ hi ∧ hi ≤ s.length then some ((s.take hi.toNat).drop lo.toNat) else none

/-- The index expression `xs[i]`; `none` is the run-time panic for an index out of range. -/
def indexChecked {α : Type} (xs : List α) (i : Int) : Option α :=
  if 0 ≤ i ∧ i < xs.length then xs[i.toNat]? else none

/-- The Backspace case of `mainLoop` with its slice expressions checked. -/
def backspaceChecked (s : TrySelector K) : Option (TrySelector K) :=
  if s.inputCursorPos > 0 then do
    let before ← sliceChecked s.inputBuffer 0 ((s.inputCursorPos : Int) - 1)
    let after ← sliceChecked s.inputBuffer s.inputCursorPos s.inputBuffer.length
    some { s with
      inputBuffer := before ++ after
      inputCursorPos := s.inputCursorPos - 1
      cursorPos := 0 }
  else some { s with cursorPos := 0 }

/-- The Ctrl-K case of `mainLoop` with its slice expression checked. -/
def killLineChecked (s : TrySelector K) : Option (TrySelector K) := do
  let before ← sliceChecked s.inputBuffer 0 s.inputCursorPos
  some { s with inputBuffer := before }

/-- A loop `for pos >= 0 && test(rune(buf[pos])) { pos-- }` of Ctrl-W with its index
expression checked; the argument and the result are `pos + 1`. -/
def skipBackChecked (test : Rune → Bool) (buf : GoString) : Nat → Option Nat
  | 0 => some 0
  | n + 1 => do
    let b ← indexChecked buf (n : Int)
    if test (Char.ofNat b.val) then skipBackChecked test buf n else some (n + 1)

/-- The Ctrl-W case of `mainLoop` with its index and slice expressions checked. -/
def deleteWordBackChecked (s : TrySelector K) : Option (TrySelector K) :=
  if s.inputCursorPos > 0 then do
    let p ← skipBackChecked (fun r => !isWordChar r) s.inputBuffer s.inputCursorPos
    let newPos ← skipBackChecked isWordChar s.inputBuffer p
    let before ← sliceChecked s.inputBuffer 0 newPos
    let after ← sliceChecked s.inputBuffer s.inputCursorPos s.inputBuffer.length
    some { s with inputBuffer := before ++ after, inputCursorPos := newPos }
  else some s

/-- The insertion of a printable key in the `default` case of `mainLoop` with its slice
expressions checked. -/
def insertChecked (s : TrySelector K) (key : GoString) : Option (TrySelector K) := do
  let before ← sliceChecked s.inputBuffer 0 s.inputCursorPos
  let after ← sliceChecked s.inputBuffer s.inputCursorPos s.inputBuffer.length
  some { s with
    inputBuffer := before ++ key ++ after
    inputCursorPos := s.inputCursorPos + 1
    cursorPos := 0 }

/-- The method `renderInput` with its index and slice expressions checked. -/
def renderInputChecked (colorsEnabled : Bool) (text : GoString) (cursor : Nat) :
    Option GoString :=
  if text = [] then some (dim colorsEnabled [])
  else do
    let before ← sliceChecked text 0 cursor
    let cursorChar ←
      if cursor < text.length then
        (indexChecked text (cursor : Int)).map fun b => encodeRune (Char.ofNat b.val)
      else some (str " ")
    let after ←
      if cursor < text.length then sliceChecked text ((cursor : Int) + 1) text.length
      else some []
    some (before ++ (if colorsEnabled then ansiReverse else []) ++ cursorChar
      ++ (if colorsEnabled then ansiReverseOff else []) ++ after)

/-! ### util.go and main.go: the emitted script -/

/-- The call `strings.ReplaceAll(s, old, new)` for an `old` of one byte. -/
def replaceAllByte (s : GoString) (old : Byte) (new : GoString) : GoString :=
  s.flatMap fun b => if b = old then new else [b]

/-- The function `q` of `util.go` (and of `cmd/try/main.go`, which has the same body). -/
def q (s : GoString) : GoString :=
  str "'" ++ replaceAllByte s 39 (str "'\"'\"'") ++ str "'"

/-- The function `scriptDelete`; `cwd` is the result of `os.Getwd`. -/
def scriptDelete (cwd : GoString) (paths : List DeletePath) (basePath : GoString) :
    List GoString :=
  [str "cd " ++ q basePath]
    ++ paths.map (fun item =>
        str "test -d " ++ q item.Basename ++ str " && rm -rf " ++ q item.Basename)
    ++ [str "( cd " ++ q cwd ++ str " 2>/dev/null || cd \"$HOME\" )"]

/-- The function `scriptRename`. -/
def scriptRename (env : Env K) (basePath oldName newName : GoString) : List GoString :=
  let newPath := env.filepathJoin basePath newName
  [str "cd " ++ q basePath,
    str "mv " ++ q oldName ++ str " " ++ q newName,
    str "echo " ++ q newPath,
    str "cd " ++ q newPath]

/-- The function `scriptCd`. -/
def scriptCd (path : GoString) : List GoString :=
  [str "clear", str "touch " ++ q path, str "cd " ++ q path]

/-- The function `scriptMkdirCd`. -/
def scriptMkdirCd (path : GoString) : List GoString :=
  [str "mkdir -p " ++ q path] ++ scriptCd path

/-- The function `scriptClone`. -/
def scriptClone (path uri : GoString) : List GoString :=
  [str "mkdir -p " ++ q path,
    str "echo " ++ q (str "Using git clone to create this trial from " ++ uri ++ str "."),
    str "git clone " ++ q uri ++ str " " ++ q path] ++ scriptCd path

/-- The function `scriptWorktree`; `cwd` is the result of `os.Getwd`, `none` on error. -/
def scriptWorktree (cwd : Option GoString) (path repo : GoString) (explicit : Bool) :
    List GoString :=
  let src :=
    if repo = [] ∨ explicit = false then
      match cwd with
      | some c => c
      | none => repo
    else repo
  let worktreeCmd :=
    if repo ≠ [] ∧ explicit = true then
      let r := q repo
      str "/usr/bin/env sh -c 'if git -C " ++ r
        ++ str " rev-parse --is-inside-work-tree >/dev/null 2>&1; then repo=$(git -C " ++ r
        ++ str " rev-parse --show-toplevel); git -C \"$repo\" worktree add --detach " ++ q path
        ++ str " >/dev/null 2>&1 || true; fi; exit 0'"
    else
      str "/usr/bin/env sh -c 'if git rev-parse --is-inside-work-tree >/dev/null 2>&1; then repo=$(git rev-parse --show-toplevel); git -C \"$repo\" worktree add --detach "
        ++ q path ++ str " >/dev/null 2>&1 || true; fi; exit 0'"
  [str "mkdir -p " ++ q path,
    str "echo " ++ q (str "Using git worktree to create this trial from " ++ src ++ str "."),
    worktreeCmd] ++ scriptCd path

/-! ### fuzzy.go on `float64` values that need not be numbers

The definitions above take a score for a number of `K`. The definitions of this part follow
the same source lines with `float64` values that may be an infinity or NaN, which is what
`loadAllTries` produces for a modification time one hour or more ahead of the clock. -/

/-- A `float64` value: a number, an infinity or NaN. Rounding and the sign of zero are not
modelled. -/
inductive F64 (K : Type) where
  | num (x : K)
  | posInf
  | negInf
  | nan
deriving DecidableEq

/-- The sum `a + b` of two `float64` values. -/
def F64.add : F64 K → F64 K → F64 K
  | .nan, _ => .nan
  | _, .nan => .nan
  | .posInf, .negInf => .nan
  | .negInf, .posInf => .nan
  | .posInf, _ => .posInf
  | _, .posInf => .posInf
  | .negInf, _ => .negInf
  | _, .negInf => .negInf
  | .num x, .num y => .num (x + y)

/-- The product of an infinity with the number `x`: `pos` is the sign of the infinity. -/
def F64.infTimes (pos : Bool) (x : K) : F64 K :=
  if x = 0 then .nan
  else if (decide (0 < x)) = pos then .posInf
  else .negInf

/-- The product `a * b` of two `float64` values. -/
def F64.mul : F64 K → F64 K → F64 K
  | .nan, _ => .nan
  | _, .nan => .nan
  | .num x, .num y => .num (x * y)
  | .num x, .posInf => F64.infTimes true x
  | .num x, .negInf => F64.infTimes false x
  | .posInf, .num y => F64.infTimes true y
  | .negInf, .num y => F64.infTimes false y
  | .posInf, .posInf => .posInf
  | .negInf, .negInf => .posInf
  | .posInf, .negInf => .negInf
  | .negInf, .posInf => .negInf

/-- The quotient `a / b` of two `float64` values; a zero divisor is `+0`. -/
def F64.div : F64 K → F64 K → F64 K
  | .nan, _ => .nan
  | _, .nan => .nan
  | .num x, .num y =>
    if y = 0 then (if 0 < x then .posInf else if x < 0 then .negInf else .nan)
    else .num (x / y)
  | .num _, .posInf => .num 0
  | .num _, .negInf => .num 0
  | .posInf, .num y => if 0 ≤ y then .posInf else .negInf
  | .negInf, .num y => if 0 ≤ y then .negInf else .posInf
  | .posInf, .posInf => .nan
  | .posInf, .negInf => .nan
  | .negInf, .posInf => .nan
  | .negInf, .negInf => .nan

/-- The function `math.Sqrt`: NaN for a negative argument. -/
def F64.sqrt (env : Env K) : F64 K → F64 K
  | .num x => if x < 0 then .nan else .num (env.sqrt x)
  | .posInf => .posInf
  | .negInf => .nan
  | .nan => .nan

/-- The comparison `a > b` of two `float64` values: false when either is NaN. -/
def F64.gt : F64 K → F64 K → Bool
  | .num x, .num y => decide (x > y)
  | .posInf, .num _ => true
  | .posInf, .negInf => true
  | .num _, .negInf => true
  | _, _ => false

/-- The comparison `a >= b` of two `float64` values: false when either is NaN. -/
def F64.ge : F64 K → F64 K → Bool
  | .nan, _ => false
  | _, .nan => false
  | .posInf, _ => true
  | _, .negInf => true
  | .num x, .num y => decide (x ≥ y)
  | _, _ => false

namespace Ieee

/-- The loop body of `loadAllTries` for one directory entry, with `float64` values. -/
def loadEntry (env : Env K) (basePath : GoString) (entry : DirEntry K) :
    Option (TryItem (F64 K)) :=
  if entry.Name.head? = some 46 then none
  else if !entry.IsDir then none
  else
    match entry.Info with
    | none => none
    | some (mtime, hoursSinceAccess) =>
      let baseScore := F64.div (.num 3) (F64.sqrt env (F64.add (.num hoursSinceAccess) (.num 1)))
      let baseScore := if hasDatePrefix entry.Name then F64.add baseScore (.num 2) else baseScore
      some
        { Text := entry.Name
          Basename := entry.Name
          Path := env.filepathJoin basePath entry.Name
          IsNew := false
          Ctime := 0
          Mtime := mtime
          BaseScore := baseScore }

/-- The constructor `NewFuzzy`, with `float64` values. -/
def NewFuzzy (env : Env K) (entries : List (TryItem (F64 K))) : Fuzzy (F64 K) :=
  { Entries := entries.map fun e =>
      { Data := e
        Text := e.Text
        TextLower := stringsToLower env e.Text
        BaseScore := e.BaseScore
        TextRunes := lowerRunes env e.Text } }

/-- The table `sqrtTable`, with `float64` values. -/
def sqrtTable (env : Env K) : List (F64 K) :=
  (List.range 17).map fun i => F64.div (.num 2) (F64.sqrt env (.num (((i + 1 : Nat) : K))))

/-- The contiguity bonus for a gap, with `float64` values. -/
def gapBonus (env : Env K) (gap : Int) : F64 K :=
  if gap < 16 then (sqrtTable env).getD gap.toNat (.num 0)
  else F64.div (.num 2) (F64.sqrt env (.num (((gap + 1 : Int) : K))))

/-- One iteration of the outer loop of `calculateMatch` once `found` is known, with
`float64` values. -/
def scanStep (env : Env K) (textRunes : List Rune) (st : ScanState (F64 K)) (found : Nat) :
    ScanState (F64 K) :=
  let score := F64.add st.score (.num 1)
  let score := if atBoundary textRunes found then F64.add score (.num 1) else score
  let score :=
    if st.lastPos ≥ 0 then F64.add score (gapBonus env ((found : Int) - st.lastPos - 1))
    else score
  { score := score
    positions := st.positions ++ [found]
    lastPos := found
    pos := found + 1 }

/-- The outer loop of `calculateMatch`, with `float64` values. -/
def scanLoop (env : Env K) (textRunes : List Rune) : List Rune → ScanState (F64 K) →
    Option (ScanState (F64 K))
  | [], st => some st
  | qc :: qs, st =>
    match findLoop textRunes qc (textRunes.length - st.pos) st.pos with
    | none => none
    | some found => scanLoop env textRunes qs (scanStep env textRunes st found)

/-- The function `calculateMatch`, with `float64` values. -/
def calculateMatch (env : Env K) (entry : FuzzyEntry (F64 K)) (query : GoString) :
    Option (F64 K × List Nat) :=
  if query = [] then some (entry.BaseScore, [])
  else
    let queryRunes := lowerRunes env query
    match scanLoop env entry.TextRunes queryRunes
        { score := entry.BaseScore, positions := [], lastPos := -1, pos := 0 } with
    | none => none
    | some st =>
      let score :=
        if st.lastPos ≥ 0 then
          F64.mul st.score
            (F64.div (.num ((queryRunes.length : Nat) : K)) (.num (((st.lastPos + 1 : Int)) : K)))
        else st.score
      let score :=
        F64.mul score
          (F64.div (.num 10) (F64.add (.num (((runes entry.Text).length : Nat) : K)) (.num 10)))
      some (score, st.positions)

/-- The exchange `matches[i], matches[j] = matches[j], matches[i]`. -/
def swapAt (ms : List (FuzzyMatch (F64 K))) (i j : Nat) : List (FuzzyMatch (F64 K)) :=
  match ms[i]?, ms[j]? with
  | some a, some b => (ms.set i b).set j a
  | _, _ => ms

/-- The test `matches[j].Score > matches[i].Score` on `float64` values. -/
def scoreGt (ms : List (FuzzyMatch (F64 K))) (j i : Nat) : Bool :=
  match ms[j]?, ms[i]? with
  | some b, some a => F64.gt b.Score a.Score
  | _, _ => false

/-- The inner loop of `sortByScore`, with `k` iterations left. -/
def sortInner (i : Nat) : Nat → Nat → List (FuzzyMatch (F64 K)) → List (FuzzyMatch (F64 K))
  | 0, _, ms => ms
  | k + 1, j, ms => sortInner i k (j + 1) (if scoreGt ms j i then swapAt ms i j else ms)

/-- The outer loop of `sortByScore`, with `k` iterations left. -/
def sortOuter : Nat → Nat → List (FuzzyMatch (F64 K)) → List (FuzzyMatch (F64 K))
  | 0, _, ms => ms
  | k + 1, i, ms => sortOuter k (i + 1) (sortInner i (ms.length - (i + 1)) (i + 1) ms)

/-- The function `sortByScore` on `float64` scores. -/
def sortByScore (ms : List (FuzzyMatch (F64 K))) : List (FuzzyMatch (F64 K)) :=
  sortOuter ms.length 0 ms

/-- The loop of `Fuzzy.Match` that scores every entry and drops the rejected ones. -/
def scoreEntries (env : Env K) (entries : List (FuzzyEntry (F64 K))) (query : GoString) :
    List (FuzzyMatch (F64 K)) :=
  entries.filterMap fun entry =>
    match calculateMatch env entry query with
    | none => none
    | some (score, positions) =>
      some { Entry := entry.Data, Positions := positions, Score := score }

/-- The method `Fuzzy.Match` on `float64` scores. -/
def Match (env : Env K) (f : Fuzzy (F64 K)) (query : GoString) : List (FuzzyMatch (F64 K)) :=
  sortByScore (scoreEntries env f.Entries query)

end Ieee

/-! ### tui.go: the text of one frame

The method `render` builds the text of a frame in a `strings.Builder` and writes it in one
piece. The definitions of this part follow that text byte by byte; `none` stands for a
run-time panic, in which nothing is written. -/

/-- The constant `colorDangerBG`. -/
def colorDangerBG : GoString := str "\x1b[48;5;52m"

/-- The method `renderHeaderLine`. -/
def renderHeaderLine (emoji text : GoString) : GoString := emoji ++ text

/-- The method `renderDeleteModeFooter`; `%d` writes the count in decimal digits. -/
def renderDeleteModeFooter (colorsEnabled : Bool) (s : TrySelector K) : GoString :=
  (if colorsEnabled then colorDangerBG else []) ++ bold colorsEnabled (str " DELETE MODE ")
    ++ str " " ++ str (Nat.repr s.markedForDelete.length)
    ++ str " marked  |  Ctrl-D: Toggle  Enter: Confirm  Esc: Cancel"

/-- The constant `colorSelectedBG`. -/
def colorSelectedBG : GoString := str "\x1b[48;5;238m"

/-- The constant `ansiClearEOL`. -/
def ansiClearEOL : GoString := str "\x1b[K"

/-- The constant `ansiHome`. -/
def ansiHome : GoString := str "\x1b[H"

/-- The constant `ansiShow`. -/
def ansiShow : GoString := str "\x1b[?25h"

/-- The largest value of the type `int`. -/
def maxInt : Int := 2 ^ 63 - 1

/-- The call `strings.Repeat(s, count)`; `none` is the panic on a negative count and on a
result longer than `maxInt` bytes. -/
def stringsRepeat (s : GoString) (count : Int) : Option GoString :=
  if count < 0 then none
  else if (s.length : Int) * count > maxInt then none
  else some (List.replicate count.toNat s).flatten

/-- The text that the verb `%d` writes for an `int`. -/
def formatInt : Int → GoString
  | .ofNat m => str (Nat.repr m)
  | .negSucc m => str "-" ++ str (Nat.repr (m + 1))

/-- What a body row takes from the clock and from the package `fmt`. -/
structure RowEnv (K : Type) where
  /-- The result of `t.IsZero()` for a modification time `t`. -/
  isZero : Int → Bool
  /-- The value of `time.Now().Sub(t).Seconds()`. -/
  secondsSince : Int → K
  /-- The conversion `int(x)` of a `float64`. -/
  toInt : K → Int
  /-- The text that the verb `%.1f` writes. -/
  formatScore : K → GoString

/-- The function `formatRelativeTime`. -/
def formatRelativeTime (renv : RowEnv K) (t : Int) : GoString :=
  if renv.isZero t then str "?"
  else
    let seconds := renv.secondsSince t
    let minutes := seconds / 60
    let hours := minutes / 60
    let days := hours / 24
    if seconds < 60 then str "just now"
    else if minutes < 60 then formatInt (renv.toInt minutes) ++ str "m ago"
    else if hours < 24 then formatInt (renv.toInt hours) ++ str "h ago"
    else if days < 7 then formatInt (renv.toInt days) ++ str "d ago"
    else formatInt (renv.toInt (days / 7)) ++ str "w ago"

/-- The method `renderSearchLine`, with the index and slice expressions of `renderInput`
checked. -/
def renderSearchLine (colorsEnabled : Bool) (s : TrySelector K) : Option GoString :=
  (renderInputChecked colorsEnabled s.inputBuffer s.inputCursorPos).map fun input =>
    dim colorsEnabled (str "Search: ") ++ input

/-- The method `centerText`; the quotient is truncated towards zero. -/
def centerText (s : TrySelector K) (text : GoString) : Option GoString :=
  let padding := (s.width - visibleLen text).tdiv 2
  let padding := if padding < 0 then 0 else padding
  (stringsRepeat (str " ") padding).map fun pad => pad ++ text

/-- The slice `headerLines` of `render`, for the selector after `refreshSize`. -/
def headerLines (colorsEnabled : Bool) (s : TrySelector K) : Option (List GoString) := do
  let title := renderHeaderLine (str "🏠") (accent colorsEnabled (str " Try Directory Selection"))
  let rule1 ← stringsRepeat (str "─") (s.width - 1)
  let search ← renderSearchLine colorsEnabled s
  let rule2 ← stringsRepeat (str "─") (s.width - 1)
  some [title, dim colorsEnabled rule1, search, dim colorsEnabled rule2]

/-- The slice `footerLines` of `render`, for the selector after `refreshSize` and before
the status message is cleared. -/
def footerLines (colorsEnabled : Bool) (s : TrySelector K) : Option (List GoString) := do
  let rule ← stringsRepeat (str "─") (s.width - 1)
  let status ←
    (if s.deleteStatus ≠ [] then some (bold colorsEnabled s.deleteStatus)
    else if s.deleteMode then some (renderDeleteModeFooter colorsEnabled s)
    else centerText s
      (dim colorsEnabled
        (str "↑/↓: Navigate  Enter: Select  ^R: Rename  ^D: Delete  Esc: Cancel")))
  some [dim colorsEnabled rule, status]

/-- The method `renderEntryLine`; the two emoji literals are spelled by their code points. -/
def renderEntryLine (colorsEnabled : Bool) (renv : RowEnv K) (s : TrySelector K)
    (entry : TryEntry K) (isSelected : Bool) : Option GoString :=
  let isMarked := decide (indexOf s.markedForDelete entry.Item.Path ≥ 0)
  let background :=
    if isMarked && colorsEnabled then colorDangerBG
    else if isSelected && colorsEnabled then colorSelectedBG
    else []
  let arrow := if isSelected then highlight colorsEnabled (str "→ ") else str "  "
  let emoji :=
    if isMarked then encodeRunes [Char.ofNat 0x1F5D1, Char.ofNat 0xFE0F, ' ']
    else encodeRunes [Char.ofNat 0x1F4C1, ' ']
  let plainName := (formattedEntryName colorsEnabled entry).1
  let renderedName := (formattedEntryName colorsEnabled entry).2
  let metadata :=
    formatRelativeTime renv entry.Item.Mtime ++ str ", " ++ renv.formatScore entry.Score
  let maxContent := s.width - 1
  let prefixWidth : Int := 5
  let metaWidth := visibleLen metadata
  let maxNameWidth := maxContent - prefixWidth - 1
  let renderedName :=
    if visibleLen plainName > maxNameWidth ∧ maxNameWidth > 2 then
      truncateWithAnsi renderedName (maxNameWidth - 1) ++ str "…"
    else renderedName
  let nameWidth := visibleLen renderedName
  let leftContentWidth := prefixWidth + nameWidth
  let rightCol := maxContent - metaWidth
  let gap := rightCol - leftContentWidth
  (if gap > 0 then stringsRepeat (str " ") gap else some []).map fun fill =>
    background ++ arrow ++ emoji ++ renderedName ++ fill ++ dim colorsEnabled metadata

/-- The method `renderCreateLine`; `env.today` is `time.Now().Format("2006-01-02")`. -/
def renderCreateLine (colorsEnabled : Bool) (env : Env K) (s : TrySelector K)
    (isSelected : Bool) : GoString :=
  (if isSelected && colorsEnabled then colorSelectedBG else [])
    ++ (if isSelected then highlight colorsEnabled (str "→ ") else str "  ")
    ++ (if s.inputBuffer = [] then str "📂 Create new: " ++ env.today ++ str "-"
        else str "📂 Create new: " ++ env.today ++ str "-" ++ s.inputBuffer)

/-- The loop of `render` that writes the header lines. -/
def writeHeader (s : TrySelector K) (lines : List GoString) : GoString :=
  lines.flatMap fun line => str "\r" ++ ansiClearEOL ++ truncateLine s line ++ str "\n"

/-- The loop of `render` that writes the footer lines: no line feed follows the last. -/
def writeFooter (s : TrySelector K) : List GoString → GoString
  | [] => []
  | [line] => str "\r" ++ ansiClearEOL ++ truncateLine s line
  | line :: rest =>
    str "\r" ++ ansiClearEOL ++ truncateLine s line ++ str "\n" ++ writeFooter s rest

/-- The loop `for idx := s.scrollOffset; idx < visibleEnd; idx++` of `render` with `k`
iterations left, for the selector with its scroll offset adjusted: the text written and the
final value of `bodyLinesRendered`, whose value so far is `n`. -/
def bodyWrite (colorsEnabled : Bool) (renv : RowEnv K) (env : Env K) (s : TrySelector K)
    (tries : List (TryEntry K)) (maxVisible : Int) : Nat → Int → Int → Option (GoString × Int)
  | 0, _, n => some ([], n)
  | k + 1, idx, n =>
    let blank := str "\r" ++ ansiClearEOL ++ str "\n"
    let row : Option GoString :=
      if idx < tries.length then
        (indexChecked tries idx).bind fun entry =>
          (renderEntryLine colorsEnabled renv s entry (decide (idx = s.cursorPos))).map fun line =>
            str "\r" ++ ansiClearEOL ++ line ++ ansiReset ++ str "\n"
      else
        some (str "\r" ++ ansiClearEOL
          ++ renderCreateLine colorsEnabled env s (decide (idx = s.cursorPos))
          ++ ansiReset ++ str "\n")
    if idx = tries.length ∧ tries.length > 0 ∧ idx ≥ s.scrollOffset then
      if n + 1 ≥ maxVisible then some (blank, n + 1)
      else
        row.bind fun r =>
          (bodyWrite colorsEnabled renv env s tries maxVisible k (idx + 1) (n + 2)).map fun rest =>
            (blank ++ r ++ rest.1, rest.2)
    else
      row.bind fun r =>
        (bodyWrite colorsEnabled renv env s tries maxVisible k (idx + 1) (n + 1)).map fun rest =>
          (r ++ rest.1, rest.2)

/-- The text that the method `render` writes to the terminal; `none` is a panic. The header
and the footer are built for the selector after `refreshSize`; the body loop and the cursor
column read the selector as `render` leaves it, with the scroll offset adjusted. -/
def renderOutput (colorsEnabled : Bool) (renv : RowEnv K) (env : Env K) (s : TrySelector K)
    (tries : List (TryEntry K)) : Option GoString := do
  let header ← headerLines colorsEnabled (refreshSize env s)
  let footer ← footerLines colorsEnabled (refreshSize env s)
  let s := render env s tries
  let maxVisible : Int :=
    if s.height - header.length - footer.length < 3 then 3
    else s.height - header.length - footer.length
  let totalItems : Int := if s.inputBuffer ≠ [] then tries.length + 1 else tries.length
  let visibleEnd : Int :=
    if s.scrollOffset + maxVisible > totalItems then totalItems else s.scrollOffset + maxVisible
  let body ← bodyWrite colorsEnabled renv env s tries maxVisible
    (visibleEnd - s.scrollOffset).toNat s.scrollOffset 0
  let filler :=
    (List.replicate (maxVisible - body.2).toNat (str "\r" ++ ansiClearEOL ++ str "\n")).flatten
  let cursorCol : Int := 8 + s.inputCursorPos + 1
  some (ansiHome ++ writeHeader s header ++ body.1 ++ filler ++ writeFooter s footer
    ++ str "\x1b[" ++ formatInt 3 ++ str ";" ++ formatInt cursorCol ++ str "H"
    ++ ansiShow ++ ansiReset)

/-- The number of line feeds in a text. -/
def lineFeeds (text : GoString) : Nat := text.count 10

end selector

/-- The selector a loop iteration ends with. -/
def LoopStep.state {K : Type} : LoopStep K → TrySelector K
  | .next s => s
  | .done s => s

/-- The selector a dialog iteration ends with. -/
def ConfirmStep.sel {K : Type} : ConfirmStep K → TrySelector K
  | .exit s => s
  | .again s _ _ => s

/-- The selector a dialog iteration ends with. -/
def RenameStep.sel {K : Type} : RenameStep K → TrySelector K
  | .exit s => s
  | .again s _ _ _ => s

/-- The invariant of the delete marks: `deleteMode` is set exactly when a path is marked. -/
def MarksInv {K : Type} (s : TrySelector K) : Prop :=
  s.deleteMode = true ↔ s.markedForDelete ≠ []

/-- The selector states at the head of the loop of `mainLoop`, and the one it returns with:
those reached from `s0` by iterations of the loop, dialogs included. -/
inductive Reachable {K : Type} [LinearOrderedField K] (env : Env K) (s0 : TrySelector K) :
    TrySelector K → Prop
  | init : Reachable env s0 s0
  | iter (fuel : Nat) (s : TrySelector K) (r : LoopStep K) :
      Reachable env s0 s → mainLoopIter env fuel s = some r → Reachable env s0 r.state

/-! ## Characterisations used in the proofs -/

section characterisations

variable {K : Type} [LinearOrderedField K]

/-- One pass of the inner loop of `sortByScore` over the elements after position `i`: the
element left at position `i` and the elements left after it. -/
def pushMax (x : FuzzyMatch K) : List (FuzzyMatch K) → FuzzyMatch K × List (FuzzyMatch K)
  | [] => (x, [])
  | y :: ys =>
    if y.Score > x.Score then ((pushMax y ys).1, x :: (pushMax y ys).2)
    else ((pushMax x ys).1, y :: (pushMax x ys).2)

/-- The positions the scan of `calculateMatch` appends when it starts at cursor `pos`. -/
def greedy (textRunes : List Rune) : List Rune → Nat → Option (List Nat)
  | [], _ => some []
  | qc :: qs, pos =>
    match findLoop textRunes qc (textRunes.length - pos) pos with
    | none => none
    | some found => (greedy textRunes qs (found + 1)).map (found :: ·)

/-- The contiguity bonuses the scan adds for the positions `ps` when the previous match is
`lp` (`-1` for none). -/
def gapTerms (env : Env K) : Int → List Nat → K
  | _, [] => 0
  | lp, p :: ps =>
    (if lp ≥ 0 then 2 / env.sqrt ((p : K) - (lp : K)) else 0) + gapTerms env p ps

/-- The per-character score the scan adds for the positions `ps`: 1 for the match and 1 more
at a word boundary. -/
def boundaryTerms (textRunes : List Rune) (ps : List Nat) : K :=
  (ps.map fun p => 1 + (if atBoundary textRunes p then (1 : K) else 0)).sum

/-- A property of the selector that depends only on the scroll offset, the marks and
`deleteMode`, holds again once the marks are cleared, and is kept by Ctrl-D: such a property
is kept by every key of `mainLoop`. -/
structure KeyStable (P : TrySelector K → Prop) : Prop where
  congr : ∀ s t : TrySelector K, P s → t.scrollOffset = s.scrollOffset →
    t.markedForDelete = s.markedForDelete → t.deleteMode = s.deleteMode → P t
  clear : ∀ s t : TrySelector K, P s → t.scrollOffset = s.scrollOffset →
    t.markedForDelete = [] → t.deleteMode = false → P t
  toggle : ∀ (s : TrySelector K) (tries : List (TryEntry K)), P s → P (toggleMark s tries)

/-- The invariant of the loop of `mainLoop` used below: the scroll offset is not negative,
no path is marked twice, and `deleteMode` is set exactly when a path is marked. -/
def LoopInv (s : TrySelector K) : Prop :=
  0 ≤ s.scrollOffset ∧ s.markedForDelete.Nodup ∧ MarksInv s

/-- The selector after `n` iterations of the loop of `mainLoop`, none of which returns
before the last; `none` when a dialog does not end within `fuel` keys. -/
def iterate (env : Env K) (fuel : Nat) : Nat → TrySelector K → Option (TrySelector K)
  | 0, s => some s
  | n + 1, s =>
    match mainLoopIter env fuel s with
    | none => none
    | some r => iterate env fuel n r.state

/-- The real path of `path`: the result of `filepath.EvalSymlinks`, or `path` on error. -/
def realPath (env : Env K) (path : GoString) : GoString := (env.evalSymlinks path).getD path

/-- The selector `t` holds the result of a confirmed delete of `items` under `basePath`:
one entry per item with its real path, every real path inside the real base path, the
caches dropped and the marks cleared. -/
def Deleted (env : Env K) (items : List (TryEntry K)) (basePath : GoString)
    (t : TrySelector K) : Prop :=
  t.selected = some
      { Kind := str "delete", Path := [],
        Paths := items.map fun it =>
          { Path := realPath env it.Item.Path, Basename := it.Item.Basename },
        BasePath := realPath env basePath, OldName := [], NewName := [] }
    ∧ (∀ it ∈ items,
        (realPath env basePath ++ str "/").isPrefixOf (realPath env it.Item.Path) = true)
    ∧ t.allTries = none ∧ t.fuzzy = none ∧ t.markedForDelete = [] ∧ t.deleteMode = false

/-- What the delete confirmation leaves: a status message, and either the result `sel0`
that was there before or the result of a confirmed delete. -/
def ConfirmOutcome (env : Env K) (items : List (TryEntry K)) (sel0 : Option SelectionResult)
    (basePath : GoString) (t : TrySelector K) : Prop :=
  t.deleteStatus ≠ [] ∧ (t.selected = sel0 ∨ Deleted env items basePath t)

/-- A property of the selector that depends only on the input buffer, the input cursor and
the list cursor. -/
def InputOnly (P : TrySelector K → Prop) : Prop :=
  ∀ s t : TrySelector K, P s → t.inputBuffer = s.inputBuffer →
    t.inputCursorPos = s.inputCursorPos → t.cursorPos = s.cursorPos → P t

/-- The input cursor lies within the input buffer. -/
def InputInv (s : TrySelector K) : Prop := s.inputCursorPos ≤ s.inputBuffer.length

/-- A property of the selector that depends only on `deleteMode`, the marks and the result,
and still holds when a Rename result is set. -/
def RenameStable (P : TrySelector K → Prop) : Prop :=
  ∀ s t : TrySelector K, P s → t.deleteMode = s.deleteMode →
    t.markedForDelete = s.markedForDelete →
    (t.selected = s.selected ∨ ∃ res, t.selected = some res ∧ res.Kind = str "rename") → P t

/-- The rune U+001B, which starts an escape sequence. -/
def escRune : Rune := Char.ofNat 0x1b

/-- The class `[0-9;]` on runes. -/
def isParamRune (c : Rune) : Bool :=
  (decide (48 ≤ c.toNat) && decide (c.toNat ≤ 57)) || decide (c.toNat = 59)

/-- The class `[A-Za-z]` on runes, the test that ends an escape sequence in
`truncateWithAnsi`. -/
def isLetterRune (c : Rune) : Bool :=
  (decide ('A' ≤ c) && decide (c ≤ 'Z')) || (decide ('a' ≤ c) && decide (c ≤ 'z'))

/-- The match of `ansiRe` at the start of a list of runes: the runes after the match. -/
def matchRunes (rs : List Rune) : Option (List Rune) :=
  match rs with
  | c0 :: c1 :: rest =>
    if c0 = escRune ∧ c1 = '[' then
      match rest.dropWhile isParamRune with
      | l :: after => if isLetterRune l then some after else none
      | [] => none
    else none
  | _ => none

/-- The scan of `stripLoop` on runes. -/
def stripRunesLoop : Nat → List Rune → List Rune
  | 0, _ => []
  | _ + 1, [] => []
  | k + 1, c :: rest =>
    match matchRunes (c :: rest) with
    | some after => stripRunesLoop k after
    | none => c :: stripRunesLoop k rest

/-- The runes left when every match of `ansiRe` is removed. -/
def stripRunes (rs : List Rune) : List Rune := stripRunesLoop rs.length rs

/-- The quoting state of a POSIX shell while it reads a line: outside quotes, after an
unquoted backslash, inside single quotes, inside double quotes, after a backslash inside
double quotes. -/
inductive QuoteMode where
  | plain
  | escaped
  | single
  | double
  | doubleEscaped
deriving DecidableEq

/-- The state of the reading of a line into words: the quoting state, the word being read
(`none` between words) and the words completed. -/
structure WordScan where
  mode : QuoteMode
  cur : Option GoString
  words : List GoString
deriving DecidableEq

/-- One byte of a line, read by the quoting rules of the POSIX shell. A single quote keeps
every byte up to the next single quote; a double quote keeps every byte up to the next
double quote, a backslash there escaping only `$`, the backquote, the double quote, the
backslash and the line feed; an unquoted backslash keeps the next byte (a line feed after it
is dropped); an unquoted blank ends a word. Expansions and operators are not interpreted:
their bytes are kept as they are. -/
def posixStep (st : WordScan) (b : Byte) : WordScan :=
  match st.mode with
  | .plain =>
    if b = 39 then { st with mode := .single, cur := some (st.cur.getD []) }
    else if b = 34 then { st with mode := .double, cur := some (st.cur.getD []) }
    else if b = 92 then { st with mode := .escaped }
    else if b = 32 ∨ b = 9 ∨ b = 10 then
      { st with cur := none, words := st.words ++ st.cur.toList }
    else { st with cur := some (st.cur.getD [] ++ [b]) }
  | .escaped =>
    if b = 10 then { st with mode := .plain }
    else { st with mode := .plain, cur := some (st.cur.getD [] ++ [b]) }
  | .single =>
    if b = 39 then { st with mode := .plain }
    else { st with cur := some (st.cur.getD [] ++ [b]) }
  | .double =>
    if b = 34 then { st with mode := .plain }
    else if b = 92 then { st with mode := .doubleEscaped }
    else { st with cur := some (st.cur.getD [] ++ [b]) }
  | .doubleEscaped =>
    if b = 36 ∨ b = 96 ∨ b = 34 ∨ b = 92 then
      { st with mode := .double, cur := some (st.cur.getD [] ++ [b]) }
    else if b = 10 then { st with mode := .double }
    else { st with mode := .double, cur := some (st.cur.getD [] ++ [92, b]) }

/-- The words of a line after quote removal by the quoting rules of the POSIX shell, or
`none` when a quote is left open. -/
def posixWords (line : GoString) : Option (List GoString) :=
  let st := line.foldl posixStep { mode := .plain, cur := none, words := [] }
  if st.mode = .plain then some (st.words ++ st.cur.toList) else none

/-- A property of the selector that depends only on the scripted keys left and on the flag
`testHadKeys`. -/
def ScriptOnly (P : TrySelector K → Prop) : Prop :=
  ∀ s t : TrySelector K, P s → t.testKeys = s.testKeys → t.testHadKeys = s.testHadKeys → P t

/-- The session is scripted and at most `n` scripted keys are left. -/
def ScriptLeft (n : Nat) (s : TrySelector K) : Prop :=
  s.testHadKeys = true ∧ s.testKeys.length ≤ n

/-- One pass of the inner loop of `sortByScore` on `float64` scores over the elements after
position `i`: the element left at position `i` and the elements left after it. -/
def Ieee.pushMax (x : FuzzyMatch (F64 K)) :
    List (FuzzyMatch (F64 K)) → FuzzyMatch (F64 K) × List (FuzzyMatch (F64 K))
  | [] => (x, [])
  | y :: ys =>
    if F64.gt y.Score x.Score then ((Ieee.pushMax y ys).1, x :: (Ieee.pushMax y ys).2)
    else ((Ieee.pushMax x ys).1, y :: (Ieee.pushMax x ys).2)

/-- One full line as `render` writes it: carriage return, the sequence that clears to the
end of the line, the text of the line and a line feed. -/
def writeLine (line : GoString) : GoString := str "\r" ++ ansiClearEOL ++ line ++ str "\n"

/-- The footer lines as `render` writes them: a line feed follows every line but the
last. -/
def footerText : List GoString → GoString
  | [] => []
  | [line] => str "\r" ++ ansiClearEOL ++ line
  | line :: rest => writeLine line ++ footerText rest

/-- The text of a frame with the given lines: the sequence that homes the cursor, the
header lines, the body lines, the footer lines, and the sequences that place and show the
cursor in column `cursorCol` of line 3. -/
def frameText (header body footer : List GoString) (cursorCol : Int) : GoString :=
  ansiHome ++ header.flatMap writeLine ++ body.flatMap writeLine ++ footerText footer
    ++ str "\x1b[" ++ formatInt 3 ++ str ";" ++ formatInt cursorCol ++ str "H"
    ++ ansiShow ++ ansiReset

/-- The text of a body line of the given kind, between the clearing sequence and the line
feed: an entry row and the row "Create new" end in `ansiReset`, an empty line holds
nothing. -/
def bodyLineText (colorsEnabled : Bool) (renv : RowEnv K) (env : Env K) (s : TrySelector K)
    (tries : List (TryEntry K)) : BodyLine → Option GoString
  | .entry idx isSelected =>
    (indexChecked tries idx).bind fun entry =>
      (renderEntryLine colorsEnabled renv s entry isSelected).map fun line => line ++ ansiReset
  | .create isSelected => some (renderCreateLine colorsEnabled env s isSelected ++ ansiReset)
  | .blank => some []

/-- The kinds of the body lines before the filler, in closed form: the rows of the entries
`scrollOffset ≤ idx < min (scrollOffset + maxVisible) nTries`, and, when the row "Create
new" exists and its index `nTries` lies in the window, that row, after an empty line if
there are entries; the row is left out when the empty line fills the window. -/
def bodyKinds (nTries : Nat) (showCreateNew : Bool) (cursorPos scrollOffset maxVisible : Int) :
    List BodyLine :=
  (List.range' scrollOffset.toNat (min (scrollOffset + maxVisible) nTries - scrollOffset).toNat).map
      (fun idx => BodyLine.entry idx (decide ((idx : Int) = cursorPos)))
    ++ (if showCreateNew = true ∧ scrollOffset ≤ nTries ∧ (nTries : Int) < scrollOffset + maxVisible then
          if nTries = 0 then [BodyLine.create (decide ((nTries : Int) = cursorPos))]
          else if (nTries : Int) - scrollOffset + 1 ≥ maxVisible then [BodyLine.blank]
          else [BodyLine.blank, BodyLine.create (decide ((nTries : Int) = cursorPos))]
        else [])

/-- A candidate over `K` as a candidate whose base score is that number. -/
def TryItem.toF64 (it : TryItem K) : TryItem (F64 K) :=
  { Text := it.Text, Basename := it.Basename, Path := it.Path, IsNew := it.IsNew,
    Ctime := it.Ctime, Mtime := it.Mtime, BaseScore := .num it.BaseScore }

/-- An entry of the matcher over `K` as an entry whose base score is that number. -/
def FuzzyEntry.toF64 (e : FuzzyEntry K) : FuzzyEntry (F64 K) :=
  { Data := e.Data.toF64, Text := e.Text, TextLower := e.TextLower,
    BaseScore := .num e.BaseScore, TextRunes := e.TextRunes }

/-- A match over `K` as a match whose score is that number. -/
def FuzzyMatch.toF64 (m : FuzzyMatch K) : FuzzyMatch (F64 K) :=
  { Entry := m.Entry.toF64, Positions := m.Positions, Score := .num m.Score }

/-- The local variables of the scan over `K` as variables whose score is that number. -/
def ScanState.toF64 (st : ScanState K) : ScanState (F64 K) :=
  { score := .num st.score, positions := st.positions, lastPos := st.lastPos, pos := st.pos }

end characterisations

/-! ## Sample data -/

/-- A sample environment over the rationals; `sqrt` is one Newton step from 1. -/
def demoEnv : Env ℚ :=
  { sqrt := fun x => (x + 1) / 2
    unicodeToLower := Char.toLower
    evalSymlinks := fun p => some p
    statOk := fun _ => false
    filepathJoin := fun a b => a ++ str "/" ++ b
    trimSpace := id
    today := str "2024-05-03"
    readDir := none
    envWidth := []
    envHeight := []
    sscanInt := fun _ => none
    termSize := none }

/-- A sample candidate named `name` with base score `base`, under `/t`. -/
def demoItem (name : String) (base : ℚ) : TryItem ℚ :=
  { Text := str name, Basename := str name, Path := str "/t/" ++ str name, IsNew := false,
    Ctime := 0, Mtime := 0, BaseScore := base }

/-- The sample environment with a base directory `/t` holding two directories. -/
def demoDirEnv : Env ℚ :=
  { demoEnv with
    readDir := some
      [{ Name := str "2024-05-01-alpha", IsDir := true, Info := some (0, 3) },
       { Name := str "2024-05-02-beta", IsDir := true, Info := some (0, 1) }] }

/-- The sample environment in which `/t/link` is a symbolic link to `/etc`. -/
def demoLinkEnv : Env ℚ :=
  { demoEnv with
    evalSymlinks := fun p => if p = str "/t/link" then some (str "/etc") else some p }

/-- A scripted session in `/t` whose only key is Ctrl-D. -/
def demoStart : TrySelector ℚ := NewTrySelector [] (str "/t") [] false [[4]] [] []

/-- The selector after the first iteration of the scripted session. -/
def demoMarked : TrySelector ℚ :=
  match mainLoopIter demoDirEnv 0 demoStart with
  | some r => r.state
  | none => demoStart

/-- The scenario of the specification: `2024-05-01-alpha`, modified 2 hours ago, and
`2024-05-02-beta`, modified 1 hour ago, in the base directory `/t`. -/
def demoScenarioEnv : Env ℚ :=
  { demoEnv with
    readDir := some
      [{ Name := str "2024-05-01-alpha", IsDir := true, Info := some (0, 2) },
       { Name := str "2024-05-02-beta", IsDir := true, Info := some (0, 1) }] }

/-- The sample environment with a terminal of 9 lines and the directories `a1`, `a2`, `a3`
in the base directory. -/
def demoSmallEnv : Env ℚ :=
  { demoEnv with
    termSize := some (80, 9)
    readDir := some
      [{ Name := str "a1", IsDir := true, Info := some (0, 1) },
       { Name := str "a2", IsDir := true, Info := some (0, 2) },
       { Name := str "a3", IsDir := true, Info := some (0, 3) }] }

/-- The sample environment in which `/t/bar` and `/t/foo` exist. -/
def demoStatEnv : Env ℚ :=
  { demoEnv with statOk := fun p => decide (p = str "/t/bar") || decide (p = str "/t/foo") }

/-- A sample entry of the ranked list, named `name`, in `/t`. -/
def demoEntry (name : String) : TryEntry ℚ :=
  { Item := demoItem name 1, Score := 1, HighlightPositions := [] }

/-- The selector of the scripted session `Down, Down, Ctrl-A, Ctrl-K` on the input `a` in
the scenario of the specification, after its four keys. -/
def demoAfterCtrlK : TrySelector ℚ :=
  (iterate demoScenarioEnv 0 4
    (NewTrySelector (str "a") (str "/t") [] false [[14], [14], [1], [11]] [] [])).getD demoStart

/-- The selector of the scripted session `Down, Down, Down` on the input `a` with the
directories `a1`, `a2`, `a3` and a terminal of 9 lines, after its three keys. -/
def demoOnCreateRow : TrySelector ℚ :=
  (iterate demoSmallEnv 0 3
    (NewTrySelector (str "a") (str "/t") [] false [[14], [14], [14]] [] [])).getD demoStart

/-- The sample environment in which `/t/my dir` exists and `/t/my-dir` does not. -/
def demoSpaceEnv : Env ℚ :=
  { demoEnv with statOk := fun p => decide (p = str "/t/my dir") }

/-- The scripted session of the scenario with input `be` and the key Enter. -/
def demoBeStart : TrySelector ℚ :=
  NewTrySelector (str "be") (str "/t") [] false [[13]] [] []

/-- The selector of the scripted session `Down, Ctrl-D, b, e, Enter, Y, E, S, Enter` in the
scenario of the specification, after its first four keys: `alpha` is marked and the input
`be` matches `beta` only. -/
def demoMarkedHidden : TrySelector ℚ :=
  (iterate demoScenarioEnv 8 4
    (NewTrySelector [] (str "/t") [] false
      [[14], [4], [98], [101], [13], [89], [69], [83], [13]] [] [])).getD demoStart

/-- The selector of the scripted session `Ctrl-D, Down, Ctrl-D, b, e, Enter, Y, E, S, Enter`
in the scenario of the specification, after its first five keys: `beta` and `alpha` are
marked and the input `be` matches `beta` only. -/
def demoTwoMarked : TrySelector ℚ :=
  (iterate demoScenarioEnv 8 5
    (NewTrySelector [] (str "/t") [] false
      [[4], [14], [4], [98], [101], [13], [89], [69], [83], [13]] [] [])).getD demoStart

/-- The selector of the scripted session `Ctrl-D, Enter, Y, E, S, Enter` in the scenario of
the specification, after its first key: `beta` is marked. -/
def demoBeforeConfirm : TrySelector ℚ :=
  (iterate demoScenarioEnv 8 1
    (NewTrySelector [] (str "/t") [] false [[4], [13], [89], [69], [83], [13]] [] [])).getD
    demoStart

/-- How the iteration that follows `demoBeforeConfirm` ends: Enter and the confirmation. -/
def demoConfirmed : LoopStep ℚ :=
  (mainLoopIter demoScenarioEnv 8 demoBeforeConfirm).getD (.next demoStart)

/-- The start of the scripted session `Ctrl-D, Ctrl-D` in the scenario of the
specification. -/
def demoDoubleStart : TrySelector ℚ :=
  NewTrySelector [] (str "/t") [] false [[4], [4]] [] []

/-- The selector of the scripted session `Ctrl-D, b, Down, Ctrl-T` in the scenario of the
specification, after its first three keys: `beta` is marked, the input is `b` and the cursor
is on the row "Create new". -/
def demoCreateRowCtrlT : TrySelector ℚ :=
  (iterate demoScenarioEnv 8 3
    (NewTrySelector [] (str "/t") [] false [[4], [98], [14], [20]] [] [])).getD demoStart

/-- The selector of the scripted session `Ctrl-D, b, Down, Enter` in the scenario of the
specification, after its first three keys. -/
def demoCreateRowEnter : TrySelector ℚ :=
  (iterate demoScenarioEnv 8 3
    (NewTrySelector [] (str "/t") [] false [[4], [98], [14], [13]] [] [])).getD demoStart

/-- The selector of the scripted session `Space, x, Ctrl-T` on the input `my` in the
scenario of the specification, after its first two keys: the input is `my x`. -/
def demoCtrlTStart : TrySelector ℚ :=
  (iterate demoScenarioEnv 0 2
    (NewTrySelector (str "my") (str "/t") [] false [[32], [120], [20]] [] [])).getD demoStart

/-- A scripted session in the scenario of the specification with the input `zz`, which
matches no directory, and the key Enter. -/
def demoEnterCreateStart : TrySelector ℚ :=
  NewTrySelector (str "zz") (str "/t") [] false [[13]] [] []

/-- A scripted session in the scenario of the specification with the input `a` and the key
`!` (byte 0x21). -/
def demoBangStart : TrySelector ℚ :=
  NewTrySelector (str "a") (str "/t") [] false [[33]] [] []

/-- The selector of the scripted session `Down, x` on the input `a` in the scenario of the
specification, after its first key: the list cursor is on the second row. -/
def demoTypeStart : TrySelector ℚ :=
  (iterate demoScenarioEnv 0 1
    (NewTrySelector (str "a") (str "/t") [] false [[14], [120]] [] [])).getD demoStart

/-- A scripted session in the scenario of the specification with the input `foo-bar--` and
the key Ctrl-W. -/
def demoCtrlWStart : TrySelector ℚ :=
  NewTrySelector (str "foo bar--") (str "/t") [] false [[23]] [] []

/-- The selector of the scripted session `Down, Ctrl-B, Backspace` on the input `alp` in the
scenario of the specification, after its first two keys: the input cursor is 2. -/
def demoBackspaceStart : TrySelector ℚ :=
  (iterate demoScenarioEnv 0 2
    (NewTrySelector (str "alp") (str "/t") [] false [[14], [2], [127]] [] [])).getD demoStart

/-- The selector of the scripted session `Ctrl-D, Ctrl-R, Esc` in the scenario of the
specification, after its first key: `beta` is marked. -/
def demoBeforeRename : TrySelector ℚ :=
  (iterate demoScenarioEnv 8 1
    (NewTrySelector [] (str "/t") [] false [[4], [18], [27]] [] [])).getD demoStart

/-- A scripted session in the scenario of the specification with the input `be` and the
keys Ctrl-R, Esc. -/
def demoRenameStart : TrySelector ℚ :=
  NewTrySelector (str "be") (str "/t") [] false [[18], [27]] [] []

/-- The text `🗑️ab`: the wastebasket U+1F5D1, the variation selector U+FE0F, `a`, `b`. -/
def demoTrashText : GoString := [0xF0, 0x9F, 0x97, 0x91, 0xEF, 0xB8, 0x8F, 97, 98]

/-- A candidate named `éab`: the letter U+00E9 takes the two bytes 0xC3 0xA9. -/
def demoAccentItem : TryItem ℚ :=
  { Text := [0xC3, 0xA9, 97, 98], Basename := [0xC3, 0xA9, 97, 98],
    Path := str "/t/" ++ [0xC3, 0xA9, 97, 98], IsNew := false, Ctime := 0, Mtime := 0,
    BaseScore := 1 }

/-- The entry of the ranked list for `2024-05-02-beta` and the query `be`. -/
def demoBetaEntry : TryEntry ℚ :=
  { Item := demoItem "2024-05-02-beta" 1, Score := 1, HighlightPositions := [11, 12] }

/-- The scenario of the specification on a terminal of 5 columns. -/
def demoNarrowEnv : Env ℚ := { demoScenarioEnv with termSize := some (5, 24) }

/-- The selector of the sample session as `render` leaves it on the terminal of 5 columns. -/
def demoNarrow : TrySelector ℚ := (loopHead demoNarrowEnv demoStart).rendered

/-- The runes of the text `dim("abc") + highlight("xyz")` with colours enabled. -/
def demoColouredRunes : List Rune :=
  "\x1b[38;5;245mabc\x1b[39m\x1b[1m\x1b[33mxyz\x1b[39m\x1b[22m".toList

/-- The matcher entry of a candidate named `name` with base score 1. -/
def demoFuzzyEntry (name : String) : FuzzyEntry ℚ :=
  { Data := demoItem name 1, Text := str name, TextLower := str name, BaseScore := 1,
    TextRunes := name.toList }

/-- A scripted session in the scenario of the specification with the input `café`, whose
last character takes the two bytes 0xC3 0xA9, and the key Backspace. -/
def demoCafeStart : TrySelector ℚ :=
  NewTrySelector (str "café") (str "/t") [] false [[127]] [] []

/-- A directory listing in which `b-ahead` has a modification time 3 hours ahead of the
clock: `a-old` was modified 7 hours ago and `c-new` just now. -/
def demoSkewEntries : List (DirEntry ℚ) :=
  [{ Name := str "a-old", IsDir := true, Info := some (0, 7) },
   { Name := str "b-ahead", IsDir := true, Info := some (0, -3) },
   { Name := str "c-new", IsDir := true, Info := some (0, 0) }]

/-- The candidates that `loadAllTries` makes of the listing `demoSkewEntries` in `/t`. -/
def demoSkewItems : List (TryItem (F64 ℚ)) :=
  demoSkewEntries.filterMap (Ieee.loadEntry demoEnv (str "/t"))

/-- The listing `demoSkewEntries` without `b-ahead`. -/
def demoPastItems : List (TryItem (F64 ℚ)) :=
  (demoSkewEntries.filter fun e => decide (e.Name ≠ str "b-ahead")).filterMap
    (Ieee.loadEntry demoEnv (str "/t"))

/-- A sample for the verb `%.1f` on a score that is not negative: the tenths are rounded
half up. -/
def demoFormatScore (x : ℚ) : GoString :=
  str (Nat.repr (⌊x * 10 + 1 / 2⌋.toNat / 10)) ++ str "."
    ++ str (Nat.repr (⌊x * 10 + 1 / 2⌋.toNat % 10))

/-- A sample clock: every modification time lies `t` seconds back. -/
def demoRowEnv : RowEnv ℚ :=
  { isZero := fun t => decide (t = 0)
    secondsSince := fun t => t
    toInt := fun x => Int.sign x.num * ⌊|x|⌋
    formatScore := demoFormatScore }

/-- The selector of a session started with the query `al`. -/
def demoAlStart : TrySelector ℚ := NewTrySelector (str "al") (str "/t") [] false [] [] []

/-- The selector of a session started with a query that holds a line feed. -/
def demoFeedStart : TrySelector ℚ := NewTrySelector (str "a\nl") (str "/t") [] false [] [] []

/-- Two ranked entries: `2024-05-01-alpha`, modified two hours ago, with the matched
positions 11 and 12, and `beta`, modified half a minute ago. -/
def demoRanked : List (TryEntry ℚ) :=
  [{ Item := { demoItem "2024-05-01-alpha" 3 with Mtime := 7200 }, Score := 37 / 10,
     HighlightPositions := [11, 12] },
   { Item := { demoItem "beta" 3 with Mtime := 30 }, Score := 1 / 4, HighlightPositions := [] }]

/-- The sample environment with a terminal of 9 lines and `TRY_WIDTH` set to 2^62. -/
def demoWideEnv : Env ℚ :=
  { demoSmallEnv with
    envWidth := str "4611686018427387904"
    sscanInt := fun t => if t = str "4611686018427387904" then some 4611686018427387904 else none }

/-- The selector of a session started with the query `a`. -/
def demoFrameStart : TrySelector ℚ := NewTrySelector (str "a") (str "/t") [] false [] [] []

/-- The selector that the first iteration of `mainLoop` passes to `render` in the scenario
of the specification, for the query `a`. -/
def demoFrameState : TrySelector ℚ := (loopHead demoScenarioEnv demoFrameStart).clamped

/-- The ranked list that the first iteration of `mainLoop` passes to `render` in the
scenario of the specification, for the query `a`. -/
def demoFrameTries : List (TryEntry ℚ) := (loopHead demoScenarioEnv demoFrameStart).tries

/-! ## Lemmas -/

section lemmas

variable {K : Type} [LinearOrderedField K]

theorem getElem?_pre_cons {α : Type} (pre : List α) (x : α) (l : List α) :
    (pre ++ x :: l)[pre.length]? = some x := by
  rw [List.getElem?_append_right (le_refl _)]
  simp

theorem getElem?_pre_done {α : Type} (pre done : List α) (x y : α) (l : List α) :
    (pre ++ x :: (done ++ y :: l))[pre.length + 1 + done.length]? = some y := by
  rw [List.getElem?_append_right (by omega)]
  have : pre.length + 1 + done.length - pre.length = done.length + 1 := by omega
  rw [this, List.getElem?_cons_succ]
  exact getElem?_pre_cons done y l

theorem set_pre_cons {α : Type} (pre : List α) (x z : α) (l : List α) :
    (pre ++ x :: l).set pre.length z = pre ++ z :: l := by
  simp [List.set_append]

theorem set_pre_done {α : Type} (pre done : List α) (x y z : α) (l : List α) :
    (pre ++ x :: (done ++ y :: l)).set (pre.length + 1 + done.length) z
      = pre ++ x :: (done ++ z :: l) := by
  rw [List.set_append]
  have h1 : ¬ pre.length + 1 + done.length < pre.length := by omega
  have h2 : pre.length + 1 + done.length - pre.length = done.length + 1 := by omega
  simp only [h1, if_false, h2, List.set_cons_succ]
  congr 2
  exact set_pre_cons done y z l

theorem sortInner_eq (pre : List (FuzzyMatch K)) :
    ∀ (todo done : List (FuzzyMatch K)) (x : FuzzyMatch K),
      sortInner pre.length todo.length (pre.length + 1 + done.length)
          (pre ++ x :: (done ++ todo))
        = pre ++ (pushMax x todo).1 :: (done ++ (pushMax x todo).2) := by
  intro todo
  induction todo with
  | nil => intro done x; simp [sortInner, pushMax]
  | cons y ys ih =>
    intro done x
    have hj := getElem?_pre_done pre done x y ys
    have hi := getElem?_pre_cons pre x (done ++ y :: ys)
    simp only [List.length_cons, sortInner, scoreGt, hj, hi, swapAt, pushMax]
    by_cases h : y.Score > x.Score
    · simp only [h, decide_True, if_true]
      rw [set_pre_cons, set_pre_done]
      have := ih (done ++ [x]) y
      simp only [List.length_append, List.length_singleton, List.append_assoc,
        List.singleton_append] at this
      rw [← Nat.add_assoc] at this
      exact this
    · simp only [h, decide_False, if_false]
      have := ih (done ++ [y]) x
      simp only [List.length_append, List.length_singleton, List.append_assoc,
        List.singleton_append] at this
      rw [← Nat.add_assoc] at this
      simpa using this

theorem pushMax_length (xs : List (FuzzyMatch K)) :
    ∀ x : FuzzyMatch K, (pushMax x xs).2.length = xs.length := by
  induction xs with
  | nil => intro x; rfl
  | cons y ys ih =>
    intro x
    simp only [pushMax]
    split <;> simp [ih]

theorem pushMax_perm (xs : List (FuzzyMatch K)) :
    ∀ x : FuzzyMatch K, ((pushMax x xs).1 :: (pushMax x xs).2).Perm (x :: xs) := by
  induction xs with
  | nil => intro x; exact List.Perm.refl _
  | cons y ys ih =>
    intro x
    simp only [pushMax]
    split
    · exact (List.Perm.swap _ _ _).trans ((ih y).cons x)
    · exact ((List.Perm.swap _ _ _).trans ((ih x).cons y)).trans (List.Perm.swap _ _ _)

theorem pushMax_ge (xs : List (FuzzyMatch K)) :
    ∀ x : FuzzyMatch K, x.Score ≤ (pushMax x xs).1.Score
      ∧ ∀ y ∈ (pushMax x xs).2, y.Score ≤ (pushMax x xs).1.Score := by
  induction xs with
  | nil => intro x; simp [pushMax]
  | cons y ys ih =>
    intro x
    simp only [pushMax]
    split
    · rename_i h
      refine ⟨le_trans (le_of_lt h) (ih y).1, ?_⟩
      intro z hz
      rcases List.mem_cons.mp hz with rfl | hz
      · exact le_trans (le_of_lt h) (ih y).1
      · exact (ih y).2 z hz
    · rename_i h
      refine ⟨(ih x).1, ?_⟩
      intro z hz
      rcases List.mem_cons.mp hz with rfl | hz
      · exact le_trans (not_lt.mp h) (ih x).1
      · exact (ih x).2 z hz

theorem pushMax_of_ge (xs : List (FuzzyMatch K)) (x : FuzzyMatch K)
    (h : ∀ y ∈ xs, y.Score ≤ x.Score) : pushMax x xs = (x, xs) := by
  induction xs with
  | nil => rfl
  | cons y ys ih =>
    have hy : ¬ y.Score > x.Score := not_lt.mpr (h y (List.mem_cons_self _ _))
    simp only [pushMax, hy, if_false]
    rw [ih (fun z hz => h z (List.mem_cons_of_mem _ hz))]

theorem sortOuter_spec :
    ∀ (k : Nat) (pre suf : List (FuzzyMatch K)), suf.length = k →
      ∃ suf2 : List (FuzzyMatch K), sortOuter k pre.length (pre ++ suf) = pre ++ suf2
        ∧ suf2.Perm suf ∧ suf2.Pairwise (fun a b => b.Score ≤ a.Score) := by
  intro k
  induction k with
  | zero =>
    intro pre suf h
    have : suf = [] := List.length_eq_zero.mp h
    subst this
    exact ⟨[], by simp [sortOuter], List.Perm.refl _, List.Pairwise.nil⟩
  | succ k ih =>
    intro pre suf h
    match suf, h with
    | x :: xs, h =>
      have hlen : xs.length = k := by simpa using h
      have hin := sortInner_eq pre xs [] x
      simp only [List.length_nil, Nat.add_zero, List.nil_append] at hin
      have hl : (pre ++ x :: xs).length - (pre.length + 1) = xs.length := by
        simp only [List.length_append, List.length_cons]; omega
      obtain ⟨r, hr, hperm, hsorted⟩ := ih (pre ++ [(pushMax x xs).1]) (pushMax x xs).2
        (by rw [pushMax_length, hlen])
      refine ⟨(pushMax x xs).1 :: r, ?_, ?_, ?_⟩
      · simp only [sortOuter, hl, hin]
        have := hr
        simp only [List.length_append, List.length_singleton, List.append_assoc,
          List.singleton_append] at this
        exact this
      · exact (hperm.cons _).trans (pushMax_perm xs x)
      · refine List.Pairwise.cons ?_ hsorted
        intro z hz
        exact (pushMax_ge xs x).2 z (hperm.subset hz)

theorem sortOuter_of_sorted :
    ∀ (k : Nat) (pre suf : List (FuzzyMatch K)), suf.length = k →
      suf.Pairwise (fun a b => b.Score ≤ a.Score) →
      sortOuter k pre.length (pre ++ suf) = pre ++ suf := by
  intro k
  induction k with
  | zero => intro pre suf _ _; rfl
  | succ k ih =>
    intro pre suf h hs
    match suf, h, hs with
    | x :: xs, h, hs =>
      have hlen : xs.length = k := by simpa using h
      have hin := sortInner_eq pre xs [] x
      simp only [List.length_nil, Nat.add_zero, List.nil_append] at hin
      have hl : (pre ++ x :: xs).length - (pre.length + 1) = xs.length := by
        simp only [List.length_append, List.length_cons]; omega
      rw [pushMax_of_ge xs x (fun y hy => List.rel_of_pairwise_cons hs hy)] at hin
      have := ih (pre ++ [x]) xs hlen (List.Pairwise.of_cons hs)
      simp only [List.length_append, List.length_singleton, List.append_assoc,
        List.singleton_append] at this
      simp only [sortOuter, hl, hin]
      exact this

theorem sortByScore_perm (ms : List (FuzzyMatch K)) : (sortByScore ms).Perm ms := by
  obtain ⟨r, hr, hperm, _⟩ := sortOuter_spec ms.length [] ms rfl
  simp only [List.length_nil, List.nil_append] at hr
  rw [sortByScore, hr]
  exact hperm

theorem sortByScore_sorted (ms : List (FuzzyMatch K)) :
    (sortByScore ms).Pairwise (fun a b => b.Score ≤ a.Score) := by
  obtain ⟨r, hr, _, hs⟩ := sortOuter_spec ms.length [] ms rfl
  simp only [List.length_nil, List.nil_append] at hr
  rw [sortByScore, hr]
  exact hs

theorem sortByScore_of_sorted (ms : List (FuzzyMatch K))
    (h : ms.Pairwise (fun a b => b.Score ≤ a.Score)) : sortByScore ms = ms := by
  have := sortOuter_of_sorted ms.length [] ms rfl h
  simpa [sortByScore] using this

theorem findLoop_some (text : List Rune) (qc : Rune) :
    ∀ (k i f : Nat), findLoop text qc k i = some f →
      i ≤ f ∧ f < i + k ∧ text[f]? = some qc ∧ ∀ j, i ≤ j → j < f → text[j]? ≠ some qc := by
  intro k
  induction k with
  | zero => intro i f h; simp [findLoop] at h
  | succ k ih =>
    intro i f h
    simp only [findLoop] at h
    split at h
    · rename_i hq
      cases h
      exact ⟨le_refl _, by omega, hq, fun j h1 h2 => by omega⟩
    · rename_i hq
      obtain ⟨h1, h2, h3, h4⟩ := ih (i + 1) f h
      refine ⟨by omega, by omega, h3, ?_⟩
      intro j hj1 hj2
      by_cases hji : j = i
      · subst hji; exact hq
      · exact h4 j (by omega) hj2

theorem findLoop_none (text : List Rune) (qc : Rune) :
    ∀ (k i : Nat), findLoop text qc k i = none →
      ∀ j, i ≤ j → j < i + k → text[j]? ≠ some qc := by
  intro k
  induction k with
  | zero => intro i _ j h1 h2; omega
  | succ k ih =>
    intro i h j hj1 hj2
    simp only [findLoop] at h
    split at h
    · cases h
    · rename_i hq
      by_cases hji : j = i
      · subst hji; exact hq
      · exact ih (i + 1) h j (by omega) (by omega)

/-- The positions of a successful greedy scan match the query rune by rune, increase
strictly and start at the cursor. -/
theorem greedy_sound (text : List Rune) :
    ∀ (qs : List Rune) (pos : Nat) (ps : List Nat), greedy text qs pos = some ps →
      List.Forall₂ (fun p c => text[p]? = some c) ps qs
        ∧ ps.Pairwise (· < ·) ∧ ∀ p ∈ ps, pos ≤ p := by
  intro qs
  induction qs with
  | nil =>
    intro pos ps h
    simp only [greedy, Option.some.injEq] at h
    subst h
    exact ⟨List.Forall₂.nil, List.Pairwise.nil, by simp⟩
  | cons qc qs ih =>
    intro pos ps h
    simp only [greedy] at h
    split at h
    · cases h
    · rename_i found hf
      obtain ⟨h1, _, h3, _⟩ := findLoop_some text qc _ _ _ hf
      cases hg : greedy text qs (found + 1) with
      | none => simp [hg] at h
      | some ps2 =>
        simp only [hg, Option.map_some', Option.some.injEq] at h
        subst h
        obtain ⟨i1, i2, i3⟩ := ih (found + 1) ps2 hg
        refine ⟨List.Forall₂.cons h3 i1, List.Pairwise.cons ?_ i2, ?_⟩
        · intro p hp; have := i3 p hp; omega
        · intro p hp
          rcases List.mem_cons.mp hp with rfl | hp
          · exact h1
          · have := i3 p hp; omega

/-- The greedy positions are pointwise below every embedding that starts at the cursor. -/
theorem greedy_minimal (text : List Rune) :
    ∀ (qs : List Rune) (pos : Nat) (ps e : List Nat), greedy text qs pos = some ps →
      List.Forall₂ (fun p c => text[p]? = some c) e qs → e.Pairwise (· < ·) →
      (∀ p ∈ e, pos ≤ p) → List.Forall₂ (· ≤ ·) ps e := by
  intro qs
  induction qs with
  | nil =>
    intro pos ps e h he _ _
    simp only [greedy, Option.some.injEq] at h
    subst h
    cases he
    exact List.Forall₂.nil
  | cons qc qs ih =>
    intro pos ps e h he hs hpos
    simp only [greedy] at h
    split at h
    · cases h
    · rename_i found hf
      obtain ⟨_, _, _, h4⟩ := findLoop_some text qc _ _ _ hf
      cases hg : greedy text qs (found + 1) with
      | none => simp [hg] at h
      | some ps2 =>
        simp only [hg, Option.map_some', Option.some.injEq] at h
        subst h
        cases he with
        | cons hd tl =>
          rename_i e0 es
          have hle : found ≤ e0 := by
            by_contra hc
            exact h4 e0 (hpos e0 (List.mem_cons_self _ _)) (by omega) hd
          refine List.Forall₂.cons hle (ih (found + 1) ps2 es hg tl (List.Pairwise.of_cons hs) ?_)
          intro p hp
          have := List.rel_of_pairwise_cons hs hp
          omega

/-- The greedy scan fails only when no embedding starts at the cursor. -/
theorem greedy_complete (text : List Rune) :
    ∀ (qs : List Rune) (pos : Nat) (e : List Nat),
      List.Forall₂ (fun p c => text[p]? = some c) e qs → e.Pairwise (· < ·) →
      (∀ p ∈ e, pos ≤ p) → ∃ ps, greedy text qs pos = some ps := by
  intro qs
  induction qs with
  | nil => intro pos e _ _ _; exact ⟨[], rfl⟩
  | cons qc qs ih =>
    intro pos e he hs hpos
    cases he with
    | cons hd tl =>
      rename_i e0 es
      have hlt : e0 < text.length := by
        rcases Nat.lt_or_ge e0 text.length with h | h
        · exact h
        · rw [List.getElem?_eq_none h] at hd; cases hd
      have hp0 := hpos e0 (List.mem_cons_self _ _)
      cases hf : findLoop text qc (text.length - pos) pos with
      | none =>
        exact absurd hd (findLoop_none text qc _ _ hf e0 hp0 (by omega))
      | some found =>
        obtain ⟨_, _, _, h4⟩ := findLoop_some text qc _ _ _ hf
        have hle : found ≤ e0 := by
          by_contra hc
          exact h4 e0 hp0 (by omega) hd
        obtain ⟨ps2, hps2⟩ := ih (found + 1) es tl (List.Pairwise.of_cons hs) (by
          intro p hp
          have := List.rel_of_pairwise_cons hs hp
          omega)
        exact ⟨found :: ps2, by simp [greedy, hf, hps2]⟩

theorem sqrtTable_getD (env : Env K) (n : Nat) (h : n < 17) :
    (sqrtTable env).getD n 0 = 2 / env.sqrt (((n + 1 : Nat) : K)) := by
  simp [sqrtTable, List.getD_eq_getElem?_getD, List.getElem?_map, List.getElem?_range, h]

theorem gapBonus_eq (env : Env K) (gap : Int) (h : 0 ≤ gap) :
    gapBonus env gap = 2 / env.sqrt ((gap : K) + 1) := by
  unfold gapBonus
  split
  · rename_i hlt
    rw [sqrtTable_getD env gap.toNat (by omega)]
    have hc : ((gap.toNat : Int) : K) = (gap : K) := by rw [Int.toNat_of_nonneg h]
    rw [Nat.cast_add, Nat.cast_one, ← hc, Int.cast_natCast]
  · rw [Int.cast_add, Int.cast_one]

theorem scanLoop_spec (env : Env K) (text : List Rune) :
    ∀ (qs : List Rune) (st : ScanState K), st.lastPos < (st.pos : Int) →
      match greedy text qs st.pos with
      | none => scanLoop env text qs st = none
      | some ps => ∃ st2, scanLoop env text qs st = some st2
          ∧ st2.positions = st.positions ++ ps
          ∧ st2.score = st.score + boundaryTerms text ps + gapTerms env st.lastPos ps
          ∧ st2.lastPos = (match ps.getLast? with
              | some l => (l : Int)
              | none => st.lastPos) := by
  intro qs
  induction qs with
  | nil =>
    intro st _
    simp [greedy, scanLoop, boundaryTerms, gapTerms]
  | cons qc qs ih =>
    intro st hinv
    simp only [greedy, scanLoop]
    cases hf : findLoop text qc (text.length - st.pos) st.pos with
    | none => simp
    | some found =>
      obtain ⟨h1, _, _, _⟩ := findLoop_some text qc _ _ _ hf
      have hstep := ih (scanStep env text st found) (by simp [scanStep])
      have hpos : (scanStep env text st found).pos = found + 1 := rfl
      rw [hpos] at hstep
      cases hg : greedy text qs (found + 1) with
      | none => simpa [hg] using hstep
      | some ps =>
        simp only [hg] at hstep
        obtain ⟨st2, e1, e2, e3, e4⟩ := hstep
        simp only [hg, Option.map_some']
        refine ⟨st2, e1, ?_, ?_, ?_⟩
        · rw [e2]; simp [scanStep]
        · rw [e3]
          have hgap : 0 ≤ (found : Int) - st.lastPos - 1 := by omega
          have hcast : (((found : Int) - st.lastPos - 1 : Int) : K) + 1
              = (found : K) - (st.lastPos : K) := by
            push_cast; ring
          simp only [scanStep, boundaryTerms, gapTerms, List.map_cons, List.sum_cons]
          rw [gapBonus_eq env _ hgap, hcast]
          split <;> split <;> ring
        · rw [e4]
          cases hl : ps.getLast? with
          | none =>
            have : ps = [] := by simpa using hl
            subst this
            simp [scanStep]
          | some l =>
            have : (found :: ps).getLast? = some l := by
              cases ps with
              | nil => simp at hl
              | cons a t => simpa [List.getLast?_cons_cons] using hl
            simp [this]

theorem runes_nil : runes ([] : GoString) = [] := rfl

theorem runes_ne_nil (s : GoString) (h : s ≠ []) : runes s ≠ [] := by
  cases s with
  | nil => exact absurd rfl h
  | cons b rest => simp [runes, rangeString, rangeFrom]

theorem lowerRunes_nil (env : Env K) : lowerRunes env [] = [] := rfl

theorem lowerRunes_ne_nil (env : Env K) (s : GoString) (h : s ≠ []) :
    lowerRunes env s ≠ [] := by
  simpa [lowerRunes] using runes_ne_nil s h

theorem gapTerms_nat (env : Env K) :
    ∀ (ps : List Nat) (a : Nat),
      gapTerms env (a : Int) ps
        = (List.zipWith (fun x y => 2 / env.sqrt ((y : K) - (x : K))) (a :: ps) ps).sum := by
  intro ps
  induction ps with
  | nil => intro a; simp [gapTerms]
  | cons p ps ih =>
    intro a
    simp only [gapTerms, List.zipWith_cons_cons, List.sum_cons, ih p]
    simp

theorem gapTerms_neg_one (env : Env K) (ps : List Nat) :
    gapTerms env (-1) ps
      = (List.zipWith (fun x y => 2 / env.sqrt ((y : K) - (x : K))) ps ps.tail).sum := by
  cases ps with
  | nil => simp [gapTerms]
  | cons p ps =>
    simp only [gapTerms, List.tail_cons, gapTerms_nat]
    simp

/-- What `calculateMatch` returns, in terms of the greedy positions. -/
theorem calculateMatch_spec (env : Env K) (e : FuzzyEntry K) (q : GoString) :
    match greedy e.TextRunes (lowerRunes env q) 0 with
    | none => calculateMatch env e q = none
    | some ps => ∃ score, calculateMatch env e q = some (score, ps)
        ∧ (q = [] → score = e.BaseScore)
        ∧ ∀ h : ps ≠ [], q ≠ [] →
          score = (e.BaseScore + boundaryTerms e.TextRunes ps + gapTerms env (-1) ps)
            * ((((lowerRunes env q).length : Nat) : K) / (((ps.getLast h : Nat) : K) + 1))
            * (10 / ((((runes e.Text).length : Nat) : K) + 10)) := by
  by_cases hq : q = []
  · subst hq
    simp [lowerRunes_nil, greedy, calculateMatch]
  · have hs := scanLoop_spec env e.TextRunes (lowerRunes env q)
      { score := e.BaseScore, positions := [], lastPos := -1, pos := 0 } (by simp)
    simp only at hs
    cases hg : greedy e.TextRunes (lowerRunes env q) 0 with
    | none =>
      simp only [hg] at hs
      simp [calculateMatch, hq, hs]
    | some ps =>
      simp only [hg] at hs
      obtain ⟨st2, e1, e2, e3, e4⟩ := hs
      have e2b : st2.positions = ps := by simpa using e2
      simp only [calculateMatch, hq, if_false, e1, e2b]
      refine ⟨_, rfl, fun h => h.elim, ?_⟩
      · intro h _
        have hl : ps.getLast? = some (ps.getLast h) := List.getLast?_eq_getLast _ h
        rw [hl] at e4
        simp only at e4
        have hnn : st2.lastPos ≥ 0 := by rw [e4]; exact Int.natCast_nonneg _
        rw [if_pos hnn, e3, e4]
        push_cast
        ring

theorem embedding_of_sublist {qs text : List Rune} (h : qs.Sublist text) :
    ∃ e : List Nat, List.Forall₂ (fun p c => text[p]? = some c) e qs ∧ e.Pairwise (· < ·) := by
  induction h with
  | slnil => exact ⟨[], List.Forall₂.nil, List.Pairwise.nil⟩
  | cons a _ ih =>
    obtain ⟨e, h1, h2⟩ := ih
    refine ⟨e.map (· + 1), ?_, ?_⟩
    · rw [List.forall₂_map_left_iff]
      exact h1.imp (fun _ _ hpc => by simp only [List.getElem?_cons_succ]; exact hpc)
    · exact (List.pairwise_map).mpr (h2.imp (fun h => by omega))
  | cons₂ a _ ih =>
    obtain ⟨e, h1, h2⟩ := ih
    refine ⟨0 :: e.map (· + 1), List.Forall₂.cons (by simp) ?_, List.Pairwise.cons ?_ ?_⟩
    · rw [List.forall₂_map_left_iff]
      exact h1.imp (fun _ _ hpc => by simp only [List.getElem?_cons_succ]; exact hpc)
    · intro p hp
      obtain ⟨x, _, rfl⟩ := List.mem_map.mp hp
      omega
    · exact (List.pairwise_map).mpr (h2.imp (fun h => by omega))

theorem sublist_of_embedding (text : List Rune) :
    ∀ (qs : List Rune) (e : List Nat) (pos : Nat),
      List.Forall₂ (fun p c => text[p]? = some c) e qs → e.Pairwise (· < ·) →
      (∀ p ∈ e, pos ≤ p) → qs.Sublist (text.drop pos) := by
  intro qs
  induction qs with
  | nil => intro e pos _ _ _; exact List.nil_sublist _
  | cons qc qs ih =>
    intro e pos he hs hpos
    cases he with
    | cons hd tl =>
      rename_i e0 es
      have hlt : e0 < text.length := by
        rcases Nat.lt_or_ge e0 text.length with h | h
        · exact h
        · rw [List.getElem?_eq_none h] at hd; cases hd
      have hget : text[e0] = qc := by
        rw [List.getElem?_eq_getElem hlt] at hd
        exact Option.some.inj hd
      have hrest := ih es (e0 + 1) tl (List.Pairwise.of_cons hs) (by
        intro p hp
        have := List.rel_of_pairwise_cons hs hp
        omega)
      have h1 : (qc :: qs).Sublist (text.drop e0) := by
        rw [List.drop_eq_getElem_cons hlt, hget]
        exact hrest.cons₂ qc
      have hp0 := hpos e0 (List.mem_cons_self _ _)
      have h2 : text.drop e0 = (text.drop pos).drop (e0 - pos) := by
        rw [List.drop_drop]
        congr 1
        omega
      rw [h2] at h1
      exact h1.trans (List.drop_sublist _ _)

theorem greedy_isSome_iff (text qs : List Rune) :
    (∃ ps, greedy text qs 0 = some ps) ↔ qs.Sublist text := by
  constructor
  · rintro ⟨ps, h⟩
    obtain ⟨h1, h2, h3⟩ := greedy_sound text qs 0 ps h
    simpa using sublist_of_embedding text qs ps 0 h1 h2 h3
  · intro h
    obtain ⟨e, h1, h2⟩ := embedding_of_sublist h
    exact greedy_complete text qs 0 e h1 h2 (fun _ _ => Nat.zero_le _)

theorem calculateMatch_eq_none_iff (env : Env K) (e : FuzzyEntry K) (q : GoString) :
    calculateMatch env e q = none ↔ ¬ (lowerRunes env q).Sublist e.TextRunes := by
  have hs := calculateMatch_spec env e q
  rw [← greedy_isSome_iff]
  cases hg : greedy e.TextRunes (lowerRunes env q) 0 with
  | none =>
    simp only [hg] at hs
    simp [hs]
  | some ps =>
    simp only [hg] at hs
    obtain ⟨score, h, _⟩ := hs
    simp [h]

theorem calculateMatch_positions (env : Env K) (e : FuzzyEntry K) (q : GoString) (score : K)
    (ps : List Nat) (h : calculateMatch env e q = some (score, ps)) :
    greedy e.TextRunes (lowerRunes env q) 0 = some ps := by
  have hs := calculateMatch_spec env e q
  cases hg : greedy e.TextRunes (lowerRunes env q) 0 with
  | none =>
    simp only [hg] at hs
    rw [hs] at h
    cases h
  | some ps2 =>
    simp only [hg] at hs
    obtain ⟨score2, h2, _⟩ := hs
    rw [h2] at h
    cases h
    rfl

theorem mem_scoreEntries (env : Env K) (entries : List (FuzzyEntry K)) (q : GoString)
    (m : FuzzyMatch K) :
    m ∈ scoreEntries env entries q ↔
      ∃ e ∈ entries, calculateMatch env e q = some (m.Score, m.Positions) ∧ m.Entry = e.Data := by
  simp only [scoreEntries, List.mem_filterMap]
  constructor
  · rintro ⟨e, he, h⟩
    refine ⟨e, he, ?_⟩
    cases hc : calculateMatch env e q with
    | none => simp [hc] at h
    | some r =>
      obtain ⟨score, ps⟩ := r
      simp only [hc, Option.some.injEq] at h
      subst h
      exact ⟨rfl, rfl⟩
  · rintro ⟨e, he, h1, h2⟩
    refine ⟨e, he, ?_⟩
    simp only [h1, Option.some.injEq]
    cases m
    simp_all

theorem mem_Match (env : Env K) (f : Fuzzy K) (q : GoString) (m : FuzzyMatch K) :
    m ∈ Fuzzy.Match env f q ↔ m ∈ scoreEntries env f.Entries q :=
  (sortByScore_perm _).mem_iff

theorem mem_Match_NewFuzzy (env : Env K) (items : List (TryItem K)) (q : GoString)
    (m : FuzzyMatch K) (h : m ∈ Fuzzy.Match env (NewFuzzy env items) q) :
    m.Entry ∈ items
      ∧ greedy (lowerRunes env m.Entry.Text) (lowerRunes env q) 0 = some m.Positions := by
  rw [mem_Match, mem_scoreEntries] at h
  obtain ⟨e, he, h1, h2⟩ := h
  simp only [NewFuzzy, List.mem_map] at he
  obtain ⟨it, hit, rfl⟩ := he
  simp only at h2
  rw [h2]
  exact ⟨hit, calculateMatch_positions env _ q _ _ h1⟩

theorem checkPaths_error (env : Env K) (baseReal : GoString) :
    ∀ (items : List (TryEntry K)) (paths : List DeletePath),
      (∃ item ∈ items, (baseReal ++ str "/").isPrefixOf
          ((env.evalSymlinks item.Item.Path).getD item.Item.Path) = false) →
      ∃ bad ∈ items, checkPaths env baseReal items paths
        = .error (str "Safety check failed: "
            ++ (env.evalSymlinks bad.Item.Path).getD bad.Item.Path
            ++ str " not in " ++ baseReal) := by
  intro items
  induction items with
  | nil => intro _ h; obtain ⟨_, h, _⟩ := h; cases h
  | cons it rest ih =>
    intro paths h
    by_cases hit : (baseReal ++ str "/").isPrefixOf
        ((env.evalSymlinks it.Item.Path).getD it.Item.Path) = false
    · exact ⟨it, List.mem_cons_self _ _, by simp [checkPaths, hit]⟩
    · have hrest : ∃ item ∈ rest, (baseReal ++ str "/").isPrefixOf
          ((env.evalSymlinks item.Item.Path).getD item.Item.Path) = false := by
        obtain ⟨item, hmem, hbad⟩ := h
        rcases List.mem_cons.mp hmem with rfl | hmem
        · exact absurd hbad hit
        · exact ⟨item, hmem, hbad⟩
      obtain ⟨bad, hbad, heq⟩ := ih
        (paths ++ [DeletePath.mk ((env.evalSymlinks it.Item.Path).getD it.Item.Path)
          it.Item.Basename]) hrest
      refine ⟨bad, List.mem_cons_of_mem _ hbad, ?_⟩
      have hit2 : (baseReal ++ str "/").isPrefixOf
          ((env.evalSymlinks it.Item.Path).getD it.Item.Path) = true := by
        simpa using hit
      simp only [checkPaths, hit2, Bool.not_true, Bool.false_eq_true, if_false]
      exact heq

theorem ite_ind {α : Type} {P : α → Prop} {c : Prop} [Decidable c] {a b : α}
    (ha : P a) (hb : P b) : P (if c then a else b) := by
  split <;> assumption

theorem refreshSize_marks (env : Env K) (s : TrySelector K) :
    (refreshSize env s).deleteMode = s.deleteMode
      ∧ (refreshSize env s).markedForDelete = s.markedForDelete := ⟨rfl, rfl⟩

theorem readKey_marks (env : Env K) (s : TrySelector K) :
    (readKey env s).2.deleteMode = s.deleteMode
      ∧ (readKey env s).2.markedForDelete = s.markedForDelete := by
  unfold readKey
  split
  · exact ⟨rfl, rfl⟩
  · split
    · exact ⟨rfl, rfl⟩
    · dsimp only
      split <;> split <;> exact ⟨rfl, rfl⟩

theorem getTries_marks (env : Env K) (s : TrySelector K) :
    (getTries env s).2.deleteMode = s.deleteMode
      ∧ (getTries env s).2.markedForDelete = s.markedForDelete := by
  simp only [getTries, loadAllTries]
  split
  · exact ⟨rfl, rfl⟩
  · split <;> exact ⟨rfl, rfl⟩

theorem render_marks (env : Env K) (s : TrySelector K) (tries : List (TryEntry K)) :
    (render env s tries).deleteMode = s.deleteMode
      ∧ (render env s tries).markedForDelete = s.markedForDelete := by
  simp only [render]
  split <;> exact ⟨rfl, rfl⟩

theorem MarksInv_of_eq {s t : TrySelector K} (h : MarksInv s)
    (h1 : t.deleteMode = s.deleteMode) (h2 : t.markedForDelete = s.markedForDelete) :
    MarksInv t := by
  unfold MarksInv at *
  rw [h1, h2]
  exact h

theorem MarksInv_cleared (s : TrySelector K) (h1 : s.deleteMode = false)
    (h2 : s.markedForDelete = []) : MarksInv s := by
  unfold MarksInv
  simp [h1, h2]

theorem processDeleteConfirmation_inv (env : Env K) (s : TrySelector K)
    (markedItems : List (TryEntry K)) (confirmation : GoString) (h : MarksInv s) :
    MarksInv (processDeleteConfirmation env s markedItems confirmation) := by
  unfold processDeleteConfirmation
  split
  · dsimp only
    split
    · exact MarksInv_of_eq h rfl rfl
    · exact MarksInv_cleared _ rfl rfl
  · exact MarksInv_cleared _ rfl rfl

theorem confirmIter_inv (env : Env K) (markedItems : List (TryEntry K)) (s : TrySelector K)
    (buf : GoString) (cur : Nat) (hs : MarksInv s) :
    MarksInv (confirmIter env markedItems s buf cur).sel := by
  have hk : MarksInv (readKey env s).2 :=
    MarksInv_of_eq hs (readKey_marks env s).1 (readKey_marks env s).2
  unfold confirmIter
  dsimp only
  split_ifs
  · exact processDeleteConfirmation_inv env _ _ _ hk
  · exact MarksInv_cleared _ rfl rfl
  · exact hk
  · exact hk
  · exact MarksInv_cleared _ rfl rfl
  · split
    · split_ifs <;> exact hk
    · exact hk

theorem confirmLoop_inv (env : Env K) (markedItems : List (TryEntry K)) :
    ∀ (fuel : Nat) (s : TrySelector K) (buf : GoString) (cur : Nat) (t : TrySelector K),
      MarksInv s → confirmLoop env markedItems fuel s buf cur = some t → MarksInv t := by
  intro fuel
  induction fuel with
  | zero => intro s buf cur t _ h; simp [confirmLoop] at h
  | succ fuel ih =>
    intro s buf cur t hs h
    have hi := confirmIter_inv env markedItems s buf cur hs
    rw [confirmLoop] at h
    cases hc : confirmIter env markedItems s buf cur with
    | exit s2 =>
      rw [hc] at h hi
      cases h
      exact hi
    | again s2 b2 c2 =>
      rw [hc] at h hi
      exact ih s2 b2 c2 t hi h

theorem confirmBatchDelete_inv (env : Env K) (fuel : Nat) (s : TrySelector K)
    (tries : List (TryEntry K)) (t : TrySelector K) (hs : MarksInv s)
    (h : confirmBatchDelete env fuel s tries = some t) : MarksInv t := by
  simp only [confirmBatchDelete] at h
  split_ifs at h
  · cases h; exact hs
  · cases h
    exact processDeleteConfirmation_inv env _ _ _ (MarksInv_of_eq hs rfl rfl)
  · cases h; exact processDeleteConfirmation_inv env _ _ _ hs
  · exact confirmLoop_inv env _ fuel s _ _ t hs h

theorem finalizeRename_marks (env : Env K) (s : TrySelector K) (entry : TryEntry K)
    (buf : GoString) :
    (finalizeRename env s entry buf).2.deleteMode = s.deleteMode
      ∧ (finalizeRename env s entry buf).2.markedForDelete = s.markedForDelete := by
  simp only [finalizeRename]
  split_ifs <;> exact ⟨rfl, rfl⟩

theorem renameIter_inv (env : Env K) (entry : TryEntry K) (s : TrySelector K)
    (buf : GoString) (cur : Nat) (err : GoString) (hs : MarksInv s) :
    MarksInv (renameIter env entry s buf cur err).sel := by
  have hk : MarksInv (readKey env s).2 :=
    MarksInv_of_eq hs (readKey_marks env s).1 (readKey_marks env s).2
  have hf : MarksInv (finalizeRename env (readKey env s).2 entry buf).2 :=
    MarksInv_of_eq hk (finalizeRename_marks env _ entry buf).1
      (finalizeRename_marks env _ entry buf).2
  unfold renameIter
  dsimp only
  generalize (readKey env s).1 = key at *
  generalize (readKey env s).2 = s2 at *
  have I := @ite_ind (RenameStep K) (fun r => MarksInv r.sel)
  apply I
  · apply I <;> exact hf
  apply I
  · exact MarksInv_of_eq hk rfl rfl
  apply I
  · apply I <;> exact hk
  apply I
  · exact hk
  apply I
  · exact hk
  apply I
  · exact hk
  apply I
  · exact hk
  apply I
  · exact hk
  apply I
  · apply I <;> exact hk
  match key with
  | [] => exact hk
  | [b] => apply I <;> exact hk
  | _ :: _ :: _ => exact hk

theorem renameLoop_inv (env : Env K) (entry : TryEntry K) :
    ∀ (fuel : Nat) (s : TrySelector K) (buf : GoString) (cur : Nat) (err : GoString)
      (t : TrySelector K),
      MarksInv s → renameLoop env entry fuel s buf cur err = some t → MarksInv t := by
  intro fuel
  induction fuel with
  | zero => intro s buf cur err t _ h; simp [renameLoop] at h
  | succ fuel ih =>
    intro s buf cur err t hs h
    have hi := renameIter_inv env entry s buf cur err hs
    rw [renameLoop] at h
    cases hc : renameIter env entry s buf cur err with
    | exit s2 =>
      rw [hc] at h hi
      cases h
      exact hi
    | again s2 b2 c2 e2 =>
      rw [hc] at h hi
      exact ih s2 b2 c2 e2 t hi h

theorem runRenameDialog_inv (env : Env K) (fuel : Nat) (s : TrySelector K)
    (entry : TryEntry K) (t : TrySelector K)
    (h : runRenameDialog env fuel s entry = some t) : MarksInv t :=
  renameLoop_inv env entry fuel _ _ _ _ t (MarksInv_cleared _ rfl rfl) h

theorem toggleMark_inv (s : TrySelector K) (tries : List (TryEntry K)) (hs : MarksInv s) :
    MarksInv (toggleMark s tries) := by
  unfold toggleMark
  split
  · split
    · exact hs
    · dsimp only
      split_ifs with h1 h2 h3
      · exact MarksInv_cleared _ rfl (List.length_eq_zero.mp h2)
      · unfold MarksInv at *
        have hne : s.markedForDelete ≠ [] := by
          intro hnil
          apply h2
          simp [hnil]
        have hne2 : List.take (indexOf s.markedForDelete _).toNat s.markedForDelete
            ++ List.drop ((indexOf s.markedForDelete _).toNat + 1) s.markedForDelete ≠ [] :=
          fun hnil => h2 (by rw [hnil]; rfl)
        simp only [hs.mpr hne, ne_eq, hne2, not_false_eq_true]
      · simp at h3
      · unfold MarksInv
        simp
  · exact hs

theorem returnIfSelected_state (s : TrySelector K) : (returnIfSelected s).state = s := by
  unfold returnIfSelected
  split <;> rfl

theorem handleKey_inv (env : Env K) (fuel : Nat) (s : TrySelector K)
    (tries : List (TryEntry K)) (showCreateNew : Bool) (totalItems : Int) (key : GoString)
    (hs : MarksInv s) :
    ∀ r, handleKey env fuel s tries showCreateNew totalItems key = some r → MarksInv r.state := by
  have I := @ite_ind (Option (LoopStep K)) (fun o => ∀ r, o = some r → MarksInv r.state)
  have hnext : ∀ t : TrySelector K, MarksInv t →
      ∀ r, some (LoopStep.next t) = some r → MarksInv r.state := by
    intro t ht r hr
    cases hr
    exact ht
  have hret : ∀ t : TrySelector K, MarksInv t →
      ∀ r, some (returnIfSelected t) = some r → MarksInv r.state := by
    intro t ht r hr
    cases hr
    rw [returnIfSelected_state]
    exact ht
  have hmap : ∀ o : Option (TrySelector K), (∀ t, o = some t → MarksInv t) →
      ∀ r, o.map returnIfSelected = some r → MarksInv r.state := by
    intro o ho r hr
    cases o with
    | none => cases hr
    | some t =>
      cases hr
      rw [returnIfSelected_state]
      exact ho t rfl
  unfold handleKey
  apply I
  · apply I
    · exact hmap _ (fun t ht => confirmBatchDelete_inv env fuel s tries t hs ht)
    apply I
    · cases tries[s.cursorPos.toNat]? with
      | none => exact hnext s hs
      | some t => exact hret _ (MarksInv_of_eq hs rfl rfl)
    apply I
    · apply hret
      unfold handleCreateNew
      split <;> exact MarksInv_of_eq hs rfl rfl
    · exact hnext s hs
  apply I
  · apply hnext; split <;> exact hs
  apply I
  · apply hnext; split <;> exact hs
  apply I
  · exact hnext s hs
  apply I
  · apply hnext
    dsimp only
    split <;> exact MarksInv_of_eq hs rfl rfl
  apply I
  · exact hnext _ (MarksInv_of_eq hs rfl rfl)
  apply I
  · exact hnext _ (MarksInv_of_eq hs rfl rfl)
  apply I
  · apply hnext; split <;> exact hs
  apply I
  · apply hnext; split <;> exact hs
  apply I
  · exact hnext _ (MarksInv_of_eq hs rfl rfl)
  apply I
  · apply hnext
    unfold deleteWordBack
    split <;> exact hs
  apply I
  · exact hnext _ (toggleMark_inv s tries hs)
  apply I
  · apply hret
    unfold handleCreateNew
    split <;> exact MarksInv_of_eq hs rfl rfl
  apply I
  · apply I
    · cases tries[s.cursorPos.toNat]? with
      | none => exact hnext s hs
      | some t => exact hmap _ (fun u hu => runRenameDialog_inv env fuel s t u hu)
    · exact hnext s hs
  apply I
  · apply I
    · exact hnext _ (MarksInv_cleared _ rfl rfl)
    · intro r hr
      cases hr
      exact MarksInv_of_eq hs rfl rfl
  match key with
  | [] => exact hnext s hs
  | [b] => apply I <;> exact hnext _ hs
  | _ :: _ :: _ => exact hnext s hs

theorem mainLoopIter_inv (env : Env K) (fuel : Nat) (s : TrySelector K) (r : LoopStep K)
    (hs : MarksInv s) (h : mainLoopIter env fuel s = some r) : MarksInv r.state := by
  have h1 : MarksInv (getTries env s).2 :=
    MarksInv_of_eq hs (getTries_marks env s).1 (getTries_marks env s).2
  unfold mainLoopIter at h
  dsimp only at h
  generalize (getTries env s).2 = s1 at h h1
  generalize (getTries env s).1 = tries at h
  have h2 : MarksInv (if s1.cursorPos < 0 then { s1 with cursorPos := 0 } else s1) := by
    split <;> exact h1
  generalize (if s1.cursorPos < 0 then { s1 with cursorPos := 0 } else s1) = s2 at h h2
  generalize (if (if decide (s1.inputBuffer ≠ []) = true then (tries.length : Int) + 1
      else (tries.length : Int)) - 1 < 0 then (0 : Int)
      else (if decide (s1.inputBuffer ≠ []) = true then (tries.length : Int) + 1
        else (tries.length : Int)) - 1) = maxPos at h
  have h3 : MarksInv (if s2.cursorPos > maxPos then { s2 with cursorPos := maxPos } else s2) := by
    split <;> exact h2
  generalize (if s2.cursorPos > maxPos then { s2 with cursorPos := maxPos } else s2) = s3 at h h3
  have h4 : MarksInv (render env s3 tries) :=
    MarksInv_of_eq h3 (render_marks env s3 tries).1 (render_marks env s3 tries).2
  generalize render env s3 tries = s4 at h h4
  have h5 : MarksInv (readKey env s4).2 :=
    MarksInv_of_eq h4 (readKey_marks env s4).1 (readKey_marks env s4).2
  generalize (readKey env s4).2 = s5 at h h5
  generalize (readKey env s4).1 = key at h
  split at h
  · cases h; exact h5
  · exact handleKey_inv env fuel s5 tries _ _ key h5 r h

theorem reachable_inv (env : Env K) (s0 s : TrySelector K) (h0 : MarksInv s0)
    (h : Reachable env s0 s) : MarksInv s := by
  induction h with
  | init => exact h0
  | iter fuel s r _ hr ih => exact mainLoopIter_inv env fuel s r ih hr

theorem mainLoopIter_eq_loopHead (env : Env K) (fuel : Nat) (s : TrySelector K) :
    mainLoopIter env fuel s =
      if (loopHead env s).key = [] then some (.next (loopHead env s).sel)
      else handleKey env fuel (loopHead env s).sel (loopHead env s).tries
        (loopHead env s).showCreateNew (loopHead env s).totalItems (loopHead env s).key := rfl

theorem readKey_frame (env : Env K) (s : TrySelector K) :
    (readKey env s).2.scrollOffset = s.scrollOffset
      ∧ (readKey env s).2.cursorPos = s.cursorPos
      ∧ (readKey env s).2.inputBuffer = s.inputBuffer
      ∧ (readKey env s).2.inputCursorPos = s.inputCursorPos
      ∧ (readKey env s).2.selected = s.selected
      ∧ (readKey env s).2.basePath = s.basePath
      ∧ (readKey env s).2.deleteStatus = s.deleteStatus
      ∧ (readKey env s).2.allTries = s.allTries
      ∧ (readKey env s).2.fuzzy = s.fuzzy := by
  unfold readKey
  split
  · exact ⟨rfl, rfl, rfl, rfl, rfl, rfl, rfl, rfl, rfl⟩
  · split
    · exact ⟨rfl, rfl, rfl, rfl, rfl, rfl, rfl, rfl, rfl⟩
    · dsimp only
      split <;> split <;> exact ⟨rfl, rfl, rfl, rfl, rfl, rfl, rfl, rfl, rfl⟩

theorem getTries_frame (env : Env K) (s : TrySelector K) :
    (getTries env s).2.scrollOffset = s.scrollOffset
      ∧ (getTries env s).2.cursorPos = s.cursorPos
      ∧ (getTries env s).2.inputBuffer = s.inputBuffer
      ∧ (getTries env s).2.inputCursorPos = s.inputCursorPos
      ∧ (getTries env s).2.selected = s.selected
      ∧ (getTries env s).2.basePath = s.basePath := by
  simp only [getTries, loadAllTries]
  split
  · exact ⟨rfl, rfl, rfl, rfl, rfl, rfl⟩
  · split <;> exact ⟨rfl, rfl, rfl, rfl, rfl, rfl⟩

theorem finalizeRename_scroll (env : Env K) (s : TrySelector K) (entry : TryEntry K)
    (buf : GoString) :
    (finalizeRename env s entry buf).2.scrollOffset = s.scrollOffset := by
  simp only [finalizeRename]
  split_ifs <;> rfl

theorem processDeleteConfirmation_stable {P : TrySelector K → Prop} (hP : KeyStable P)
    (env : Env K) (s : TrySelector K) (markedItems : List (TryEntry K))
    (confirmation : GoString) (h : P s) :
    P (processDeleteConfirmation env s markedItems confirmation) := by
  unfold processDeleteConfirmation
  split
  · dsimp only
    split
    · exact hP.congr _ _ h rfl rfl rfl
    · exact hP.clear _ _ h rfl rfl rfl
  · exact hP.clear _ _ h rfl rfl rfl

theorem confirmIter_stable {P : TrySelector K → Prop} (hP : KeyStable P) (env : Env K)
    (markedItems : List (TryEntry K)) (s : TrySelector K) (buf : GoString) (cur : Nat)
    (hs : P s) : P (confirmIter env markedItems s buf cur).sel := by
  have hk : P (readKey env s).2 :=
    hP.congr _ _ hs (readKey_frame env s).1 (readKey_marks env s).2 (readKey_marks env s).1
  unfold confirmIter
  dsimp only
  generalize (readKey env s).1 = key at *
  generalize (readKey env s).2 = s2 at *
  have I := @ite_ind (ConfirmStep K) (fun r => P r.sel)
  apply I
  · exact processDeleteConfirmation_stable hP env _ _ _ hk
  apply I
  · exact hP.clear _ _ hk rfl rfl rfl
  apply I
  · apply I <;> exact hk
  apply I
  · exact hP.clear _ _ hk rfl rfl rfl
  match key with
  | [] => exact hk
  | [b] => apply I <;> exact hk
  | _ :: _ :: _ => exact hk

theorem confirmLoop_stable {P : TrySelector K → Prop} (hP : KeyStable P) (env : Env K)
    (markedItems : List (TryEntry K)) :
    ∀ (fuel : Nat) (s : TrySelector K) (buf : GoString) (cur : Nat) (t : TrySelector K),
      P s → confirmLoop env markedItems fuel s buf cur = some t → P t := by
  intro fuel
  induction fuel with
  | zero => intro s buf cur t _ h; simp [confirmLoop] at h
  | succ fuel ih =>
    intro s buf cur t hs h
    have hi := confirmIter_stable hP env markedItems s buf cur hs
    rw [confirmLoop] at h
    cases hc : confirmIter env markedItems s buf cur with
    | exit s2 =>
      rw [hc] at h hi
      cases h
      exact hi
    | again s2 b2 c2 =>
      rw [hc] at h hi
      exact ih s2 b2 c2 t hi h

theorem confirmBatchDelete_stable {P : TrySelector K → Prop} (hP : KeyStable P) (env : Env K)
    (fuel : Nat) (s : TrySelector K) (tries : List (TryEntry K)) (t : TrySelector K)
    (hs : P s) (h : confirmBatchDelete env fuel s tries = some t) : P t := by
  simp only [confirmBatchDelete] at h
  split_ifs at h
  · cases h; exact hs
  · cases h
    exact processDeleteConfirmation_stable hP env _ _ _ (hP.congr _ _ hs rfl rfl rfl)
  · cases h; exact processDeleteConfirmation_stable hP env _ _ _ hs
  · exact confirmLoop_stable hP env _ fuel s _ _ t hs h

theorem renameIter_stable {P : TrySelector K → Prop} (hP : KeyStable P) (env : Env K)
    (entry : TryEntry K) (s : TrySelector K) (buf : GoString) (cur : Nat) (err : GoString)
    (hs : P s) : P (renameIter env entry s buf cur err).sel := by
  have hk : P (readKey env s).2 :=
    hP.congr _ _ hs (readKey_frame env s).1 (readKey_marks env s).2 (readKey_marks env s).1
  have hf : P (finalizeRename env (readKey env s).2 entry buf).2 :=
    hP.congr _ _ hk (finalizeRename_scroll env _ entry buf)
      (finalizeRename_marks env _ entry buf).2 (finalizeRename_marks env _ entry buf).1
  unfold renameIter
  dsimp only
  generalize (readKey env s).1 = key at *
  generalize (readKey env s).2 = s2 at *
  have I := @ite_ind (RenameStep K) (fun r => P r.sel)
  apply I
  · apply I <;> exact hf
  apply I
  · exact hP.congr _ _ hk rfl rfl rfl
  apply I
  · apply I <;> exact hk
  apply I
  · exact hk
  apply I
  · exact hk
  apply I
  · exact hk
  apply I
  · exact hk
  apply I
  · exact hk
  apply I
  · apply I <;> exact hk
  match key with
  | [] => exact hk
  | [b] => apply I <;> exact hk
  | _ :: _ :: _ => exact hk

theorem renameLoop_stable {P : TrySelector K → Prop} (hP : KeyStable P) (env : Env K)
    (entry : TryEntry K) :
    ∀ (fuel : Nat) (s : TrySelector K) (buf : GoString) (cur : Nat) (err : GoString)
      (t : TrySelector K),
      P s → renameLoop env entry fuel s buf cur err = some t → P t := by
  intro fuel
  induction fuel with
  | zero => intro s buf cur err t _ h; simp [renameLoop] at h
  | succ fuel ih =>
    intro s buf cur err t hs h
    have hi := renameIter_stable hP env entry s buf cur err hs
    rw [renameLoop] at h
    cases hc : renameIter env entry s buf cur err with
    | exit s2 =>
      rw [hc] at h hi
      cases h
      exact hi
    | again s2 b2 c2 e2 =>
      rw [hc] at h hi
      exact ih s2 b2 c2 e2 t hi h

theorem runRenameDialog_stable {P : TrySelector K → Prop} (hP : KeyStable P) (env : Env K)
    (fuel : Nat) (s : TrySelector K) (entry : TryEntry K) (t : TrySelector K) (hs : P s)
    (h : runRenameDialog env fuel s entry = some t) : P t :=
  renameLoop_stable hP env entry fuel _ _ _ _ t
    (hP.clear s { s with deleteMode := false, markedForDelete := [] } hs rfl rfl rfl) h

theorem handleKey_stable {P : TrySelector K → Prop} (hP : KeyStable P) (env : Env K)
    (fuel : Nat) (s : TrySelector K) (tries : List (TryEntry K)) (showCreateNew : Bool)
    (totalItems : Int) (key : GoString) (hs : P s) :
    ∀ r, handleKey env fuel s tries showCreateNew totalItems key = some r → P r.state := by
  have I := @ite_ind (Option (LoopStep K)) (fun o => ∀ r, o = some r → P r.state)
  have hnext : ∀ t : TrySelector K, P t →
      ∀ r, some (LoopStep.next t) = some r → P r.state := by
    intro t ht r hr
    cases hr
    exact ht
  have hret : ∀ t : TrySelector K, P t →
      ∀ r, some (returnIfSelected t) = some r → P r.state := by
    intro t ht r hr
    cases hr
    rw [returnIfSelected_state]
    exact ht
  have hmap : ∀ o : Option (TrySelector K), (∀ t, o = some t → P t) →
      ∀ r, o.map returnIfSelected = some r → P r.state := by
    intro o ho r hr
    cases o with
    | none => cases hr
    | some t =>
      cases hr
      rw [returnIfSelected_state]
      exact ho t rfl
  have hsame : ∀ t : TrySelector K, t.scrollOffset = s.scrollOffset →
      t.markedForDelete = s.markedForDelete → t.deleteMode = s.deleteMode → P t :=
    fun t h1 h2 h3 => hP.congr _ _ hs h1 h2 h3
  unfold handleKey
  apply I
  · apply I
    · exact hmap _ (fun t ht => confirmBatchDelete_stable hP env fuel s tries t hs ht)
    apply I
    · cases tries[s.cursorPos.toNat]? with
      | none => exact hnext s hs
      | some t => exact hret _ (hsame _ rfl rfl rfl)
    apply I
    · apply hret
      unfold handleCreateNew
      split <;> exact hsame _ rfl rfl rfl
    · exact hnext s hs
  apply I
  · apply hnext; split <;> exact hsame _ rfl rfl rfl
  apply I
  · apply hnext; split <;> exact hsame _ rfl rfl rfl
  apply I
  · exact hnext s hs
  apply I
  · apply hnext
    dsimp only
    split <;> exact hsame _ rfl rfl rfl
  apply I
  · exact hnext _ (hsame _ rfl rfl rfl)
  apply I
  · exact hnext _ (hsame _ rfl rfl rfl)
  apply I
  · apply hnext; split <;> exact hsame _ rfl rfl rfl
  apply I
  · apply hnext; split <;> exact hsame _ rfl rfl rfl
  apply I
  · exact hnext _ (hsame _ rfl rfl rfl)
  apply I
  · apply hnext
    unfold deleteWordBack
    split <;> exact hsame _ rfl rfl rfl
  apply I
  · exact hnext _ (hP.toggle s tries hs)
  apply I
  · apply hret
    unfold handleCreateNew
    split <;> exact hsame _ rfl rfl rfl
  apply I
  · apply I
    · cases tries[s.cursorPos.toNat]? with
      | none => exact hnext s hs
      | some t => exact hmap _ (fun u hu => runRenameDialog_stable hP env fuel s t u hs hu)
    · exact hnext s hs
  apply I
  · apply I
    · exact hnext _ (hP.clear _ _ hs rfl rfl rfl)
    · intro r hr
      cases hr
      exact hsame _ rfl rfl rfl
  match key with
  | [] => exact hnext s hs
  | [b] => apply I <;> exact hnext _ (hsame _ rfl rfl rfl)
  | _ :: _ :: _ => exact hnext s hs

theorem render_frame (env : Env K) (s : TrySelector K) (tries : List (TryEntry K)) :
    (render env s tries).cursorPos = s.cursorPos
      ∧ (render env s tries).inputBuffer = s.inputBuffer
      ∧ (render env s tries).inputCursorPos = s.inputCursorPos
      ∧ (render env s tries).selected = s.selected
      ∧ (render env s tries).basePath = s.basePath := by
  simp only [render]
  split <;> exact ⟨rfl, rfl, rfl, rfl, rfl⟩

theorem render_height (env : Env K) (s : TrySelector K) (tries : List (TryEntry K)) :
    (render env s tries).height = (refreshSize env s).height := by
  simp only [render]
  split <;> rfl

theorem render_scrollOffset (env : Env K) (s : TrySelector K) (tries : List (TryEntry K)) :
    (render env s tries).scrollOffset =
      if s.cursorPos < s.scrollOffset then s.cursorPos
      else if s.cursorPos ≥ s.scrollOffset + max 3 ((render env s tries).height - 6) then
        s.cursorPos - max 3 ((render env s tries).height - 6) + 1
      else s.scrollOffset := by
  rw [render_height]
  have hm : ∀ x : Int, (if x - 4 - 2 < 3 then 3 else x - 4 - 2) = max 3 (x - 6) := by
    intro x
    split <;> omega
  simp only [render]
  split <;> simp only [hm] <;> rfl

/-- The two clamps of `mainLoop` bring the cursor into range and change nothing else. -/
theorem clamp_spec (s1 : TrySelector K) (total : Int) (s3 : TrySelector K)
    (h : s3 = (if (if s1.cursorPos < 0 then { s1 with cursorPos := 0 } else s1).cursorPos
          > (if total - 1 < 0 then 0 else total - 1) then
        { (if s1.cursorPos < 0 then { s1 with cursorPos := 0 } else s1) with
          cursorPos := (if total - 1 < 0 then 0 else total - 1) }
      else (if s1.cursorPos < 0 then { s1 with cursorPos := 0 } else s1))) :
    0 ≤ s3.cursorPos ∧ s3.cursorPos ≤ max (total - 1) 0
      ∧ s3.scrollOffset = s1.scrollOffset ∧ s3.markedForDelete = s1.markedForDelete
      ∧ s3.deleteMode = s1.deleteMode ∧ s3.inputBuffer = s1.inputBuffer
      ∧ s3.selected = s1.selected ∧ s3.basePath = s1.basePath
      ∧ s3.inputCursorPos = s1.inputCursorPos := by
  subst h
  by_cases h1 : s1.cursorPos < 0
  · rw [if_pos h1]
    by_cases h2 : total - 1 < 0
    · rw [if_pos h2]
      have : ¬ ((0 : Int) > 0) := by omega
      rw [if_neg this]
      exact ⟨le_refl _, le_max_right _ _, rfl, rfl, rfl, rfl, rfl, rfl, rfl⟩
    · rw [if_neg h2]
      have : ¬ ((0 : Int) > total - 1) := by omega
      rw [if_neg this]
      exact ⟨le_refl _, le_max_right _ _, rfl, rfl, rfl, rfl, rfl, rfl, rfl⟩
  · rw [if_neg h1]
    by_cases h3 : s1.cursorPos > (if total - 1 < 0 then 0 else total - 1)
    · rw [if_pos h3]
      refine ⟨?_, ?_, rfl, rfl, rfl, rfl, rfl, rfl, rfl⟩
      · show 0 ≤ (if total - 1 < 0 then (0 : Int) else total - 1)
        split <;> omega
      · show (if total - 1 < 0 then (0 : Int) else total - 1) ≤ max (total - 1) 0
        split
        · exact le_max_right _ _
        · exact le_max_left _ _
    · rw [if_neg h3]
      refine ⟨by omega, ?_, rfl, rfl, rfl, rfl, rfl, rfl, rfl⟩
      have h4 : (if total - 1 < 0 then (0 : Int) else total - 1) ≤ max (total - 1) 0 := by
        split
        · exact le_max_right _ _
        · exact le_max_left _ _
      omega

theorem loopHead_clamp (env : Env K) (s : TrySelector K) :
    0 ≤ (loopHead env s).clamped.cursorPos
      ∧ (loopHead env s).clamped.cursorPos ≤ max ((loopHead env s).totalItems - 1) 0
      ∧ (loopHead env s).clamped.scrollOffset = (getTries env s).2.scrollOffset
      ∧ (loopHead env s).clamped.markedForDelete = (getTries env s).2.markedForDelete
      ∧ (loopHead env s).clamped.deleteMode = (getTries env s).2.deleteMode
      ∧ (loopHead env s).clamped.inputBuffer = (getTries env s).2.inputBuffer
      ∧ (loopHead env s).clamped.selected = (getTries env s).2.selected
      ∧ (loopHead env s).clamped.basePath = (getTries env s).2.basePath
      ∧ (loopHead env s).clamped.inputCursorPos = (getTries env s).2.inputCursorPos :=
  clamp_spec (getTries env s).2 (loopHead env s).totalItems (loopHead env s).clamped rfl

theorem loopHead_clamped (env : Env K) (s : TrySelector K) :
    0 ≤ (loopHead env s).clamped.cursorPos
      ∧ (loopHead env s).clamped.cursorPos ≤ max ((loopHead env s).totalItems - 1) 0 :=
  ⟨(loopHead_clamp env s).1, (loopHead_clamp env s).2.1⟩

theorem loopHead_fields (env : Env K) (s : TrySelector K) :
    (loopHead env s).tries = (getTries env s).1
      ∧ (loopHead env s).rendered = render env (loopHead env s).clamped (loopHead env s).tries
      ∧ (loopHead env s).key = (readKey env (loopHead env s).rendered).1
      ∧ (loopHead env s).sel = (readKey env (loopHead env s).rendered).2
      ∧ (loopHead env s).clamped.scrollOffset = s.scrollOffset
      ∧ (loopHead env s).clamped.markedForDelete = s.markedForDelete
      ∧ (loopHead env s).clamped.deleteMode = s.deleteMode
      ∧ (loopHead env s).clamped.inputBuffer = s.inputBuffer
      ∧ (loopHead env s).clamped.selected = s.selected
      ∧ (loopHead env s).clamped.basePath = s.basePath := by
  refine ⟨rfl, rfl, rfl, rfl, ?_⟩
  obtain ⟨h1, _, h3, _, h5, h6⟩ := getTries_frame env s
  obtain ⟨h7, h8⟩ := getTries_marks env s
  obtain ⟨_, _, c1, c2, c3, c4, c5, c6, _⟩ := loopHead_clamp env s
  exact ⟨c1.trans h1, c2.trans h8, c3.trans h7, c4.trans h3, c5.trans h5, c6.trans h6⟩

theorem loopHead_sel (env : Env K) (s : TrySelector K) :
    (loopHead env s).sel.cursorPos = (loopHead env s).clamped.cursorPos
      ∧ (loopHead env s).sel.scrollOffset = (loopHead env s).rendered.scrollOffset
      ∧ (loopHead env s).sel.markedForDelete = s.markedForDelete
      ∧ (loopHead env s).sel.deleteMode = s.deleteMode
      ∧ (loopHead env s).sel.inputBuffer = s.inputBuffer
      ∧ (loopHead env s).sel.selected = s.selected
      ∧ (loopHead env s).sel.basePath = s.basePath := by
  obtain ⟨_, hr, _, hs, _, h2, h3, h4, h5, h6⟩ := loopHead_fields env s
  have hk := readKey_frame env (loopHead env s).rendered
  have hkm := readKey_marks env (loopHead env s).rendered
  have hf := render_frame env (loopHead env s).clamped (loopHead env s).tries
  have hm := render_marks env (loopHead env s).clamped (loopHead env s).tries
  rw [← hr] at hf hm
  rw [← hs] at hk hkm
  refine ⟨?_, hk.1, ?_, ?_, ?_, ?_, ?_⟩
  · rw [hk.2.1, hf.1]
  · rw [hkm.2, hm.2, h2]
  · rw [hkm.1, hm.1, h3]
  · rw [hk.2.2.1, hf.2.1, h4]
  · rw [hk.2.2.2.2.1, hf.2.2.2.1, h5]
  · rw [hk.2.2.2.2.2.1, hf.2.2.2.2, h6]

theorem loopHead_totalItems (env : Env K) (s : TrySelector K) :
    (loopHead env s).totalItems
      = ((loopHead env s).tries.length : Int)
        + (if (loopHead env s).sel.inputBuffer ≠ [] then 1 else 0) := by
  rw [(loopHead_sel env s).2.2.2.2.1, ← (getTries_frame env s).2.2.1]
  simp only [loopHead]
  by_cases h : (getTries env s).2.inputBuffer = [] <;> simp [h]

/-- What `render` does to the scroll offset in an iteration whose scroll offset is not
negative at the start. -/
theorem loopHead_scroll (env : Env K) (s : TrySelector K) (h0 : 0 ≤ s.scrollOffset) :
    0 ≤ (loopHead env s).rendered.scrollOffset
      ∧ (loopHead env s).rendered.scrollOffset ≤ (loopHead env s).rendered.cursorPos
      ∧ (loopHead env s).rendered.cursorPos
        < (loopHead env s).rendered.scrollOffset + max 3 ((loopHead env s).rendered.height - 6) := by
  obtain ⟨_, hr, _, _, hsc, _⟩ := loopHead_fields env s
  have hc := (loopHead_clamped env s).1
  have hso := render_scrollOffset env (loopHead env s).clamped (loopHead env s).tries
  have hcur := (render_frame env (loopHead env s).clamped (loopHead env s).tries).1
  rw [← hr] at hso hcur
  rw [hcur, hso, hsc]
  have h3 : (3 : Int) ≤ max 3 ((loopHead env s).rendered.height - 6) := le_max_left _ _
  generalize max 3 ((loopHead env s).rendered.height - 6) = m at *
  split
  · omega
  · split <;> omega

theorem indexOfFrom_not_mem (item : GoString) :
    ∀ (l : List GoString) (i : Nat), item ∉ l → indexOfFrom item l i = -1 := by
  intro l
  induction l with
  | nil => intro i _; rfl
  | cons a l ih =>
    intro i h
    have ha : a ≠ item := fun e => h (e ▸ List.mem_cons_self _ _)
    simp only [indexOfFrom, ha, if_false]
    exact ih (i + 1) (fun hm => h (List.mem_cons_of_mem _ hm))

theorem indexOfFrom_mem (item : GoString) :
    ∀ (l : List GoString) (i : Nat), item ∈ l →
      ∃ k : Nat, indexOfFrom item l i = ((i + k : Nat) : Int)
        ∧ l.take k ++ l.drop (k + 1) = l.erase item := by
  intro l
  induction l with
  | nil => intro i h; cases h
  | cons a l ih =>
    intro i h
    by_cases ha : a = item
    · subst ha
      exact ⟨0, by simp [indexOfFrom], by simp⟩
    · have hm : item ∈ l := by
        rcases List.mem_cons.mp h with e | hm
        · exact absurd e.symm ha
        · exact hm
      obtain ⟨k, hk1, hk2⟩ := ih (i + 1) hm
      refine ⟨k + 1, ?_, ?_⟩
      · simp only [indexOfFrom, ha, if_false, hk1]
        congr 1
        omega
      · rw [List.take_succ_cons, List.drop_succ_cons, List.cons_append, hk2,
          List.erase_cons_tail]
        simpa using ha

/-- The marks after Ctrl-D on an entry with path `path`. -/
theorem toggleMark_eq (s : TrySelector K) (tries : List (TryEntry K)) (t : TryEntry K)
    (hc : 0 ≤ s.cursorPos) (ht : tries[s.cursorPos.toNat]? = some t) (hinv : MarksInv s) :
    toggleMark s tries =
      { s with
        markedForDelete :=
          if t.Item.Path ∈ s.markedForDelete then s.markedForDelete.erase t.Item.Path
          else s.markedForDelete ++ [t.Item.Path]
        deleteMode :=
          decide ((if t.Item.Path ∈ s.markedForDelete then s.markedForDelete.erase t.Item.Path
            else s.markedForDelete ++ [t.Item.Path]) ≠ []) } := by
  have hlt : s.cursorPos < (tries.length : Int) := by
    have := (List.getElem?_eq_some_iff.mp ht).1
    omega
  unfold toggleMark
  rw [if_pos hlt, ht]
  dsimp only
  by_cases hm : t.Item.Path ∈ s.markedForDelete
  · obtain ⟨k, hk1, hk2⟩ := indexOfFrom_mem t.Item.Path s.markedForDelete 0 hm
    have hidx : indexOf s.markedForDelete t.Item.Path = (k : Int) := by
      rw [indexOf, hk1]; simp
    have hge : indexOf s.markedForDelete t.Item.Path ≥ 0 := by rw [hidx]; omega
    rw [if_pos hge, if_pos hm]
    simp only [hidx, Int.toNat_ofNat, hk2]
    have hd : s.deleteMode = true := hinv.mpr (List.ne_nil_of_mem hm)
    by_cases he : s.markedForDelete.erase t.Item.Path = []
    · simp [he]
    · have hl : ¬ (s.markedForDelete.erase t.Item.Path).length = 0 := by
        rwa [List.length_eq_zero]
      simp [he, hl, hd]
  · have hidx : indexOf s.markedForDelete t.Item.Path = -1 :=
      indexOfFrom_not_mem _ _ 0 hm
    have hlt0 : ¬ indexOf s.markedForDelete t.Item.Path ≥ 0 := by rw [hidx]; omega
    rw [if_neg hlt0, if_neg hm]
    simp

theorem toggleMark_off_list (s : TrySelector K) (tries : List (TryEntry K))
    (h : (tries.length : Int) ≤ s.cursorPos) : toggleMark s tries = s := by
  unfold toggleMark
  rw [if_neg (by omega)]

theorem toggleMark_scroll (s : TrySelector K) (tries : List (TryEntry K)) :
    (toggleMark s tries).scrollOffset = s.scrollOffset := by
  unfold toggleMark
  split
  · split
    · rfl
    · dsimp only
      split <;> split <;> rfl
  · rfl

theorem toggleMark_nodup (s : TrySelector K) (tries : List (TryEntry K))
    (h : s.markedForDelete.Nodup) : (toggleMark s tries).markedForDelete.Nodup := by
  unfold toggleMark
  split
  · split
    · exact h
    · rename_i t _
      dsimp only
      by_cases hm : t.Item.Path ∈ s.markedForDelete
      · obtain ⟨k, hk1, hk2⟩ := indexOfFrom_mem t.Item.Path s.markedForDelete 0 hm
        have hidx : indexOf s.markedForDelete t.Item.Path = (k : Int) := by
          rw [indexOf, hk1]; simp
        have hge : indexOf s.markedForDelete t.Item.Path ≥ 0 := by rw [hidx]; omega
        rw [if_pos hge]
        simp only [hidx, Int.toNat_ofNat, hk2]
        split <;> exact h.erase _
      · have hidx : indexOf s.markedForDelete t.Item.Path = -1 :=
          indexOfFrom_not_mem _ _ 0 hm
        have hlt0 : ¬ indexOf s.markedForDelete t.Item.Path ≥ 0 := by rw [hidx]; omega
        rw [if_neg hlt0]
        have hn : (s.markedForDelete ++ [t.Item.Path]).Nodup := by
          rw [List.nodup_append]
          refine ⟨h, List.nodup_singleton _, ?_⟩
          intro a ha hb
          rw [List.mem_singleton] at hb
          exact hm (hb ▸ ha)
        split <;> exact hn
  · exact h

theorem LoopInv_stable : KeyStable (LoopInv (K := K)) where
  congr := by
    intro s t ⟨h1, h2, h3⟩ e1 e2 e3
    exact ⟨e1 ▸ h1, e2 ▸ h2, MarksInv_of_eq h3 e3 e2⟩
  clear := by
    intro s t ⟨h1, _, _⟩ e1 e2 e3
    exact ⟨e1 ▸ h1, e2 ▸ List.nodup_nil, MarksInv_cleared _ e3 e2⟩
  toggle := by
    intro s tries ⟨h1, h2, h3⟩
    exact ⟨(toggleMark_scroll s tries) ▸ h1, toggleMark_nodup s tries h2,
      toggleMark_inv s tries h3⟩

theorem loopHead_loopInv (env : Env K) (s : TrySelector K) (h : LoopInv s) :
    LoopInv (loopHead env s).sel := by
  obtain ⟨h1, h2, h3⟩ := h
  obtain ⟨_, e2, e3, e4, _⟩ := loopHead_sel env s
  refine ⟨?_, e3 ▸ h2, MarksInv_of_eq h3 e4 e3⟩
  rw [e2]
  exact (loopHead_scroll env s h1).1

theorem mainLoopIter_loopInv (env : Env K) (fuel : Nat) (s : TrySelector K) (r : LoopStep K)
    (hs : LoopInv s) (h : mainLoopIter env fuel s = some r) : LoopInv r.state := by
  rw [mainLoopIter_eq_loopHead] at h
  have hh := loopHead_loopInv env s hs
  split at h
  · cases h; exact hh
  · exact handleKey_stable LoopInv_stable env fuel _ _ _ _ _ hh r h

theorem reachable_loopInv (env : Env K) (s0 s : TrySelector K) (h0 : LoopInv s0)
    (h : Reachable env s0 s) : LoopInv s := by
  induction h with
  | init => exact h0
  | iter fuel s r _ hr ih => exact mainLoopIter_loopInv env fuel s r ih hr

theorem NewTrySelector_loopInv (searchTerm basePath andType : GoString) (andExit : Bool)
    (andKeys : List GoString) (andConfirm : GoString) (stdin : List ReadEvent) :
    LoopInv (NewTrySelector (K := K) searchTerm basePath andType andExit andKeys andConfirm
      stdin) :=
  ⟨le_refl _, List.nodup_nil, MarksInv_cleared _ rfl rfl⟩

theorem iterate_reachable (env : Env K) (fuel : Nat) (s0 : TrySelector K) :
    ∀ (n : Nat) (s t : TrySelector K), Reachable env s0 s → iterate env fuel n s = some t →
      Reachable env s0 t := by
  intro n
  induction n with
  | zero =>
    intro s t hs h
    simp only [iterate, Option.some.injEq] at h
    exact h ▸ hs
  | succ n ih =>
    intro s t hs h
    simp only [iterate] at h
    cases hm : mainLoopIter env fuel s with
    | none => simp [hm] at h
    | some r =>
      simp only [hm] at h
      exact ih r.state t (Reachable.iter fuel s r hs hm) h

theorem handleKey_up (env : Env K) (fuel : Nat) (s : TrySelector K)
    (tries : List (TryEntry K)) (showCreateNew : Bool) (totalItems : Int) (key : GoString)
    (hk : key = [27, 91, 65] ∨ key = [16]) :
    handleKey env fuel s tries showCreateNew totalItems key
      = some (.next (if s.cursorPos > 0 then { s with cursorPos := s.cursorPos - 1 } else s)) := by
  rcases hk with rfl | rfl <;> simp [handleKey]

theorem handleKey_down (env : Env K) (fuel : Nat) (s : TrySelector K)
    (tries : List (TryEntry K)) (showCreateNew : Bool) (totalItems : Int) (key : GoString)
    (hk : key = [27, 91, 66] ∨ key = [14]) :
    handleKey env fuel s tries showCreateNew totalItems key
      = some (.next
          (if s.cursorPos < totalItems - 1 then { s with cursorPos := s.cursorPos + 1 } else s)) := by
  rcases hk with rfl | rfl <;> simp [handleKey]

theorem handleKey_esc (env : Env K) (fuel : Nat) (s : TrySelector K)
    (tries : List (TryEntry K)) (showCreateNew : Bool) (totalItems : Int) (key : GoString)
    (hk : key = [27] ∨ key = [3]) :
    handleKey env fuel s tries showCreateNew totalItems key
      = if s.deleteMode then some (.next { s with markedForDelete := [], deleteMode := false })
        else some (.done { s with selected := none }) := by
  rcases hk with rfl | rfl <;> simp [handleKey]

theorem handleKey_ctrlD (env : Env K) (fuel : Nat) (s : TrySelector K)
    (tries : List (TryEntry K)) (showCreateNew : Bool) (totalItems : Int) :
    handleKey env fuel s tries showCreateNew totalItems [4]
      = some (.next (toggleMark s tries)) := by
  simp [handleKey]

theorem handleKey_enter (env : Env K) (fuel : Nat) (s : TrySelector K)
    (tries : List (TryEntry K)) (showCreateNew : Bool) (totalItems : Int) (key : GoString)
    (hk : key = [13] ∨ key = [10]) :
    handleKey env fuel s tries showCreateNew totalItems key
      = if s.deleteMode ∧ s.markedForDelete.length > 0 then
          (confirmBatchDelete env fuel s tries).map returnIfSelected
        else if s.cursorPos < tries.length then
          match tries[s.cursorPos.toNat]? with
          | some t => some (returnIfSelected (handleSelection s t))
          | none => some (.next s)
        else if showCreateNew then some (returnIfSelected (handleCreateNew env s))
        else some (.next s) := by
  unfold handleKey
  rw [if_pos hk]

theorem mainLoopIter_key (env : Env K) (fuel : Nat) (s : TrySelector K)
    (h : (loopHead env s).key ≠ []) :
    mainLoopIter env fuel s = handleKey env fuel (loopHead env s).sel (loopHead env s).tries
        (loopHead env s).showCreateNew (loopHead env s).totalItems (loopHead env s).key := by
  rw [mainLoopIter_eq_loopHead, if_neg h]

theorem checkPaths_ok (env : Env K) (baseReal : GoString) :
    ∀ (items : List (TryEntry K)) (acc paths : List DeletePath),
      checkPaths env baseReal items acc = .ok paths →
      paths = acc ++ items.map (fun it =>
          { Path := realPath env it.Item.Path, Basename := it.Item.Basename })
        ∧ ∀ it ∈ items, (baseReal ++ str "/").isPrefixOf (realPath env it.Item.Path) = true := by
  intro items
  induction items with
  | nil =>
    intro acc paths h
    simp only [checkPaths, Except.ok.injEq] at h
    subst h
    simp
  | cons it rest ih =>
    intro acc paths h
    simp only [checkPaths] at h
    split at h
    · cases h
    · rename_i hp
      obtain ⟨h1, h2⟩ := ih _ _ h
      have hp2 : (baseReal ++ str "/").isPrefixOf (realPath env it.Item.Path) = true := by
        simpa [realPath] using hp
      refine ⟨?_, ?_⟩
      · rw [h1]
        simp [realPath]
      · intro x hx
        rcases List.mem_cons.mp hx with rfl | hx
        · exact hp2
        · exact h2 x hx

theorem checkPaths_all_ok (env : Env K) (baseReal : GoString) :
    ∀ (items : List (TryEntry K)) (acc : List DeletePath),
      (∀ it ∈ items, (baseReal ++ str "/").isPrefixOf (realPath env it.Item.Path) = true) →
      checkPaths env baseReal items acc
        = .ok (acc ++ items.map (fun it =>
            { Path := realPath env it.Item.Path, Basename := it.Item.Basename })) := by
  intro items
  induction items with
  | nil => intro acc _; simp [checkPaths]
  | cons it rest ih =>
    intro acc h
    have hp := h it (List.mem_cons_self _ _)
    have hp2 : (baseReal ++ str "/").isPrefixOf
        ((env.evalSymlinks it.Item.Path).getD it.Item.Path) = true := hp
    simp only [checkPaths, hp2, Bool.not_true, Bool.false_eq_true, if_false]
    rw [ih _ (fun x hx => h x (List.mem_cons_of_mem _ hx))]
    simp [realPath]

theorem processDeleteConfirmation_outcome (env : Env K) (s : TrySelector K)
    (items : List (TryEntry K)) (confirmation : GoString) :
    ConfirmOutcome env items s.selected s.basePath
      (processDeleteConfirmation env s items confirmation) := by
  unfold processDeleteConfirmation
  split
  · dsimp only
    cases hc : checkPaths env ((env.evalSymlinks s.basePath).getD s.basePath) items [] with
    | error status =>
      refine ⟨?_, Or.inl rfl⟩
      obtain ⟨bad, _, hbad⟩ : ∃ bad ∈ items, checkPaths env
          ((env.evalSymlinks s.basePath).getD s.basePath) items []
          = .error (str "Safety check failed: "
            ++ (env.evalSymlinks bad.Item.Path).getD bad.Item.Path
            ++ str " not in " ++ (env.evalSymlinks s.basePath).getD s.basePath) := by
        apply checkPaths_error
        by_contra hno
        have hall : ∀ it ∈ items, ((env.evalSymlinks s.basePath).getD s.basePath
            ++ str "/").isPrefixOf (realPath env it.Item.Path) = true := by
          intro it hit
          by_contra hf
          exact hno ⟨it, hit, by
            cases hb : (((env.evalSymlinks s.basePath).getD s.basePath) ++ str "/").isPrefixOf
                ((env.evalSymlinks it.Item.Path).getD it.Item.Path) with
            | false => rfl
            | true => exact absurd hb hf⟩
        rw [checkPaths_all_ok env _ items [] hall] at hc
        cases hc
      rw [hbad] at hc
      cases hc
      show str "Safety check failed: " ++ _ ++ _ ++ _ ≠ []
      simp only [List.append_assoc]
      exact List.append_ne_nil_of_left_ne_nil (by decide) _
    | ok paths =>
      obtain ⟨h1, h2⟩ := checkPaths_ok env _ items [] paths hc
      refine ⟨?_, Or.inr ⟨?_, h2, rfl, rfl, rfl, rfl⟩⟩
      · show str "Deleted: " ++ _ ≠ []
        exact List.append_ne_nil_of_left_ne_nil (by decide) _
      · show some _ = some _
        rw [h1]
        rfl
  · exact ⟨by show str "Delete cancelled" ≠ []; decide, Or.inl rfl⟩

theorem confirmIter_outcome (env : Env K) (items : List (TryEntry K))
    (sel0 : Option SelectionResult) (basePath : GoString) (s : TrySelector K)
    (buf : GoString) (cur : Nat) (h1 : s.selected = sel0) (h2 : s.basePath = basePath) :
    match confirmIter env items s buf cur with
    | .exit t => ConfirmOutcome env items sel0 basePath t
    | .again t _ _ => t.selected = sel0 ∧ t.basePath = basePath := by
  have hk1 : (readKey env s).2.selected = sel0 := by rw [(readKey_frame env s).2.2.2.2.1, h1]
  have hk2 : (readKey env s).2.basePath = basePath := by
    rw [(readKey_frame env s).2.2.2.2.2.1, h2]
  unfold confirmIter
  dsimp only
  generalize (readKey env s).1 = key at *
  generalize (readKey env s).2 = s2 at *
  have hcancel : ConfirmOutcome env items sel0 basePath
      { s2 with deleteStatus := str "Delete cancelled", markedForDelete := [],
                deleteMode := false } :=
    ⟨by show str "Delete cancelled" ≠ []; decide, Or.inl hk1⟩
  have I := @ite_ind (ConfirmStep K) (fun r =>
    match r with
    | .exit t => ConfirmOutcome env items sel0 basePath t
    | .again t _ _ => t.selected = sel0 ∧ t.basePath = basePath)
  apply I
  · have := processDeleteConfirmation_outcome env s2 items buf
    rw [hk1, hk2] at this
    exact this
  apply I
  · exact hcancel
  apply I
  · apply I <;> exact ⟨hk1, hk2⟩
  apply I
  · exact hcancel
  match key with
  | [] => exact ⟨hk1, hk2⟩
  | [b] => apply I <;> exact ⟨hk1, hk2⟩
  | _ :: _ :: _ => exact ⟨hk1, hk2⟩

theorem confirmLoop_outcome (env : Env K) (items : List (TryEntry K))
    (sel0 : Option SelectionResult) (basePath : GoString) :
    ∀ (fuel : Nat) (s : TrySelector K) (buf : GoString) (cur : Nat) (t : TrySelector K),
      s.selected = sel0 → s.basePath = basePath →
      confirmLoop env items fuel s buf cur = some t →
      ConfirmOutcome env items sel0 basePath t := by
  intro fuel
  induction fuel with
  | zero => intro s buf cur t _ _ h; simp [confirmLoop] at h
  | succ fuel ih =>
    intro s buf cur t h1 h2 h
    have hi := confirmIter_outcome env items sel0 basePath s buf cur h1 h2
    rw [confirmLoop] at h
    cases hc : confirmIter env items s buf cur with
    | exit s2 =>
      rw [hc] at h hi
      cases h
      exact hi
    | again s2 b2 c2 =>
      rw [hc] at h hi
      exact ih s2 b2 c2 t hi.1 hi.2 h

theorem indexOf_nonneg_iff (marks : List GoString) (path : GoString) :
    indexOf marks path ≥ 0 ↔ path ∈ marks := by
  constructor
  · intro h
    by_contra hm
    rw [indexOf, indexOfFrom_not_mem _ _ 0 hm] at h
    omega
  · intro hm
    obtain ⟨k, hk, _⟩ := indexOfFrom_mem path marks 0 hm
    rw [indexOf, hk]
    omega

theorem confirmBatchDelete_items (s : TrySelector K) (tries : List (TryEntry K)) :
    (tries.filter fun t => decide (indexOf s.markedForDelete t.Item.Path ≥ 0))
      = tries.filter fun t => decide (t.Item.Path ∈ s.markedForDelete) := by
  apply List.filter_congr
  intro t _
  simp only [indexOf_nonneg_iff]

/-- What `confirmBatchDelete` does: nothing when no entry of the list is marked, else the
confirmation with the marked entries of the list. -/
theorem confirmBatchDelete_outcome (env : Env K) (fuel : Nat) (s : TrySelector K)
    (tries : List (TryEntry K)) (t : TrySelector K)
    (h : confirmBatchDelete env fuel s tries = some t) :
    ((tries.filter fun x => decide (x.Item.Path ∈ s.markedForDelete)) = [] → t = s)
      ∧ ((tries.filter fun x => decide (x.Item.Path ∈ s.markedForDelete)) ≠ [] →
          ConfirmOutcome env (tries.filter fun x => decide (x.Item.Path ∈ s.markedForDelete))
            s.selected s.basePath t) := by
  rw [← confirmBatchDelete_items]
  simp only [confirmBatchDelete] at h
  generalize (tries.filter fun t => decide (indexOf s.markedForDelete t.Item.Path ≥ 0))
    = items at *
  by_cases hi : items.length = 0
  · rw [if_pos hi] at h
    cases h
    exact ⟨fun _ => rfl, fun hne => absurd (List.length_eq_zero.mp hi) hne⟩
  · rw [if_neg hi] at h
    refine ⟨fun he => absurd (by rw [he]; rfl) hi, fun _ => ?_⟩
    split_ifs at h
    · cases h
      exact processDeleteConfirmation_outcome env { s with testKeys := _ } items _
    · cases h
      exact processDeleteConfirmation_outcome env s items _
    · exact confirmLoop_outcome env items s.selected s.basePath fuel s _ _ t rfl rfl h

theorem loadAllTries_frame (env : Env K) (s : TrySelector K) :
    (loadAllTries env s).fuzzy = s.fuzzy ∧ (loadAllTries env s).inputBuffer = s.inputBuffer := by
  unfold loadAllTries
  split
  · exact ⟨rfl, rfl⟩
  · split <;> exact ⟨rfl, rfl⟩

/-- The ranked list of `getTries` is the result of `Match` on the cached matcher. -/
theorem getTries_fills (env : Env K) (s : TrySelector K) :
    ∃ f : Fuzzy K, (getTries env s).2.fuzzy = some f
      ∧ (getTries env s).1
        = (Fuzzy.Match env f s.inputBuffer).map
            (fun m => TryEntry.mk m.Entry m.Score m.Positions) := by
  refine ⟨_, rfl, ?_⟩
  simp only [getTries]
  rw [(loadAllTries_frame env s).2]

theorem getTries_cached (env : Env K) (s : TrySelector K) (f : Fuzzy K)
    (h : s.fuzzy = some f) :
    (getTries env s).1
      = (Fuzzy.Match env f s.inputBuffer).map
          (fun m => TryEntry.mk m.Entry m.Score m.Positions) := by
  simp only [getTries]
  rw [(loadAllTries_frame env s).2, (loadAllTries_frame env s).1, h]

theorem render_fuzzy (env : Env K) (s : TrySelector K) (tries : List (TryEntry K)) :
    (render env s tries).fuzzy = s.fuzzy := by
  simp only [render]
  split <;> rfl

theorem clamp_fuzzy (s1 : TrySelector K) (total : Int) :
    (if (if s1.cursorPos < 0 then { s1 with cursorPos := 0 } else s1).cursorPos
          > (if total - 1 < 0 then 0 else total - 1) then
        { (if s1.cursorPos < 0 then { s1 with cursorPos := 0 } else s1) with
          cursorPos := (if total - 1 < 0 then 0 else total - 1) }
      else (if s1.cursorPos < 0 then { s1 with cursorPos := 0 } else s1)).fuzzy = s1.fuzzy := by
  have I : ∀ (c : Prop) [Decidable c] (a b : TrySelector K),
      a.fuzzy = s1.fuzzy → b.fuzzy = s1.fuzzy → (if c then a else b).fuzzy = s1.fuzzy := by
    intro c _ a b ha hb
    by_cases hc : c
    · rw [if_pos hc]; exact ha
    · rw [if_neg hc]; exact hb
  have h1 : (if s1.cursorPos < 0 then { s1 with cursorPos := 0 } else s1).fuzzy = s1.fuzzy :=
    I _ _ _ rfl rfl
  exact I _ _ _ h1 h1

theorem loopHead_fuzzy (env : Env K) (s : TrySelector K) :
    (loopHead env s).sel.fuzzy = (getTries env s).2.fuzzy := by
  obtain ⟨_, hr, _, hs, _⟩ := loopHead_fields env s
  rw [hs, (readKey_frame env _).2.2.2.2.2.2.2.2, hr, render_fuzzy]
  exact clamp_fuzzy (getTries env s).2 (loopHead env s).totalItems

/-- The list of an iteration is the ranking, by the matcher the selector holds afterwards,
of its input buffer. -/
theorem loopHead_tries (env : Env K) (s : TrySelector K) :
    ∃ f : Fuzzy K, (loopHead env s).sel.fuzzy = some f
      ∧ (loopHead env s).tries
        = (Fuzzy.Match env f (loopHead env s).sel.inputBuffer).map
            (fun m => TryEntry.mk m.Entry m.Score m.Positions) := by
  obtain ⟨f, h1, h2⟩ := getTries_fills env s
  refine ⟨f, (loopHead_fuzzy env s).trans h1, ?_⟩
  rw [(loopHead_sel env s).2.2.2.2.1]
  exact h2

theorem toggleMark_frame (s : TrySelector K) (tries : List (TryEntry K)) :
    (toggleMark s tries).fuzzy = s.fuzzy
      ∧ (toggleMark s tries).inputBuffer = s.inputBuffer
      ∧ (toggleMark s tries).cursorPos = s.cursorPos := by
  unfold toggleMark
  split
  · split
    · exact ⟨rfl, rfl, rfl⟩
    · dsimp only
      split <;> split <;> exact ⟨rfl, rfl, rfl⟩
  · exact ⟨rfl, rfl, rfl⟩

theorem clamp_fixed (s1 : TrySelector K) (total : Int) (h0 : 0 ≤ s1.cursorPos)
    (h1 : s1.cursorPos ≤ max (total - 1) 0) :
    (if (if s1.cursorPos < 0 then { s1 with cursorPos := 0 } else s1).cursorPos
          > (if total - 1 < 0 then 0 else total - 1) then
        { (if s1.cursorPos < 0 then { s1 with cursorPos := 0 } else s1) with
          cursorPos := (if total - 1 < 0 then 0 else total - 1) }
      else (if s1.cursorPos < 0 then { s1 with cursorPos := 0 } else s1)) = s1 := by
  have hn : ¬ s1.cursorPos < 0 := by omega
  have hm : (if total - 1 < 0 then 0 else total - 1) = max (total - 1) 0 := by
    split <;> omega
  rw [if_neg hn, hm, if_neg (by omega)]

/-- The next iteration on a selector that kept the matcher, the input buffer and a cursor
within the list ranks the same list and keeps the cursor. -/
theorem loopHead_again (env : Env K) (s u : TrySelector K)
    (hf : u.fuzzy = (loopHead env s).sel.fuzzy)
    (hb : u.inputBuffer = (loopHead env s).sel.inputBuffer)
    (hc : u.cursorPos = (loopHead env s).sel.cursorPos) :
    (loopHead env u).tries = (loopHead env s).tries
      ∧ (loopHead env u).sel.cursorPos = (loopHead env s).sel.cursorPos := by
  obtain ⟨f, h1, h2⟩ := loopHead_tries env s
  have ht : (loopHead env u).tries = (loopHead env s).tries := by
    rw [h2, ← hb]
    exact getTries_cached env u f (hf.trans h1)
  refine ⟨ht, ?_⟩
  have htot : (loopHead env u).totalItems = (loopHead env s).totalItems := by
    rw [loopHead_totalItems, loopHead_totalItems, ht, (loopHead_sel env u).2.2.2.2.1, hb]
  have hcl := loopHead_clamped env s
  rw [← (loopHead_sel env s).1, ← hc, ← htot] at hcl
  rw [(loopHead_sel env u).1]
  have hg := getTries_frame env u
  have hfix := clamp_fixed (getTries env u).2 (loopHead env u).totalItems
    (by rw [hg.2.1]; exact hcl.1) (by rw [hg.2.1]; exact hcl.2)
  have : (loopHead env u).clamped = (getTries env u).2 := hfix
  rw [this, hg.2.1, hc]

/-- Membership in the marks after Ctrl-D on the entry `t`. -/
theorem toggleMark_mem (s : TrySelector K) (tries : List (TryEntry K)) (t : TryEntry K)
    (hc : 0 ≤ s.cursorPos) (ht : tries[s.cursorPos.toNat]? = some t) (hinv : LoopInv s)
    (q : GoString) :
    q ∈ (toggleMark s tries).markedForDelete
      ↔ (q ≠ t.Item.Path ∧ q ∈ s.markedForDelete)
        ∨ (q = t.Item.Path ∧ t.Item.Path ∉ s.markedForDelete) := by
  rw [toggleMark_eq s tries t hc ht hinv.2.2]
  dsimp only
  by_cases hm : t.Item.Path ∈ s.markedForDelete
  · rw [if_pos hm, hinv.2.1.mem_erase_iff]
    constructor
    · intro h; exact Or.inl h
    · rintro (h | ⟨_, h⟩)
      · exact h
      · exact absurd hm h
  · rw [if_neg hm, List.mem_append, List.mem_singleton]
    constructor
    · rintro (h | h)
      · refine Or.inl ⟨?_, h⟩
        rintro rfl
        exact hm h
      · exact Or.inr ⟨h, hm⟩
    · rintro (⟨_, h⟩ | ⟨h, _⟩)
      · exact Or.inl h
      · exact Or.inr h

theorem marks_mode_eq (s u : TrySelector K) (hs : MarksInv s) (hu : MarksInv u)
    (h : ∀ p, p ∈ u.markedForDelete ↔ p ∈ s.markedForDelete) :
    u.deleteMode = s.deleteMode := by
  have e : u.markedForDelete ≠ [] ↔ s.markedForDelete ≠ [] := by
    rw [Ne, Ne, List.eq_nil_iff_forall_not_mem, List.eq_nil_iff_forall_not_mem]
    exact not_congr (forall_congr' fun p => not_congr (h p))
  have : u.deleteMode = true ↔ s.deleteMode = true := hu.trans (e.trans hs.symm)
  cases hu2 : u.deleteMode <;> cases hs2 : s.deleteMode <;> simp_all

theorem processDeleteConfirmation_input {P : TrySelector K → Prop} (hP : InputOnly P)
    (env : Env K) (s : TrySelector K) (markedItems : List (TryEntry K))
    (confirmation : GoString) (h : P s) :
    P (processDeleteConfirmation env s markedItems confirmation) := by
  unfold processDeleteConfirmation
  split
  · dsimp only
    split <;> exact hP _ _ h rfl rfl rfl
  · exact hP _ _ h rfl rfl rfl

theorem readKey_input {P : TrySelector K → Prop} (hP : InputOnly P) (env : Env K)
    (s : TrySelector K) (h : P s) : P (readKey env s).2 :=
  hP _ _ h (readKey_frame env s).2.2.1 (readKey_frame env s).2.2.2.1 (readKey_frame env s).2.1

theorem confirmIter_input {P : TrySelector K → Prop} (hP : InputOnly P) (env : Env K)
    (markedItems : List (TryEntry K)) (s : TrySelector K) (buf : GoString) (cur : Nat)
    (hs : P s) : P (confirmIter env markedItems s buf cur).sel := by
  have hk : P (readKey env s).2 := readKey_input hP env s hs
  unfold confirmIter
  dsimp only
  generalize (readKey env s).1 = key at *
  generalize (readKey env s).2 = s2 at *
  have I := @ite_ind (ConfirmStep K) (fun r => P r.sel)
  apply I
  · exact processDeleteConfirmation_input hP env _ _ _ hk
  apply I
  · exact hP _ _ hk rfl rfl rfl
  apply I
  · apply I <;> exact hk
  apply I
  · exact hP _ _ hk rfl rfl rfl
  match key with
  | [] => exact hk
  | [b] => apply I <;> exact hk
  | _ :: _ :: _ => exact hk

theorem confirmLoop_input {P : TrySelector K → Prop} (hP : InputOnly P) (env : Env K)
    (markedItems : List (TryEntry K)) :
    ∀ (fuel : Nat) (s : TrySelector K) (buf : GoString) (cur : Nat) (t : TrySelector K),
      P s → confirmLoop env markedItems fuel s buf cur = some t → P t := by
  intro fuel
  induction fuel with
  | zero => intro s buf cur t _ h; simp [confirmLoop] at h
  | succ fuel ih =>
    intro s buf cur t hs h
    have hi := confirmIter_input hP env markedItems s buf cur hs
    rw [confirmLoop] at h
    cases hc : confirmIter env markedItems s buf cur with
    | exit s2 =>
      rw [hc] at h hi
      cases h
      exact hi
    | again s2 b2 c2 =>
      rw [hc] at h hi
      exact ih s2 b2 c2 t hi h

theorem confirmBatchDelete_input {P : TrySelector K → Prop} (hP : InputOnly P) (env : Env K)
    (fuel : Nat) (s : TrySelector K) (tries : List (TryEntry K)) (t : TrySelector K)
    (hs : P s) (h : confirmBatchDelete env fuel s tries = some t) : P t := by
  simp only [confirmBatchDelete] at h
  split_ifs at h
  · cases h; exact hs
  · cases h
    exact processDeleteConfirmation_input hP env _ _ _ (hP _ _ hs rfl rfl rfl)
  · cases h; exact processDeleteConfirmation_input hP env _ _ _ hs
  · exact confirmLoop_input hP env _ fuel s _ _ t hs h

theorem finalizeRename_input {P : TrySelector K → Prop} (hP : InputOnly P) (env : Env K)
    (s : TrySelector K) (entry : TryEntry K) (buf : GoString) (h : P s) :
    P (finalizeRename env s entry buf).2 := by
  simp only [finalizeRename]
  split_ifs <;> first | exact h | exact hP _ _ h rfl rfl rfl

theorem renameIter_input {P : TrySelector K → Prop} (hP : InputOnly P) (env : Env K)
    (entry : TryEntry K) (s : TrySelector K) (buf : GoString) (cur : Nat) (err : GoString)
    (hs : P s) : P (renameIter env entry s buf cur err).sel := by
  have hk : P (readKey env s).2 := readKey_input hP env s hs
  have hf : P (finalizeRename env (readKey env s).2 entry buf).2 :=
    finalizeRename_input hP env _ entry buf hk
  unfold renameIter
  dsimp only
  generalize (readKey env s).1 = key at *
  generalize (readKey env s).2 = s2 at *
  have I := @ite_ind (RenameStep K) (fun r => P r.sel)
  apply I
  · apply I <;> exact hf
  apply I
  · exact hP _ _ hk rfl rfl rfl
  apply I
  · apply I <;> exact hk
  apply I
  · exact hk
  apply I
  · exact hk
  apply I
  · exact hk
  apply I
  · exact hk
  apply I
  · exact hk
  apply I
  · apply I <;> exact hk
  match key with
  | [] => exact hk
  | [b] => apply I <;> exact hk
  | _ :: _ :: _ => exact hk

theorem renameLoop_input {P : TrySelector K → Prop} (hP : InputOnly P) (env : Env K)
    (entry : TryEntry K) :
    ∀ (fuel : Nat) (s : TrySelector K) (buf : GoString) (cur : Nat) (err : GoString)
      (t : TrySelector K),
      P s → renameLoop env entry fuel s buf cur err = some t → P t := by
  intro fuel
  induction fuel with
  | zero => intro s buf cur err t _ h; simp [renameLoop] at h
  | succ fuel ih =>
    intro s buf cur err t hs h
    have hi := renameIter_input hP env entry s buf cur err hs
    rw [renameLoop] at h
    cases hc : renameIter env entry s buf cur err with
    | exit s2 =>
      rw [hc] at h hi
      cases h
      exact hi
    | again s2 b2 c2 e2 =>
      rw [hc] at h hi
      exact ih s2 b2 c2 e2 t hi h

theorem runRenameDialog_input {P : TrySelector K → Prop} (hP : InputOnly P) (env : Env K)
    (fuel : Nat) (s : TrySelector K) (entry : TryEntry K) (t : TrySelector K) (hs : P s)
    (h : runRenameDialog env fuel s entry = some t) : P t :=
  renameLoop_input hP env entry fuel _ _ _ _ t
    (hP s { s with deleteMode := false, markedForDelete := [] } hs rfl rfl rfl) h

/-- With a fixed selector `s`, agreeing with `s` on the input buffer and the two cursors
is a property of the input fields only. -/
theorem sameInput_inputOnly (s : TrySelector K) :
    InputOnly (fun t : TrySelector K => t.inputBuffer = s.inputBuffer
      ∧ t.inputCursorPos = s.inputCursorPos ∧ t.cursorPos = s.cursorPos) := by
  intro a b ⟨h1, h2, h3⟩ e1 e2 e3
  exact ⟨e1.trans h1, e2.trans h2, e3.trans h3⟩

theorem skipBack_le (test : Rune → Bool) (buf : GoString) (n : Nat) :
    skipBack test buf n ≤ n := by
  induction n with
  | zero => simp [skipBack]
  | succ n ih =>
    rw [skipBack]
    split
    · omega
    · exact le_refl _

theorem InputInv_inputOnly : InputOnly (InputInv (K := K)) := by
  intro s t h e1 e2 _
  unfold InputInv at *
  rw [e1, e2]
  exact h

theorem loopHead_inputCursor (env : Env K) (s : TrySelector K) :
    (loopHead env s).sel.inputCursorPos = s.inputCursorPos := by
  obtain ⟨_, hr, _, hs, _⟩ := loopHead_fields env s
  rw [hs, (readKey_frame env _).2.2.2.1, hr, (render_frame env _ _).2.2.1,
    (loopHead_clamp env s).2.2.2.2.2.2.2.2, (getTries_frame env s).2.2.2.1]

theorem loopHead_inputInv (env : Env K) (s : TrySelector K) (h : InputInv s) :
    InputInv (loopHead env s).sel := by
  unfold InputInv at *
  rw [loopHead_inputCursor, (loopHead_sel env s).2.2.2.2.1]
  exact h

theorem deleteWordBack_inputInv (s : TrySelector K) (h : InputInv s) :
    InputInv (deleteWordBack s) := by
  unfold InputInv at *
  unfold deleteWordBack
  split
  · have h1 := skipBack_le isWordChar s.inputBuffer
      (skipBack (fun r => !isWordChar r) s.inputBuffer s.inputCursorPos)
    have h2 := skipBack_le (fun r => !isWordChar r) s.inputBuffer s.inputCursorPos
    simp only [List.length_append, List.length_take, List.length_drop]
    omega
  · exact h

theorem handleKey_inputInv (env : Env K) (fuel : Nat) (s : TrySelector K)
    (tries : List (TryEntry K)) (showCreateNew : Bool) (totalItems : Int) (key : GoString)
    (hs : InputInv s) :
    ∀ r, handleKey env fuel s tries showCreateNew totalItems key = some r →
      InputInv r.state := by
  have hP := InputInv_inputOnly (K := K)
  have I := @ite_ind (Option (LoopStep K)) (fun o => ∀ r, o = some r → InputInv r.state)
  have hnext : ∀ t : TrySelector K, InputInv t →
      ∀ r, some (LoopStep.next t) = some r → InputInv r.state := by
    intro t ht r hr
    cases hr
    exact ht
  have hret : ∀ t : TrySelector K, InputInv t →
      ∀ r, some (returnIfSelected t) = some r → InputInv r.state := by
    intro t ht r hr
    cases hr
    rw [returnIfSelected_state]
    exact ht
  have hmap : ∀ o : Option (TrySelector K), (∀ t, o = some t → InputInv t) →
      ∀ r, o.map returnIfSelected = some r → InputInv r.state := by
    intro o ho r hr
    cases o with
    | none => cases hr
    | some t =>
      cases hr
      rw [returnIfSelected_state]
      exact ho t rfl
  have hsame : ∀ t : TrySelector K, t.inputBuffer = s.inputBuffer →
      t.inputCursorPos = s.inputCursorPos → InputInv t := by
    intro t h1 h2
    unfold InputInv at *
    rw [h1, h2]
    exact hs
  have hs0 : s.inputCursorPos ≤ s.inputBuffer.length := hs
  unfold handleKey
  apply I
  · apply I
    · exact hmap _ (fun t ht => confirmBatchDelete_input hP env fuel s tries t hs ht)
    apply I
    · cases tries[s.cursorPos.toNat]? with
      | none => exact hnext s hs
      | some t => exact hret _ (hsame _ rfl rfl)
    apply I
    · apply hret
      unfold handleCreateNew
      split <;> exact hsame _ rfl rfl
    · exact hnext s hs
  apply I
  · apply hnext; split <;> exact hsame _ rfl rfl
  apply I
  · apply hnext; split <;> exact hsame _ rfl rfl
  apply I
  · exact hnext s hs
  apply I
  · apply hnext
    dsimp only
    split
    · show (s.inputBuffer.take (s.inputCursorPos - 1)
          ++ s.inputBuffer.drop s.inputCursorPos).length ≥ s.inputCursorPos - 1
      simp only [List.length_append, List.length_take, List.length_drop]
      omega
    · exact hs
  apply I
  · exact hnext _ (Nat.zero_le _)
  apply I
  · exact hnext _ (le_refl _)
  apply I
  · apply hnext
    split
    · show s.inputCursorPos - 1 ≤ s.inputBuffer.length
      omega
    · exact hs
  apply I
  · apply hnext
    split
    · show s.inputCursorPos + 1 ≤ s.inputBuffer.length
      omega
    · exact hs
  apply I
  · apply hnext
    show s.inputCursorPos ≤ (s.inputBuffer.take s.inputCursorPos).length
    simp only [List.length_take]
    omega
  apply I
  · exact hnext _ (deleteWordBack_inputInv s hs)
  apply I
  · apply hnext
    unfold InputInv
    rw [(toggleMark_frame s tries).2.1]
    have : (toggleMark s tries).inputCursorPos = s.inputCursorPos := by
      unfold toggleMark
      split
      · split
        · rfl
        · dsimp only
          split <;> split <;> rfl
      · rfl
    rw [this]
    exact hs
  apply I
  · apply hret
    unfold handleCreateNew
    split <;> exact hsame _ rfl rfl
  apply I
  · apply I
    · cases tries[s.cursorPos.toNat]? with
      | none => exact hnext s hs
      | some t => exact hmap _ (fun u hu => runRenameDialog_input hP env fuel s t u hs hu)
    · exact hnext s hs
  apply I
  · apply I
    · exact hnext _ (hsame _ rfl rfl)
    · intro r hr
      cases hr
      exact hsame _ rfl rfl
  match key with
  | [] => exact hnext s hs
  | [b] =>
    apply I
    · apply hnext
      show s.inputCursorPos + 1
        ≤ (s.inputBuffer.take s.inputCursorPos ++ [b] ++ s.inputBuffer.drop s.inputCursorPos).length
      simp only [List.length_append, List.length_take, List.length_drop, List.length_singleton]
      omega
    · exact hnext s hs
  | _ :: _ :: _ => exact hnext s hs

theorem mainLoopIter_inputInv (env : Env K) (fuel : Nat) (s : TrySelector K) (r : LoopStep K)
    (hs : InputInv s) (h : mainLoopIter env fuel s = some r) : InputInv r.state := by
  rw [mainLoopIter_eq_loopHead] at h
  have hh := loopHead_inputInv env s hs
  split at h
  · cases h; exact hh
  · exact handleKey_inputInv env fuel _ _ _ _ _ hh r h

theorem reachable_inputInv (env : Env K) (s0 s : TrySelector K) (h0 : InputInv s0)
    (h : Reachable env s0 s) : InputInv s := by
  induction h with
  | init => exact h0
  | iter fuel s r _ hr ih => exact mainLoopIter_inputInv env fuel s r ih hr

theorem NewTrySelector_inputInv (searchTerm basePath andType : GoString) (andExit : Bool)
    (andKeys : List GoString) (andConfirm : GoString) (stdin : List ReadEvent) :
    InputInv (NewTrySelector (K := K) searchTerm basePath andType andExit andKeys andConfirm
      stdin) :=
  le_refl _

theorem handleKey_ctrlT (env : Env K) (fuel : Nat) (s : TrySelector K)
    (tries : List (TryEntry K)) (showCreateNew : Bool) (totalItems : Int) :
    handleKey env fuel s tries showCreateNew totalItems [20]
      = some (returnIfSelected (handleCreateNew env s)) := by
  simp [handleKey]

theorem handleKey_ctrlR (env : Env K) (fuel : Nat) (s : TrySelector K)
    (tries : List (TryEntry K)) (showCreateNew : Bool) (totalItems : Int) :
    handleKey env fuel s tries showCreateNew totalItems [18]
      = if s.cursorPos < tries.length then
          match tries[s.cursorPos.toNat]? with
          | some t => (runRenameDialog env fuel s t).map returnIfSelected
          | none => some (.next s)
        else some (.next s) := by
  simp [handleKey]

theorem handleKey_ctrlW (env : Env K) (fuel : Nat) (s : TrySelector K)
    (tries : List (TryEntry K)) (showCreateNew : Bool) (totalItems : Int) :
    handleKey env fuel s tries showCreateNew totalItems [23]
      = some (.next (deleteWordBack s)) := by
  simp [handleKey]

theorem handleKey_backspace (env : Env K) (fuel : Nat) (s : TrySelector K)
    (tries : List (TryEntry K)) (showCreateNew : Bool) (totalItems : Int) (key : GoString)
    (hk : key = [127] ∨ key = [8]) :
    handleKey env fuel s tries showCreateNew totalItems key
      = some (.next
          { (if s.inputCursorPos > 0 then
              { s with
                inputBuffer :=
                  s.inputBuffer.take (s.inputCursorPos - 1)
                    ++ s.inputBuffer.drop s.inputCursorPos
                inputCursorPos := s.inputCursorPos - 1 }
            else s) with cursorPos := 0 }) := by
  rcases hk with rfl | rfl <;> simp [handleKey]

/-- The `default` case of the `switch` for a key of one byte in the range 0x20..0x7E. -/
theorem handleKey_byte (env : Env K) (fuel : Nat) (s : TrySelector K)
    (tries : List (TryEntry K)) (showCreateNew : Bool) (totalItems : Int) (b : Byte)
    (h1 : 32 ≤ b.val) (h2 : b.val ≤ 126) :
    handleKey env fuel s tries showCreateNew totalItems [b]
      = if isPrintable b then
          some (.next
            { s with
              inputBuffer :=
                s.inputBuffer.take s.inputCursorPos ++ [b] ++ s.inputBuffer.drop s.inputCursorPos
              inputCursorPos := s.inputCursorPos + 1
              cursorPos := 0 })
        else some (.next s) := by
  have hne : ∀ c : Byte, c.val < 32 ∨ c.val = 127 → b ≠ c := by
    intro c hc hbc
    subst hbc
    omega
  simp [handleKey, hne 13 (by decide), hne 10 (by decide), hne 16 (by decide),
    hne 14 (by decide), hne 127 (by decide), hne 8 (by decide), hne 1 (by decide),
    hne 5 (by decide), hne 2 (by decide), hne 6 (by decide), hne 11 (by decide),
    hne 23 (by decide), hne 4 (by decide), hne 20 (by decide), hne 18 (by decide),
    hne 3 (by decide), hne 27 (by decide)]

theorem isPrintable_range (b : Byte) (h : isPrintable b = true) : 32 ≤ b.val ∧ b.val ≤ 126 := by
  unfold isPrintable at h
  simp only [Bool.or_eq_true, Bool.and_eq_true, decide_eq_true_eq] at h
  rcases h with (((((h | h) | h) | h) | h) | h) | h
  · omega
  · omega
  · omega
  · subst h; decide
  · subst h; decide
  · subst h; decide
  · subst h; decide

/-- What the loop `for pos >= 0 && test(rune(buf[pos])) { pos-- }` stops at: every byte it
passed satisfies the test, and the byte it stops at, if any, does not. -/
theorem skipBack_spec (test : Rune → Bool) (buf : GoString) (n : Nat) :
    skipBack test buf n ≤ n
      ∧ (∀ i, skipBack test buf n ≤ i → i < n → test (byteRune buf i) = true)
      ∧ (skipBack test buf n = 0
          ∨ test (byteRune buf (skipBack test buf n - 1)) = false) := by
  induction n with
  | zero => exact ⟨le_refl _, fun i _ hi => absurd hi (Nat.not_lt_zero i), Or.inl rfl⟩
  | succ n ih =>
    rw [skipBack]
    by_cases ht : test (byteRune buf n) = true
    · rw [if_pos ht]
      obtain ⟨h1, h2, h3⟩ := ih
      refine ⟨by omega, ?_, h3⟩
      intro i hi hin
      by_cases hn : i = n
      · rw [hn]; exact ht
      · exact h2 i hi (by omega)
    · rw [if_neg ht]
      refine ⟨le_refl _, fun i hi hin => by omega, Or.inr ?_⟩
      simpa using ht

/-- The bytes of the slice `buf[p:q]` are the bytes at the indices from `p` to `q - 1`. -/
theorem mem_slice (buf : GoString) (p q : Nat) (b : Byte)
    (hb : b ∈ (buf.take q).drop p) :
    ∃ i, p ≤ i ∧ i < q ∧ buf[i]? = some b := by
  obtain ⟨j, hj, rfl⟩ := List.mem_iff_getElem.mp hb
  rw [List.length_drop, List.length_take] at hj
  refine ⟨p + j, by omega, by omega, ?_⟩
  rw [List.getElem_drop, List.getElem_take]
  exact List.getElem?_eq_getElem _

theorem byteRune_of_getElem? (buf : GoString) (i : Nat) (b : Byte) (h : buf[i]? = some b) :
    byteRune buf i = Char.ofNat b.val := by
  unfold byteRune
  rw [List.getD_eq_getElem?_getD, h]
  rfl

theorem finalizeRename_selected (env : Env K) (s : TrySelector K) (entry : TryEntry K)
    (buf : GoString) :
    (finalizeRename env s entry buf).2.selected = s.selected
      ∨ ∃ res, (finalizeRename env s entry buf).2.selected = some res
          ∧ res.Kind = str "rename" := by
  simp only [finalizeRename]
  split_ifs
  · exact Or.inl rfl
  · exact Or.inl rfl
  · exact Or.inl rfl
  · exact Or.inl rfl
  · exact Or.inr ⟨_, rfl, rfl⟩

theorem renameIter_keeps {P : TrySelector K → Prop} (hP : RenameStable P) (env : Env K)
    (entry : TryEntry K) (s : TrySelector K) (buf : GoString) (cur : Nat) (err : GoString)
    (hs : P s) : P (renameIter env entry s buf cur err).sel := by
  have hk : P (readKey env s).2 :=
    hP _ _ hs (readKey_marks env s).1 (readKey_marks env s).2
      (Or.inl (readKey_frame env s).2.2.2.2.1)
  have hf : P (finalizeRename env (readKey env s).2 entry buf).2 :=
    hP _ _ hk (finalizeRename_marks env _ entry buf).1 (finalizeRename_marks env _ entry buf).2
      (finalizeRename_selected env _ entry buf)
  unfold renameIter
  dsimp only
  generalize (readKey env s).1 = key at *
  generalize (readKey env s).2 = s2 at *
  have I := @ite_ind (RenameStep K) (fun r => P r.sel)
  apply I
  · apply I <;> exact hf
  apply I
  · exact hP _ _ hk rfl rfl (Or.inl rfl)
  apply I
  · apply I <;> exact hk
  apply I
  · exact hk
  apply I
  · exact hk
  apply I
  · exact hk
  apply I
  · exact hk
  apply I
  · exact hk
  apply I
  · apply I <;> exact hk
  match key with
  | [] => exact hk
  | [b] => apply I <;> exact hk
  | _ :: _ :: _ => exact hk

theorem renameLoop_keeps {P : TrySelector K → Prop} (hP : RenameStable P) (env : Env K)
    (entry : TryEntry K) :
    ∀ (fuel : Nat) (s : TrySelector K) (buf : GoString) (cur : Nat) (err : GoString)
      (t : TrySelector K),
      P s → renameLoop env entry fuel s buf cur err = some t → P t := by
  intro fuel
  induction fuel with
  | zero => intro s buf cur err t _ h; simp [renameLoop] at h
  | succ fuel ih =>
    intro s buf cur err t hs h
    have hi := renameIter_keeps hP env entry s buf cur err hs
    rw [renameLoop] at h
    cases hc : renameIter env entry s buf cur err with
    | exit s2 =>
      rw [hc] at h hi
      cases h
      exact hi
    | again s2 b2 c2 e2 =>
      rw [hc] at h hi
      exact ih s2 b2 c2 e2 t hi h

/-- What `runRenameDialog` leaves behind, whatever keys it reads: the input buffer and the
two cursors as they were, no marks, and the result as it was or a Rename result. -/
theorem runRenameDialog_outcome (env : Env K) (fuel : Nat) (s : TrySelector K)
    (entry : TryEntry K) (t : TrySelector K)
    (h : runRenameDialog env fuel s entry = some t) :
    t.inputBuffer = s.inputBuffer ∧ t.inputCursorPos = s.inputCursorPos
      ∧ t.cursorPos = s.cursorPos ∧ t.deleteMode = false ∧ t.markedForDelete = []
      ∧ (t.selected = s.selected
        ∨ ∃ res, t.selected = some res ∧ res.Kind = str "rename") := by
  have h1 := runRenameDialog_input (sameInput_inputOnly s) env fuel s entry t
    ⟨rfl, rfl, rfl⟩ h
  have hP : RenameStable (fun u : TrySelector K => u.deleteMode = false
      ∧ u.markedForDelete = []
      ∧ (u.selected = s.selected
        ∨ ∃ res, u.selected = some res ∧ res.Kind = str "rename")) := by
    intro a b ⟨a1, a2, a3⟩ e1 e2 e3
    refine ⟨e1.trans a1, e2.trans a2, ?_⟩
    rcases e3 with e3 | e3
    · rw [e3]; exact a3
    · exact Or.inr e3
  have h2 := renameLoop_keeps hP env entry fuel
    { s with deleteMode := false, markedForDelete := [] } _ _ _ t ⟨rfl, rfl, Or.inl rfl⟩ h
  exact ⟨h1.1, h1.2.1, h1.2.2, h2.1, h2.2.1, h2.2.2⟩

/-- The rename dialog whose first key is Esc or Ctrl-C. -/
theorem runRenameDialog_abort (env : Env K) (fuel : Nat) (s : TrySelector K)
    (entry : TryEntry K)
    (hk : (readKey env { s with deleteMode := false, markedForDelete := [] }).1 = [27]
      ∨ (readKey env { s with deleteMode := false, markedForDelete := [] }).1 = [3]) :
    runRenameDialog env (fuel + 1) s entry
      = some { (readKey env { s with deleteMode := false, markedForDelete := [] }).2 with
          needsRedraw := true } := by
  unfold runRenameDialog
  rw [renameLoop]
  have : renameIter env entry { s with deleteMode := false, markedForDelete := [] }
      entry.Item.Basename entry.Item.Basename.length []
      = .exit { (readKey env { s with deleteMode := false, markedForDelete := [] }).2 with
          needsRedraw := true } := by
    unfold renameIter
    dsimp only
    generalize (readKey env { s with deleteMode := false, markedForDelete := [] }).1 = key
      at hk
    rcases hk with rfl | rfl <;> simp
  rw [this]

theorem byte_val_ofNat (x : Nat) (h : x < 256) : ((Fin.ofNat x : Byte) : Nat) = x := by
  show x % 256 = x
  exact Nat.mod_eq_of_lt h

theorem rune_valid (c : Rune) :
    c.toNat < 0xD800 ∨ (0xDFFF < c.toNat ∧ c.toNat < 0x110000) := c.valid

/-- Decoding the encoding of a rune gives the rune and the length of the encoding. -/
theorem decodeRune_encodeRune (c : Rune) (tail : GoString) :
    ∃ b bs, encodeRune c = b :: bs ∧ decodeRune b (bs ++ tail) = (c, bs.length + 1) := by
  have hv := rune_valid c
  have hc : Char.ofNat c.toNat = c := Char.ofNat_toNat c
  unfold encodeRune
  dsimp only
  generalize c.toNat = n at hv hc
  by_cases h1 : n < 0x80
  · rw [if_pos h1]
    refine ⟨_, _, rfl, ?_⟩
    unfold decodeRune
    have e : ((Fin.ofNat n : Byte) : Nat) = n := byte_val_ofNat n (by omega)
    rw [if_pos (by omega), e, hc]
    rfl
  rw [if_neg h1]
  by_cases h2 : n < 0x800
  · rw [if_pos h2]
    refine ⟨_, _, rfl, ?_⟩
    have e0 : ((Fin.ofNat (0xC0 + n / 64) : Byte) : Nat) = 0xC0 + n / 64 :=
      byte_val_ofNat _ (by omega)
    have e1 : ((Fin.ofNat (0x80 + n % 64) : Byte) : Nat) = 0x80 + n % 64 :=
      byte_val_ofNat _ (by omega)
    unfold decodeRune
    rw [if_neg (by omega), if_pos (by omega)]
    show (if inRange 0x80 0xBF (Fin.ofNat (0x80 + n % 64)) = true then _ else _) = _
    have hr : inRange 0x80 0xBF (Fin.ofNat (0x80 + n % 64)) = true := by
      unfold inRange
      rw [e1]
      simp only [Bool.and_eq_true, decide_eq_true_eq]
      omega
    rw [if_pos hr, e0, e1]
    have : (0xC0 + n / 64 - 0xC0) * 64 + (0x80 + n % 64 - 0x80) = n := by omega
    rw [this, hc]
    rfl
  rw [if_neg h2]
  by_cases h3 : n < 0x10000
  · rw [if_pos h3]
    refine ⟨_, _, rfl, ?_⟩
    have e0 : ((Fin.ofNat (0xE0 + n / 4096) : Byte) : Nat) = 0xE0 + n / 4096 :=
      byte_val_ofNat _ (by omega)
    have e1 : ((Fin.ofNat (0x80 + n / 64 % 64) : Byte) : Nat) = 0x80 + n / 64 % 64 :=
      byte_val_ofNat _ (by omega)
    have e2 : ((Fin.ofNat (0x80 + n % 64) : Byte) : Nat) = 0x80 + n % 64 :=
      byte_val_ofNat _ (by omega)
    unfold decodeRune
    rw [if_neg (by omega), if_neg (by omega), if_pos (by omega)]
    show (if (inRange _ _ (Fin.ofNat (0x80 + n / 64 % 64))
        && inRange 0x80 0xBF (Fin.ofNat (0x80 + n % 64))) = true then _ else _) = _
    have hr : (inRange (if ((Fin.ofNat (0xE0 + n / 4096) : Byte) : Nat) = 0xE0 then 0xA0 else 0x80)
          (if ((Fin.ofNat (0xE0 + n / 4096) : Byte) : Nat) = 0xED then 0x9F else 0xBF)
          (Fin.ofNat (0x80 + n / 64 % 64))
        && inRange 0x80 0xBF (Fin.ofNat (0x80 + n % 64))) = true := by
      unfold inRange
      rw [e0, e1, e2]
      simp only [Bool.and_eq_true, decide_eq_true_eq]
      refine ⟨⟨?_, ?_⟩, by omega, by omega⟩
      · split <;> omega
      · split <;> omega
    rw [if_pos hr, e0, e1, e2]
    have : (0xE0 + n / 4096 - 0xE0) * 4096 + (0x80 + n / 64 % 64 - 0x80) * 64
        + (0x80 + n % 64 - 0x80) = n := by omega
    rw [this, hc]
    rfl
  rw [if_neg h3]
  refine ⟨_, _, rfl, ?_⟩
  have e0 : ((Fin.ofNat (0xF0 + n / 262144) : Byte) : Nat) = 0xF0 + n / 262144 :=
    byte_val_ofNat _ (by omega)
  have e1 : ((Fin.ofNat (0x80 + n / 4096 % 64) : Byte) : Nat) = 0x80 + n / 4096 % 64 :=
    byte_val_ofNat _ (by omega)
  have e2 : ((Fin.ofNat (0x80 + n / 64 % 64) : Byte) : Nat) = 0x80 + n / 64 % 64 :=
    byte_val_ofNat _ (by omega)
  have e3 : ((Fin.ofNat (0x80 + n % 64) : Byte) : Nat) = 0x80 + n % 64 :=
    byte_val_ofNat _ (by omega)
  unfold decodeRune
  rw [if_neg (by omega), if_neg (by omega), if_neg (by omega), if_pos (by omega)]
  show (if (inRange _ _ (Fin.ofNat (0x80 + n / 4096 % 64))
      && inRange 0x80 0xBF (Fin.ofNat (0x80 + n / 64 % 64))
      && inRange 0x80 0xBF (Fin.ofNat (0x80 + n % 64))) = true then _ else _) = _
  have hr : (inRange (if ((Fin.ofNat (0xF0 + n / 262144) : Byte) : Nat) = 0xF0 then 0x90 else 0x80)
        (if ((Fin.ofNat (0xF0 + n / 262144) : Byte) : Nat) = 0xF4 then 0x8F else 0xBF)
        (Fin.ofNat (0x80 + n / 4096 % 64))
      && inRange 0x80 0xBF (Fin.ofNat (0x80 + n / 64 % 64))
      && inRange 0x80 0xBF (Fin.ofNat (0x80 + n % 64))) = true := by
    unfold inRange
    rw [e0, e1, e2, e3]
    simp only [Bool.and_eq_true, decide_eq_true_eq]
    refine ⟨⟨⟨?_, ?_⟩, by omega, by omega⟩, by omega, by omega⟩
    · split <;> omega
    · split <;> omega
  rw [if_pos hr, e0, e1, e2, e3]
  have : (0xF0 + n / 262144 - 0xF0) * 262144 + (0x80 + n / 4096 % 64 - 0x80) * 4096
      + (0x80 + n / 64 % 64 - 0x80) * 64 + (0x80 + n % 64 - 0x80) = n := by omega
  rw [this, hc]
  rfl

theorem rangeFrom_skip (xs tail : GoString) (i : Nat) :
    rangeFrom (xs ++ tail) i xs.length = rangeFrom tail (i + xs.length) 0 := by
  induction xs generalizing i with
  | nil => rfl
  | cons x xs ih =>
    show rangeFrom (x :: (xs ++ tail)) i (xs.length + 1) = _
    rw [rangeFrom, ih, List.length_cons]
    congr 1
    omega

theorem rangeFrom_encodeRune (c : Rune) (tail : GoString) (i : Nat) :
    rangeFrom (encodeRune c ++ tail) i 0
      = (i, c) :: rangeFrom tail (i + (encodeRune c).length) 0 := by
  obtain ⟨b, bs, h1, h2⟩ := decodeRune_encodeRune c tail
  rw [h1]
  show rangeFrom (b :: (bs ++ tail)) i 0 = _
  rw [rangeFrom, h2]
  show (i, c) :: rangeFrom (bs ++ tail) (i + 1) (bs.length + 1 - 1) = _
  rw [Nat.add_sub_cancel, rangeFrom_skip, List.length_cons]
  congr 2
  omega

/-- The runes visited by `range` do not depend on the offset the count starts from. -/
theorem rangeFrom_runes (s : GoString) :
    ∀ (i j skip : Nat),
      (rangeFrom s i skip).map Prod.snd = (rangeFrom s j skip).map Prod.snd := by
  induction s with
  | nil => intro i j skip; cases skip <;> rfl
  | cons b rest ih =>
    intro i j skip
    cases skip with
    | zero =>
      rw [rangeFrom, rangeFrom, List.map_cons, List.map_cons, ih (i + 1) (j + 1)]
    | succ k =>
      rw [rangeFrom, rangeFrom]
      exact ih _ _ _

theorem runes_encodeRune_append (c : Rune) (tail : GoString) :
    runes (encodeRune c ++ tail) = c :: runes tail := by
  unfold runes rangeString
  rw [rangeFrom_encodeRune, List.map_cons]
  congr 1
  exact rangeFrom_runes tail _ _ _

/-- A string built from runes decodes to those runes. -/
theorem runes_encodeRunes (rs : List Rune) : runes (encodeRunes rs) = rs := by
  induction rs with
  | nil => rfl
  | cons c rs ih =>
    show runes (encodeRune c ++ encodeRunes rs) = _
    rw [runes_encodeRune_append]
    exact congrArg _ ih

theorem encodeRunes_cons (c : Rune) (rs : List Rune) :
    encodeRunes (c :: rs) = encodeRune c ++ encodeRunes rs := rfl

theorem encodeRunes_append (ps qs : List Rune) :
    encodeRunes (ps ++ qs) = encodeRunes ps ++ encodeRunes qs := by
  unfold encodeRunes
  exact List.flatMap_append _ _ _

theorem encodeRune_ascii (c : Rune) (h : c.toNat < 128) :
    encodeRune c = [Fin.ofNat c.toNat] := by
  unfold encodeRune
  dsimp only
  rw [if_pos h]

theorem encodeRune_high (c : Rune) (h : 128 ≤ c.toNat) : ∀ b ∈ encodeRune c, 128 ≤ b.val := by
  have hv := rune_valid c
  unfold encodeRune
  dsimp only
  generalize c.toNat = n at h hv
  intro b hb
  rw [if_neg (by omega)] at hb
  split at hb
  · simp only [List.mem_cons, List.mem_singleton, List.not_mem_nil, or_false] at hb
    rcases hb with rfl | rfl
    · rw [byte_val_ofNat _ (by omega)]; omega
    · rw [byte_val_ofNat _ (by omega)]; omega
  · split at hb
    · simp only [List.mem_cons, List.mem_singleton, List.not_mem_nil, or_false] at hb
      rcases hb with rfl | rfl | rfl
      · rw [byte_val_ofNat _ (by omega)]; omega
      · rw [byte_val_ofNat _ (by omega)]; omega
      · rw [byte_val_ofNat _ (by omega)]; omega
    · simp only [List.mem_cons, List.mem_singleton, List.not_mem_nil, or_false] at hb
      rcases hb with rfl | rfl | rfl | rfl
      · rw [byte_val_ofNat _ (by omega)]; omega
      · rw [byte_val_ofNat _ (by omega)]; omega
      · rw [byte_val_ofNat _ (by omega)]; omega
      · rw [byte_val_ofNat _ (by omega)]; omega

theorem encodeRune_ne_nil (c : Rune) : encodeRune c ≠ [] := by
  obtain ⟨b, bs, h, _⟩ := decodeRune_encodeRune c []
  rw [h]
  exact List.cons_ne_nil _ _

theorem toNat_ofNat_byte (b : Byte) : (Char.ofNat b.val).toNat = b.val := by
  have hb : b.val < 256 := b.isLt
  have hv : Nat.isValidChar b.val := Or.inl (by omega)
  unfold Char.ofNat
  rw [dif_pos hv]
  rfl

/-- The rune `rune(b)` of an ASCII byte is encoded as that byte. -/
theorem encodeRune_byte (b : Byte) (h : b.val < 128) : encodeRune (Char.ofNat b.val) = [b] := by
  rw [encodeRune_ascii _ (by rw [toNat_ofNat_byte]; exact h), toNat_ofNat_byte]
  congr 1
  apply Fin.ext
  rw [byte_val_ofNat _ b.isLt]

theorem runes_cons_ascii (b : Byte) (rest : GoString) (h : b.val < 128) :
    runes (b :: rest) = Char.ofNat b.val :: runes rest := by
  have := runes_encodeRune_append (Char.ofNat b.val) rest
  rw [encodeRune_byte b h] at this
  exact this

theorem ansiWrap_off (text pre suf : GoString) : ansiWrap false text pre suf = text := by
  unfold ansiWrap
  rw [if_pos (Or.inr rfl)]

theorem flatMap_encode_range (l : List (Nat × Rune)) (positions : List Nat) (offset : Nat) :
    (l.flatMap fun ic =>
        if contains positions (ic.1 + offset) then highlight false (encodeRune ic.2)
        else encodeRune ic.2)
      = encodeRunes (l.map Prod.snd) := by
  induction l with
  | nil => rfl
  | cons x l ih =>
    rw [List.flatMap_cons, ih, List.map_cons, encodeRunes_cons]
    congr 1
    split
    · exact ansiWrap_off _ _ _
    · rfl

/-- With colours disabled `highlightWithPositions` encodes the runes it decodes. -/
theorem highlightWithPositions_off (text : GoString) (positions : List Nat) (offset : Nat) :
    highlightWithPositions false text positions offset = encodeRunes (runes text) :=
  flatMap_encode_range _ _ _

/-- Dropping leading ASCII bytes from a string that survives decoding and encoding gives
such a string. -/
theorem roundtrip_drop_ascii (n : Nat) :
    ∀ s : GoString, (∀ b ∈ s.take n, b.val < 128) → encodeRunes (runes s) = s →
      encodeRunes (runes (s.drop n)) = s.drop n := by
  induction n with
  | zero => intro s _ h; exact h
  | succ n ih =>
    intro s hs h
    cases s with
    | nil => exact h
    | cons b rest =>
      have hb : b.val < 128 := hs b (by simp)
      rw [runes_cons_ascii b rest hb, encodeRunes_cons, encodeRune_byte b hb] at h
      have h2 : encodeRunes (runes rest) = rest := List.tail_eq_of_cons_eq h
      rw [List.drop_succ_cons]
      apply ih rest _ h2
      intro c hc
      exact hs c (by rw [List.take_succ_cons]; exact List.mem_cons_of_mem _ hc)

/-- A name with a date prefix starts with ten ASCII bytes and a hyphen. -/
theorem hasDatePrefix_spec (name : GoString) (h : hasDatePrefix name = true) :
    (∀ b ∈ name.take 11, b.val < 128) ∧ name.take 10 ++ str "-" ++ name.drop 11 = name := by
  unfold hasDatePrefix at h
  match name, h with
  | y1 :: y2 :: y3 :: y4 :: h1 :: m1 :: m2 :: h2 :: d1 :: d2 :: h3 :: rest, h =>
    simp only [Bool.and_eq_true, decide_eq_true_eq] at h
    obtain ⟨⟨⟨⟨⟨⟨⟨⟨⟨⟨⟨a1, a1b⟩, a2, a2b⟩, a3, a3b⟩, a4, a4b⟩, a5⟩, a6, a6b⟩, a7, a7b⟩, a8⟩,
      a9, a9b⟩, a10, a10b⟩, a11⟩ := h
    subst a5 a8 a11
    constructor
    · intro b hb
      simp only [List.take_succ_cons, List.take_zero, List.mem_cons, List.not_mem_nil,
        or_false] at hb
      rcases hb with rfl | rfl | rfl | rfl | rfl | rfl | rfl | rfl | rfl | rfl | rfl <;>
        omega
    · rfl

theorem formattedEntryName_off (entry : TryEntry K)
    (h : encodeRunes (runes entry.Item.Basename) = entry.Item.Basename) :
    formattedEntryName false entry = (entry.Item.Basename, entry.Item.Basename) := by
  unfold formattedEntryName
  dsimp only
  cases hm : dateMatch entry.Item.Basename with
  | none =>
    dsimp only
    rw [highlightWithPositions_off, h]
  | some dn =>
    obtain ⟨datePart, namePart⟩ := dn
    dsimp only
    unfold dateMatch at hm
    split at hm
    · rename_i hc
      cases hm
      obtain ⟨h1, h2⟩ := hasDatePrefix_spec _ hc.1
      have h3 := roundtrip_drop_ascii 11 _ h1 h
      have h4 : (if contains entry.HighlightPositions 10 = true then highlight false (str "-")
          else dim false (str "-")) = str "-" := by
        split
        · exact ansiWrap_off _ _ _
        · exact ansiWrap_off _ _ _
      rw [highlightWithPositions_off, h3, h4]
      congr 1
      unfold dim
      rw [ansiWrap_off]
      exact h2
    · cases hm

theorem ansiMatch_length (s after : GoString) (h : ansiMatch s = some after) :
    after.length < s.length := by
  unfold ansiMatch at h
  match s, h with
  | b0 :: b1 :: rest, h =>
    dsimp only at h
    split at h
    · have hl := (List.dropWhile_sublist isAnsiParam (l := rest)).length_le
      cases hd : rest.dropWhile isAnsiParam with
      | nil => rw [hd] at h; cases h
      | cons l tl =>
        rw [hd] at h hl
        dsimp only at h
        split at h
        · cases h
          simp only [List.length_cons] at hl ⊢
          omega
        · cases h
    · cases h

theorem stripLoop_fuel (k : Nat) : ∀ (s : GoString), s.length ≤ k →
    stripLoop k s = stripLoop s.length s := by
  induction k using Nat.strong_induction_on with
  | _ k ih =>
    intro s hs
    cases s with
    | nil => cases k <;> rfl
    | cons b rest =>
      cases k with
      | zero => simp at hs
      | succ k =>
        rw [List.length_cons, stripLoop, stripLoop]
        cases hm : ansiMatch (b :: rest) with
        | none =>
          dsimp only
          have h1 : rest.length ≤ k := by simpa using hs
          rw [ih k (Nat.lt_succ_self k) rest h1]
        | some after =>
          dsimp only
          have hl := ansiMatch_length _ _ hm
          rw [List.length_cons] at hl
          have h1 : after.length ≤ k := by rw [List.length_cons] at hs; omega
          rw [ih k (Nat.lt_succ_self k) after h1]
          by_cases hr : rest.length = k
          · rw [hr, ih k (Nat.lt_succ_self k) after h1]
          · have : rest.length < k := by rw [List.length_cons] at hs; omega
            rw [ih rest.length (by omega) after (by omega)]

theorem stripAnsi_nil : stripAnsi [] = [] := rfl

theorem stripAnsi_of_match (s after : GoString) (h : ansiMatch s = some after) :
    stripAnsi s = stripAnsi after := by
  have hl := ansiMatch_length s after h
  cases s with
  | nil => simp at hl
  | cons b rest =>
    unfold stripAnsi
    rw [List.length_cons, stripLoop, h]
    dsimp only
    rw [List.length_cons] at hl
    exact stripLoop_fuel _ _ (by omega)

theorem stripAnsi_cons (b : Byte) (rest : GoString) (h : ansiMatch (b :: rest) = none) :
    stripAnsi (b :: rest) = b :: stripAnsi rest := by
  unfold stripAnsi
  rw [List.length_cons, stripLoop, h]

theorem matchRunes_length (s after : List Rune) (h : matchRunes s = some after) :
    after.length < s.length := by
  unfold matchRunes at h
  match s, h with
  | b0 :: b1 :: rest, h =>
    dsimp only at h
    split at h
    · have hl := (List.dropWhile_sublist isParamRune (l := rest)).length_le
      cases hd : rest.dropWhile isParamRune with
      | nil => rw [hd] at h; cases h
      | cons l tl =>
        rw [hd] at h hl
        dsimp only at h
        split at h
        · cases h
          simp only [List.length_cons] at hl ⊢
          omega
        · cases h
    · cases h

theorem stripRunesLoop_fuel (k : Nat) : ∀ (s : List Rune), s.length ≤ k →
    stripRunesLoop k s = stripRunesLoop s.length s := by
  induction k using Nat.strong_induction_on with
  | _ k ih =>
    intro s hs
    cases s with
    | nil => cases k <;> rfl
    | cons b rest =>
      cases k with
      | zero => simp at hs
      | succ k =>
        rw [List.length_cons, stripRunesLoop, stripRunesLoop]
        cases hm : matchRunes (b :: rest) with
        | none =>
          dsimp only
          have h1 : rest.length ≤ k := by simpa using hs
          rw [ih k (Nat.lt_succ_self k) rest h1]
        | some after =>
          dsimp only
          have hl := matchRunes_length _ _ hm
          rw [List.length_cons] at hl
          have h1 : after.length ≤ k := by rw [List.length_cons] at hs; omega
          rw [ih k (Nat.lt_succ_self k) after h1]
          by_cases hr : rest.length = k
          · rw [hr, ih k (Nat.lt_succ_self k) after h1]
          · have : rest.length < k := by rw [List.length_cons] at hs; omega
            rw [ih rest.length (by omega) after (by omega)]

theorem stripRunes_nil : stripRunes [] = [] := rfl

theorem stripRunes_of_match (s after : List Rune) (h : matchRunes s = some after) :
    stripRunes s = stripRunes after := by
  have hl := matchRunes_length s after h
  cases s with
  | nil => simp at hl
  | cons b rest =>
    unfold stripRunes
    rw [List.length_cons, stripRunesLoop, h]
    dsimp only
    rw [List.length_cons] at hl
    exact stripRunesLoop_fuel _ _ (by omega)

theorem stripRunes_cons (c : Rune) (rest : List Rune) (h : matchRunes (c :: rest) = none) :
    stripRunes (c :: rest) = c :: stripRunes rest := by
  unfold stripRunes
  rw [List.length_cons, stripRunesLoop, h]

theorem rune_eq_of_toNat (c d : Rune) (h : c.toNat = d.toNat) : c = d := by
  rw [← Char.ofNat_toNat c, ← Char.ofNat_toNat d, h]

/-- The first byte of the encoding of a rune falls in the classes of `ansiRe` exactly when
the rune does; a rune of such a class takes one byte, and the bytes after the first are
continuation bytes. -/
theorem encodeRune_head (c : Rune) :
    ∃ b bs, encodeRune c = b :: bs
      ∧ isAnsiParam b = isParamRune c
      ∧ isAsciiLetter b = isLetterRune c
      ∧ (b = 27 ↔ c = escRune)
      ∧ (b = 91 ↔ c = '[')
      ∧ (b = 32 ↔ c = ' ')
      ∧ (c.toNat < 128 → bs = [])
      ∧ (128 ≤ c.toNat → 128 ≤ b.val)
      ∧ (∀ x ∈ bs, 128 ≤ x.val) := by
  have hle : ∀ d e : Rune, d ≤ e ↔ d.toNat ≤ e.toNat := fun _ _ => Iff.rfl
  have hA : ('A' : Rune).toNat = 65 := rfl
  have hZ : ('Z' : Rune).toNat = 90 := rfl
  have ha : ('a' : Rune).toNat = 97 := rfl
  have hz : ('z' : Rune).toNat = 122 := rfl
  have hesc : escRune.toNat = 27 := rfl
  have hbr : ('[' : Rune).toNat = 91 := rfl
  have hsp : (' ' : Rune).toNat = 32 := rfl
  have hcl : isLetterRune c
      = ((decide (65 ≤ c.toNat) && decide (c.toNat ≤ 90))
        || (decide (97 ≤ c.toNat) && decide (c.toNat ≤ 122))) := by
    unfold isLetterRune
    simp only [hle, hA, hZ, ha, hz]
  have heq : ∀ d : Rune, c = d ↔ c.toNat = d.toNat :=
    fun d => ⟨fun h => by rw [h], rune_eq_of_toNat c d⟩
  by_cases h : c.toNat < 128
  · have hb : ((Fin.ofNat c.toNat : Byte) : Nat) = c.toNat := byte_val_ofNat _ (by omega)
    have hbe : ∀ n : Nat, n < 256 → ((Fin.ofNat c.toNat : Byte) = Fin.ofNat n ↔ c.toNat = n) := by
      intro n hn
      constructor
      · intro e
        have := congrArg Fin.val e
        rw [hb, byte_val_ofNat n hn] at this
        exact this
      · intro e
        rw [e]
    refine ⟨Fin.ofNat c.toNat, [], encodeRune_ascii c h, ?_, ?_, ?_, ?_, ?_, fun _ => rfl,
      fun h2 => by omega, fun x hx => by cases hx⟩
    · unfold isAnsiParam isParamRune
      rw [hb]
      congr 1
      exact decide_eq_decide.mpr (hbe 59 (by omega))
    · rw [hcl]
      unfold isAsciiLetter
      rw [hb]
    · rw [heq, hesc]
      exact hbe 27 (by omega)
    · rw [heq, hbr]
      exact hbe 91 (by omega)
    · rw [heq, hsp]
      exact hbe 32 (by omega)
  · have hh := encodeRune_high c (by omega)
    obtain ⟨b, bs, e, _⟩ := decodeRune_encodeRune c []
    rw [e] at hh
    have hb : 128 ≤ b.val := hh b (by simp)
    have hne : ∀ n : Nat, n < 128 → b ≠ Fin.ofNat n := by
      intro n hn e2
      rw [e2, byte_val_ofNat n (by omega)] at hb
      omega
    refine ⟨b, bs, e, ?_, ?_, ?_, ?_, ?_, fun h2 => absurd h2 h, fun _ => hb,
      fun x hx => hh x (List.mem_cons_of_mem _ hx)⟩
    · unfold isAnsiParam isParamRune
      have h1 : decide (b.val ≤ 57) = false := by simp; omega
      have h2 : decide (b = 59) = false := by simpa using hne 59 (by omega)
      have h3 : decide (c.toNat ≤ 57) = false := by simp; omega
      have h4 : decide (c.toNat = 59) = false := by simp; omega
      rw [h1, h2, h3, h4]
      simp
    · rw [hcl]
      unfold isAsciiLetter
      have h1 : decide (b.val ≤ 90) = false := by simp; omega
      have h2 : decide (b.val ≤ 122) = false := by simp; omega
      have h3 : decide (c.toNat ≤ 90) = false := by simp; omega
      have h4 : decide (c.toNat ≤ 122) = false := by simp; omega
      rw [h1, h2, h3, h4]
      simp
    · rw [heq, hesc]
      exact ⟨fun e2 => absurd e2 (hne 27 (by omega)), fun e2 => by omega⟩
    · rw [heq, hbr]
      exact ⟨fun e2 => absurd e2 (hne 91 (by omega)), fun e2 => by omega⟩
    · rw [heq, hsp]
      exact ⟨fun e2 => absurd e2 (hne 32 (by omega)), fun e2 => by omega⟩

theorem isParamRune_ascii (c : Rune) (h : isParamRune c = true) : c.toNat < 128 := by
  unfold isParamRune at h
  simp only [Bool.or_eq_true, Bool.and_eq_true, decide_eq_true_eq] at h
  omega

theorem isLetterRune_ascii (c : Rune) (h : isLetterRune c = true) : c.toNat < 128 := by
  have hle : ∀ d e : Rune, d ≤ e ↔ d.toNat ≤ e.toNat := fun _ _ => Iff.rfl
  have hZ : ('Z' : Rune).toNat = 90 := rfl
  have hz : ('z' : Rune).toNat = 122 := rfl
  unfold isLetterRune at h
  simp only [Bool.or_eq_true, Bool.and_eq_true, decide_eq_true_eq, hle, hZ, hz] at h
  omega

theorem ansiMatch_head_ne (b : Byte) (rest : GoString) (h : b ≠ 27) :
    ansiMatch (b :: rest) = none := by
  unfold ansiMatch
  cases rest with
  | nil => rfl
  | cons b1 rest =>
    dsimp only
    rw [if_neg (fun hc => h hc.1)]

theorem matchRunes_head_ne (c : Rune) (rest : List Rune) (h : c ≠ escRune) :
    matchRunes (c :: rest) = none := by
  unfold matchRunes
  cases rest with
  | nil => rfl
  | cons b1 rest =>
    dsimp only
    rw [if_neg (fun hc => h hc.1)]

theorem dropWhile_encodeRunes (rs : List Rune) :
    (encodeRunes rs).dropWhile isAnsiParam = encodeRunes (rs.dropWhile isParamRune) := by
  induction rs with
  | nil => rfl
  | cons c cs ih =>
    obtain ⟨b, bs, e, hp, _, _, _, _, hbs, _, _⟩ := encodeRune_head c
    rw [encodeRunes_cons, e, List.cons_append, List.dropWhile_cons, List.dropWhile_cons, hp]
    by_cases hc : isParamRune c = true
    · rw [if_pos hc, if_pos hc, hbs (isParamRune_ascii c hc), List.nil_append]
      exact ih
    · rw [if_neg hc, if_neg hc, encodeRunes_cons, e, List.cons_append]

/-- The match of `ansiRe` on the encoding of runes is the encoding of the match on the
runes. -/
theorem ansiMatch_encodeRunes (rs : List Rune) :
    ansiMatch (encodeRunes rs) = (matchRunes rs).map encodeRunes := by
  cases rs with
  | nil => rfl
  | cons c0 rest =>
    obtain ⟨b0, bs0, e0, _, _, hesc0, _, _, hbs0, _, _⟩ := encodeRune_head c0
    by_cases h0 : c0 = escRune
    · have hb0 : b0 = 27 := hesc0.mpr h0
      have hn0 : bs0 = [] := hbs0 (by rw [h0]; decide)
      cases rest with
      | nil =>
        rw [encodeRunes_cons, e0, hn0]
        rfl
      | cons c1 rest =>
        obtain ⟨b1, bs1, e1, _, _, _, hbr1, _, hbs1, _, _⟩ := encodeRune_head c1
        by_cases h1 : c1 = '['
        · have hb1 : b1 = 91 := hbr1.mpr h1
          have hn1 : bs1 = [] := hbs1 (by rw [h1]; decide)
          rw [encodeRunes_cons, encodeRunes_cons, e0, e1, hn0, hn1, hb0, hb1]
          show ansiMatch (27 :: 91 :: encodeRunes rest) = _
          unfold ansiMatch matchRunes
          dsimp only
          rw [if_pos ⟨rfl, rfl⟩, if_pos ⟨h0, h1⟩, dropWhile_encodeRunes]
          cases hd : rest.dropWhile isParamRune with
          | nil => rfl
          | cons l after =>
            obtain ⟨bl, bsl, el, _, hl, _, _, _, hbsl, _, _⟩ := encodeRune_head l
            rw [encodeRunes_cons, el, List.cons_append]
            dsimp only
            rw [hl]
            by_cases hlt : isLetterRune l = true
            · rw [if_pos hlt, if_pos hlt, hbsl (isLetterRune_ascii l hlt)]
              rfl
            · rw [if_neg hlt, if_neg hlt]
              rfl
        · have hb1 : b1 ≠ 91 := fun hc => h1 (hbr1.mp hc)
          rw [encodeRunes_cons, encodeRunes_cons, e0, e1, hn0]
          show ansiMatch (b0 :: b1 :: (bs1 ++ encodeRunes rest)) = _
          unfold ansiMatch matchRunes
          dsimp only
          rw [if_neg (fun hc => hb1 hc.2), if_neg (fun hc => h1 hc.2)]
          rfl
    · have hb0 : b0 ≠ 27 := fun hc => h0 (hesc0.mp hc)
      rw [encodeRunes_cons, e0, List.cons_append, ansiMatch_head_ne _ _ hb0,
        matchRunes_head_ne _ _ h0]
      rfl

theorem stripAnsi_high_append (pre tail : GoString) (h : ∀ x ∈ pre, 128 ≤ x.val) :
    stripAnsi (pre ++ tail) = pre ++ stripAnsi tail := by
  induction pre with
  | nil => rfl
  | cons x pre ih =>
    have hx : x ≠ 27 := by
      intro hc
      have := h x (by simp)
      rw [hc] at this
      exact absurd this (by decide)
    rw [List.cons_append, stripAnsi_cons _ _ (ansiMatch_head_ne _ _ hx),
      ih (fun y hy => h y (List.mem_cons_of_mem _ hy)), List.cons_append]

/-- Removing the escape sequences from the encoding of runes is the encoding of the runes
without their escape sequences. -/
theorem stripAnsi_encodeRunes (rs : List Rune) :
    stripAnsi (encodeRunes rs) = encodeRunes (stripRunes rs) := by
  suffices H : ∀ (n : Nat) (rs : List Rune), rs.length = n →
      stripAnsi (encodeRunes rs) = encodeRunes (stripRunes rs) from H _ rs rfl
  intro n
  induction n using Nat.strong_induction_on with
  | _ n ih =>
    intro rs hn
    cases rs with
    | nil => rfl
    | cons c cs =>
      cases hm : matchRunes (c :: cs) with
      | some after =>
        have hb : ansiMatch (encodeRunes (c :: cs)) = some (encodeRunes after) := by
          rw [ansiMatch_encodeRunes, hm]
          rfl
        rw [stripAnsi_of_match _ _ hb, stripRunes_of_match _ _ hm]
        exact ih after.length (by rw [← hn]; exact matchRunes_length _ _ hm) after rfl
      | none =>
        have hb : ansiMatch (encodeRunes (c :: cs)) = none := by
          rw [ansiMatch_encodeRunes, hm]
          rfl
        obtain ⟨b, bs, e, _, _, _, _, _, _, _, hbs⟩ := encodeRune_head c
        rw [stripRunes_cons _ _ hm, encodeRunes_cons, encodeRunes_cons, e, List.cons_append]
        rw [encodeRunes_cons, e, List.cons_append] at hb
        rw [stripAnsi_cons _ _ hb, stripAnsi_high_append _ _ hbs,
          ih cs.length (by rw [← hn]; simp) cs rfl, List.cons_append]

/-- The visible width of the encoding of runes. -/
theorem visibleLen_encodeRunes (rs : List Rune) :
    visibleLen (encodeRunes rs) = ((stripRunes rs).map runeWidth).sum := by
  unfold visibleLen
  rw [stripAnsi_encodeRunes, runes_encodeRunes]

theorem truncLoop_isPrefix (n : Int) (rs : List Rune) :
    ∀ (v : Int) (a : Bool), truncLoop n rs v a <+: rs := by
  induction rs with
  | nil => intro v a; exact List.prefix_refl _
  | cons c cs ih =>
    intro v a
    rw [truncLoop]
    split
    · exact (List.prefix_cons_inj c).mpr (ih _ _)
    · split
      · exact (List.prefix_cons_inj c).mpr (ih _ _)
      · split
        · exact List.nil_prefix
        · exact (List.prefix_cons_inj c).mpr (ih _ _)

theorem isLetterRune_not_param (l : Rune) (h : isLetterRune l = true) :
    isParamRune l = false := by
  have hle : ∀ d e : Rune, d ≤ e ↔ d.toNat ≤ e.toNat := fun _ _ => Iff.rfl
  have hA : ('A' : Rune).toNat = 65 := rfl
  have ha : ('a' : Rune).toNat = 97 := rfl
  unfold isLetterRune at h
  simp only [Bool.or_eq_true, Bool.and_eq_true, decide_eq_true_eq, hle, hA, ha] at h
  unfold isParamRune
  simp only [Bool.or_eq_false_iff, Bool.and_eq_false_iff, decide_eq_false_iff_not]
  omega

theorem isLetterRune_ne_esc (l : Rune) (h : isLetterRune l = true) : l ≠ escRune := by
  intro hc
  rw [hc] at h
  exact absurd h (by decide)

theorem isParamRune_ne_esc (p : Rune) (h : isParamRune p = true) : p ≠ escRune := by
  intro hc
  rw [hc] at h
  exact absurd h (by decide)

theorem isParamRune_not_letter (p : Rune) (h : isParamRune p = true) :
    isLetterRune p = false := by
  cases hl : isLetterRune p with
  | false => rfl
  | true => rw [isLetterRune_not_param p hl] at h; cases h

/-- The shape of a text that starts with a match of `ansiRe`. -/
theorem matchRunes_some (rs after : List Rune) (h : matchRunes rs = some after) :
    ∃ params l, rs = escRune :: '[' :: (params ++ l :: after)
      ∧ (∀ p ∈ params, isParamRune p = true) ∧ isLetterRune l = true := by
  unfold matchRunes at h
  match rs, h with
  | c0 :: c1 :: rest, h =>
    dsimp only at h
    split at h
    · rename_i hc
      cases hd : rest.dropWhile isParamRune with
      | nil => rw [hd] at h; cases h
      | cons l tl =>
        rw [hd] at h
        dsimp only at h
        split at h
        · rename_i hl
          cases h
          refine ⟨rest.takeWhile isParamRune, l, ?_, ?_, hl⟩
          · rw [hc.1, hc.2, ← hd, List.takeWhile_append_dropWhile]
          · intro p hp
            exact List.mem_takeWhile_imp hp
        · cases h
    · cases h

theorem dropWhile_params (params : List Rune) (l : Rune) (x : List Rune)
    (hp : ∀ p ∈ params, isParamRune p = true) (hl : isParamRune l = false) :
    (params ++ l :: x).dropWhile isParamRune = l :: x := by
  induction params with
  | nil =>
    rw [List.nil_append, List.dropWhile_cons, if_neg (by rw [hl]; simp)]
  | cons p ps ih =>
    rw [List.cons_append, List.dropWhile_cons, if_pos (hp p (by simp))]
    exact ih (fun q hq => hp q (List.mem_cons_of_mem _ hq))

theorem matchRunes_build (params : List Rune) (l : Rune) (x : List Rune)
    (hp : ∀ p ∈ params, isParamRune p = true) (hl : isLetterRune l = true) :
    matchRunes (escRune :: '[' :: (params ++ l :: x)) = some x := by
  unfold matchRunes
  dsimp only
  rw [if_pos ⟨rfl, rfl⟩, dropWhile_params params l x hp (isLetterRune_not_param l hl)]
  dsimp only
  rw [if_pos hl]

theorem truncLoop_params (n : Int) (params : List Rune) (y : List Rune) (v : Int)
    (hp : ∀ p ∈ params, isParamRune p = true) :
    truncLoop n (params ++ y) v true = params ++ truncLoop n y v true := by
  induction params with
  | nil => rfl
  | cons p ps ih =>
    have h1 : p ≠ Char.ofNat 0x1b := isParamRune_ne_esc p (hp p (by simp))
    have h2 : isLetterRune p = false := isParamRune_not_letter p (hp p (by simp))
    rw [List.cons_append, truncLoop, if_neg h1, if_pos rfl]
    have h3 : (!((decide ('A' ≤ p) && decide (p ≤ 'Z')) || (decide ('a' ≤ p) && decide (p ≤ 'z'))))
        = true := by
      have : ((decide ('A' ≤ p) && decide (p ≤ 'Z')) || (decide ('a' ≤ p) && decide (p ≤ 'z')))
          = false := h2
      rw [this]
      rfl
    rw [h3, ih (fun q hq => hp q (List.mem_cons_of_mem _ hq)), List.cons_append]

/-- The loop of `truncateWithAnsi` writes an escape sequence in full and goes on after it
with the count it had. -/
theorem truncLoop_seq (n : Int) (params : List Rune) (l : Rune) (x : List Rune) (v : Int)
    (a : Bool) (hp : ∀ p ∈ params, isParamRune p = true) (hl : isLetterRune l = true) :
    truncLoop n (escRune :: '[' :: (params ++ l :: x)) v a
      = escRune :: '[' :: (params ++ l :: truncLoop n x v false) := by
  rw [truncLoop, if_pos (show escRune = Char.ofNat 27 from rfl), truncLoop,
    if_neg (show ¬ '[' = Char.ofNat 27 by decide), if_pos rfl]
  have h3 : (!((decide ('A' ≤ '[') && decide ('[' ≤ 'Z'))
      || (decide ('a' ≤ '[') && decide ('[' ≤ 'z')))) = true := by decide
  rw [h3, truncLoop_params n params _ v hp, truncLoop,
    if_neg (show ¬ l = Char.ofNat 27 from isLetterRune_ne_esc l hl), if_pos rfl]
  have h4 : (!((decide ('A' ≤ l) && decide (l ≤ 'Z')) || (decide ('a' ≤ l) && decide (l ≤ 'z'))))
      = false := by
    have : ((decide ('A' ≤ l) && decide (l ≤ 'Z')) || (decide ('a' ≤ l) && decide (l ≤ 'z')))
        = true := hl
    rw [this]
    rfl
  rw [h4]

theorem truncLoop_visible (n : Int) (c : Rune) (cs : List Rune) (v : Int)
    (hc : c ≠ escRune) :
    truncLoop n (c :: cs) v false
      = if v + truncWidth c > n then [] else c :: truncLoop n cs (v + truncWidth c) false := by
  rw [truncLoop, if_neg (show ¬ c = Char.ofNat 27 from hc), if_neg (by simp)]

/-- Removing the escape sequences from what the loop of `truncateWithAnsi` keeps gives what
the loop keeps of the text without its escape sequences. -/
theorem stripRunes_truncLoop (n : Int) (rs : List Rune) (h : escRune ∉ stripRunes rs)
    (v : Int) :
    stripRunes (truncLoop n rs v false) = truncLoop n (stripRunes rs) v false := by
  suffices H : ∀ (k : Nat) (rs : List Rune), rs.length = k → escRune ∉ stripRunes rs →
      ∀ v, stripRunes (truncLoop n rs v false) = truncLoop n (stripRunes rs) v false
    from H _ rs rfl h v
  intro k
  induction k using Nat.strong_induction_on with
  | _ k ih =>
    intro rs hk hwf v
    cases rs with
    | nil => rfl
    | cons c cs =>
      cases hm : matchRunes (c :: cs) with
      | some after =>
        obtain ⟨params, l, e, hp, hl⟩ := matchRunes_some _ _ hm
        have hs : stripRunes (c :: cs) = stripRunes after := stripRunes_of_match _ _ hm
        rw [hs] at hwf ⊢
        rw [e, truncLoop_seq n params l after v false hp hl,
          stripRunes_of_match _ _ (matchRunes_build params l _ hp hl)]
        exact ih after.length (by rw [← hk]; exact matchRunes_length _ _ hm) after rfl hwf v
      | none =>
        have hs : stripRunes (c :: cs) = c :: stripRunes cs := stripRunes_cons _ _ hm
        rw [hs] at hwf ⊢
        have hc : c ≠ escRune := fun hc => hwf (by rw [hc]; exact List.mem_cons_self _ _)
        have hwf2 : escRune ∉ stripRunes cs := fun hc => hwf (List.mem_cons_of_mem _ hc)
        rw [truncLoop_visible n c cs v hc, truncLoop_visible n c _ v hc]
        split
        · rfl
        · rw [stripRunes_cons _ _ (matchRunes_head_ne _ _ hc)]
          congr 1
          exact ih cs.length (by rw [← hk]; simp) cs rfl hwf2 _

theorem truncWidth_pos (c : Rune) : 1 ≤ truncWidth c := by
  unfold truncWidth
  split <;> omega

theorem runeWidth_le (c : Rune) : 0 ≤ runeWidth c ∧ runeWidth c ≤ truncWidth c := by
  unfold runeWidth truncWidth
  split
  · split <;> omega
  · split <;> omega

/-- The budget of the loop of `truncateWithAnsi` on a text without escape sequences. -/
theorem truncLoop_budget (n : Int) (xs : List Rune) (h : escRune ∉ xs) :
    ∀ v : Int, v ≤ n →
      v + ((truncLoop n xs v false).map truncWidth).sum ≤ n := by
  induction xs with
  | nil => intro v hv; simpa [truncLoop] using hv
  | cons c cs ih =>
    intro v hv
    have hc : c ≠ escRune := fun hc => h (by rw [hc]; exact List.mem_cons_self _ _)
    rw [truncLoop_visible n c cs v hc]
    split
    · simpa using hv
    · rename_i hfit
      have := ih (fun hx => h (List.mem_cons_of_mem _ hx)) (v + truncWidth c) (by omega)
      rw [List.map_cons, List.sum_cons]
      omega

theorem truncLoop_budget_neg (n : Int) (xs : List Rune) (h : escRune ∉ xs) (v : Int)
    (hv : n < v) : truncLoop n xs v false = [] := by
  cases xs with
  | nil => rfl
  | cons c cs =>
    have hc : c ≠ escRune := fun hc => h (by rw [hc]; exact List.mem_cons_self _ _)
    rw [truncLoop_visible n c cs v hc, if_pos]
    have := truncWidth_pos c
    omega

theorem sum_runeWidth_le (xs : List Rune) :
    0 ≤ (xs.map runeWidth).sum ∧ (xs.map runeWidth).sum ≤ (xs.map truncWidth).sum := by
  induction xs with
  | nil => simp
  | cons c cs ih =>
    have := runeWidth_le c
    rw [List.map_cons, List.map_cons, List.sum_cons, List.sum_cons]
    omega

/-- After a text whose escape sequences are complete, the scan of `ansiRe` starts afresh. -/
theorem stripRunes_append (xs ys : List Rune) (h : escRune ∉ stripRunes xs) :
    stripRunes (xs ++ ys) = stripRunes xs ++ stripRunes ys := by
  suffices H : ∀ (k : Nat) (xs : List Rune), xs.length = k → escRune ∉ stripRunes xs →
      stripRunes (xs ++ ys) = stripRunes xs ++ stripRunes ys from H _ xs rfl h
  intro k
  induction k using Nat.strong_induction_on with
  | _ k ih =>
    intro xs hk hwf
    cases xs with
    | nil => rfl
    | cons c cs =>
      cases hm : matchRunes (c :: cs) with
      | some after =>
        obtain ⟨params, l, e, hp, hl⟩ := matchRunes_some _ _ hm
        have hs : stripRunes (c :: cs) = stripRunes after := stripRunes_of_match _ _ hm
        rw [hs] at hwf ⊢
        have e2 : (c :: cs) ++ ys = escRune :: '[' :: (params ++ l :: (after ++ ys)) := by
          rw [e]
          simp
        rw [e2, stripRunes_of_match _ _ (matchRunes_build params l _ hp hl)]
        exact ih after.length (by rw [← hk]; exact matchRunes_length _ _ hm) after rfl hwf
      | none =>
        have hs : stripRunes (c :: cs) = c :: stripRunes cs := stripRunes_cons _ _ hm
        rw [hs] at hwf ⊢
        have hc : c ≠ escRune := fun hc => hwf (by rw [hc]; exact List.mem_cons_self _ _)
        have hwf2 : escRune ∉ stripRunes cs := fun hc => hwf (List.mem_cons_of_mem _ hc)
        rw [List.cons_append, stripRunes_cons _ _ (matchRunes_head_ne _ _ hc),
          ih cs.length (by rw [← hk]; simp) cs rfl hwf2, List.cons_append]

/-- A space at the end of a text closes no escape sequence. -/
theorem stripRunes_concat_space (xs : List Rune) (h : escRune ∉ stripRunes (xs ++ [' '])) :
    escRune ∉ stripRunes xs ∧ stripRunes (xs ++ [' ']) = stripRunes xs ++ [' '] := by
  suffices H : ∀ (k : Nat) (xs : List Rune), xs.length = k →
      escRune ∉ stripRunes (xs ++ [' ']) →
      escRune ∉ stripRunes xs ∧ stripRunes (xs ++ [' ']) = stripRunes xs ++ [' ']
    from H _ xs rfl h
  intro k
  induction k using Nat.strong_induction_on with
  | _ k ih =>
    intro xs hk hwf
    cases xs with
    | nil =>
      refine ⟨by simp [stripRunes_nil], ?_⟩
      rfl
    | cons c cs =>
      rw [List.cons_append] at hwf ⊢
      cases hm : matchRunes (c :: (cs ++ [' '])) with
      | some after =>
        obtain ⟨params, l, e, hp, hl⟩ := matchRunes_some _ _ hm
        have hc : c = escRune := (List.cons.inj e).1
        have e1 : cs ++ [' '] = '[' :: (params ++ l :: after) := (List.cons.inj e).2
        rcases List.eq_nil_or_concat after with ha | ⟨a0, z, ha⟩
        · exfalso
          rw [ha] at e1
          have e2 : cs ++ [' '] = ('[' :: params) ++ [l] := by rw [e1]; simp
          have := (List.append_inj' e2 rfl).2
          have hl2 : l = ' ' := (List.cons.inj this).1.symm
          rw [hl2] at hl
          exact absurd hl (by decide)
        · have e2 : cs ++ [' '] = ('[' :: (params ++ l :: a0)) ++ [z] := by
            rw [e1, ha, List.concat_eq_append]; simp
          have e3 := List.append_inj' e2 rfl
          have hz : z = ' ' := (List.cons.inj e3.2).1.symm
          have hm2 : matchRunes (c :: cs) = some a0 := by
            rw [hc, e3.1]
            exact matchRunes_build params l a0 hp hl
          subst hz
          subst ha
          rw [stripRunes_of_match _ _ hm] at hwf ⊢
          rw [stripRunes_of_match _ _ hm2]
          rw [List.concat_eq_append] at hwf ⊢
          have hlen : a0.length < k := by
            rw [← hk]
            exact matchRunes_length _ _ hm2
          exact ih a0.length hlen a0 rfl hwf
      | none =>
        rw [stripRunes_cons _ _ hm] at hwf ⊢
        have hc : c ≠ escRune := fun hc => hwf (by rw [hc]; exact List.mem_cons_self _ _)
        have hwf2 : escRune ∉ stripRunes (cs ++ [' ']) :=
          fun hc => hwf (List.mem_cons_of_mem _ hc)
        obtain ⟨i1, i2⟩ := ih cs.length (by rw [← hk]; simp) cs rfl hwf2
        rw [stripRunes_cons _ _ (matchRunes_head_ne _ _ hc), i2]
        refine ⟨?_, rfl⟩
        intro hx
        rcases List.mem_cons.mp hx with hx | hx
        · exact hc hx.symm
        · exact i1 hx

/-- Trimming spaces at the end keeps the escape sequences complete and removes only
spaces from the visible text. -/
theorem stripRunes_rdropWhile (p : List Rune) (h : escRune ∉ stripRunes p) :
    escRune ∉ stripRunes (p.rdropWhile fun c => decide (c = ' '))
      ∧ ∃ k : Nat, stripRunes p
          = stripRunes (p.rdropWhile fun c => decide (c = ' ')) ++ List.replicate k ' ' := by
  induction p using List.reverseRecOn with
  | nil => exact ⟨h, 0, by simp [List.rdropWhile]⟩
  | append_singleton q c ih =>
    by_cases hc : c = ' '
    · subst hc
      obtain ⟨h1, h2⟩ := stripRunes_concat_space q h
      obtain ⟨i1, k, i2⟩ := ih h1
      rw [List.rdropWhile_concat_pos _ _ _ (by simp)]
      refine ⟨i1, k + 1, ?_⟩
      rw [h2, i2, List.append_assoc, List.replicate_succ']
    · rw [List.rdropWhile_concat_neg _ _ _ (by simpa using hc)]
      exact ⟨h, 0, by simp⟩

theorem sum_runeWidth_replicate (k : Nat) :
    0 ≤ ((List.replicate k ' ').map runeWidth).sum := (sum_runeWidth_le _).1

/-- Trimming the spaces at the end of an encoding trims the runes. -/
theorem trimRightSpaces_encodeRunes (p : List Rune) :
    trimRightSpaces (encodeRunes p)
      = encodeRunes (p.rdropWhile fun c => decide (c = ' ')) := by
  unfold trimRightSpaces
  induction p using List.reverseRecOn with
  | nil => rfl
  | append_singleton q c ih =>
    obtain ⟨b, bs, e, _, _, _, _, hsp, hbs, _, hcont⟩ := encodeRune_head c
    have eq : encodeRunes (q ++ [c]) = encodeRunes q ++ (b :: bs) := by
      rw [encodeRunes_append, encodeRunes_cons, e]
      show encodeRunes q ++ (b :: bs ++ []) = _
      rw [List.append_nil]
    by_cases hc : c = ' '
    · have hb : b = 32 := hsp.mpr hc
      have hn : bs = [] := hbs (by rw [hc]; decide)
      rw [eq, hn, hb, List.rdropWhile_concat_pos _ _ _ (by simp),
        List.rdropWhile_concat_pos _ _ _ (by simpa using hc)]
      exact ih
    · rw [List.rdropWhile_concat_neg _ q c (by simpa using hc), eq]
      have hne : b :: bs ≠ [] := List.cons_ne_nil _ _
      have hlast : (b :: bs).getLast hne ≠ 32 := by
        cases bs with
        | nil => exact fun hx => hc (hsp.mp hx)
        | cons b2 bs2 =>
          intro hx
          have hm : (b :: b2 :: bs2).getLast hne ∈ b2 :: bs2 := by
            rw [List.getLast_cons (List.cons_ne_nil _ _)]
            exact List.getLast_mem _
          have := hcont _ hm
          rw [hx] at this
          exact absurd this (by decide)
      rw [← List.dropLast_append_getLast hne, ← List.append_assoc,
        List.rdropWhile_concat_neg _ _ _ (by simpa using hlast)]

theorem esc_mem_encodeRunes (xs : List Rune) :
    (27 : Byte) ∈ encodeRunes xs ↔ escRune ∈ xs := by
  induction xs with
  | nil => simp [encodeRunes]
  | cons c cs ih =>
    obtain ⟨b, bs, e, _, _, hesc, _, _, _, _, hcont⟩ := encodeRune_head c
    rw [encodeRunes_cons, e, List.mem_append, List.mem_cons, List.mem_cons, ih]
    constructor
    · rintro ((h | h) | h)
      · exact Or.inl (hesc.mp h.symm).symm
      · exact absurd (hcont _ h) (by decide)
      · exact Or.inr h
    · rintro (h | h)
      · exact Or.inl (Or.inl (hesc.mpr h.symm).symm)
      · exact Or.inr h

theorem wf_iff (rs : List Rune) :
    (27 : Byte) ∉ stripAnsi (encodeRunes rs) ↔ escRune ∉ stripRunes rs := by
  rw [stripAnsi_encodeRunes, esc_mem_encodeRunes]

theorem encodeRunes_isPrefix (p rs : List Rune) (h : p <+: rs) :
    encodeRunes p <+: encodeRunes rs := by
  obtain ⟨t, rfl⟩ := h
  rw [encodeRunes_append]
  exact List.prefix_append _ _

/-- On valid UTF-8 text `truncateWithAnsi` returns the text, or the encoding of the runes
its loop keeps without the spaces at their end. -/
theorem truncateWithAnsi_encodeRunes (rs : List Rune) (n : Int) :
    truncateWithAnsi (encodeRunes rs) n
      = if visibleLen (encodeRunes rs) ≤ n then encodeRunes rs
        else encodeRunes ((truncLoop n rs 0 false).rdropWhile fun c => decide (c = ' ')) := by
  unfold truncateWithAnsi
  rw [runes_encodeRunes, trimRightSpaces_encodeRunes]

theorem truncLoop_wf (n : Int) (rs : List Rune) (h : escRune ∉ stripRunes rs) (v : Int) :
    escRune ∉ stripRunes (truncLoop n rs v false) := by
  rw [stripRunes_truncLoop n rs h v]
  intro hc
  exact h ((truncLoop_isPrefix n _ v false).subset hc)

theorem truncateWithAnsi_wf (rs : List Rune) (n : Int) (h : escRune ∉ stripRunes rs) :
    (27 : Byte) ∉ stripAnsi (truncateWithAnsi (encodeRunes rs) n) := by
  rw [truncateWithAnsi_encodeRunes]
  split
  · exact (wf_iff rs).mpr h
  · exact (wf_iff _).mpr (stripRunes_rdropWhile _ (truncLoop_wf n rs h 0)).1

theorem truncateWithAnsi_isPrefix (rs : List Rune) (n : Int) :
    truncateWithAnsi (encodeRunes rs) n <+: encodeRunes rs := by
  rw [truncateWithAnsi_encodeRunes]
  split
  · exact List.prefix_refl _
  · exact encodeRunes_isPrefix _ _
      ((List.rdropWhile_prefix _ _).trans (truncLoop_isPrefix n rs 0 false))

/-- The visible width of what `truncateWithAnsi` returns, for valid UTF-8 text with complete
escape sequences and a budget that is not negative. -/
theorem visibleLen_truncateWithAnsi (rs : List Rune) (n : Int)
    (h : escRune ∉ stripRunes rs) (hn : 0 ≤ n) :
    visibleLen (truncateWithAnsi (encodeRunes rs) n) ≤ n := by
  rw [truncateWithAnsi_encodeRunes]
  split
  · assumption
  · rw [visibleLen_encodeRunes]
    obtain ⟨_, k, e⟩ := stripRunes_rdropWhile _ (truncLoop_wf n rs h 0)
    have h1 := sum_runeWidth_replicate k
    have h2 := congrArg (fun l => (l.map runeWidth).sum) e
    simp only [List.map_append, List.sum_append] at h2
    have h3 := (sum_runeWidth_le (stripRunes (truncLoop n rs 0 false))).2
    rw [stripRunes_truncLoop n rs h 0] at h3
    have h4 := truncLoop_budget n (stripRunes rs) h 0 hn
    rw [stripRunes_truncLoop n rs h 0] at h2
    omega

theorem visibleLen_append_ellipsis (ys : List Rune) (h : escRune ∉ stripRunes ys) :
    visibleLen (encodeRunes ys ++ str "…") = visibleLen (encodeRunes ys) + 1 := by
  have e : encodeRunes ys ++ str "…" = encodeRunes (ys ++ [Char.ofNat 0x2026]) := by
    rw [encodeRunes_append]
    rfl
  rw [e, visibleLen_encodeRunes, visibleLen_encodeRunes, stripRunes_append _ _ h,
    List.map_append, List.sum_append]
  rfl

/-- What `truncateWithAnsi` returns is the encoding of runes with complete escape
sequences. -/
theorem truncateWithAnsi_form (rs : List Rune) (n : Int) (h : escRune ∉ stripRunes rs) :
    ∃ ys, truncateWithAnsi (encodeRunes rs) n = encodeRunes ys ∧ escRune ∉ stripRunes ys := by
  rw [truncateWithAnsi_encodeRunes]
  split
  · exact ⟨rs, rfl, h⟩
  · exact ⟨_, rfl, (stripRunes_rdropWhile _ (truncLoop_wf n rs h 0)).1⟩

theorem replaceSpaces_length (s : GoString) : (replaceSpaces s).length = s.length := by
  simp [replaceSpaces]

theorem replaceSpaces_getElem? (s : GoString) (i : Nat) :
    (replaceSpaces s)[i]? = (s[i]?).map fun (b : Byte) => if b = 32 then 45 else b := by
  simp [replaceSpaces]

theorem replaceSpaces_no_space (s : GoString) : (32 : Byte) ∉ replaceSpaces s := by
  simp only [replaceSpaces, List.mem_map, not_exists, not_and]
  intro b _
  by_cases h : b = 32
  · rw [if_pos h]; decide
  · rw [if_neg h]; exact h

theorem renameSkipWord_eq_skipBack (buf : GoString) (n : Nat) :
    renameSkipWord buf n = skipBack isWordChar buf n := by
  induction n with
  | zero => rfl
  | succ n ih => simp only [renameSkipWord, skipBack, ih]

/-- The two first loops of Ctrl-W stop one byte apart at most, and the second loop of the
main list makes up for it. -/
theorem skipBack_renameSkipNonWord (buf : GoString) (n : Nat) :
    skipBack isWordChar buf (skipBack (fun r => !isWordChar r) buf (n + 1))
      = skipBack isWordChar buf (renameSkipNonWord buf n) := by
  induction n with
  | zero =>
    simp only [skipBack, renameSkipNonWord]
    cases h : isWordChar (byteRune buf 0) <;> simp [skipBack, h]
  | succ p ih =>
    rw [skipBack, renameSkipNonWord]
    cases h : isWordChar (byteRune buf (p + 1))
    · simp only [Bool.not_false, if_true]
      exact ih
    · simp [skipBack, h]

/-- In a strictly increasing list whose members are at least `a`, the member with index `i`
is at least `a + i`. -/
theorem increasing_getElem_ge :
    ∀ (ps : List Nat) (a : Nat), ps.Pairwise (· < ·) → (∀ p ∈ ps, a ≤ p) →
      ∀ (i : Nat) (h : i < ps.length), a + i ≤ ps[i] := by
  intro ps
  induction ps with
  | nil => intro a _ _ i h; simp at h
  | cons p ps ih =>
    intro a hp ha i h
    cases i with
    | zero => simpa using ha p (List.mem_cons_self _ _)
    | succ i =>
      rw [List.pairwise_cons] at hp
      have := ih (p + 1) hp.2 (fun q hq => hp.1 q hq) i (by simpa using h)
      have hap := ha p (List.mem_cons_self _ _)
      simp only [List.getElem_cons_succ]
      omega

/-- A list that is pointwise between `i` and `i` is the list `0, 1, ..., n - 1`. -/
theorem eq_range_of_getElem (ps : List Nat) (h : ∀ (i : Nat) (hi : i < ps.length), ps[i] = i) :
    ps = List.range ps.length := by
  apply List.ext_getElem (by simp)
  intro i h1 h2
  rw [h i h1, List.getElem_range]

theorem forall₂_range_isPrefix (text qs : List Rune) :
    List.Forall₂ (fun p c => text[p]? = some c) (List.range qs.length) qs ↔ qs <+: text := by
  rw [List.forall₂_iff_get, List.prefix_iff_eq_take]
  constructor
  · rintro ⟨_, h⟩
    apply List.ext_getElem?
    intro i
    by_cases hi : i < qs.length
    · have := h i (by simpa using hi) hi
      simp only [List.get_eq_getElem, List.getElem_range] at this
      rw [List.getElem?_take_of_lt hi, this, List.getElem?_eq_getElem hi]
    · rw [List.getElem?_eq_none (by omega), List.getElem?_eq_none]
      simp only [List.length_take]
      omega
  · intro h
    refine ⟨by simp, ?_⟩
    intro i h1 h2
    simp only [List.get_eq_getElem, List.getElem_range]
    have : qs[i]? = (List.take qs.length text)[i]? := by rw [← h]
    rw [List.getElem?_take_of_lt h2, List.getElem?_eq_getElem h2] at this
    exact this.symm

theorem sortByScore_singleton (m : FuzzyMatch K) : sortByScore [m] = [m] :=
  sortByScore_of_sorted [m] (List.pairwise_singleton _ _)

theorem getTries_twice (env : Env K) (s : TrySelector K) :
    getTries env (getTries env s).2 = getTries env s := by
  unfold getTries loadAllTries
  cases h1 : s.allTries with
  | some a =>
    cases h2 : s.fuzzy with
    | some f => simp [h1, h2]
    | none => simp [h1, h2]
  | none =>
    cases h3 : env.readDir with
    | none =>
      cases h2 : s.fuzzy with
      | some f => simp [h1, h2, h3]
      | none => simp [h1, h2, h3]
    | some es =>
      cases h2 : s.fuzzy with
      | some f => simp [h1, h2, h3]
      | none => simp [h1, h2, h3]

theorem getTries_keeps_matcher (env : Env K) (s : TrySelector K) (f : Fuzzy K)
    (h : s.fuzzy = some f) : (getTries env s).2.fuzzy = some f := by
  unfold getTries loadAllTries
  cases h1 : s.allTries with
  | some a => simp [h1, h]
  | none =>
    cases h3 : env.readDir with
    | none => simp [h1, h, h3]
    | some es => simp [h1, h, h3]

theorem sliceChecked_of_le (s : GoString) (lo hi : Nat) (h1 : lo ≤ hi) (h2 : hi ≤ s.length) :
    sliceChecked s lo hi = some ((s.take hi).drop lo) := by
  unfold sliceChecked
  rw [if_pos ⟨by omega, by omega, by omega⟩]
  simp

theorem sliceChecked_take (s : GoString) (hi : Nat) (h : hi ≤ s.length) :
    sliceChecked s 0 hi = some (s.take hi) := by
  have := sliceChecked_of_le s 0 hi (Nat.zero_le _) h
  simpa using this

theorem sliceChecked_drop (s : GoString) (lo : Nat) (h : lo ≤ s.length) :
    sliceChecked s lo s.length = some (s.drop lo) := by
  have := sliceChecked_of_le s lo s.length h (le_refl _)
  simpa using this

theorem indexChecked_of_lt {α : Type} (xs : List α) (i : Nat) (h : i < xs.length) :
    indexChecked xs (i : Int) = some (xs.get ⟨i, h⟩) := by
  unfold indexChecked
  rw [if_pos ⟨by omega, by omega⟩]
  simp [List.getElem?_eq_getElem h]

theorem skipBackChecked_eq (test : Rune → Bool) (buf : GoString) :
    ∀ n, n ≤ buf.length → skipBackChecked test buf n = some (skipBack test buf n) := by
  intro n
  induction n with
  | zero => intro _; rfl
  | succ n ih =>
    intro h
    have hn : n < buf.length := by omega
    rw [skipBackChecked, indexChecked_of_lt buf n hn, skipBack]
    have hb : byteRune buf n = Char.ofNat (buf.get ⟨n, hn⟩).val := by
      unfold byteRune
      rw [List.getD_eq_getElem _ _ hn]
      rfl
    simp only [Option.bind_eq_bind, Option.some_bind, hb]
    split
    · exact ih (by omega)
    · rfl

theorem backspaceChecked_eq (s : TrySelector K) (h : InputInv s) :
    backspaceChecked s = some
      { (if s.inputCursorPos > 0 then
          { s with
            inputBuffer :=
              s.inputBuffer.take (s.inputCursorPos - 1) ++ s.inputBuffer.drop s.inputCursorPos
            inputCursorPos := s.inputCursorPos - 1 }
        else s) with cursorPos := 0 } := by
  unfold InputInv at h
  unfold backspaceChecked
  by_cases hc : s.inputCursorPos > 0
  · have e : ((s.inputCursorPos : Int) - 1) = ((s.inputCursorPos - 1 : Nat) : Int) := by omega
    have e0 : (0 : Int) = ((0 : Nat) : Int) := rfl
    rw [if_pos hc, if_pos hc, e, sliceChecked_drop _ _ h]
    have := sliceChecked_take s.inputBuffer (s.inputCursorPos - 1) (by omega)
    simp only [Nat.cast_zero] at this
    rw [this]
    rfl
  · rw [if_neg hc, if_neg hc]

theorem killLineChecked_eq (s : TrySelector K) (h : InputInv s) :
    killLineChecked s = some { s with inputBuffer := s.inputBuffer.take s.inputCursorPos } := by
  unfold InputInv at h
  unfold killLineChecked
  have := sliceChecked_take s.inputBuffer s.inputCursorPos h
  simp only [Nat.cast_zero] at this
  rw [this]
  rfl

theorem deleteWordBackChecked_eq (s : TrySelector K) (h : InputInv s) :
    deleteWordBackChecked s = some (deleteWordBack s) := by
  unfold InputInv at h
  unfold deleteWordBackChecked deleteWordBack
  by_cases hc : s.inputCursorPos > 0
  · have h1 := skipBack_le (fun r => !isWordChar r) s.inputBuffer s.inputCursorPos
    have h2 := skipBack_le isWordChar s.inputBuffer
      (skipBack (fun r => !isWordChar r) s.inputBuffer s.inputCursorPos)
    rw [if_pos hc, if_pos hc, skipBackChecked_eq _ _ _ h]
    simp only [Option.bind_eq_bind, Option.some_bind]
    rw [skipBackChecked_eq _ _ _ (by omega)]
    simp only [Option.some_bind]
    have := sliceChecked_take s.inputBuffer
      (skipBack isWordChar s.inputBuffer
        (skipBack (fun r => !isWordChar r) s.inputBuffer s.inputCursorPos)) (by omega)
    simp only [Nat.cast_zero] at this
    rw [this, sliceChecked_drop _ _ h]
    rfl
  · rw [if_neg hc, if_neg hc]

theorem insertChecked_eq (s : TrySelector K) (key : GoString) (h : InputInv s) :
    insertChecked s key = some
      { s with
        inputBuffer :=
          s.inputBuffer.take s.inputCursorPos ++ key ++ s.inputBuffer.drop s.inputCursorPos
        inputCursorPos := s.inputCursorPos + 1
        cursorPos := 0 } := by
  unfold InputInv at h
  unfold insertChecked
  have := sliceChecked_take s.inputBuffer s.inputCursorPos h
  simp only [Nat.cast_zero] at this
  rw [this, sliceChecked_drop _ _ h]
  rfl

theorem renderInputChecked_eq (colorsEnabled : Bool) (text : GoString) (cursor : Nat)
    (h : cursor ≤ text.length) :
    renderInputChecked colorsEnabled text cursor = some (renderInput colorsEnabled text cursor) := by
  unfold renderInputChecked renderInput
  by_cases ht : text = []
  · rw [if_pos ht, if_pos ht]
  · rw [if_neg ht, if_neg ht]
    have := sliceChecked_take text cursor h
    simp only [Nat.cast_zero] at this
    rw [this]
    by_cases hc : cursor < text.length
    · have e : ((cursor : Int) + 1) = ((cursor + 1 : Nat) : Int) := by omega
      have hb : byteRune text cursor = Char.ofNat (text.get ⟨cursor, hc⟩).val := by
        unfold byteRune
        rw [List.getD_eq_getElem _ _ hc]
        rfl
      simp only [if_pos hc, e, sliceChecked_drop text (cursor + 1) (by omega),
        indexChecked_of_lt text cursor hc, hb]
      rfl
    · simp only [if_neg hc]
      rfl

theorem bodyLoop_length (nTries : Nat) (c so mv : Int) :
    ∀ (k : Nat) (idx n : Int), idx + k ≤ nTries + 1 → n + k ≤ mv →
      ((bodyLoop nTries c so mv k idx n).length : Int) + n ≤ mv := by
  intro k
  induction k with
  | zero =>
    intro idx n _ h
    simpa [bodyLoop] using h
  | succ k ih =>
    intro idx n h1 h2
    rw [bodyLoop]
    by_cases hsep : idx = nTries ∧ nTries > 0 ∧ idx ≥ so
    · rw [if_pos hsep]
      by_cases hfull : n + 1 ≥ mv
      · rw [if_pos hfull]
        simp only [List.length_singleton, Nat.cast_one]
        push_cast at h2
        omega
      · rw [if_neg hfull]
        have hk : k = 0 := by
          push_cast at h1
          omega
        subst hk
        simp only [bodyLoop, List.length_cons, List.length_nil]
        push_cast
        omega
    · rw [if_neg hsep]
      have := ih (idx + 1) (n + 1) (by push_cast at h1 ⊢; omega) (by push_cast at h2 ⊢; omega)
      simp only [List.length_cons]
      push_cast
      omega

theorem renderBodyRows_length (s : TrySelector K) (tries : List (TryEntry K)) :
    ((renderBodyRows s tries).length : Int) ≤ max 3 (s.height - 6) := by
  unfold renderBodyRows
  dsimp only
  have hmv : (if s.height - 4 - 2 < 3 then (3 : Int) else s.height - 4 - 2)
      = max 3 (s.height - 6) := by
    split <;> omega
  rw [hmv]
  have h3 : (3 : Int) ≤ max 3 (s.height - 6) := le_max_left _ _
  generalize max 3 (s.height - 6) = mv at h3 ⊢
  generalize hti : (if s.inputBuffer ≠ [] then (tries.length : Int) + 1 else tries.length) = ti
  have hti2 : ti ≤ tries.length + 1 := by
    rw [← hti]; split <;> omega
  generalize hve : (if s.scrollOffset + mv > ti then ti else s.scrollOffset + mv) = ve
  have hve1 : ve ≤ ti := by rw [← hve]; split <;> omega
  have hve2 : ve ≤ s.scrollOffset + mv := by rw [← hve]; split <;> omega
  by_cases hk : (ve - s.scrollOffset).toNat = 0
  · rw [hk]
    simp only [bodyLoop, List.length_nil, Nat.cast_zero]
    omega
  · have := bodyLoop_length tries.length s.cursorPos s.scrollOffset mv
      (ve - s.scrollOffset).toNat s.scrollOffset 0 (by omega) (by omega)
    omega

theorem renderBody_length (s : TrySelector K) (tries : List (TryEntry K)) :
    ((renderBody s tries).length : Int) = max 3 (s.height - 6) := by
  have h := renderBodyRows_length s tries
  unfold renderBody
  dsimp only
  have hmv : (if s.height - 4 - 2 < 3 then (3 : Int) else s.height - 4 - 2)
      = max 3 (s.height - 6) := by
    split <;> omega
  rw [hmv, List.length_append, List.length_replicate]
  push_cast
  omega

theorem refreshSize_pos (env : Env K) (s : TrySelector K) :
    0 < (refreshSize env s).width ∧ 0 < (refreshSize env s).height := by
  unfold refreshSize
  dsimp only
  constructor
  · split <;> omega
  · split <;> omega

theorem render_size (env : Env K) (s : TrySelector K) (tries : List (TryEntry K)) :
    (render env s tries).width = (refreshSize env s).width
      ∧ (render env s tries).height = (refreshSize env s).height := by
  unfold render
  dsimp only
  constructor <;> split <;> rfl

theorem posixScan_single (s : GoString) :
    ∀ (w : GoString) (ws : List GoString),
      (replaceAllByte s 39 (str "'\"'\"'")).foldl posixStep
          { mode := .single, cur := some w, words := ws }
        = { mode := .single, cur := some (w ++ s), words := ws } := by
  induction s with
  | nil => intro w ws; simp [replaceAllByte]
  | cons b s ih =>
    intro w ws
    have hcons : replaceAllByte (b :: s) 39 (str "'\"'\"'")
        = (if b = 39 then str "'\"'\"'" else [b]) ++ replaceAllByte s 39 (str "'\"'\"'") := by
      simp [replaceAllByte]
    rw [hcons, List.foldl_append]
    by_cases hb : b = 39
    · subst hb
      have h5 : (str "'\"'\"'" : GoString) = [39, 34, 39, 34, 39] := by decide
      rw [if_pos rfl]
      rw [h5] at ih ⊢
      have : List.foldl posixStep { mode := .single, cur := some w, words := ws }
          ([39, 34, 39, 34, 39] : GoString)
          = { mode := .single, cur := some (w ++ [39]), words := ws } := by
        simp [posixStep]
      rw [this, ih]
      simp
    · rw [if_neg hb]
      have : List.foldl posixStep { mode := .single, cur := some w, words := ws } [b]
          = { mode := .single, cur := some (w ++ [b]), words := ws } := by
        simp [posixStep, hb]
      rw [this, ih]
      simp

/-- Reading `q s` outside quotes appends `s` to the word being read and ends outside
quotes. -/
theorem posixScan_q (s : GoString) (st : WordScan) (h : st.mode = .plain) :
    (q s).foldl posixStep st = { st with cur := some (st.cur.getD [] ++ s) } := by
  obtain ⟨m, c, ws⟩ := st
  simp only at h
  subst h
  have h1 : (str "'" : GoString) = [39] := by decide
  unfold q
  rw [h1, List.foldl_append, List.foldl_append]
  have : List.foldl posixStep { mode := .plain, cur := c, words := ws } ([39] : GoString)
      = { mode := .single, cur := some (c.getD []), words := ws } := by
    simp [posixStep]
  rw [this, posixScan_single]
  simp [posixStep]

theorem posixWords_q (s : GoString) : posixWords (q s) = some [s] := by
  unfold posixWords
  rw [posixScan_q s _ rfl]
  simp

theorem q_injective (s t : GoString) (h : q s = q t) : s = t := by
  have h1 := posixWords_q s
  rw [h, posixWords_q t] at h1
  simpa using h1.symm

theorem posixStep_words (st : WordScan) (ws0 : List GoString) (b : Byte) :
    posixStep { st with words := ws0 ++ st.words } b
      = { posixStep st b with words := ws0 ++ (posixStep st b).words } := by
  obtain ⟨m, c, ws⟩ := st
  cases m <;> simp only [posixStep] <;> split_ifs <;> simp

theorem posixScan_words (l : GoString) :
    ∀ (st : WordScan) (ws0 : List GoString),
      l.foldl posixStep { st with words := ws0 ++ st.words }
        = { l.foldl posixStep st with words := ws0 ++ (l.foldl posixStep st).words } := by
  induction l with
  | nil => intro st ws0; rfl
  | cons b l ih =>
    intro st ws0
    rw [List.foldl_cons, List.foldl_cons, posixStep_words, ih]

/-- Reading a blank and then `l`, after a word `w` outside quotes: `w` is completed and `l`
is read from the start of a word. -/
theorem posixScan_blank (l : GoString) (w : GoString) (ws : List GoString) :
    ((32 : Byte) :: l).foldl posixStep { mode := .plain, cur := some w, words := ws }
      = { l.foldl posixStep { mode := .plain, cur := none, words := [] } with
          words := ws ++ [w]
            ++ (l.foldl posixStep { mode := .plain, cur := none, words := [] }).words } := by
  rw [List.foldl_cons]
  have h1 : posixStep { mode := .plain, cur := some w, words := ws } 32
      = { mode := .plain, cur := none, words := ws ++ [w] } := by
    simp [posixStep]
  rw [h1]
  have := posixScan_words l { mode := .plain, cur := none, words := [] } (ws ++ [w])
  simpa using this

theorem posixScan_q_word (a : GoString) (ws : List GoString) :
    (q a).foldl posixStep { mode := .plain, cur := none, words := ws }
      = { mode := .plain, cur := some a, words := ws } := by
  rw [posixScan_q a _ rfl]
  simp

theorem posixWords_cd (p : GoString) : posixWords (str "cd " ++ q p) = some [str "cd", p] := by
  unfold posixWords
  rw [List.foldl_append,
    show (str "cd ").foldl posixStep { mode := .plain, cur := none, words := [] }
      = { mode := .plain, cur := none, words := [str "cd"] } from by decide,
    posixScan_q _ _ rfl]
  simp

theorem posixWords_echo (p : GoString) :
    posixWords (str "echo " ++ q p) = some [str "echo", p] := by
  unfold posixWords
  rw [List.foldl_append,
    show (str "echo ").foldl posixStep { mode := .plain, cur := none, words := [] }
      = { mode := .plain, cur := none, words := [str "echo"] } from by decide,
    posixScan_q _ _ rfl]
  simp

theorem posixWords_mv (a b : GoString) :
    posixWords (str "mv " ++ q a ++ str " " ++ q b) = some [str "mv", a, b] := by
  unfold posixWords
  rw [List.foldl_append, List.foldl_append, List.foldl_append,
    show (str "mv ").foldl posixStep { mode := .plain, cur := none, words := [] }
      = { mode := .plain, cur := none, words := [str "mv"] } from by decide,
    posixScan_q_word]
  rw [show (str " " : GoString) = (32 : Byte) :: [] from by decide, posixScan_blank,
    posixScan_q _ _ rfl]
  simp

theorem posixWords_rm (a : GoString) :
    posixWords (str "test -d " ++ q a ++ str " && rm -rf " ++ q a)
      = some [str "test", str "-d", a, str "&&", str "rm", str "-rf", a] := by
  unfold posixWords
  rw [List.foldl_append, List.foldl_append, List.foldl_append,
    show (str "test -d ").foldl posixStep { mode := .plain, cur := none, words := [] }
      = { mode := .plain, cur := none, words := [str "test", str "-d"] } from by decide,
    posixScan_q_word]
  rw [show (str " && rm -rf " : GoString) = (32 : Byte) :: str "&& rm -rf " from by decide,
    posixScan_blank,
    show (str "&& rm -rf ").foldl posixStep { mode := .plain, cur := none, words := [] }
      = { mode := .plain, cur := none, words := [str "&&", str "rm", str "-rf"] }
      from by decide]
  simp only [List.append_assoc, List.singleton_append, List.cons_append, List.nil_append]
  rw [posixScan_q_word]
  simp

theorem posixWords_cd_back (a : GoString) :
    posixWords (str "( cd " ++ q a ++ str " 2>/dev/null || cd \"$HOME\" )")
      = some [str "(", str "cd", a, str "2>/dev/null", str "||", str "cd", str "$HOME",
          str ")"] := by
  unfold posixWords
  rw [List.foldl_append, List.foldl_append,
    show (str "( cd ").foldl posixStep { mode := .plain, cur := none, words := [] }
      = { mode := .plain, cur := none, words := [str "(", str "cd"] } from by decide,
    posixScan_q_word]
  rw [show (str " 2>/dev/null || cd \"$HOME\" )" : GoString)
      = (32 : Byte) :: str "2>/dev/null || cd \"$HOME\" )" from by decide,
    posixScan_blank,
    show (str "2>/dev/null || cd \"$HOME\" )").foldl posixStep
        { mode := .plain, cur := none, words := [] }
      = { mode := .plain, cur := some (str ")"),
          words := [str "2>/dev/null", str "||", str "cd", str "$HOME"] }
      from by decide]
  simp

theorem ScriptLeft_scriptOnly (n : Nat) : ScriptOnly (ScriptLeft (K := K) n) := by
  intro s t h e1 e2
  unfold ScriptLeft at *
  rw [e1, e2]
  exact h

theorem ScriptLeft_mono {n m : Nat} {s : TrySelector K} (h : ScriptLeft n s) (hnm : n ≤ m) :
    ScriptLeft m s :=
  ⟨h.1, le_trans h.2 hnm⟩

theorem getTries_script (env : Env K) (s : TrySelector K) :
    (getTries env s).2.testKeys = s.testKeys
      ∧ (getTries env s).2.testHadKeys = s.testHadKeys := by
  simp only [getTries, loadAllTries]
  split
  · exact ⟨rfl, rfl⟩
  · split <;> exact ⟨rfl, rfl⟩

theorem render_script (env : Env K) (s : TrySelector K) (tries : List (TryEntry K)) :
    (render env s tries).testKeys = s.testKeys
      ∧ (render env s tries).testHadKeys = s.testHadKeys := by
  simp only [render]
  split <;> exact ⟨rfl, rfl⟩

theorem clamp_script (s1 : TrySelector K) (total : Int) :
    (if (if s1.cursorPos < 0 then { s1 with cursorPos := 0 } else s1).cursorPos
          > (if total - 1 < 0 then 0 else total - 1) then
        { (if s1.cursorPos < 0 then { s1 with cursorPos := 0 } else s1) with
          cursorPos := (if total - 1 < 0 then 0 else total - 1) }
      else (if s1.cursorPos < 0 then { s1 with cursorPos := 0 } else s1)).testKeys
        = s1.testKeys
    ∧ (if (if s1.cursorPos < 0 then { s1 with cursorPos := 0 } else s1).cursorPos
          > (if total - 1 < 0 then 0 else total - 1) then
        { (if s1.cursorPos < 0 then { s1 with cursorPos := 0 } else s1) with
          cursorPos := (if total - 1 < 0 then 0 else total - 1) }
      else (if s1.cursorPos < 0 then { s1 with cursorPos := 0 } else s1)).testHadKeys
        = s1.testHadKeys := by
  have I : ∀ (c : Prop) [Decidable c] (a b : TrySelector K),
      (a.testKeys = s1.testKeys ∧ a.testHadKeys = s1.testHadKeys) →
      (b.testKeys = s1.testKeys ∧ b.testHadKeys = s1.testHadKeys) →
      ((if c then a else b).testKeys = s1.testKeys
        ∧ (if c then a else b).testHadKeys = s1.testHadKeys) := by
    intro c _ a b ha hb
    by_cases hc : c
    · rw [if_pos hc]; exact ha
    · rw [if_neg hc]; exact hb
  have h1 := I (s1.cursorPos < 0) { s1 with cursorPos := 0 } s1 ⟨rfl, rfl⟩ ⟨rfl, rfl⟩
  exact I _ _ _ h1 h1

/-- The scripted keys are untouched up to the read of an iteration of `mainLoop`. -/
theorem loopHead_script (env : Env K) (s : TrySelector K) :
    (loopHead env s).rendered.testKeys = s.testKeys
      ∧ (loopHead env s).rendered.testHadKeys = s.testHadKeys
      ∧ (loopHead env s).rendered.deleteMode = s.deleteMode := by
  obtain ⟨_, hr, _, _, _, _, hd, _⟩ := loopHead_fields env s
  have hc := clamp_script (getTries env s).2 (loopHead env s).totalItems
  have hg := getTries_script env s
  rw [hr]
  refine ⟨(render_script env _ _).1.trans (hc.1.trans hg.1),
    (render_script env _ _).2.trans (hc.2.trans hg.2), (render_marks env _ _).1.trans hd⟩

/-- In a scripted session a read takes the first scripted key, or returns Esc and leaves the
selector as it is once the keys are used up. -/
theorem readKey_scripted (env : Env K) (s : TrySelector K) (h : s.testHadKeys = true) :
    (∀ key rest, s.testKeys = key :: rest →
        readKey env s = (key, { s with testKeys := rest }))
      ∧ (s.testKeys = [] → readKey env s = ([27], s)) := by
  constructor
  · intro key rest hk
    unfold readKey
    rw [hk]
  · intro hk
    unfold readKey
    rw [hk]
    simp [h]

theorem readKey_scriptLeft (env : Env K) (s : TrySelector K) (n : Nat)
    (h : ScriptLeft (n + 1) s) : ScriptLeft n (readKey env s).2 := by
  obtain ⟨h1, h2⟩ := h
  obtain ⟨ha, hb⟩ := readKey_scripted env s h1
  cases hk : s.testKeys with
  | nil =>
    rw [hb hk]
    exact ⟨h1, by rw [hk]; simp⟩
  | cons key rest =>
    rw [ha key rest hk]
    refine ⟨h1, ?_⟩
    rw [hk] at h2
    simpa using h2

theorem readKey_scriptLeft_zero (env : Env K) (s : TrySelector K)
    (h : ScriptLeft 0 s) : readKey env s = ([27], s) := by
  obtain ⟨h1, h2⟩ := h
  exact (readKey_scripted env s h1).2 (List.length_eq_zero.mp (Nat.le_zero.mp h2))

theorem processDeleteConfirmation_script {P : TrySelector K → Prop} (hP : ScriptOnly P)
    (env : Env K) (s : TrySelector K) (markedItems : List (TryEntry K))
    (confirmation : GoString) (h : P s) :
    P (processDeleteConfirmation env s markedItems confirmation) := by
  unfold processDeleteConfirmation
  split
  · dsimp only
    split <;> exact hP _ _ h rfl rfl
  · exact hP _ _ h rfl rfl

theorem finalizeRename_script {P : TrySelector K → Prop} (hP : ScriptOnly P) (env : Env K)
    (s : TrySelector K) (entry : TryEntry K) (buf : GoString) (h : P s) :
    P (finalizeRename env s entry buf).2 := by
  simp only [finalizeRename]
  split_ifs <;> first | exact h | exact hP _ _ h rfl rfl

theorem renameIter_script {P : TrySelector K → Prop} (hP : ScriptOnly P) (env : Env K)
    (entry : TryEntry K) (s : TrySelector K) (buf : GoString) (cur : Nat) (err : GoString)
    (hk : P (readKey env s).2) : P (renameIter env entry s buf cur err).sel := by
  have hf : P (finalizeRename env (readKey env s).2 entry buf).2 :=
    finalizeRename_script hP env _ entry buf hk
  unfold renameIter
  dsimp only
  generalize (readKey env s).1 = key at *
  generalize (readKey env s).2 = s2 at *
  have I := @ite_ind (RenameStep K) (fun r => P r.sel)
  apply I
  · apply I <;> exact hf
  apply I
  · exact hP _ _ hk rfl rfl
  apply I
  · apply I <;> exact hk
  apply I
  · exact hk
  apply I
  · exact hk
  apply I
  · exact hk
  apply I
  · exact hk
  apply I
  · exact hk
  apply I
  · apply I <;> exact hk
  match key with
  | [] => exact hk
  | [b] => apply I <;> exact hk
  | _ :: _ :: _ => exact hk

theorem confirmIter_script {P : TrySelector K → Prop} (hP : ScriptOnly P) (env : Env K)
    (markedItems : List (TryEntry K)) (s : TrySelector K) (buf : GoString) (cur : Nat)
    (hk : P (readKey env s).2) : P (confirmIter env markedItems s buf cur).sel := by
  have hp : P (processDeleteConfirmation env (readKey env s).2 markedItems buf) :=
    processDeleteConfirmation_script hP env _ _ _ hk
  unfold confirmIter
  dsimp only
  generalize (readKey env s).1 = key at *
  generalize (readKey env s).2 = s2 at *
  have I := @ite_ind (ConfirmStep K) (fun r => P r.sel)
  apply I
  · exact hp
  apply I
  · exact hP _ _ hk rfl rfl
  apply I
  · apply I <;> exact hk
  apply I
  · exact hP _ _ hk rfl rfl
  match key with
  | [] => exact hk
  | [b] => apply I <;> exact hk
  | _ :: _ :: _ => exact hk

/-- With the scripted keys used up, the rename dialog reads Esc and returns. -/
theorem renameIter_exhausted (env : Env K) (entry : TryEntry K) (s : TrySelector K)
    (buf : GoString) (cur : Nat) (err : GoString) (h : ScriptLeft 0 s) :
    renameIter env entry s buf cur err = .exit { s with needsRedraw := true } := by
  unfold renameIter
  rw [readKey_scriptLeft_zero env s h]
  dsimp only
  rw [if_neg (by decide), if_pos (Or.inl rfl)]

/-- With the scripted keys used up, the interactive delete confirmation reads Esc and
returns. -/
theorem confirmIter_exhausted (env : Env K) (markedItems : List (TryEntry K))
    (s : TrySelector K) (buf : GoString) (cur : Nat) (h : ScriptLeft 0 s) :
    confirmIter env markedItems s buf cur
      = .exit { s with deleteStatus := str "Delete cancelled", markedForDelete := [],
                       deleteMode := false } := by
  unfold confirmIter
  rw [readKey_scriptLeft_zero env s h]
  dsimp only
  rw [if_neg (by decide), if_pos rfl]

/-- The rename dialog of a scripted session returns once it has fuel for one key more than
the scripted keys left. -/
theorem renameLoop_total (env : Env K) (entry : TryEntry K) :
    ∀ (fuel n : Nat) (s : TrySelector K) (buf : GoString) (cur : Nat) (err : GoString),
      ScriptLeft n s → n < fuel →
      ∃ t, renameLoop env entry fuel s buf cur err = some t ∧ ScriptLeft n t := by
  intro fuel
  induction fuel with
  | zero => intro n s buf cur err _ h; omega
  | succ fuel ih =>
    intro n s buf cur err hs hn
    rw [renameLoop]
    cases n with
    | zero =>
      rw [renameIter_exhausted env entry s buf cur err hs]
      exact ⟨_, rfl, ScriptLeft_scriptOnly 0 _ _ hs rfl rfl⟩
    | succ n =>
      have hk := readKey_scriptLeft env s n hs
      have hi := renameIter_script (ScriptLeft_scriptOnly n) env entry s buf cur err hk
      cases hc : renameIter env entry s buf cur err with
      | exit s2 =>
        rw [hc] at hi
        exact ⟨s2, rfl, ScriptLeft_mono hi (Nat.le_succ n)⟩
      | again s2 b2 c2 e2 =>
        rw [hc] at hi
        obtain ⟨t, ht, hl⟩ := ih n s2 b2 c2 e2 hi (by omega)
        exact ⟨t, ht, ScriptLeft_mono hl (Nat.le_succ n)⟩

theorem readTestConfirmation_length :
    ∀ (keys : List GoString) (buf : GoString),
      (readTestConfirmation keys buf).2.length ≤ keys.length := by
  intro keys
  induction keys with
  | nil => intro buf; simp [readTestConfirmation]
  | cons ch rest ih =>
    intro buf
    rw [readTestConfirmation]
    split
    · simp
    · have := ih (buf ++ ch)
      simp only [List.length_cons]
      omega

/-- The delete confirmation of a scripted session returns with fuel for one key. -/
theorem confirmBatchDelete_total (env : Env K) (fuel n : Nat) (s : TrySelector K)
    (tries : List (TryEntry K)) (hs : ScriptLeft n s) (hf : 0 < fuel) :
    ∃ t, confirmBatchDelete env fuel s tries = some t ∧ ScriptLeft n t := by
  unfold confirmBatchDelete
  dsimp only
  by_cases h1 : (tries.filter fun t =>
      decide (indexOf s.markedForDelete t.Item.Path ≥ 0)).length = 0
  · rw [if_pos h1]
    exact ⟨s, rfl, hs⟩
  · rw [if_neg h1]
    by_cases h2 : s.testKeys.length > 0
    · rw [if_pos h2]
      refine ⟨_, rfl, ?_⟩
      apply processDeleteConfirmation_script (ScriptLeft_scriptOnly n)
      refine ⟨hs.1, ?_⟩
      have := readTestConfirmation_length s.testKeys []
      exact le_trans this hs.2
    · rw [if_neg h2]
      by_cases h3 : s.testConfirm ≠ []
      · rw [if_pos h3]
        exact ⟨_, rfl, processDeleteConfirmation_script (ScriptLeft_scriptOnly n) env _ _ _ hs⟩
      · rw [if_neg h3]
        obtain ⟨f, rfl⟩ : ∃ f, fuel = f + 1 := ⟨fuel - 1, by omega⟩
        have h0 : ScriptLeft 0 s := ⟨hs.1, by omega⟩
        rw [confirmLoop, confirmIter_exhausted env _ s [] 0 h0]
        exact ⟨_, rfl, ScriptLeft_scriptOnly n _ _ hs rfl rfl⟩

theorem ite_ind2 {α : Type} {P : α → α → Prop} {c : Prop} [Decidable c] {a b a2 b2 : α}
    (ha : P a a2) (hb : P b b2) : P (if c then a else b) (if c then a2 else b2) := by
  by_cases h : c
  · rw [if_pos h, if_pos h]; exact ha
  · rw [if_neg h, if_neg h]; exact hb

theorem toggleMark_script (s : TrySelector K) (tries : List (TryEntry K)) :
    (toggleMark s tries).testKeys = s.testKeys
      ∧ (toggleMark s tries).testHadKeys = s.testHadKeys := by
  unfold toggleMark
  split
  · split
    · exact ⟨rfl, rfl⟩
    · dsimp only
      split <;> split <;> exact ⟨rfl, rfl⟩
  · exact ⟨rfl, rfl⟩

/-- Every key of a scripted session is handled, dialogs included, once the fuel exceeds the
number of scripted keys left; no key is put back. -/
theorem handleKey_total (env : Env K) (fuel n : Nat) (s : TrySelector K)
    (tries : List (TryEntry K)) (showCreateNew : Bool) (totalItems : Int) (key : GoString)
    (hs : ScriptLeft n s) (hf : n < fuel) :
    ∃ r, handleKey env fuel s tries showCreateNew totalItems key = some r
      ∧ ScriptLeft n r.state := by
  have hP := ScriptLeft_scriptOnly (K := K) n
  have I := @ite_ind (Option (LoopStep K)) (fun o => ∃ r, o = some r ∧ ScriptLeft n r.state)
  have hnext : ∀ t : TrySelector K, ScriptLeft n t →
      ∃ r, some (LoopStep.next t) = some r ∧ ScriptLeft n r.state :=
    fun t ht => ⟨_, rfl, ht⟩
  have hret : ∀ t : TrySelector K, ScriptLeft n t →
      ∃ r, some (returnIfSelected t) = some r ∧ ScriptLeft n r.state := by
    intro t ht
    refine ⟨_, rfl, ?_⟩
    rw [returnIfSelected_state]
    exact ht
  have hmap : ∀ o : Option (TrySelector K), (∃ t, o = some t ∧ ScriptLeft n t) →
      ∃ r, o.map returnIfSelected = some r ∧ ScriptLeft n r.state := by
    rintro o ⟨t, rfl, ht⟩
    refine ⟨_, rfl, ?_⟩
    rw [returnIfSelected_state]
    exact ht
  have hsame : ∀ t : TrySelector K, t.testKeys = s.testKeys →
      t.testHadKeys = s.testHadKeys → ScriptLeft n t := fun t h1 h2 => hP s t hs h1 h2
  unfold handleKey
  apply I
  · apply I
    · exact hmap _ (confirmBatchDelete_total env fuel n s tries hs (by omega))
    apply I
    · cases tries[s.cursorPos.toNat]? with
      | none => exact hnext s hs
      | some t => exact hret _ (hsame _ rfl rfl)
    apply I
    · apply hret
      unfold handleCreateNew
      split <;> exact hsame _ rfl rfl
    · exact hnext s hs
  apply I
  · apply hnext; split <;> exact hsame _ rfl rfl
  apply I
  · apply hnext; split <;> exact hsame _ rfl rfl
  apply I
  · exact hnext s hs
  apply I
  · apply hnext
    dsimp only
    split <;> exact hsame _ rfl rfl
  apply I
  · exact hnext _ (hsame _ rfl rfl)
  apply I
  · exact hnext _ (hsame _ rfl rfl)
  apply I
  · apply hnext; split <;> exact hsame _ rfl rfl
  apply I
  · apply hnext; split <;> exact hsame _ rfl rfl
  apply I
  · exact hnext _ (hsame _ rfl rfl)
  apply I
  · apply hnext
    unfold deleteWordBack
    split <;> exact hsame _ rfl rfl
  apply I
  · exact hnext _ (hsame _ (toggleMark_script s tries).1 (toggleMark_script s tries).2)
  apply I
  · apply hret
    unfold handleCreateNew
    split <;> exact hsame _ rfl rfl
  apply I
  · apply I
    · cases tries[s.cursorPos.toNat]? with
      | none => exact hnext s hs
      | some t =>
        apply hmap
        exact renameLoop_total env t fuel n _ _ _ _ (hsame _ rfl rfl) hf
    · exact hnext s hs
  apply I
  · apply I
    · exact hnext _ (hsame _ rfl rfl)
    · exact ⟨_, rfl, hsame _ rfl rfl⟩
  match key with
  | [] => exact hnext s hs
  | [b] => apply I <;> exact hnext _ (hsame _ rfl rfl)
  | _ :: _ :: _ => exact hnext s hs

/-- One iteration of `mainLoop` in a scripted session takes a scripted key and returns. -/
theorem mainLoopIter_scripted (env : Env K) (fuel n : Nat) (s : TrySelector K)
    (hs : ScriptLeft (n + 1) s) (hf : n < fuel) :
    ∃ r, mainLoopIter env fuel s = some r ∧ ScriptLeft n r.state := by
  obtain ⟨h1, h2, _⟩ := loopHead_script env s
  have hr : ScriptLeft (n + 1) (loopHead env s).rendered :=
    ScriptLeft_scriptOnly (n + 1) s _ hs h1 h2
  have hsel : ScriptLeft n (loopHead env s).sel := by
    rw [(loopHead_fields env s).2.2.2.1]
    exact readKey_scriptLeft env _ n hr
  rw [mainLoopIter_eq_loopHead]
  by_cases hk : (loopHead env s).key = []
  · rw [if_pos hk]
    exact ⟨_, rfl, hsel⟩
  · rw [if_neg hk]
    exact handleKey_total env fuel n _ _ _ _ _ hsel hf

/-- Once the scripted keys are used up, an iteration of `mainLoop` reads Esc: it leaves
delete mode, or it cancels the session. -/
theorem mainLoopIter_exhausted (env : Env K) (fuel : Nat) (s : TrySelector K)
    (hs : ScriptLeft 0 s) :
    mainLoopIter env fuel s
      = if s.deleteMode then
          some (.next { (loopHead env s).rendered with markedForDelete := [], deleteMode := false })
        else some (.done { (loopHead env s).rendered with selected := none }) := by
  obtain ⟨h1, h2, h3⟩ := loopHead_script env s
  have hr : ScriptLeft 0 (loopHead env s).rendered :=
    ScriptLeft_scriptOnly 0 s _ hs h1 h2
  have hread := readKey_scriptLeft_zero env _ hr
  obtain ⟨_, _, hkey, hsel, _⟩ := loopHead_fields env s
  rw [hread] at hkey hsel
  simp only at hkey hsel
  rw [mainLoopIter_eq_loopHead, hkey, hsel, if_neg (by decide),
    handleKey_esc env fuel _ _ _ _ [27] (Or.inl rfl)]
  by_cases hd : s.deleteMode = true
  · rw [if_pos hd, if_pos (h3.trans hd)]
  · rw [if_neg hd, if_neg (by rw [h3]; exact hd)]

/-- The loop of `mainLoop` returns in a scripted session, with fuel for two iterations per
scripted key left, one to leave delete mode and one to cancel. -/
theorem mainLoop_total (env : Env K) :
    ∀ (fuel : Nat) (s : TrySelector K), s.testHadKeys = true →
      2 * s.testKeys.length + (if s.deleteMode then 1 else 0) < fuel →
      ∃ t, mainLoop env fuel s = some t := by
  intro fuel
  induction fuel with
  | zero => intro s _ h; omega
  | succ fuel ih =>
    intro s hh hm
    rw [mainLoop]
    by_cases hlen : s.testKeys.length = 0
    · rw [mainLoopIter_exhausted env fuel s ⟨hh, by omega⟩]
      by_cases hd : s.deleteMode = true
      · rw [if_pos hd]
        dsimp only
        obtain ⟨h1, h2, _⟩ := loopHead_script env s
        apply ih
        · exact h2.trans hh
        · show 2 * (loopHead env s).rendered.testKeys.length + (if false = true then 1 else 0)
            < fuel
          rw [h1, hlen]
          rw [hlen, if_pos hd] at hm
          simp only [Bool.false_eq_true, if_false]
          omega
      · rw [if_neg hd]
        exact ⟨_, rfl⟩
    · obtain ⟨r, hr, hl⟩ := mainLoopIter_scripted env fuel (s.testKeys.length - 1) s
        ⟨hh, by omega⟩ (by omega)
      rw [hr]
      cases r with
      | done t => exact ⟨t, rfl⟩
      | next s2 =>
        dsimp only
        apply ih s2 hl.1
        have h2 : s2.testKeys.length ≤ s.testKeys.length - 1 := hl.2
        have : (if s2.deleteMode = true then 1 else 0) ≤ 1 := by split <;> omega
        omega

theorem renameLoop_mono (env : Env K) (entry : TryEntry K) :
    ∀ (fuel : Nat) (s : TrySelector K) (buf : GoString) (cur : Nat) (err : GoString)
      (t : TrySelector K),
      renameLoop env entry fuel s buf cur err = some t →
      renameLoop env entry (fuel + 1) s buf cur err = some t := by
  intro fuel
  induction fuel with
  | zero => intro s buf cur err t h; simp [renameLoop] at h
  | succ fuel ih =>
    intro s buf cur err t h
    rw [renameLoop] at h ⊢
    cases hc : renameIter env entry s buf cur err with
    | exit s2 => rw [hc] at h; exact h
    | again s2 b2 c2 e2 =>
      rw [hc] at h
      exact ih s2 b2 c2 e2 t h

theorem confirmLoop_mono (env : Env K) (markedItems : List (TryEntry K)) :
    ∀ (fuel : Nat) (s : TrySelector K) (buf : GoString) (cur : Nat) (t : TrySelector K),
      confirmLoop env markedItems fuel s buf cur = some t →
      confirmLoop env markedItems (fuel + 1) s buf cur = some t := by
  intro fuel
  induction fuel with
  | zero => intro s buf cur t h; simp [confirmLoop] at h
  | succ fuel ih =>
    intro s buf cur t h
    rw [confirmLoop] at h ⊢
    cases hc : confirmIter env markedItems s buf cur with
    | exit s2 => rw [hc] at h; exact h
    | again s2 b2 c2 =>
      rw [hc] at h
      exact ih s2 b2 c2 t h

/-- More fuel does not change what a key does. -/
theorem handleKey_mono (env : Env K) (fuel : Nat) (s : TrySelector K)
    (tries : List (TryEntry K)) (showCreateNew : Bool) (totalItems : Int) (key : GoString)
    (r : LoopStep K) (h : handleKey env fuel s tries showCreateNew totalItems key = some r) :
    handleKey env (fuel + 1) s tries showCreateNew totalItems key = some r := by
  have I := @ite_ind2 (Option (LoopStep K)) (fun o o2 => ∀ r, o = some r → o2 = some r)
  have hid : ∀ o : Option (LoopStep K), ∀ r, o = some r → o = some r := fun _ _ h => h
  have hmap : ∀ o o2 : Option (TrySelector K), (∀ t, o = some t → o2 = some t) →
      ∀ r, o.map returnIfSelected = some r → o2.map returnIfSelected = some r := by
    intro o o2 ho r hr
    cases o with
    | none => cases hr
    | some t => rw [ho t rfl]; exact hr
  revert r
  unfold handleKey
  apply I
  · apply I
    · apply hmap
      intro t ht
      unfold confirmBatchDelete at ht ⊢
      dsimp only at ht ⊢
      revert t
      apply @ite_ind2 (Option (TrySelector K)) (fun o o2 => ∀ t, o = some t → o2 = some t)
      · exact fun _ h => h
      apply @ite_ind2 (Option (TrySelector K)) (fun o o2 => ∀ t, o = some t → o2 = some t)
      · exact fun _ h => h
      apply @ite_ind2 (Option (TrySelector K)) (fun o o2 => ∀ t, o = some t → o2 = some t)
      · exact fun _ h => h
      · exact fun t h => confirmLoop_mono env _ fuel s [] 0 t h
    · exact hid _
  apply I
  · exact hid _
  apply I
  · exact hid _
  apply I
  · exact hid _
  apply I
  · exact hid _
  apply I
  · exact hid _
  apply I
  · exact hid _
  apply I
  · exact hid _
  apply I
  · exact hid _
  apply I
  · exact hid _
  apply I
  · exact hid _
  apply I
  · exact hid _
  apply I
  · exact hid _
  apply I
  · apply I
    · cases tries[s.cursorPos.toNat]? with
      | none => exact hid _
      | some t =>
        apply hmap
        exact fun u hu => renameLoop_mono env t fuel _ _ _ _ u hu
    · exact hid _
  exact hid _

theorem mainLoop_mono (env : Env K) :
    ∀ (fuel : Nat) (s t : TrySelector K), mainLoop env fuel s = some t →
      mainLoop env (fuel + 1) s = some t := by
  intro fuel
  induction fuel with
  | zero => intro s t h; simp [mainLoop] at h
  | succ fuel ih =>
    intro s t h
    rw [mainLoop] at h ⊢
    have hi : ∀ r, mainLoopIter env fuel s = some r → mainLoopIter env (fuel + 1) s = some r := by
      intro r hr
      rw [mainLoopIter_eq_loopHead] at hr ⊢
      revert r
      apply @ite_ind2 (Option (LoopStep K)) (fun o o2 => ∀ r, o = some r → o2 = some r)
      · exact fun _ h => h
      · exact fun r hr => handleKey_mono env fuel _ _ _ _ _ r hr
    cases hc : mainLoopIter env fuel s with
    | none => rw [hc] at h; cases h
    | some r =>
      rw [hc] at h
      rw [hi r hc]
      cases r with
      | done u => exact h
      | next u => exact ih u t h

theorem mainLoop_mono_le (env : Env K) (s t : TrySelector K) (f1 f2 : Nat) (hle : f1 ≤ f2)
    (h : mainLoop env f1 s = some t) : mainLoop env f2 s = some t := by
  induction f2, hle using Nat.le_induction with
  | base => exact h
  | succ f _ ih => exact mainLoop_mono env f s t ih

theorem posixWords_touch (p : GoString) :
    posixWords (str "touch " ++ q p) = some [str "touch", p] := by
  unfold posixWords
  rw [List.foldl_append,
    show (str "touch ").foldl posixStep { mode := .plain, cur := none, words := [] }
      = { mode := .plain, cur := none, words := [str "touch"] } from by decide,
    posixScan_q_word]
  simp

theorem posixWords_mkdir (p : GoString) :
    posixWords (str "mkdir -p " ++ q p) = some [str "mkdir", str "-p", p] := by
  unfold posixWords
  rw [List.foldl_append,
    show (str "mkdir -p ").foldl posixStep { mode := .plain, cur := none, words := [] }
      = { mode := .plain, cur := none, words := [str "mkdir", str "-p"] } from by decide,
    posixScan_q_word]
  simp

theorem posixWords_clone (a b : GoString) :
    posixWords (str "git clone " ++ q a ++ str " " ++ q b)
      = some [str "git", str "clone", a, b] := by
  unfold posixWords
  rw [List.foldl_append, List.foldl_append, List.foldl_append,
    show (str "git clone ").foldl posixStep { mode := .plain, cur := none, words := [] }
      = { mode := .plain, cur := none, words := [str "git", str "clone"] } from by decide,
    posixScan_q_word]
  rw [show (str " " : GoString) = (32 : Byte) :: [] from by decide, posixScan_blank]
  simp only [List.foldl_nil]
  rw [posixScan_q_word]
  simp

/-- Where the result of `q` stands as a word of its own, the string comes back intact: every
line of `scriptCd`, `scriptMkdirCd` and `scriptClone`, and the lines `mkdir` and `echo` of
`scriptWorktree`, read by the quoting rules of the POSIX shell, give the command its strings
as they were passed to `q`. -/
theorem script_words (cwd : Option GoString) (path uri repo : GoString) (explicit : Bool) :
    (scriptCd path).map posixWords
        = [some [str "clear"], some [str "touch", path], some [str "cd", path]]
      ∧ (scriptMkdirCd path).map posixWords
        = [some [str "mkdir", str "-p", path], some [str "clear"], some [str "touch", path],
            some [str "cd", path]]
      ∧ (scriptClone path uri).map posixWords
        = [some [str "mkdir", str "-p", path],
            some [str "echo",
              str "Using git clone to create this trial from " ++ uri ++ str "."],
            some [str "git", str "clone", uri, path],
            some [str "clear"], some [str "touch", path], some [str "cd", path]]
      ∧ ((scriptWorktree cwd path repo explicit).take 2).map posixWords
        = [some [str "mkdir", str "-p", path],
            some [str "echo",
              str "Using git worktree to create this trial from "
                ++ (if repo = [] ∨ explicit = false then cwd.getD repo else repo)
                ++ str "."]] := by
  have hclear : posixWords (str "clear") = some [str "clear"] := by decide
  have hcd : (scriptCd path).map posixWords
      = [some [str "clear"], some [str "touch", path], some [str "cd", path]] := by
    simp only [scriptCd, List.map_cons, List.map_nil, hclear, posixWords_touch, posixWords_cd]
  refine ⟨hcd, ?_, ?_, ?_⟩
  · simp only [scriptMkdirCd, List.map_append, hcd, List.map_cons, List.map_nil,
      posixWords_mkdir, List.singleton_append]
  · simp only [scriptClone, List.map_append, hcd, List.map_cons, List.map_nil,
      posixWords_mkdir, posixWords_echo, posixWords_clone, List.cons_append, List.nil_append]
  · have hsrc : (if repo = [] ∨ explicit = false then
          (match cwd with
            | some c => c
            | none => repo)
        else repo) = (if repo = [] ∨ explicit = false then cwd.getD repo else repo) := by
      cases cwd <;> rfl
    simp only [scriptWorktree, List.cons_append, List.nil_append, List.take_succ_cons,
      List.take_zero, List.map_cons, List.map_nil, posixWords_mkdir, posixWords_echo, hsrc]

theorem F64.gt_irrefl (a : F64 K) : F64.gt a a = false := by
  cases a <;> simp [F64.gt]

theorem F64.gt_asymm (a b : F64 K) (h : F64.gt a b = true) : F64.gt b a = false := by
  cases a <;> cases b <;> simp_all [F64.gt]
  exact le_of_lt h

theorem F64.gt_trans (a b c : F64 K) (h1 : F64.gt a b = true) (h2 : F64.gt b c = true) :
    F64.gt a c = true := by
  cases a <;> cases b <;> cases c <;> simp_all [F64.gt]
  exact lt_trans h2 h1

/-- On values that are not NaN, `a >= b` is the negation of `b > a`. -/
theorem F64.ge_iff_not_gt (a b : F64 K) (ha : a ≠ .nan) (hb : b ≠ .nan) :
    F64.ge a b = true ↔ F64.gt b a = false := by
  cases a <;> cases b <;> simp_all [F64.gt, F64.ge]

theorem F64.ge_nan_left (b : F64 K) : F64.ge .nan b = false := by
  cases b <;> rfl

theorem F64.ge_nan_right (a : F64 K) : F64.ge a .nan = false := by
  cases a <;> rfl

theorem ieee_sortInner_eq (pre : List (FuzzyMatch (F64 K))) :
    ∀ (todo done : List (FuzzyMatch (F64 K))) (x : FuzzyMatch (F64 K)),
      Ieee.sortInner pre.length todo.length (pre.length + 1 + done.length)
          (pre ++ x :: (done ++ todo))
        = pre ++ (Ieee.pushMax x todo).1 :: (done ++ (Ieee.pushMax x todo).2) := by
  intro todo
  induction todo with
  | nil => intro done x; simp [Ieee.sortInner, Ieee.pushMax]
  | cons y ys ih =>
    intro done x
    have hj := getElem?_pre_done pre done x y ys
    have hi := getElem?_pre_cons pre x (done ++ y :: ys)
    simp only [List.length_cons, Ieee.sortInner, Ieee.scoreGt, hj, hi, Ieee.swapAt,
      Ieee.pushMax]
    by_cases h : F64.gt y.Score x.Score = true
    · simp only [h, if_true]
      rw [set_pre_cons, set_pre_done]
      have := ih (done ++ [x]) y
      simp only [List.length_append, List.length_singleton, List.append_assoc,
        List.singleton_append] at this
      rw [← Nat.add_assoc] at this
      exact this
    · simp only [h, if_false]
      have := ih (done ++ [y]) x
      simp only [List.length_append, List.length_singleton, List.append_assoc,
        List.singleton_append] at this
      rw [← Nat.add_assoc] at this
      simpa using this

theorem ieee_pushMax_length (xs : List (FuzzyMatch (F64 K))) :
    ∀ x : FuzzyMatch (F64 K), (Ieee.pushMax x xs).2.length = xs.length := by
  induction xs with
  | nil => intro x; rfl
  | cons y ys ih =>
    intro x
    simp only [Ieee.pushMax]
    split <;> simp [ih]

theorem ieee_pushMax_perm (xs : List (FuzzyMatch (F64 K))) :
    ∀ x : FuzzyMatch (F64 K),
      ((Ieee.pushMax x xs).1 :: (Ieee.pushMax x xs).2).Perm (x :: xs) := by
  induction xs with
  | nil => intro x; exact List.Perm.refl _
  | cons y ys ih =>
    intro x
    simp only [Ieee.pushMax]
    split
    · exact (List.Perm.swap _ _ _).trans ((ih y).cons x)
    · exact ((List.Perm.swap _ _ _).trans ((ih x).cons y)).trans (List.Perm.swap _ _ _)

/-- The element that one pass leaves in front is the first one or greater than it, and
nothing left behind is greater than it. This needs no more than that `>` is a strict order,
which it is with NaN too. -/
theorem ieee_pushMax_spec (xs : List (FuzzyMatch (F64 K))) :
    ∀ x : FuzzyMatch (F64 K),
      ((Ieee.pushMax x xs).1 = x ∨ F64.gt (Ieee.pushMax x xs).1.Score x.Score = true)
        ∧ ∀ y ∈ (Ieee.pushMax x xs).2, F64.gt y.Score (Ieee.pushMax x xs).1.Score = false := by
  induction xs with
  | nil => intro x; simp [Ieee.pushMax]
  | cons y ys ih =>
    intro x
    simp only [Ieee.pushMax]
    split
    · rename_i h
      obtain ⟨h1, h2⟩ := ih y
      have hgt : F64.gt (Ieee.pushMax y ys).1.Score x.Score = true := by
        rcases h1 with e | g
        · rw [e]; exact h
        · exact F64.gt_trans _ _ _ g h
      refine ⟨Or.inr hgt, ?_⟩
      intro z hz
      rcases List.mem_cons.mp hz with rfl | hz
      · exact F64.gt_asymm _ _ hgt
      · exact h2 z hz
    · rename_i h
      obtain ⟨h1, h2⟩ := ih x
      refine ⟨h1, ?_⟩
      intro z hz
      rcases List.mem_cons.mp hz with rfl | hz
      · rcases h1 with e | g
        · rw [e]
          simpa using h
        · cases hzm : F64.gt z.Score (Ieee.pushMax x ys).1.Score with
          | false => rfl
          | true => exact absurd (F64.gt_trans _ _ _ hzm g) h
      · exact h2 z hz

theorem ieee_sortOuter_spec :
    ∀ (k : Nat) (pre suf : List (FuzzyMatch (F64 K))), suf.length = k →
      ∃ suf2 : List (FuzzyMatch (F64 K)),
        Ieee.sortOuter k pre.length (pre ++ suf) = pre ++ suf2
          ∧ suf2.Perm suf ∧ suf2.Pairwise (fun a b => F64.gt b.Score a.Score = false) := by
  intro k
  induction k with
  | zero =>
    intro pre suf h
    have : suf = [] := List.length_eq_zero.mp h
    subst this
    exact ⟨[], by simp [Ieee.sortOuter], List.Perm.refl _, List.Pairwise.nil⟩
  | succ k ih =>
    intro pre suf h
    match suf, h with
    | x :: xs, h =>
      have hlen : xs.length = k := by simpa using h
      have hin := ieee_sortInner_eq pre xs [] x
      simp only [List.length_nil, Nat.add_zero, List.nil_append] at hin
      have hl : (pre ++ x :: xs).length - (pre.length + 1) = xs.length := by
        simp only [List.length_append, List.length_cons]; omega
      obtain ⟨r, hr, hperm, hsorted⟩ :=
        ih (pre ++ [(Ieee.pushMax x xs).1]) (Ieee.pushMax x xs).2
          (by rw [ieee_pushMax_length, hlen])
      refine ⟨(Ieee.pushMax x xs).1 :: r, ?_, ?_, ?_⟩
      · simp only [Ieee.sortOuter, hl, hin]
        have := hr
        simp only [List.length_append, List.length_singleton, List.append_assoc,
          List.singleton_append] at this
        exact this
      · exact (hperm.cons _).trans (ieee_pushMax_perm xs x)
      · refine List.Pairwise.cons ?_ hsorted
        intro z hz
        exact (ieee_pushMax_spec xs x).2 z (hperm.subset hz)

theorem ieee_sortByScore_spec (ms : List (FuzzyMatch (F64 K))) :
    (Ieee.sortByScore ms).Perm ms
      ∧ (Ieee.sortByScore ms).Pairwise (fun a b => F64.gt b.Score a.Score = false) := by
  obtain ⟨r, hr, hperm, hs⟩ := ieee_sortOuter_spec ms.length [] ms rfl
  simp only [List.length_nil, List.nil_append] at hr
  rw [Ieee.sortByScore, hr]
  exact ⟨hperm, hs⟩

/-- Where no score is NaN, a list in which no element is followed by a greater one is in
descending order. -/
theorem F64.pairwise_ge_of_not_gt (ms : List (FuzzyMatch (F64 K)))
    (hnan : ∀ m ∈ ms, m.Score ≠ .nan)
    (h : ms.Pairwise (fun a b => F64.gt b.Score a.Score = false)) :
    ms.Pairwise (fun a b => F64.ge a.Score b.Score = true) := by
  refine h.imp_of_mem ?_
  intro a b ha hb hab
  exact (F64.ge_iff_not_gt _ _ (hnan a ha) (hnan b hb)).mpr hab

/-- With the empty query every candidate is scored with its base score. -/
theorem ieee_scoreEntries_empty (env : Env K) (items : List (TryItem (F64 K))) :
    Ieee.scoreEntries env (Ieee.NewFuzzy env items).Entries []
      = items.map fun it => { Entry := it, Positions := [], Score := it.BaseScore } := by
  simp only [Ieee.scoreEntries, Ieee.NewFuzzy, List.filterMap_map]
  induction items with
  | nil => rfl
  | cons it items ih =>
    rw [List.filterMap_cons, List.map_cons, ← ih]
    simp [Ieee.calculateMatch]

theorem stringsRepeat_some (s : GoString) (count : Int) (h0 : 0 ≤ count)
    (h1 : (s.length : Int) * count ≤ maxInt) :
    stringsRepeat s count = some (List.replicate count.toNat s).flatten := by
  unfold stringsRepeat
  rw [if_neg (by omega), if_neg (by omega)]

theorem runeWidth_nonneg (r : Rune) : 0 ≤ runeWidth r := by
  unfold runeWidth
  split
  · exact le_refl _
  · split <;> decide

theorem visibleLen_nonneg (t : GoString) : 0 ≤ visibleLen t := by
  unfold visibleLen
  apply List.sum_nonneg
  intro x hx
  obtain ⟨r, _, rfl⟩ := List.mem_map.mp hx
  exact runeWidth_nonneg r

theorem bodyLoop_entries (nTries : Nat) (c so mv : Int) :
    ∀ (k i : Nat) (n : Int), i + k ≤ nTries →
      bodyLoop nTries c so mv k i n
        = (List.range' i k).map (fun idx => BodyLine.entry idx (decide ((idx : Int) = c))) := by
  intro k
  induction k with
  | zero => intro i n _; rfl
  | succ k ih =>
    intro i n h
    have h1 : ((i : Int) < nTries) := by omega
    have h2 : ¬ ((i : Int) = nTries ∧ nTries > 0 ∧ (i : Int) ≥ so) := by omega
    rw [bodyLoop]
    simp only [h1, if_true]
    rw [if_neg h2]
    have := ih (i + 1) (n + 1) (by omega)
    simp only [Nat.cast_add, Nat.cast_one] at this
    rw [this]
    rfl

theorem bodyLoop_append (nTries : Nat) (c so mv : Int) :
    ∀ (k1 k2 i : Nat) (n : Int), i + k1 ≤ nTries →
      bodyLoop nTries c so mv (k1 + k2) i n
        = bodyLoop nTries c so mv k1 i n
          ++ bodyLoop nTries c so mv k2 ((i + k1 : Nat) : Int) (n + k1) := by
  intro k1
  induction k1 with
  | zero => intro k2 i n _; simp [bodyLoop]
  | succ k ih =>
    intro k2 i n h
    have h1 : ((i : Int) < nTries) := by omega
    have h2 : ¬ ((i : Int) = nTries ∧ nTries > 0 ∧ (i : Int) ≥ so) := by omega
    rw [show k + 1 + k2 = (k + k2) + 1 by omega, bodyLoop, bodyLoop]
    simp only [h1, if_true]
    rw [if_neg h2, if_neg h2]
    have := ih k2 (i + 1) (n + 1) (by omega)
    simp only [Nat.cast_add, Nat.cast_one] at this ⊢
    rw [this]
    simp only [List.cons_append]
    congr 3 <;> omega

theorem bodyLoop_last (nTries : Nat) (c so mv n : Int) :
    bodyLoop nTries c so mv 1 nTries n
      = if nTries > 0 ∧ (nTries : Int) ≥ so then
          if n + 1 ≥ mv then [BodyLine.blank]
          else [BodyLine.blank, BodyLine.create (decide ((nTries : Int) = c))]
        else [BodyLine.create (decide ((nTries : Int) = c))] := by
  simp only [bodyLoop, lt_self_iff_false, if_false, true_and]

/-- The rows that the body loop of `render` writes, in closed form. -/
theorem renderBodyRows_closed (s : TrySelector K) (tries : List (TryEntry K))
    (hso : 0 ≤ s.scrollOffset) :
    renderBodyRows s tries
      = bodyKinds tries.length (decide (s.inputBuffer ≠ [])) s.cursorPos s.scrollOffset
          (max 3 (s.height - 6)) := by
  unfold renderBodyRows bodyKinds
  dsimp only
  have hmv : (if s.height - 4 - 2 < 3 then (3 : Int) else s.height - 4 - 2)
      = max 3 (s.height - 6) := by
    split <;> omega
  rw [hmv]
  have h3 : (3 : Int) ≤ max 3 (s.height - 6) := le_max_left _ _
  generalize max 3 (s.height - 6) = mv at h3 ⊢
  obtain ⟨so, hsoe⟩ := Int.eq_ofNat_of_zero_le hso
  rw [hsoe]
  generalize s.cursorPos = c
  generalize tries.length = nT
  obtain ⟨m, hme⟩ := Int.eq_ofNat_of_zero_le (show (0 : Int) ≤ mv by omega)
  rw [hme]
  have hm3 : 3 ≤ m := by omega
  clear h3 hme hmv hsoe hso
  by_cases hshow : s.inputBuffer ≠ []
  · simp only [hshow, if_true, decide_True, true_and, not_false_eq_true, ne_eq]
    by_cases hA : so + m ≤ nT
    · have hve : (if ((so : Nat) : Int) + (m : Nat) > (nT : Int) + 1 then (nT : Int) + 1
          else ((so : Nat) : Int) + (m : Nat)) = ((so : Nat) : Int) + (m : Nat) := by
        rw [if_neg (by omega)]
      rw [hve, min_eq_left (by omega)]
      have hk : (((so : Nat) : Int) + (m : Nat) - (so : Nat)).toNat = m := by omega
      rw [hk, if_neg (by omega), List.append_nil, Int.toNat_ofNat]
      exact bodyLoop_entries nT c so m m so 0 (by omega)
    · have hve : (if ((so : Nat) : Int) + (m : Nat) > (nT : Int) + 1 then (nT : Int) + 1
          else ((so : Nat) : Int) + (m : Nat)) = (nT : Int) + 1 := by
        split <;> omega
      rw [hve, min_eq_right (by omega)]
      by_cases hB : so ≤ nT
      · have hk : ((nT : Int) + 1 - (so : Nat)).toNat = (nT - so) + 1 := by omega
        have hk2 : ((nT : Int) - (so : Nat)).toNat = nT - so := by omega
        rw [hk, hk2, Int.toNat_ofNat, bodyLoop_append nT c so m (nT - so) 1 so 0 (by omega),
          bodyLoop_entries nT c so m (nT - so) so 0 (by omega)]
        have e1 : (((so + (nT - so) : Nat)) : Int) = (nT : Int) := by omega
        rw [e1, bodyLoop_last]
        congr 1
        have hc : ((so : Nat) : Int) ≤ (nT : Int) ∧ (nT : Int) < ((so : Nat) : Int) + (m : Nat) := by
          omega
        rw [if_pos hc]
        by_cases h0 : nT = 0
        · have hn : ¬ (nT > 0 ∧ (nT : Int) ≥ ((so : Nat) : Int)) := by omega
          rw [if_neg hn, if_pos h0]
        · have hn : nT > 0 ∧ (nT : Int) ≥ ((so : Nat) : Int) := by omega
          rw [if_pos hn, if_neg h0]
          by_cases hf : (nT : Int) - (so : Nat) + 1 ≥ (m : Nat)
          · have hg : (0 : Int) + ((nT - so : Nat) : Int) + 1 ≥ (m : Nat) := by omega
            rw [if_pos hg, if_pos hf]
          · have hg : ¬ ((0 : Int) + ((nT - so : Nat) : Int) + 1 ≥ (m : Nat)) := by omega
            rw [if_neg hg, if_neg hf]
      · have hk : ((nT : Int) + 1 - (so : Nat)).toNat = 0 := by omega
        have hk2 : ((nT : Int) - (so : Nat)).toNat = 0 := by omega
        rw [hk, hk2, if_neg (by omega)]
        rfl
  · simp only [hshow, if_false, decide_False, false_and, List.append_nil, Bool.false_eq_true]
    by_cases hA : so + m ≤ nT
    · have hve : (if ((so : Nat) : Int) + (m : Nat) > (nT : Int) then (nT : Int)
          else ((so : Nat) : Int) + (m : Nat)) = ((so : Nat) : Int) + (m : Nat) := by
        rw [if_neg (by omega)]
      rw [hve, min_eq_left (by omega)]
      have hk : (((so : Nat) : Int) + (m : Nat) - (so : Nat)).toNat = m := by omega
      rw [hk, Int.toNat_ofNat]
      exact bodyLoop_entries nT c so m m so 0 (by omega)
    · have hve : (if ((so : Nat) : Int) + (m : Nat) > (nT : Int) then (nT : Int)
          else ((so : Nat) : Int) + (m : Nat)) = (nT : Int) := by
        rw [if_pos (by omega)]
      rw [hve, min_eq_right (by omega), Int.toNat_ofNat]
      have hk : ((nT : Int) - (so : Nat)).toNat = nT - so := by omega
      rw [hk]
      by_cases hB : so ≤ nT
      · exact bodyLoop_entries nT c so m (nT - so) so 0 (by omega)
      · rw [show nT - so = 0 by omega]
        rfl

theorem headerLines_eq (colorsEnabled : Bool) (s : TrySelector K) (hw0 : 0 < s.width)
    (hw : 3 * (s.width - 1) ≤ maxInt) (hin : s.inputCursorPos ≤ s.inputBuffer.length) :
    headerLines colorsEnabled s = some
      [renderHeaderLine (str "🏠") (accent colorsEnabled (str " Try Directory Selection")),
        dim colorsEnabled (List.replicate (s.width - 1).toNat (str "─")).flatten,
        dim colorsEnabled (str "Search: ")
          ++ renderInput colorsEnabled s.inputBuffer s.inputCursorPos,
        dim colorsEnabled (List.replicate (s.width - 1).toNat (str "─")).flatten] := by
  have hlen : ((str "─").length : Int) = 3 := by decide
  have hr := stringsRepeat_some (str "─") (s.width - 1) (by omega) (by rw [hlen]; exact hw)
  unfold headerLines renderSearchLine
  rw [hr, renderInputChecked_eq colorsEnabled _ _ hin]
  rfl

theorem centerText_padding (a : Int) :
    0 ≤ (if a.tdiv 2 < 0 then 0 else a.tdiv 2)
      ∧ (if a.tdiv 2 < 0 then 0 else a.tdiv 2) ≤ max a 0 := by
  by_cases ha : 0 ≤ a
  · rw [Int.tdiv_eq_ediv ha (by decide)]
    constructor <;> split <;> omega
  · have h1 : a.tdiv 2 ≤ 0 := by
      have : a = -(-a) := by omega
      rw [this, Int.neg_tdiv]
      have := Int.tdiv_nonneg (show (0 : Int) ≤ -a by omega) (show (0 : Int) ≤ 2 by decide)
      omega
    constructor <;> split <;> omega

theorem centerText_eq (s : TrySelector K) (text : GoString) (hw : s.width ≤ maxInt) :
    ∃ pad : Nat, centerText s text = some ((List.replicate pad (str " ")).flatten ++ text) := by
  have hp := centerText_padding (s.width - visibleLen text)
  have hv := visibleLen_nonneg text
  have hlen : ((str " ").length : Int) = 1 := by decide
  unfold centerText
  dsimp only
  generalize (if (s.width - visibleLen text).tdiv 2 < 0 then (0 : Int)
    else (s.width - visibleLen text).tdiv 2) = p at hp
  have hmax : (0 : Int) ≤ maxInt := by decide
  rw [stringsRepeat_some (str " ") p hp.1 (by rw [hlen]; omega)]
  exact ⟨p.toNat, rfl⟩

theorem footerLines_eq (colorsEnabled : Bool) (s : TrySelector K) (hw0 : 0 < s.width)
    (hw : 3 * (s.width - 1) ≤ maxInt) :
    ∃ status : GoString,
      footerLines colorsEnabled s = some
        [dim colorsEnabled (List.replicate (s.width - 1).toNat (str "─")).flatten, status]
      ∧ (status = bold colorsEnabled s.deleteStatus
          ∨ status = renderDeleteModeFooter colorsEnabled s
          ∨ ∃ pad : Nat, status = (List.replicate pad (str " ")).flatten
              ++ dim colorsEnabled
                (str "↑/↓: Navigate  Enter: Select  ^R: Rename  ^D: Delete  Esc: Cancel")) := by
  have hlen : ((str "─").length : Int) = 3 := by decide
  have hr := stringsRepeat_some (str "─") (s.width - 1) (by omega) (by rw [hlen]; exact hw)
  have hmax : maxInt = 2 ^ 63 - 1 := rfl
  obtain ⟨pad, hpad⟩ := centerText_eq s
    (dim colorsEnabled
      (str "↑/↓: Navigate  Enter: Select  ^R: Rename  ^D: Delete  Esc: Cancel"))
    (by omega)
  unfold footerLines
  rw [hr]
  by_cases h1 : s.deleteStatus ≠ []
  · exact ⟨_, by rw [if_pos h1]; rfl, Or.inl rfl⟩
  · by_cases h2 : s.deleteMode = true
    · exact ⟨_, by rw [if_neg h1, if_pos h2]; rfl, Or.inr (Or.inl rfl)⟩
    · exact ⟨_, by rw [if_neg h1, if_neg h2, hpad]; rfl, Or.inr (Or.inr ⟨pad, rfl⟩)⟩

theorem renderEntryLine_some (colorsEnabled : Bool) (renv : RowEnv K) (s : TrySelector K)
    (entry : TryEntry K) (isSelected : Bool) (hw : s.width ≤ maxInt) :
    ∃ line fill : GoString, renderEntryLine colorsEnabled renv s entry isSelected = some line
      ∧ (∀ b ∈ fill, b = 32)
      ∧ line = (if decide (indexOf s.markedForDelete entry.Item.Path ≥ 0) && colorsEnabled
              then colorDangerBG
            else if isSelected && colorsEnabled then colorSelectedBG else [])
          ++ (if isSelected then highlight colorsEnabled (str "→ ") else str "  ")
          ++ (if decide (indexOf s.markedForDelete entry.Item.Path ≥ 0)
              then encodeRunes [Char.ofNat 0x1F5D1, Char.ofNat 0xFE0F, ' ']
              else encodeRunes [Char.ofNat 0x1F4C1, ' '])
          ++ (if visibleLen (formattedEntryName colorsEnabled entry).1 > s.width - 1 - 5 - 1
                  ∧ s.width - 1 - 5 - 1 > 2 then
                truncateWithAnsi (formattedEntryName colorsEnabled entry).2
                  (s.width - 1 - 5 - 1 - 1) ++ str "…"
              else (formattedEntryName colorsEnabled entry).2)
          ++ fill
          ++ dim colorsEnabled
              (formatRelativeTime renv entry.Item.Mtime ++ str ", "
                ++ renv.formatScore entry.Score) := by
  unfold renderEntryLine
  dsimp only
  generalize (if visibleLen (formattedEntryName colorsEnabled entry).1 > s.width - 1 - 5 - 1
        ∧ s.width - 1 - 5 - 1 > 2 then
      truncateWithAnsi (formattedEntryName colorsEnabled entry).2
        (s.width - 1 - 5 - 1 - 1) ++ str "…"
    else (formattedEntryName colorsEnabled entry).2) = name
  generalize (formatRelativeTime renv entry.Item.Mtime ++ str ", "
    ++ renv.formatScore entry.Score) = metadata
  have h1 := visibleLen_nonneg name
  have h2 := visibleLen_nonneg metadata
  have hlen : ((str " ").length : Int) = 1 := by decide
  by_cases hg : s.width - 1 - visibleLen metadata - (5 + visibleLen name) > 0
  · rw [if_pos hg, stringsRepeat_some (str " ") _ (by omega) (by rw [hlen]; omega)]
    refine ⟨_, _, rfl, ?_, rfl⟩
    intro b hb
    simp only [List.mem_flatten, List.mem_replicate] at hb
    obtain ⟨l, ⟨_, rfl⟩, hb⟩ := hb
    have hsp : str " " = [32] := by decide
    rw [hsp] at hb
    simpa using hb
  · rw [if_neg hg]
    exact ⟨_, [], rfl, by simp, by simp⟩

theorem bodyLoop_entry_mem (nTries : Nat) (c so mv : Int) :
    ∀ (k : Nat) (idx n : Int) (i : Int) (sel : Bool),
      BodyLine.entry i sel ∈ bodyLoop nTries c so mv k idx n → idx ≤ i ∧ i < nTries := by
  intro k
  induction k with
  | zero => intro idx n i sel h; simp [bodyLoop] at h
  | succ k ih =>
    intro idx n i sel h
    rw [bodyLoop] at h
    split at h
    · rename_i hc
      have hlt : ¬ (idx < (nTries : Int)) := by omega
      rw [if_neg hlt] at h
      split at h
      · simp at h
      · simp only [List.mem_cons] at h
        rcases h with h | h | h
        · cases h
        · cases h
        · have := ih _ _ _ _ h
          omega
    · simp only [List.mem_cons] at h
      rcases h with h | h
      · split at h
        · cases h
          rename_i hlt
          exact ⟨le_refl _, hlt⟩
        · cases h
      · have := ih _ _ _ _ h
        omega

theorem forall₂_of_some {α β : Type} (f : α → Option β) :
    ∀ l : List α, (∀ x ∈ l, ∃ y, f x = some y) →
      ∃ ys : List β, List.Forall₂ (fun x y => f x = some y) l ys := by
  intro l
  induction l with
  | nil => intro _; exact ⟨[], List.Forall₂.nil⟩
  | cons x xs ih =>
    intro h
    obtain ⟨y, hy⟩ := h x (List.mem_cons_self _ _)
    obtain ⟨ys, hys⟩ := ih fun z hz => h z (List.mem_cons_of_mem _ hz)
    exact ⟨y :: ys, List.Forall₂.cons hy hys⟩

theorem bodyWrite_eq (colorsEnabled : Bool) (renv : RowEnv K) (env : Env K)
    (s : TrySelector K) (tries : List (TryEntry K)) (mv : Int) :
    ∀ (k : Nat) (idx n : Int) (body : List GoString),
      List.Forall₂ (fun kind line => bodyLineText colorsEnabled renv env s tries kind = some line)
        (bodyLoop tries.length s.cursorPos s.scrollOffset mv k idx n) body →
      bodyWrite colorsEnabled renv env s tries mv k idx n
        = some (body.flatMap writeLine, n + body.length) := by
  intro k
  induction k with
  | zero =>
    intro idx n body h
    rw [bodyLoop] at h
    cases h
    simp [bodyWrite]
  | succ k ih =>
    intro idx n body h
    have hrow : (if idx < (tries.length : Int) then
          (indexChecked tries idx).bind fun entry =>
            (renderEntryLine colorsEnabled renv s entry (decide (idx = s.cursorPos))).map
              fun line => str "\r" ++ ansiClearEOL ++ line ++ ansiReset ++ str "\n"
        else
          some (str "\r" ++ ansiClearEOL
            ++ renderCreateLine colorsEnabled env s (decide (idx = s.cursorPos))
            ++ ansiReset ++ str "\n"))
        = (bodyLineText colorsEnabled renv env s tries
            (if idx < (tries.length : Int) then BodyLine.entry idx (decide (idx = s.cursorPos))
              else BodyLine.create (decide (idx = s.cursorPos)))).map writeLine := by
      split
      · simp only [bodyLineText]
        cases indexChecked tries idx with
        | none => rfl
        | some e =>
          simp only [Option.some_bind, Option.map_map]
          congr 1
      · simp [bodyLineText, writeLine, List.append_assoc]
    rw [bodyLoop] at h
    rw [bodyWrite]
    rw [hrow]
    have hblank : str "\r" ++ ansiClearEOL ++ str "\n" = writeLine [] := by
      simp [writeLine]
    by_cases hc : idx = (tries.length : Int) ∧ tries.length > 0 ∧ idx ≥ s.scrollOffset
    · rw [if_pos hc] at h ⊢
      by_cases hm : n + 1 ≥ mv
      · rw [if_pos hm] at h ⊢
        cases h with
        | cons h1 h2 =>
          cases h2
          simp only [bodyLineText, Option.some.injEq] at h1
          subst h1
          simp [hblank]
      · rw [if_neg hm] at h ⊢
        cases h with
        | cons h1 h2 =>
          cases h2 with
          | cons h3 h4 =>
            simp only [bodyLineText, Option.some.injEq] at h1
            subst h1
            rw [h3, ih _ _ _ h4]
            simp only [Option.map_some', Option.some_bind, List.flatMap_cons, hblank,
              List.length_cons, Nat.cast_add, Nat.cast_one, Option.some.injEq, Prod.mk.injEq,
              List.append_assoc, true_and]
            omega
    · rw [if_neg hc] at h ⊢
      cases h with
      | cons h3 h4 =>
        rw [h3, ih _ _ _ h4]
        simp only [Option.map_some', Option.some_bind, List.flatMap_cons,
          List.length_cons, Nat.cast_add, Nat.cast_one, Option.some.injEq, Prod.mk.injEq,
          true_and]
        omega

theorem indexChecked_some {α : Type} (xs : List α) (i : Int) (h0 : 0 ≤ i)
    (h1 : i < xs.length) : ∃ x, x ∈ xs ∧ indexChecked xs i = some x := by
  unfold indexChecked
  rw [if_pos ⟨h0, h1⟩]
  have hlt : i.toNat < xs.length := by omega
  exact ⟨xs[i.toNat], List.getElem_mem _, List.getElem?_eq_getElem hlt⟩

theorem writeHeader_eq (s : TrySelector K) (lines : List GoString) :
    writeHeader s lines = (lines.map (truncateLine s)).flatMap writeLine := by
  unfold writeHeader
  induction lines with
  | nil => rfl
  | cons l ls ih =>
    simp only [List.flatMap_cons, List.map_cons, ih]
    rfl

theorem writeFooter_eq (s : TrySelector K) (lines : List GoString) :
    writeFooter s lines = footerText (lines.map (truncateLine s)) := by
  induction lines with
  | nil => rfl
  | cons l ls ih =>
    cases ls with
    | nil => rfl
    | cons m ms =>
      rw [writeFooter, ih]
      · simp only [List.map_cons, footerText, writeLine]
      · intro h
        cases h

/-- The text that `render` writes is the text of a frame: the lines of `headerLines`, the
texts of the body lines and the lines of `footerLines`. -/
theorem renderOutput_eq (colorsEnabled : Bool) (renv : RowEnv K) (env : Env K)
    (s : TrySelector K) (tries : List (TryEntry K)) (hc : 0 ≤ s.cursorPos)
    (hso : 0 ≤ s.scrollOffset) (hin : s.inputCursorPos ≤ s.inputBuffer.length)
    (hw : 3 * ((refreshSize env s).width - 1) ≤ maxInt) :
    ∃ header footer body : List GoString,
      headerLines colorsEnabled (refreshSize env s) = some header
        ∧ footerLines colorsEnabled (refreshSize env s) = some footer
        ∧ List.Forall₂
            (fun kind line =>
              bodyLineText colorsEnabled renv env (render env s tries) tries kind = some line)
            (renderBody (render env s tries) tries) body
        ∧ renderOutput colorsEnabled renv env s tries
          = some (frameText (header.map (truncateLine (render env s tries))) body
              (footer.map (truncateLine (render env s tries))) (8 + s.inputCursorPos + 1))
        ∧ header.length = 4 ∧ footer.length = 2 := by
  have hpos := (refreshSize_pos env s).1
  have hin0 : (refreshSize env s).inputCursorPos ≤ (refreshSize env s).inputBuffer.length := hin
  have hh := headerLines_eq colorsEnabled (refreshSize env s) hpos hw hin0
  obtain ⟨status, hf, _⟩ := footerLines_eq colorsEnabled (refreshSize env s) hpos hw
  have hrso : 0 ≤ (render env s tries).scrollOffset := by
    rw [render_scrollOffset]
    have h3 : (3 : Int) ≤ max 3 ((render env s tries).height - 6) := le_max_left _ _
    generalize max 3 ((render env s tries).height - 6) = m at h3
    split
    · exact hc
    · split <;> omega
  have hrw : (render env s tries).width ≤ maxInt := by
    rw [(render_size env s tries).1]
    have hmax : maxInt = 2 ^ 63 - 1 := rfl
    omega
  -- every row of the body loop has a text
  have hsome : ∀ kind ∈ renderBodyRows (render env s tries) tries,
      ∃ line, bodyLineText colorsEnabled renv env (render env s tries) tries kind
        = some line := by
    intro kind hmem
    cases kind with
    | blank => exact ⟨_, rfl⟩
    | create sel => exact ⟨_, rfl⟩
    | entry i sel =>
      unfold renderBodyRows at hmem
      have hr := bodyLoop_entry_mem _ _ _ _ _ _ _ _ _ hmem
      obtain ⟨e, _, he⟩ := indexChecked_some tries i (by omega) hr.2
      obtain ⟨line, _, hl, _⟩ := renderEntryLine_some colorsEnabled renv (render env s tries)
        e sel hrw
      exact ⟨line ++ ansiReset, by simp only [bodyLineText, he, Option.some_bind, hl,
        Option.map_some']⟩
  obtain ⟨rows, hrows⟩ := forall₂_of_some _ _ hsome
  have hlen := hrows.length_eq
  have hfill : ∀ n : Nat, List.Forall₂
      (fun kind line =>
        bodyLineText colorsEnabled renv env (render env s tries) tries kind = some line)
      (List.replicate n BodyLine.blank) (List.replicate n []) := by
    intro n
    induction n with
    | zero => exact List.Forall₂.nil
    | succ n ih => exact List.Forall₂.cons rfl ih
  have hmv : (if (render env s tries).height - 4 - 2 < 3 then (3 : Int)
      else (render env s tries).height - 4 - 2) = max 3 ((render env s tries).height - 6) := by
    split <;> omega
  refine ⟨_, _,
    rows ++ List.replicate (max 3 ((render env s tries).height - 6) - rows.length).toNat [],
    hh, hf, ?_, ?_, rfl, rfl⟩
  · unfold renderBody
    dsimp only
    rw [hmv, hlen]
    exact List.rel_append hrows (hfill _)
  · have hb := bodyWrite_eq colorsEnabled renv env (render env s tries) tries
      (max 3 ((render env s tries).height - 6))
    unfold renderBodyRows at hrows
    dsimp only at hrows
    rw [hmv] at hrows
    have hb2 := hb _ _ _ _ hrows
    unfold renderOutput
    rw [hh, hf]
    simp only [Option.bind_eq_bind, Option.some_bind, List.length_cons, List.length_nil]
    have e4 : ((0 + 1 + 1 + 1 + 1 : Nat) : Int) = 4 := rfl
    have e2 : ((0 + 1 + 1 : Nat) : Int) = 2 := rfl
    have hfl : ∀ n : Nat, (List.replicate n (str "\r" ++ ansiClearEOL ++ str "\n")).flatten
        = (List.replicate n ([] : GoString)).flatMap writeLine := by
      intro n
      induction n with
      | zero => rfl
      | succ n ih =>
        rw [List.replicate_succ, List.replicate_succ, List.flatten_cons, List.flatMap_cons, ih]
        rfl
    rw [e4, e2, hmv, hb2]
    simp only [Option.some_bind, zero_add]
    rw [hfl]
    simp only [writeHeader_eq, writeFooter_eq, frameText, List.flatMap_append,
      (render_frame env s tries).2.2.1, List.append_assoc]

/-! ### Line feeds in the written text -/

theorem ofNat_ne_lf (v : Nat) (h : v ≠ 10) : Char.ofNat v ≠ '\n' := by
  intro he
  have h10 : (Char.ofNat v).toNat = 10 := by rw [he]; rfl
  unfold Char.ofNat at h10
  by_cases hv : Nat.isValidChar v
  · rw [dif_pos hv] at h10
    exact h h10
  · rw [dif_neg hv] at h10
    cases h10

theorem encodeRune_noLF (c : Rune) (h : c ≠ '\n') : (10 : Byte) ∉ encodeRune c := by
  intro hm
  by_cases hc : c.toNat < 128
  · rw [encodeRune_ascii c hc] at hm
    have h1 : ((Fin.ofNat c.toNat : Byte)).val = 10 := by
      rw [← List.mem_singleton.mp hm]
      rfl
    have h2 : c.toNat = 10 := by
      have : ((Fin.ofNat c.toNat : Byte)).val = c.toNat % 256 := rfl
      omega
    apply h
    rw [← Char.ofNat_toNat c, h2]
  · have := encodeRune_high c (by omega) 10 hm
    revert this
    decide

theorem encodeRunes_noLF (rs : List Rune) (h : '\n' ∉ rs) : (10 : Byte) ∉ encodeRunes rs := by
  intro hm
  obtain ⟨c, hc, hb⟩ := List.mem_flatMap.mp hm
  exact encodeRune_noLF c (fun e => h (e ▸ hc)) hb

theorem str_noLF (t : String) (h : '\n' ∉ t.toList) : (10 : Byte) ∉ str t :=
  encodeRunes_noLF _ h

theorem decodeRune_noLF (b : Byte) (rest : GoString) (h : b ≠ 10) :
    (decodeRune b rest).1 ≠ '\n' := by
  have hb : b.val ≠ 10 := fun e => h (Fin.ext e)
  have herr : runeError ≠ '\n' := by
    unfold runeError
    exact ofNat_ne_lf _ (by omega)
  unfold decodeRune
  by_cases h1 : b.val < 0x80
  · rw [if_pos h1]
    exact ofNat_ne_lf _ hb
  rw [if_neg h1]
  by_cases h2 : 0xC2 ≤ b.val ∧ b.val ≤ 0xDF
  · rw [if_pos h2]
    rcases rest with _ | ⟨b1, tl⟩
    · exact herr
    · dsimp only
      by_cases hr : inRange 0x80 0xBF b1 = true
      · rw [if_pos hr]
        dsimp only
        exact ofNat_ne_lf ((b.val - 0xC0) * 64 + (b1.val - 0x80)) (by omega)
      · rw [if_neg hr]
        exact herr
  rw [if_neg h2]
  by_cases h3 : 0xE0 ≤ b.val ∧ b.val ≤ 0xEF
  · rw [if_pos h3]
    dsimp only
    have hlo : (if b.val = 0xE0 then 0xA0 else 0x80 : Nat) ≥ 0x80
        ∧ (b.val = 0xE0 → (if b.val = 0xE0 then 0xA0 else 0x80 : Nat) = 0xA0) := by
      constructor
      · split <;> omega
      · intro e; rw [if_pos e]
    generalize (if b.val = 0xE0 then 0xA0 else 0x80 : Nat) = lo at hlo
    generalize (if b.val = 0xED then 0x9F else 0xBF : Nat) = hi
    rcases rest with _ | ⟨b1, _ | ⟨b2, tl⟩⟩
    · exact herr
    · exact herr
    · dsimp only
      by_cases hr : (inRange lo hi b1 && inRange 0x80 0xBF b2) = true
      · rw [if_pos hr]
        simp only [inRange, Bool.and_eq_true, decide_eq_true_eq] at hr
        have := hr.1.1
        dsimp only
        exact ofNat_ne_lf ((b.val - 0xE0) * 4096 + (b1.val - 0x80) * 64 + (b2.val - 0x80))
          (by omega)
      · rw [if_neg hr]
        exact herr
  rw [if_neg h3]
  by_cases h4 : 0xF0 ≤ b.val ∧ b.val ≤ 0xF4
  · rw [if_pos h4]
    dsimp only
    have hlo : (if b.val = 0xF0 then 0x90 else 0x80 : Nat) ≥ 0x80
        ∧ (b.val = 0xF0 → (if b.val = 0xF0 then 0x90 else 0x80 : Nat) = 0x90) := by
      constructor
      · split <;> omega
      · intro e; rw [if_pos e]
    generalize (if b.val = 0xF0 then 0x90 else 0x80 : Nat) = lo at hlo
    generalize (if b.val = 0xF4 then 0x8F else 0xBF : Nat) = hi
    rcases rest with _ | ⟨b1, _ | ⟨b2, _ | ⟨b3, tl⟩⟩⟩
    · exact herr
    · exact herr
    · exact herr
    · dsimp only
      by_cases hr : (inRange lo hi b1 && inRange 0x80 0xBF b2 && inRange 0x80 0xBF b3) = true
      · rw [if_pos hr]
        simp only [inRange, Bool.and_eq_true, decide_eq_true_eq] at hr
        have := hr.1.1.1
        dsimp only
        exact ofNat_ne_lf ((b.val - 0xF0) * 262144 + (b1.val - 0x80) * 4096
          + (b2.val - 0x80) * 64 + (b3.val - 0x80)) (by omega)
      · rw [if_neg hr]
        exact herr
  rw [if_neg h4]
  exact herr

theorem rangeFrom_noLF :
    ∀ (t : GoString) (i skip : Nat), (10 : Byte) ∉ t →
      ∀ p ∈ rangeFrom t i skip, p.2 ≠ '\n' := by
  intro t
  induction t with
  | nil => intro i skip _ p hp; simp [rangeFrom] at hp
  | cons b rest ih =>
    intro i skip h p hp
    have hb : b ≠ 10 := fun e => h (e ▸ List.mem_cons_self _ _)
    have hr : (10 : Byte) ∉ rest := fun e => h (List.mem_cons_of_mem _ e)
    cases skip with
    | succ k =>
      rw [rangeFrom] at hp
      exact ih _ _ hr p hp
    | zero =>
      rw [rangeFrom] at hp
      rcases List.mem_cons.mp hp with rfl | hp
      · exact decodeRune_noLF b rest hb
      · exact ih _ _ hr p hp

theorem runes_noLF (t : GoString) (h : (10 : Byte) ∉ t) : '\n' ∉ runes t := by
  intro hm
  unfold runes rangeString at hm
  obtain ⟨p, hp, he⟩ := List.mem_map.mp hm
  exact rangeFrom_noLF t 0 0 h p hp he

theorem truncateWithAnsi_noLF (t : GoString) (n : Int) (h : (10 : Byte) ∉ t) :
    (10 : Byte) ∉ truncateWithAnsi t n := by
  unfold truncateWithAnsi
  split
  · exact h
  · intro hm
    have h1 : (10 : Byte) ∈ encodeRunes (truncLoop n (runes t) 0 false) :=
      (List.rdropWhile_prefix _ _).subset hm
    exact encodeRunes_noLF _
      (fun e => runes_noLF t h ((truncLoop_isPrefix n (runes t) 0 false).subset e)) h1

theorem truncateLine_noLF (s : TrySelector K) (t : GoString) (h : (10 : Byte) ∉ t) :
    (10 : Byte) ∉ truncateLine s t := by
  unfold truncateLine
  split
  · exact h
  · intro hm
    rcases List.mem_append.mp hm with hm | hm
    · exact truncateWithAnsi_noLF t _ h hm
    · revert hm
      decide

theorem ansiWrap_noLF (colorsEnabled : Bool) (t pre suf : GoString) (h : (10 : Byte) ∉ t)
    (hp : (10 : Byte) ∉ pre) (hs : (10 : Byte) ∉ suf) :
    (10 : Byte) ∉ ansiWrap colorsEnabled t pre suf := by
  unfold ansiWrap
  split
  · exact h
  · simp only [List.mem_append, not_or]
    exact ⟨⟨hp, h⟩, hs⟩

theorem dim_noLF (colorsEnabled : Bool) (t : GoString) (h : (10 : Byte) ∉ t) :
    (10 : Byte) ∉ dim colorsEnabled t :=
  ansiWrap_noLF _ _ _ _ h (by decide) (by decide)

theorem bold_noLF (colorsEnabled : Bool) (t : GoString) (h : (10 : Byte) ∉ t) :
    (10 : Byte) ∉ bold colorsEnabled t :=
  ansiWrap_noLF _ _ _ _ h (by decide) (by decide)

theorem highlight_noLF (colorsEnabled : Bool) (t : GoString) (h : (10 : Byte) ∉ t) :
    (10 : Byte) ∉ highlight colorsEnabled t :=
  ansiWrap_noLF _ _ _ _ h (by decide) (by decide)

theorem highlightWithPositions_noLF (colorsEnabled : Bool) (t : GoString)
    (positions : List Nat) (offset : Nat) (h : (10 : Byte) ∉ t) :
    (10 : Byte) ∉ highlightWithPositions colorsEnabled t positions offset := by
  intro hm
  unfold highlightWithPositions at hm
  obtain ⟨p, hp, hb⟩ := List.mem_flatMap.mp hm
  have hne : p.2 ≠ '\n' := rangeFrom_noLF t 0 0 h p hp
  split at hb
  · exact highlight_noLF _ _ (encodeRune_noLF _ hne) hb
  · exact encodeRune_noLF _ hne hb

theorem formattedEntryName_noLF (colorsEnabled : Bool) (entry : TryEntry K)
    (h : (10 : Byte) ∉ entry.Item.Basename) :
    (10 : Byte) ∉ (formattedEntryName colorsEnabled entry).2 := by
  unfold formattedEntryName
  dsimp only
  split
  · rename_i datePart namePart hd
    unfold dateMatch at hd
    split at hd
    · cases hd
      have h1 : (10 : Byte) ∉ entry.Item.Basename.take 10 :=
        fun e => h (List.mem_of_mem_take e)
      have h2 : (10 : Byte) ∉ entry.Item.Basename.drop 11 :=
        fun e => h (List.mem_of_mem_drop e)
      simp only [List.mem_append, not_or]
      refine ⟨⟨dim_noLF _ _ h1, ?_⟩, highlightWithPositions_noLF _ _ _ _ h2⟩
      split
      · exact highlight_noLF _ _ (by decide)
      · exact dim_noLF _ _ (by decide)
    · cases hd
  · exact highlightWithPositions_noLF _ _ _ _ h

theorem renderInput_noLF (colorsEnabled : Bool) (t : GoString) (cursor : Nat)
    (h : (10 : Byte) ∉ t) : (10 : Byte) ∉ renderInput colorsEnabled t cursor := by
  unfold renderInput
  split
  · exact dim_noLF _ _ (by simp)
  · dsimp only
    simp only [List.mem_append, not_or]
    refine ⟨⟨⟨⟨fun e => h (List.mem_of_mem_take e), ?_⟩, ?_⟩, ?_⟩, ?_⟩
    · split
      · decide
      · simp
    · split
      · rename_i hc
        have hg : t[cursor]? = some t[cursor] := List.getElem?_eq_getElem hc
        rw [byteRune_of_getElem? t cursor _ hg]
        apply encodeRune_noLF
        apply ofNat_ne_lf
        intro e
        apply h
        have : t[cursor] = 10 := Fin.ext e
        rw [← this]
        exact List.getElem_mem _
      · decide
    · split
      · decide
      · simp
    · split
      · exact fun e => h (List.mem_of_mem_drop e)
      · simp

theorem replicate_flatten_noLF (n : Nat) (t : GoString) (h : (10 : Byte) ∉ t) :
    (10 : Byte) ∉ (List.replicate n t).flatten := by
  intro hm
  obtain ⟨l, hl, hb⟩ := List.mem_flatten.mp hm
  rw [(List.mem_replicate.mp hl).2] at hb
  exact h hb

theorem toDigitsCore_mem (fuel : Nat) :
    ∀ (n : Nat) (ds : List Char) (c : Char), c ∈ Nat.toDigitsCore 10 fuel n ds →
      c ∈ ds ∨ ∃ d, d < 10 ∧ c = Nat.digitChar d := by
  induction fuel with
  | zero => intro n ds c h; exact Or.inl (by simpa [Nat.toDigitsCore] using h)
  | succ f ih =>
    intro n ds c h
    rw [Nat.toDigitsCore] at h
    split at h
    · rcases List.mem_cons.mp h with rfl | h
      · exact Or.inr ⟨n % 10, Nat.mod_lt _ (by decide), rfl⟩
      · exact Or.inl h
    · rcases ih _ _ _ h with h | h
      · rcases List.mem_cons.mp h with rfl | h
        · exact Or.inr ⟨n % 10, Nat.mod_lt _ (by decide), rfl⟩
        · exact Or.inl h
      · exact Or.inr h

theorem repr_noLF (n : Nat) : (10 : Byte) ∉ str (Nat.repr n) := by
  apply str_noLF
  intro h
  have h1 : '\n' ∈ Nat.toDigits 10 n := h
  unfold Nat.toDigits at h1
  rcases toDigitsCore_mem _ _ _ _ h1 with h2 | ⟨d, hd, he⟩
  · simp at h2
  · revert he
    revert d
    decide

theorem formatInt_noLF (i : Int) : (10 : Byte) ∉ formatInt i := by
  cases i with
  | ofNat m => exact repr_noLF m
  | negSucc m =>
    simp only [formatInt, List.mem_append, not_or]
    exact ⟨by decide, repr_noLF _⟩

theorem formatRelativeTime_noLF (renv : RowEnv K) (t : Int) :
    (10 : Byte) ∉ formatRelativeTime renv t := by
  unfold formatRelativeTime
  dsimp only
  split
  · decide
  · split
    · decide
    · have ha : ∀ (i : Int) (suffix : GoString), (10 : Byte) ∉ suffix →
          (10 : Byte) ∉ formatInt i ++ suffix := by
        intro i suffix hs
        simp only [List.mem_append, not_or]
        exact ⟨formatInt_noLF i, hs⟩
      split
      · exact ha _ _ (by decide)
      · split
        · exact ha _ _ (by decide)
        · split
          · exact ha _ _ (by decide)
          · exact ha _ _ (by decide)

theorem renderDeleteModeFooter_noLF (colorsEnabled : Bool) (s : TrySelector K) :
    (10 : Byte) ∉ renderDeleteModeFooter colorsEnabled s := by
  unfold renderDeleteModeFooter
  simp only [List.mem_append, not_or]
  refine ⟨⟨⟨⟨?_, bold_noLF _ _ (by decide)⟩, by decide⟩, repr_noLF _⟩, by decide⟩
  split
  · decide
  · simp

theorem renderCreateLine_noLF (colorsEnabled : Bool) (env : Env K) (s : TrySelector K)
    (isSelected : Bool) (h1 : (10 : Byte) ∉ s.inputBuffer) (h2 : (10 : Byte) ∉ env.today) :
    (10 : Byte) ∉ renderCreateLine colorsEnabled env s isSelected := by
  unfold renderCreateLine
  simp only [List.mem_append, not_or]
  refine ⟨⟨?_, ?_⟩, ?_⟩
  · split
    · decide
    · simp
  · split
    · exact highlight_noLF _ _ (by decide)
    · decide
  · split
    · simp only [List.mem_append, not_or]
      exact ⟨⟨by decide, h2⟩, by decide⟩
    · simp only [List.mem_append, not_or]
      exact ⟨⟨⟨by decide, h2⟩, by decide⟩, h1⟩

theorem indexChecked_mem {α : Type} (xs : List α) (i : Int) (x : α)
    (h : indexChecked xs i = some x) : x ∈ xs := by
  unfold indexChecked at h
  split at h
  · obtain ⟨hlt, he⟩ := List.getElem?_eq_some.mp h
    rw [← he]
    exact List.getElem_mem _
  · cases h

theorem renderEntryLine_noLF (colorsEnabled : Bool) (renv : RowEnv K) (s : TrySelector K)
    (entry : TryEntry K) (isSelected : Bool) (line : GoString)
    (hline : renderEntryLine colorsEnabled renv s entry isSelected = some line)
    (hw : s.width ≤ maxInt) (hname : (10 : Byte) ∉ entry.Item.Basename)
    (hscore : ∀ x, (10 : Byte) ∉ renv.formatScore x) : (10 : Byte) ∉ line := by
  obtain ⟨line2, fill, hl, hfill, hform⟩ :=
    renderEntryLine_some colorsEnabled renv s entry isSelected hw
  rw [hl] at hline
  cases hline
  rw [hform]
  simp only [List.mem_append, not_or]
  refine ⟨⟨⟨⟨⟨?_, ?_⟩, ?_⟩, ?_⟩, ?_⟩, ?_⟩
  · split
    · decide
    · split
      · decide
      · simp
  · split
    · exact highlight_noLF _ _ (by decide)
    · decide
  · split
    · decide
    · decide
  · split
    · simp only [List.mem_append, not_or]
      exact ⟨truncateWithAnsi_noLF _ _ (formattedEntryName_noLF _ _ hname), by decide⟩
    · exact formattedEntryName_noLF _ _ hname
  · intro hm
    have := hfill _ hm
    revert this
    decide
  · apply dim_noLF
    simp only [List.mem_append, not_or]
    exact ⟨⟨formatRelativeTime_noLF _ _, by decide⟩, hscore _⟩

theorem lineFeeds_append (a b : GoString) : lineFeeds (a ++ b) = lineFeeds a + lineFeeds b :=
  List.count_append _ _ _

theorem lineFeeds_eq_zero (a : GoString) (h : (10 : Byte) ∉ a) : lineFeeds a = 0 :=
  List.count_eq_zero.mpr h

theorem lineFeeds_writeLine (line : GoString) (h : (10 : Byte) ∉ line) :
    lineFeeds (writeLine line) = 1 := by
  unfold writeLine
  rw [lineFeeds_append, lineFeeds_append, lineFeeds_append, lineFeeds_eq_zero line h]
  rfl

theorem lineFeeds_lines (lines : List GoString) (h : ∀ line ∈ lines, (10 : Byte) ∉ line) :
    lineFeeds (lines.flatMap writeLine) = lines.length := by
  induction lines with
  | nil => rfl
  | cons l ls ih =>
    rw [List.flatMap_cons, lineFeeds_append, lineFeeds_writeLine l (h l (List.mem_cons_self _ _)),
      ih fun x hx => h x (List.mem_cons_of_mem _ hx), List.length_cons]
    omega

/-- The number of line feeds in the text of a frame whose lines hold none: one after every
line but the last. -/
theorem lineFeeds_frameText (header body : List GoString) (f1 f2 : GoString) (col : Int)
    (hh : ∀ line ∈ header, (10 : Byte) ∉ line) (hb : ∀ line ∈ body, (10 : Byte) ∉ line)
    (h1 : (10 : Byte) ∉ f1) (h2 : (10 : Byte) ∉ f2) :
    lineFeeds (frameText header body [f1, f2] col) = header.length + body.length + 1 := by
  unfold frameText footerText footerText
  simp only [lineFeeds_append, lineFeeds_lines header hh, lineFeeds_lines body hb,
    lineFeeds_writeLine f1 h1, lineFeeds_eq_zero f2 h2,
    lineFeeds_eq_zero _ (formatInt_noLF 3), lineFeeds_eq_zero _ (formatInt_noLF col)]
  have e1 : lineFeeds ansiHome = 0 := by decide
  have e2 : lineFeeds (str "\r" ++ ansiClearEOL) = 0 := by decide
  have e3 : lineFeeds (str "\x1b[") = 0 := by decide
  have e4 : lineFeeds (str ";") = 0 := by decide
  have e5 : lineFeeds (str "H") = 0 := by decide
  have e6 : lineFeeds ansiShow = 0 := by decide
  have e7 : lineFeeds ansiReset = 0 := by decide
  rw [lineFeeds_append] at e2
  omega

theorem forall₂_mem_right {α β : Type} (R : α → β → Prop) :
    ∀ (l : List α) (ys : List β), List.Forall₂ R l ys → ∀ y ∈ ys, ∃ x, x ∈ l ∧ R x y := by
  intro l ys h
  induction h with
  | nil => intro y hy; cases hy
  | cons hxy _ ih =>
    intro y hy
    rcases List.mem_cons.mp hy with rfl | hy
    · exact ⟨_, List.mem_cons_self _ _, hxy⟩
    · obtain ⟨x, hx, hr⟩ := ih y hy
      exact ⟨x, List.mem_cons_of_mem _ hx, hr⟩

theorem demoFormatScore_noLF (x : ℚ) : (10 : Byte) ∉ demoFormatScore x := by
  unfold demoFormatScore
  simp only [List.mem_append, not_or]
  exact ⟨⟨repr_noLF _, by decide⟩, repr_noLF _⟩

/-! ### The two readings of `float64` agree on numbers -/

theorem ieee_loadEntry_num (env : Env K) (basePath : GoString) (entry : DirEntry K)
    (h : ∀ mtime hours, entry.Info = some (mtime, hours) →
      0 ≤ hours + 1 ∧ env.sqrt (hours + 1) ≠ 0) :
    Ieee.loadEntry env basePath entry = (loadEntry env basePath entry).map TryItem.toF64 := by
  unfold Ieee.loadEntry loadEntry
  split
  · rfl
  · split
    · rfl
    · cases hi : entry.Info with
      | none => rfl
      | some p =>
        obtain ⟨mtime, hours⟩ := p
        obtain ⟨h1, h2⟩ := h mtime hours hi
        simp only [F64.add, F64.sqrt, if_neg (not_lt.mpr h1), F64.div, if_neg h2,
          Option.map_some', TryItem.toF64]
        split <;> rfl

theorem ieee_NewFuzzy_num (env : Env K) (items : List (TryItem K)) :
    Ieee.NewFuzzy env (items.map TryItem.toF64)
      = { Entries := (NewFuzzy env items).Entries.map FuzzyEntry.toF64 } := by
  simp only [Ieee.NewFuzzy, NewFuzzy, List.map_map]
  rfl

theorem ieee_sqrtTable_num (env : Env K) (hs : ∀ x : K, 0 < x → env.sqrt x ≠ 0) :
    Ieee.sqrtTable env = (sqrtTable env).map F64.num := by
  unfold Ieee.sqrtTable sqrtTable
  rw [List.map_map]
  apply List.map_congr_left
  intro i _
  have hpos : (0 : K) < ((i + 1 : Nat) : K) := by exact_mod_cast Nat.succ_pos i
  simp only [Function.comp, F64.sqrt, if_neg (not_lt.mpr hpos.le), F64.div,
    if_neg (hs _ hpos)]

theorem ieee_gapBonus_num (env : Env K) (hs : ∀ x : K, 0 < x → env.sqrt x ≠ 0) (gap : Int) :
    Ieee.gapBonus env gap = .num (gapBonus env gap) := by
  unfold Ieee.gapBonus gapBonus
  split
  · rw [ieee_sqrtTable_num env hs, List.getD_eq_getElem?_getD, List.getD_eq_getElem?_getD,
      List.getElem?_map]
    cases (sqrtTable env)[gap.toNat]? <;> rfl
  · rename_i hg
    have hpos : (0 : K) < ((gap + 1 : Int) : K) := by exact_mod_cast (by omega : 0 < gap + 1)
    simp only [F64.sqrt, if_neg (not_lt.mpr hpos.le), F64.div, if_neg (hs _ hpos)]

theorem ieee_scanStep_num (env : Env K) (hs : ∀ x : K, 0 < x → env.sqrt x ≠ 0)
    (textRunes : List Rune) (st : ScanState K) (found : Nat) :
    Ieee.scanStep env textRunes st.toF64 found = (scanStep env textRunes st found).toF64 := by
  unfold Ieee.scanStep scanStep ScanState.toF64
  dsimp only
  rw [ieee_gapBonus_num env hs]
  cases atBoundary textRunes found <;> by_cases hp : st.lastPos ≥ 0 <;>
    simp only [hp, if_true, if_false, Bool.false_eq_true, F64.add]

theorem ieee_scanLoop_num (env : Env K) (hs : ∀ x : K, 0 < x → env.sqrt x ≠ 0)
    (textRunes : List Rune) :
    ∀ (qs : List Rune) (st : ScanState K),
      Ieee.scanLoop env textRunes qs st.toF64
        = (scanLoop env textRunes qs st).map ScanState.toF64 := by
  intro qs
  induction qs with
  | nil => intro st; rfl
  | cons qc qs ih =>
    intro st
    rw [Ieee.scanLoop, scanLoop]
    have hpos : st.toF64.pos = st.pos := rfl
    rw [hpos]
    cases findLoop textRunes qc (textRunes.length - st.pos) st.pos with
    | none => rfl
    | some found =>
      dsimp only
      rw [ieee_scanStep_num env hs, ih]

/-- The function `calculateMatch` on an entry whose base score is a number gives the number
that the reading over `K` gives, with the same positions. -/
theorem ieee_calculateMatch_num (env : Env K) (hs : ∀ x : K, 0 < x → env.sqrt x ≠ 0)
    (entry : FuzzyEntry K) (query : GoString) :
    Ieee.calculateMatch env entry.toF64 query
      = (calculateMatch env entry query).map fun r => (F64.num r.1, r.2) := by
  unfold Ieee.calculateMatch calculateMatch
  split
  · rfl
  · dsimp only
    have h0 : ({ score := entry.toF64.BaseScore, positions := [], lastPos := -1, pos := 0 }
          : ScanState (F64 K))
        = ScanState.toF64 { score := entry.BaseScore, positions := [], lastPos := -1, pos := 0 } :=
      rfl
    have h1 : entry.toF64.TextRunes = entry.TextRunes := rfl
    have h2 : entry.toF64.Text = entry.Text := rfl
    rw [h0, h1, h2, ieee_scanLoop_num env hs]
    cases scanLoop env entry.TextRunes (lowerRunes env query)
        { score := entry.BaseScore, positions := [], lastPos := -1, pos := 0 } with
    | none => rfl
    | some st =>
      have hlen : ((((runes entry.Text).length : Nat) : K) + 10) ≠ 0 := by
        have : (0 : K) ≤ (((runes entry.Text).length : Nat) : K) := Nat.cast_nonneg _
        have : (0 : K) < (((runes entry.Text).length : Nat) : K) + 10 := by linarith
        exact ne_of_gt this
      simp only [Option.map_some', ScanState.toF64]
      by_cases hp : st.lastPos ≥ 0
      · have hl : (((st.lastPos + 1 : Int)) : K) ≠ 0 := by
          have : (0 : K) < (((st.lastPos + 1 : Int)) : K) := by
            exact_mod_cast (by omega : 0 < st.lastPos + 1)
          exact ne_of_gt this
        simp only [hp, if_true, F64.div, if_neg hl, F64.mul, F64.add, if_neg hlen]
      · simp only [hp, if_false, F64.div, F64.mul, F64.add, if_neg hlen]

theorem ieee_scoreEntries_num (env : Env K) (hs : ∀ x : K, 0 < x → env.sqrt x ≠ 0)
    (entries : List (FuzzyEntry K)) (query : GoString) :
    Ieee.scoreEntries env (entries.map FuzzyEntry.toF64) query
      = (scoreEntries env entries query).map FuzzyMatch.toF64 := by
  unfold Ieee.scoreEntries scoreEntries
  induction entries with
  | nil => rfl
  | cons e es ih =>
    rw [List.map_cons, List.filterMap_cons, List.filterMap_cons, ieee_calculateMatch_num env hs]
    cases calculateMatch env e query with
    | none => exact ih
    | some r =>
      obtain ⟨score, positions⟩ := r
      simp only [Option.map_some', List.map_cons, ih]
      rfl

theorem ieee_swapAt_num (ms : List (FuzzyMatch K)) (i j : Nat) :
    Ieee.swapAt (ms.map FuzzyMatch.toF64) i j = (swapAt ms i j).map FuzzyMatch.toF64 := by
  unfold Ieee.swapAt swapAt
  rw [List.getElem?_map, List.getElem?_map]
  cases ms[i]? with
  | none => rfl
  | some a =>
    cases ms[j]? with
    | none => rfl
    | some b => simp only [Option.map_some', List.map_set]

theorem ieee_scoreGt_num (ms : List (FuzzyMatch K)) (j i : Nat) :
    Ieee.scoreGt (ms.map FuzzyMatch.toF64) j i = scoreGt ms j i := by
  unfold Ieee.scoreGt scoreGt
  rw [List.getElem?_map, List.getElem?_map]
  cases ms[j]? with
  | none => rfl
  | some b =>
    cases ms[i]? with
    | none => rfl
    | some a => rfl

theorem ieee_sortInner_num (i : Nat) :
    ∀ (k j : Nat) (ms : List (FuzzyMatch K)),
      Ieee.sortInner i k j (ms.map FuzzyMatch.toF64)
        = (sortInner i k j ms).map FuzzyMatch.toF64 := by
  intro k
  induction k with
  | zero => intro j ms; rfl
  | succ k ih =>
    intro j ms
    rw [Ieee.sortInner, sortInner, ieee_scoreGt_num, ieee_swapAt_num]
    split
    · exact ih _ _
    · exact ih _ _

theorem ieee_sortOuter_num :
    ∀ (k i : Nat) (ms : List (FuzzyMatch K)),
      Ieee.sortOuter k i (ms.map FuzzyMatch.toF64)
        = (sortOuter k i ms).map FuzzyMatch.toF64 := by
  intro k
  induction k with
  | zero => intro i ms; rfl
  | succ k ih =>
    intro i ms
    rw [Ieee.sortOuter, sortOuter, List.length_map, ieee_sortInner_num, ih]

/-- Where every score is a number, the method `Match` on `float64` values returns what the
reading over `K` returns: the reading over `K` is the code on such runs. -/
theorem ieee_Match_num (env : Env K) (hs : ∀ x : K, 0 < x → env.sqrt x ≠ 0)
    (items : List (TryItem K)) (query : GoString) :
    Ieee.Match env (Ieee.NewFuzzy env (items.map TryItem.toF64)) query
      = (Fuzzy.Match env (NewFuzzy env items) query).map FuzzyMatch.toF64 := by
  rw [ieee_NewFuzzy_num]
  unfold Ieee.Match Fuzzy.Match Ieee.sortByScore sortByScore
  dsimp only
  rw [ieee_scoreEntries_num env hs, List.length_map, ieee_sortOuter_num]

theorem ieee_loadAll_num (env : Env K) (basePath : GoString) (entries : List (DirEntry K))
    (h : ∀ entry ∈ entries, ∀ mtime hours, entry.Info = some (mtime, hours) →
      0 ≤ hours + 1 ∧ env.sqrt (hours + 1) ≠ 0) :
    entries.filterMap (Ieee.loadEntry env basePath)
      = (entries.filterMap (loadEntry env basePath)).map TryItem.toF64 := by
  induction entries with
  | nil => rfl
  | cons e es ih =>
    rw [List.filterMap_cons, List.filterMap_cons,
      ieee_loadEntry_num env basePath e (h e (List.mem_cons_self _ _)),
      ih fun x hx => h x (List.mem_cons_of_mem _ hx)]
    cases loadEntry env basePath e <;> rfl

/-- In every state that the loop of `mainLoop` reaches, `render` is called with a list cursor
and a scroll offset that are not negative and an input cursor within the input buffer. -/
theorem reachable_render_state (env : Env K) (searchTerm basePath andType : GoString)
    (andExit : Bool) (andKeys : List GoString) (andConfirm : GoString) (stdin : List ReadEvent)
    (s : TrySelector K)
    (h : Reachable env
      (NewTrySelector searchTerm basePath andType andExit andKeys andConfirm stdin) s) :
    0 ≤ (loopHead env s).clamped.cursorPos
      ∧ 0 ≤ (loopHead env s).clamped.scrollOffset
      ∧ (loopHead env s).clamped.inputCursorPos ≤ (loopHead env s).clamped.inputBuffer.length := by
  have hl := reachable_loopInv env _ s (NewTrySelector_loopInv _ _ _ _ _ _ _) h
  have hi := reachable_inputInv env _ s (NewTrySelector_inputInv _ _ _ _ _ _ _) h
  obtain ⟨_, _, _, _, hso, _, _, hbuf, _⟩ := loopHead_fields env s
  refine ⟨(loopHead_clamped env s).1, by rw [hso]; exact hl.1, ?_⟩
  rw [hbuf, (loopHead_clamp env s).2.2.2.2.2.2.2.2, (getTries_frame env s).2.2.2.1]
  exact hi

/-- The frame that `render` writes for a state whose list cursor and scroll offset are not
negative and whose input cursor lies within the input buffer, with a width for which
`strings.Repeat` does not overflow, when the input buffer, the status message, the names of
the entries, the date and the formatted scores hold no line feed: the text is that of a
frame of exactly 4 header lines, exactly `maxVisible = max(3, height - 6)` body lines and 2
footer lines, none of which holds a line feed. The body lines are, in this order, the rows
of the entries from the scroll offset on that fit, then, when the row "Create new" lies in
the window, an empty separator (if there are entries) and that row (left out when the
separator fills the window), then empty lines up to `maxVisible`. The text holds one line
feed after every line but the last, and for `height ≥ 9` it has exactly `height` lines. -/
theorem renderOutput_frame (colorsEnabled : Bool) (renv : RowEnv K) (env : Env K)
    (s : TrySelector K) (tries : List (TryEntry K))
    (hc : 0 ≤ s.cursorPos) (hso : 0 ≤ s.scrollOffset)
    (hin : s.inputCursorPos ≤ s.inputBuffer.length)
    (hw : 3 * ((render env s tries).width - 1) ≤ maxInt)
    (hbuf : (10 : Byte) ∉ s.inputBuffer) (hstatus : (10 : Byte) ∉ s.deleteStatus)
    (hnames : ∀ e ∈ tries, (10 : Byte) ∉ e.Item.Basename)
    (htoday : (10 : Byte) ∉ env.today) (hscore : ∀ x, (10 : Byte) ∉ renv.formatScore x) :
    ∃ header body footer : List GoString,
      renderOutput colorsEnabled renv env s tries
          = some (frameText header body footer (8 + s.inputCursorPos + 1))
        ∧ (headerLines colorsEnabled (refreshSize env s)).map
            (List.map (truncateLine (render env s tries))) = some header
        ∧ (footerLines colorsEnabled (refreshSize env s)).map
            (List.map (truncateLine (render env s tries))) = some footer
        ∧ List.Forall₂
            (fun kind line =>
              bodyLineText colorsEnabled renv env (render env s tries) tries kind = some line)
            (renderBody (render env s tries) tries) body
        ∧ renderBody (render env s tries) tries
          = bodyKinds tries.length (decide (s.inputBuffer ≠ [])) s.cursorPos
              (render env s tries).scrollOffset (max 3 ((render env s tries).height - 6))
            ++ List.replicate
              (max 3 ((render env s tries).height - 6)
                - (bodyKinds tries.length (decide (s.inputBuffer ≠ [])) s.cursorPos
                    (render env s tries).scrollOffset
                    (max 3 ((render env s tries).height - 6))).length).toNat
              BodyLine.blank
        ∧ header.length = 4
        ∧ ((body.length : Nat) : Int) = max 3 ((render env s tries).height - 6)
        ∧ footer.length = 2
        ∧ (∀ line ∈ header ++ body ++ footer, (10 : Byte) ∉ line)
        ∧ lineFeeds (frameText header body footer (8 + s.inputCursorPos + 1)) + 1
          = 4 + body.length + 2
        ∧ ((render env s tries).height ≥ 9 →
            ((lineFeeds (frameText header body footer (8 + s.inputCursorPos + 1)) + 1 : Nat) : Int)
              = (render env s tries).height) := by
  have hsize := render_size env s tries
  have hfr := render_frame env s tries
  rw [hsize.1] at hw
  obtain ⟨header, footer, body, hh, hf, hbody, hout, hhl, hfl⟩ :=
    renderOutput_eq colorsEnabled renv env s tries hc hso hin hw
  have hpos := (refreshSize_pos env s).1
  have hin0 : (refreshSize env s).inputCursorPos ≤ (refreshSize env s).inputBuffer.length := hin
  have hrw : (render env s tries).width ≤ maxInt := by
    rw [hsize.1]
    have hmax : maxInt = 2 ^ 63 - 1 := rfl
    omega
  have hrso : 0 ≤ (render env s tries).scrollOffset := by
    rw [render_scrollOffset]
    have h3 : (3 : Int) ≤ max 3 ((render env s tries).height - 6) := le_max_left _ _
    generalize max 3 ((render env s tries).height - 6) = m at h3
    split
    · exact hc
    · split <;> omega
  -- the lines of the header and of the footer
  have hh2 := headerLines_eq colorsEnabled (refreshSize env s) hpos hw hin0
  obtain ⟨status, hf2, hst⟩ := footerLines_eq colorsEnabled (refreshSize env s) hpos hw
  rw [hh] at hh2
  rw [hf] at hf2
  cases hh2
  cases hf2
  have hrule : (10 : Byte) ∉ dim colorsEnabled
      (List.replicate ((refreshSize env s).width - 1).toNat (str "─")).flatten :=
    dim_noLF _ _ (replicate_flatten_noLF _ _ (by decide))
  have hstatusLF : (10 : Byte) ∉ status := by
    rcases hst with rfl | rfl | ⟨pad, rfl⟩
    · exact bold_noLF _ _ hstatus
    · exact renderDeleteModeFooter_noLF _ _
    · simp only [List.mem_append, not_or]
      exact ⟨replicate_flatten_noLF _ _ (by decide), dim_noLF _ _ (by decide)⟩
  have hheader : ∀ line ∈ List.map (truncateLine (render env s tries))
      [renderHeaderLine (str "🏠") (accent colorsEnabled (str " Try Directory Selection")),
        dim colorsEnabled (List.replicate ((refreshSize env s).width - 1).toNat (str "─")).flatten,
        dim colorsEnabled (str "Search: ")
          ++ renderInput colorsEnabled (refreshSize env s).inputBuffer
            (refreshSize env s).inputCursorPos,
        dim colorsEnabled (List.replicate ((refreshSize env s).width - 1).toNat (str "─")).flatten],
      (10 : Byte) ∉ line := by
    intro line hl
    simp only [List.map_cons, List.map_nil, List.mem_cons, List.mem_singleton,
      List.not_mem_nil, or_false] at hl
    rcases hl with rfl | rfl | rfl | rfl
    · apply truncateLine_noLF
      unfold renderHeaderLine
      cases colorsEnabled <;> decide
    · exact truncateLine_noLF _ _ hrule
    · apply truncateLine_noLF
      simp only [List.mem_append, not_or]
      exact ⟨dim_noLF _ _ (by decide), renderInput_noLF _ _ _ hbuf⟩
    · exact truncateLine_noLF _ _ hrule
  have hbodyLF : ∀ line ∈ body, (10 : Byte) ∉ line := by
    intro line hl
    obtain ⟨kind, _, hk⟩ := forall₂_mem_right _ _ _ hbody line hl
    cases kind with
    | blank =>
      cases hk
      simp
    | create sel =>
      simp only [bodyLineText, Option.some.injEq] at hk
      rw [← hk]
      simp only [List.mem_append, not_or]
      exact ⟨renderCreateLine_noLF _ _ _ _ (by rw [hfr.2.1]; exact hbuf) htoday, by decide⟩
    | entry i sel =>
      simp only [bodyLineText] at hk
      cases he : indexChecked tries i with
      | none => rw [he] at hk; cases hk
      | some e =>
        rw [he, Option.some_bind] at hk
        cases hr : renderEntryLine colorsEnabled renv (render env s tries) e sel with
        | none => rw [hr] at hk; cases hk
        | some row =>
          rw [hr] at hk
          cases hk
          simp only [List.mem_append, not_or]
          exact ⟨renderEntryLine_noLF _ _ _ _ _ _ hr hrw
            (hnames e (indexChecked_mem _ _ _ he)) hscore, by decide⟩
  have hblen : ((body.length : Nat) : Int) = max 3 ((render env s tries).height - 6) := by
    rw [← hbody.length_eq]
    exact renderBody_length _ _
  have hcount := lineFeeds_frameText _ body _ _ (8 + (s.inputCursorPos : Int) + 1) hheader
    hbodyLF (truncateLine_noLF (render env s tries) _ hrule)
    (truncateLine_noLF (render env s tries) _ hstatusLF)
  refine ⟨_, body, _, hout, by rw [hh]; rfl, by rw [hf]; rfl, hbody, ?_, rfl, hblen, rfl, ?_, ?_,
    ?_⟩
  · have hclosed := renderBodyRows_closed (render env s tries) tries hrso
    rw [hfr.1, hfr.2.1] at hclosed
    unfold renderBody
    dsimp only
    have hmv : (if (render env s tries).height - 4 - 2 < 3 then (3 : Int)
        else (render env s tries).height - 4 - 2)
        = max 3 ((render env s tries).height - 6) := by
      split <;> omega
    rw [hmv, hclosed]
  · intro line hl
    simp only [List.mem_append] at hl
    rcases hl with (hl | hl) | hl
    · exact hheader line hl
    · exact hbodyLF line hl
    · simp only [List.map_cons, List.map_nil, List.mem_cons, List.mem_singleton,
        List.not_mem_nil, or_false] at hl
      rcases hl with rfl | rfl
      · exact truncateLine_noLF _ _ hrule
      · exact truncateLine_noLF _ _ hstatusLF
  · simp only [List.map_cons, List.map_nil] at hcount ⊢
    rw [hcount]
    simp only [List.length_cons, List.length_nil]
  · intro h9
    simp only [List.map_cons, List.map_nil] at hcount ⊢
    rw [hcount]
    simp only [List.length_cons, List.length_nil]
    have : max 3 ((render env s tries).height - 6) = (render env s tries).height - 6 := by
      omega
    push_cast
    omega

end lemmas

/-! ## The claims -/

section claims

variable {K : Type} [LinearOrderedField K]

/-- C1: every match returned by `Fuzzy.Match` is a case-insensitive subsequence match: its
`Positions` has as many entries as `lowercase(q)` has runes, is strictly increasing, and every
entry is a valid index into the candidate's lower-cased rune text holding the rune of
`lowercase(q)` with the same rank. -/
theorem Match_positions_subsequence (env : Env K) (items : List (TryItem K)) (q : GoString)
    (m : FuzzyMatch K) (hm : m ∈ Fuzzy.Match env (NewFuzzy env items) q) :
    m.Entry ∈ items
      ∧ m.Positions.length = (lowerRunes env q).length
      ∧ m.Positions.Pairwise (· < ·)
      ∧ ∀ (i : Nat) (hi : i < m.Positions.length),
          m.Positions[i] < (lowerRunes env m.Entry.Text).length
            ∧ (lowerRunes env m.Entry.Text)[m.Positions[i]]? = (lowerRunes env q)[i]? := by
  obtain ⟨hit, hg⟩ := mem_Match_NewFuzzy env items q m hm
  obtain ⟨h1, h2, _⟩ := greedy_sound _ _ _ _ hg
  have hlen := h1.length_eq
  refine ⟨hit, hlen, h2, ?_⟩
  intro i hi
  have hi2 : i < (lowerRunes env q).length := hlen ▸ hi
  have hget := List.Forall₂.get h1 hi hi2
  simp only [List.get_eq_getElem] at hget
  refine ⟨?_, ?_⟩
  · rcases Nat.lt_or_ge m.Positions[i] (lowerRunes env m.Entry.Text).length with h | h
    · exact h
    · rw [List.getElem?_eq_none h] at hget; cases hget
  · rw [hget, List.getElem?_eq_getElem hi2]

/-- An instance of the theorem above: the query `be` against `2024-05-01-alpha`
and `2024-05-02-beta` returns `beta` matched at positions 11 and 12. -/
theorem Match_positions_subsequence_witness :
    ({ Entry := demoItem "2024-05-02-beta" 4, Positions := [11, 12], Score := 36 / 65 } :
        FuzzyMatch ℚ) ∈ Fuzzy.Match demoEnv
          (NewFuzzy demoEnv [demoItem "2024-05-01-alpha" 3, demoItem "2024-05-02-beta" 4])
          (str "be")
      ∧ (demoItem "2024-05-02-beta" 4)
          ∈ [demoItem "2024-05-01-alpha" 3, demoItem "2024-05-02-beta" 4]
      ∧ [11, 12].length = (lowerRunes demoEnv (str "be")).length
      ∧ [11, 12].Pairwise (· < ·)
      ∧ ∀ (i : Nat) (hi : i < [11, 12].length),
          [11, 12][i] < (lowerRunes demoEnv (str "2024-05-02-beta")).length
            ∧ (lowerRunes demoEnv (str "2024-05-02-beta"))[[11, 12][i]]?
              = (lowerRunes demoEnv (str "be"))[i]? :=
  ⟨by decide!,
    Match_positions_subsequence demoEnv
      [demoItem "2024-05-01-alpha" 3, demoItem "2024-05-02-beta" 4] (str "be")
      { Entry := demoItem "2024-05-02-beta" 4, Positions := [11, 12], Score := 36 / 65 }
      (by decide!)⟩

/-- C3: the entries returned by `Fuzzy.Match` are, as a multiset, exactly the held candidates
whose lower-cased text contains `lowercase(query)` as a subsequence, and `calculateMatch`
rejects an entry exactly when no subsequence embedding exists. -/
theorem Match_entries_exactly_subsequence (env : Env K) (items : List (TryItem K))
    (q : GoString) :
    ((Fuzzy.Match env (NewFuzzy env items) q).map (fun m => m.Entry)).Perm
        (items.filter fun it => decide ((lowerRunes env q).Sublist (lowerRunes env it.Text)))
      ∧ ∀ e : FuzzyEntry K,
          calculateMatch env e q = none ↔ ¬ (lowerRunes env q).Sublist e.TextRunes := by
  refine ⟨?_, fun e => calculateMatch_eq_none_iff env e q⟩
  refine ((sortByScore_perm _).map _).trans ?_
  rw [NewFuzzy, scoreEntries]
  simp only
  induction items with
  | nil => simp
  | cons it items ih =>
    have hnone := calculateMatch_eq_none_iff env
      { Data := it, Text := it.Text, TextLower := stringsToLower env it.Text,
        BaseScore := it.BaseScore, TextRunes := lowerRunes env it.Text } q
    simp only at hnone
    rw [List.map_cons, List.filterMap_cons]
    by_cases hsub : (lowerRunes env q).Sublist (lowerRunes env it.Text)
    · cases hc : calculateMatch env
          { Data := it, Text := it.Text, TextLower := stringsToLower env it.Text,
            BaseScore := it.BaseScore, TextRunes := lowerRunes env it.Text } q with
      | none => exact absurd hsub (hnone.mp hc)
      | some r =>
        simp only [List.map_cons, List.filter_cons, hsub, decide_True, if_true]
        exact ih.cons _
    · rw [hnone.mpr hsub]
      simp only [List.filter_cons, hsub, decide_False]
      exact ih


/-- C6: for a candidate accepted for a non-empty query, with match positions
`p_0 < ... < p_{n-1}`, the score is
`(baseScore + Σ (1 + b_i) + Σ_{i ≥ 1} 2 / sqrt (p_i - p_{i-1})) * n / (p_{n-1} + 1) * 10 / (L + 10)`
with `b_i = 1` at a word boundary; and the contiguity bonus of a gap is `2 / sqrt (gap + 1)`
whether it is read from `sqrtTable` or computed. -/
theorem calculateMatch_score_formula (env : Env K) (entry : FuzzyEntry K) (query : GoString)
    (score : K) (positions : List Nat) (hq : query ≠ [])
    (h : calculateMatch env entry query = some (score, positions)) :
    (∃ hne : positions ≠ [],
      score =
        (entry.BaseScore
            + (positions.map fun p =>
                1 + (if p = 0 ∨ isAlphaNum (entry.TextRunes.getD (p - 1) ' ') = false
                  then (1 : K) else 0)).sum
            + (List.zipWith (fun a b => 2 / env.sqrt ((b : K) - (a : K)))
                positions positions.tail).sum)
          * ((((lowerRunes env query).length : Nat) : K) / (((positions.getLast hne : Nat) : K) + 1))
          * (10 / ((((runes entry.Text).length : Nat) : K) + 10)))
      ∧ ∀ gap : Int, 0 ≤ gap → gapBonus env gap = 2 / env.sqrt ((gap : K) + 1) := by
  refine ⟨?_, fun gap hgap => gapBonus_eq env gap hgap⟩
  have hg := calculateMatch_positions env entry query score positions h
  have hs := calculateMatch_spec env entry query
  simp only [hg] at hs
  obtain ⟨score2, h2, _, h3⟩ := hs
  rw [h2] at h
  cases h
  have hlen := (greedy_sound _ _ _ _ hg).1.length_eq
  have hne : positions ≠ [] := by
    intro hnil
    rw [hnil] at hlen
    exact lowerRunes_ne_nil env query hq (List.length_eq_zero.mp hlen.symm)
  refine ⟨hne, ?_⟩
  rw [h3 hne hq, gapTerms_neg_one]
  have hb : boundaryTerms (K := K) entry.TextRunes positions
      = (positions.map fun p =>
          1 + (if p = 0 ∨ isAlphaNum (entry.TextRunes.getD (p - 1) ' ') = false
            then (1 : K) else 0)).sum := by
    unfold boundaryTerms
    congr 1
    apply List.map_congr_left
    intro p _
    simp [atBoundary]
  rw [hb]

/-- An instance of the theorem above: the query `fb` against `Fab` with base
score 3 in the sample environment. -/
theorem calculateMatch_score_formula_witness :
    calculateMatch demoEnv
        { Data := demoItem "Fab" 3, Text := str "Fab", TextLower := str "fab", BaseScore := 3,
          TextRunes := ['f', 'a', 'b'] } (str "fb") = some (440 / 117, [0, 2])
      ∧ (∃ hne : [0, 2] ≠ [],
        (440 / 117 : ℚ) =
          ((3 : ℚ)
              + (([0, 2] : List Nat).map fun p =>
                  1 + (if p = 0 ∨ isAlphaNum (['f', 'a', 'b'].getD (p - 1) ' ') = false
                    then (1 : ℚ) else 0)).sum
              + (List.zipWith (fun a b => 2 / demoEnv.sqrt ((b : ℚ) - (a : ℚ)))
                  ([0, 2] : List Nat) ([0, 2] : List Nat).tail).sum)
            * ((((lowerRunes demoEnv (str "fb")).length : Nat) : ℚ)
                / (((([0, 2] : List Nat).getLast hne : Nat) : ℚ) + 1))
            * (10 / ((((runes (str "Fab")).length : Nat) : ℚ) + 10)))
      ∧ ∀ gap : Int, 0 ≤ gap → gapBonus demoEnv gap = 2 / demoEnv.sqrt ((gap : ℚ) + 1) :=
  ⟨by decide!,
    calculateMatch_score_formula demoEnv
      { Data := demoItem "Fab" 3, Text := str "Fab", TextLower := str "fab", BaseScore := 3,
        TextRunes := ['f', 'a', 'b'] }
      (str "fb") (440 / 117) [0, 2] (by decide) (by decide!)⟩

/-- C8, counterexample: the candidates `a`, `b`, `c` with base scores 1, 1, 2, inserted in
this order, are returned for the empty query as `c`, `b`, `a`: the equal-score matches `a`
and `b` come back in the reverse of their insertion order, so `a` is not before `b` in the
result. -/
theorem Match_ties_not_stable :
    (scoreEntries demoEnv
        (NewFuzzy demoEnv [demoItem "a" 1, demoItem "b" 1, demoItem "c" 2]).Entries []).map
          (fun m => (m.Entry.Text, m.Score)) = [(str "a", 1), (str "b", 1), (str "c", 2)]
      ∧ (Fuzzy.Match demoEnv
          (NewFuzzy demoEnv [demoItem "a" 1, demoItem "b" 1, demoItem "c" 2]) []).map
            (fun m => (m.Entry.Text, m.Score)) = [(str "c", 2), (str "b", 1), (str "a", 1)]
      ∧ ¬ [str "a", str "b"].Sublist
          ((Fuzzy.Match demoEnv
            (NewFuzzy demoEnv [demoItem "a" 1, demoItem "b" 1, demoItem "c" 2]) []).map
              fun m => m.Entry.Text) := by
  decide

/-- C8, amended: when the scores of the accepted candidates do not increase along the
insertion order (in particular when they are all equal), `Fuzzy.Match` returns the accepted
candidates in insertion order, so ties keep their order. -/
theorem Match_keeps_order_of_sorted (env : Env K) (f : Fuzzy K) (q : GoString)
    (h : (scoreEntries env f.Entries q).Pairwise (fun a b => a.Score ≥ b.Score)) :
    Fuzzy.Match env f q = scoreEntries env f.Entries q :=
  sortByScore_of_sorted _ h

/-- An instance of the theorem above: the candidates `c`, `a`, `b` with base
scores 2, 1, 1 come back in this order for the empty query. -/
theorem Match_keeps_order_of_sorted_witness :
    (scoreEntries demoEnv
        (NewFuzzy demoEnv [demoItem "c" 2, demoItem "a" 1, demoItem "b" 1]).Entries []).Pairwise
          (fun a b => a.Score ≥ b.Score)
      ∧ Fuzzy.Match demoEnv (NewFuzzy demoEnv [demoItem "c" 2, demoItem "a" 1, demoItem "b" 1]) []
        = scoreEntries demoEnv
            (NewFuzzy demoEnv [demoItem "c" 2, demoItem "a" 1, demoItem "b" 1]).Entries [] :=
  ⟨by decide,
    Match_keeps_order_of_sorted demoEnv
      (NewFuzzy demoEnv [demoItem "c" 2, demoItem "a" 1, demoItem "b" 1]) [] (by decide)⟩

/-- C9: the positions of a returned match are the greedy leftmost ones: they are pointwise
below every strictly increasing index sequence `e` with
`text[e_i] = lowercase(query)[i]` for all `i`. -/
theorem Match_positions_leftmost (env : Env K) (items : List (TryItem K)) (q : GoString)
    (m : FuzzyMatch K) (hm : m ∈ Fuzzy.Match env (NewFuzzy env items) q)
    (e : List Nat) (hlen : e.length = (lowerRunes env q).length)
    (hinc : e.Pairwise (· < ·))
    (hemb : ∀ (i : Nat) (hi : i < e.length),
      (lowerRunes env m.Entry.Text)[e[i]]? = (lowerRunes env q)[i]?) :
    ∀ (i : Nat) (h1 : i < m.Positions.length) (h2 : i < e.length), m.Positions[i] ≤ e[i] := by
  obtain ⟨_, hg⟩ := mem_Match_NewFuzzy env items q m hm
  have hf : List.Forall₂ (fun p c => (lowerRunes env m.Entry.Text)[p]? = some c) e
      (lowerRunes env q) := by
    refine List.forall₂_iff_get.mpr ⟨hlen, ?_⟩
    intro i h1 h2
    simp only [List.get_eq_getElem]
    rw [hemb i h1, List.getElem?_eq_getElem h2]
  have hmin := greedy_minimal _ _ 0 m.Positions e hg hf hinc (fun _ _ => Nat.zero_le _)
  intro i h1 h2
  have := List.Forall₂.get hmin h1 h2
  simpa using this

/-- An instance of the theorem above: in `2024-05-02-beta-e` the query `be` also
embeds at positions 11 and 16, and the match returned has positions 11 and 12. -/
theorem Match_positions_leftmost_witness :
    ({ Entry := demoItem "2024-05-02-beta-e" 4, Positions := [11, 12], Score := 20 / 39 } :
        FuzzyMatch ℚ) ∈ Fuzzy.Match demoEnv
          (NewFuzzy demoEnv [demoItem "2024-05-01-alpha" 3, demoItem "2024-05-02-beta-e" 4])
          (str "be")
      ∧ ([11, 12] : List Nat)[1] ≤ ([11, 16] : List Nat)[1] :=
  ⟨by decide!,
    Match_positions_leftmost demoEnv
      [demoItem "2024-05-01-alpha" 3, demoItem "2024-05-02-beta-e" 4] (str "be")
      { Entry := demoItem "2024-05-02-beta-e" 4, Positions := [11, 12], Score := 20 / 39 }
      (by decide!) [11, 16] (by decide) (by decide) (by decide) 1 (by decide) (by decide)⟩

/-- C4: with confirmation `YES`, if the resolved real path of some marked item does not
start with the resolved base path followed by `/`, the whole batch is rejected: the selector
is unchanged (no result set, marks and `deleteMode` kept) except for the status message,
which reports the failed safety check. -/
theorem processDeleteConfirmation_unsafe_rejected (env : Env K) (s : TrySelector K)
    (markedItems : List (TryEntry K)) (item : TryEntry K) (hitem : item ∈ markedItems)
    (hout : ((env.evalSymlinks s.basePath).getD s.basePath ++ str "/").isPrefixOf
      ((env.evalSymlinks item.Item.Path).getD item.Item.Path) = false) :
    ∃ bad ∈ markedItems,
      processDeleteConfirmation env s markedItems (str "YES")
        = { s with deleteStatus := str "Safety check failed: "
              ++ (env.evalSymlinks bad.Item.Path).getD bad.Item.Path
              ++ str " not in " ++ (env.evalSymlinks s.basePath).getD s.basePath } := by
  obtain ⟨bad, hbad, heq⟩ := checkPaths_error env ((env.evalSymlinks s.basePath).getD s.basePath)
    markedItems [] ⟨item, hitem, hout⟩
  refine ⟨bad, hbad, ?_⟩
  simp only [processDeleteConfirmation, if_true, heq]

/-- An instance of the theorem above: the marked entry `/t/link`
resolves to `/etc`, outside the base `/t`. -/
theorem processDeleteConfirmation_unsafe_rejected_witness :
    ((demoLinkEnv.evalSymlinks (str "/t")).getD (str "/t") ++ str "/").isPrefixOf
        ((demoLinkEnv.evalSymlinks (str "/t/link")).getD (str "/t/link")) = false
      ∧ ∃ bad ∈ [({ Item := demoItem "link" 1, Score := 1, HighlightPositions := [] } :
            TryEntry ℚ)],
        processDeleteConfirmation demoLinkEnv
            { demoStart with deleteMode := true, markedForDelete := [str "/t/link"] }
            [{ Item := demoItem "link" 1, Score := 1, HighlightPositions := [] }] (str "YES")
          = { ({ demoStart with deleteMode := true, markedForDelete := [str "/t/link"] } :
                TrySelector ℚ) with
              deleteStatus := str "Safety check failed: "
                ++ (demoLinkEnv.evalSymlinks bad.Item.Path).getD bad.Item.Path
                ++ str " not in " ++ (demoLinkEnv.evalSymlinks (str "/t")).getD (str "/t") } :=
  ⟨by decide,
    processDeleteConfirmation_unsafe_rejected demoLinkEnv
      { demoStart with deleteMode := true, markedForDelete := [str "/t/link"] }
      [{ Item := demoItem "link" 1, Score := 1, HighlightPositions := [] }]
      { Item := demoItem "link" 1, Score := 1, HighlightPositions := [] }
      (by decide) (by decide)⟩

/-- C5: for every confirmation text other than `YES`, `processDeleteConfirmation` sets no
result, clears the marks and leaves delete mode; so a result is set only for the text
`YES`, and it is then a Delete result. -/
theorem processDeleteConfirmation_requires_YES (env : Env K) (s : TrySelector K)
    (markedItems : List (TryEntry K)) (confirmation : GoString) :
    (confirmation ≠ str "YES" →
      processDeleteConfirmation env s markedItems confirmation
        = { s with deleteStatus := str "Delete cancelled", markedForDelete := [],
                   deleteMode := false })
      ∧ ((processDeleteConfirmation env s markedItems confirmation).selected ≠ s.selected →
          confirmation = str "YES"
            ∧ ∃ r, (processDeleteConfirmation env s markedItems confirmation).selected = some r
                ∧ r.Kind = str "delete") := by
  constructor
  · intro h
    simp [processDeleteConfirmation, h]
  · intro h
    by_cases hc : confirmation = str "YES"
    · refine ⟨hc, ?_⟩
      subst hc
      simp only [processDeleteConfirmation, if_true] at h ⊢
      cases hp : checkPaths env ((env.evalSymlinks s.basePath).getD s.basePath) markedItems [] with
      | error status => simp [hp] at h
      | ok paths => exact ⟨_, rfl, rfl⟩
    · simp [processDeleteConfirmation, hc] at h

/-- C10: in every selector state reached from the initial state by iterations of the loop
of `mainLoop` (the dialogs an iteration runs included), `deleteMode` is true if and only if
`markedForDelete` is non-empty. -/
theorem deleteMode_iff_marked (env : Env K) (searchTerm basePath andType : GoString)
    (andExit : Bool) (andKeys : List GoString) (andConfirm : GoString) (stdin : List ReadEvent)
    (s : TrySelector K)
    (h : Reachable env
      (NewTrySelector searchTerm basePath andType andExit andKeys andConfirm stdin) s) :
    s.deleteMode = true ↔ s.markedForDelete ≠ [] :=
  reachable_inv env _ s (MarksInv_cleared _ rfl rfl) h

/-- An instance of the theorem above: after Ctrl-D on the first row of the sample
session the entry `2024-05-02-beta` is marked and delete mode is on. -/
theorem deleteMode_iff_marked_witness :
    demoMarked.markedForDelete = [str "/t/2024-05-02-beta"]
      ∧ (demoMarked.deleteMode = true ↔ demoMarked.markedForDelete ≠ []) :=
  ⟨by decide!,
    deleteMode_iff_marked demoDirEnv [] (str "/t") [] false [[4]] [] [] demoMarked
      (Reachable.iter 0 demoStart (.next demoMarked) Reachable.init (by decide!))⟩

/-- C11, counterexample: in the scenario of the specification with input `a` (both
directories match, so the list has three rows), the keys Down, Down move the cursor to the
row "Create new" (index 2); Ctrl-A, Ctrl-K then empty the input buffer without touching the
list cursor. After Ctrl-K is handled the list for the current buffer has two rows and no
"Create new" row, and the cursor is 2: not a row index of that list. -/
theorem cursor_outside_list_after_ctrlK :
    Reachable demoScenarioEnv
        (NewTrySelector (str "a") (str "/t") [] false [[14], [14], [1], [11]] [] [])
        demoAfterCtrlK
      ∧ demoAfterCtrlK.inputBuffer = []
      ∧ (getTries demoScenarioEnv demoAfterCtrlK).1.length = 2
      ∧ demoAfterCtrlK.cursorPos = 2
      ∧ ¬ demoAfterCtrlK.cursorPos
          < ((getTries demoScenarioEnv demoAfterCtrlK).1.length : Int)
            + (if demoAfterCtrlK.inputBuffer ≠ [] then 1 else 0) := by
  refine ⟨?_, by decide!, by decide!, by decide!, by decide!⟩
  exact iterate_reachable demoScenarioEnv 0 _ 4 _ demoAfterCtrlK Reachable.init (by decide!)

/-- C11, amended: every iteration of `mainLoop` clamps the list cursor before it renders
and handles the key: there `0 <= cursorPos <= max (totalItems - 1) 0`, with `totalItems` the
number of matches for the input buffer plus one when the buffer is non-empty, so the cursor
is a valid row index whenever the list is non-empty; and Up and Down leave it in that range
and leave the buffer as it is. -/
theorem cursor_clamped_in_iteration (env : Env K) (fuel : Nat) (s : TrySelector K) :
    0 ≤ (loopHead env s).sel.cursorPos
      ∧ (loopHead env s).sel.cursorPos ≤ max ((loopHead env s).totalItems - 1) 0
      ∧ (0 < (loopHead env s).totalItems →
          (loopHead env s).sel.cursorPos < (loopHead env s).totalItems)
      ∧ (loopHead env s).totalItems
          = ((loopHead env s).tries.length : Int)
            + (if (loopHead env s).sel.inputBuffer ≠ [] then 1 else 0)
      ∧ (((loopHead env s).key = [27, 91, 65] ∨ (loopHead env s).key = [16]
            ∨ (loopHead env s).key = [27, 91, 66] ∨ (loopHead env s).key = [14]) →
          ∃ t, mainLoopIter env fuel s = some (.next t)
            ∧ 0 ≤ t.cursorPos ∧ t.cursorPos ≤ max ((loopHead env s).totalItems - 1) 0
            ∧ t.inputBuffer = (loopHead env s).sel.inputBuffer) := by
  obtain ⟨hc1, hc2⟩ := loopHead_clamped env s
  have hcur := (loopHead_sel env s).1
  rw [← hcur] at hc1 hc2
  refine ⟨hc1, hc2, ?_, loopHead_totalItems env s, ?_⟩
  · intro hpos
    have : max ((loopHead env s).totalItems - 1) 0 = (loopHead env s).totalItems - 1 :=
      max_eq_left (by omega)
    omega
  · intro hk
    have hne : (loopHead env s).key ≠ [] := by
      rcases hk with h | h | h | h <;> rw [h] <;> simp
    rw [mainLoopIter_key env fuel s hne]
    have hm : (0 : Int) ≤ max ((loopHead env s).totalItems - 1) 0 := le_max_right _ _
    have hm2 : (loopHead env s).totalItems - 1 ≤ max ((loopHead env s).totalItems - 1) 0 :=
      le_max_left _ _
    rcases hk with h | h | h | h
    · rw [handleKey_up env fuel _ _ _ _ _ (Or.inl h)]
      refine ⟨_, rfl, ?_⟩
      split
      · exact ⟨by show 0 ≤ (loopHead env s).sel.cursorPos - 1; omega,
          by show (loopHead env s).sel.cursorPos - 1 ≤ _; omega, rfl⟩
      · exact ⟨hc1, hc2, rfl⟩
    · rw [handleKey_up env fuel _ _ _ _ _ (Or.inr h)]
      refine ⟨_, rfl, ?_⟩
      split
      · exact ⟨by show 0 ≤ (loopHead env s).sel.cursorPos - 1; omega,
          by show (loopHead env s).sel.cursorPos - 1 ≤ _; omega, rfl⟩
      · exact ⟨hc1, hc2, rfl⟩
    · rw [handleKey_down env fuel _ _ _ _ _ (Or.inl h)]
      refine ⟨_, rfl, ?_⟩
      split
      · exact ⟨by show 0 ≤ (loopHead env s).sel.cursorPos + 1; omega,
          by show (loopHead env s).sel.cursorPos + 1 ≤ _; omega, rfl⟩
      · exact ⟨hc1, hc2, rfl⟩
    · rw [handleKey_down env fuel _ _ _ _ _ (Or.inr h)]
      refine ⟨_, rfl, ?_⟩
      split
      · exact ⟨by show 0 ≤ (loopHead env s).sel.cursorPos + 1; omega,
          by show (loopHead env s).sel.cursorPos + 1 ≤ _; omega, rfl⟩
      · exact ⟨hc1, hc2, rfl⟩

/-- C12: `render` sets the scroll offset to the cursor when the cursor is above it, to
`cursor - maxVisible + 1` when the cursor is at or below `scrollOffset + maxVisible`, and
leaves it otherwise, with `maxVisible = max 3 (height - 6)`; and in every iteration of
`mainLoop` from a reachable state, `0 <= scrollOffset <= cursor < scrollOffset + maxVisible`
holds afterwards. -/
theorem render_scroll_rule (env : Env K) (searchTerm basePath andType : GoString)
    (andExit : Bool) (andKeys : List GoString) (andConfirm : GoString) (stdin : List ReadEvent)
    (s : TrySelector K)
    (h : Reachable env
      (NewTrySelector searchTerm basePath andType andExit andKeys andConfirm stdin) s) :
    (∀ (t : TrySelector K) (tries : List (TryEntry K)),
        (render env t tries).cursorPos = t.cursorPos
          ∧ (t.cursorPos < t.scrollOffset → (render env t tries).scrollOffset = t.cursorPos)
          ∧ (t.cursorPos ≥ t.scrollOffset + max 3 ((render env t tries).height - 6) →
              (render env t tries).scrollOffset
                = t.cursorPos - max 3 ((render env t tries).height - 6) + 1)
          ∧ (¬ t.cursorPos < t.scrollOffset →
              ¬ t.cursorPos ≥ t.scrollOffset + max 3 ((render env t tries).height - 6) →
              (render env t tries).scrollOffset = t.scrollOffset))
      ∧ (loopHead env s).rendered = render env (loopHead env s).clamped (loopHead env s).tries
      ∧ 0 ≤ (loopHead env s).rendered.scrollOffset
      ∧ (loopHead env s).rendered.scrollOffset ≤ (loopHead env s).rendered.cursorPos
      ∧ (loopHead env s).rendered.cursorPos
          < (loopHead env s).rendered.scrollOffset
            + max 3 ((loopHead env s).rendered.height - 6) := by
  refine ⟨?_, rfl, ?_⟩
  · intro t tries
    have hso := render_scrollOffset env t tries
    have h3 : (3 : Int) ≤ max 3 ((render env t tries).height - 6) := le_max_left _ _
    generalize max 3 ((render env t tries).height - 6) = m at *
    refine ⟨(render_frame env t tries).1, ?_, ?_, ?_⟩
    · intro h1
      rw [hso, if_pos h1]
    · intro h2
      rw [hso, if_neg (by omega), if_pos h2]
    · intro h1 h2
      rw [hso, if_neg h1, if_neg h2]
  · exact loopHead_scroll env s
      (reachable_loopInv env _ s (NewTrySelector_loopInv _ _ _ _ _ _ _) h).1

/-- An instance of the theorem above: the first frame of the sample session. -/
theorem render_scroll_rule_witness :
    (loopHead demoDirEnv demoStart).rendered.scrollOffset = 0
      ∧ (loopHead demoDirEnv demoStart).rendered.cursorPos = 0
      ∧ (0 : Int) ≤ (loopHead demoDirEnv demoStart).rendered.scrollOffset
      ∧ (loopHead demoDirEnv demoStart).rendered.scrollOffset
          ≤ (loopHead demoDirEnv demoStart).rendered.cursorPos
      ∧ (loopHead demoDirEnv demoStart).rendered.cursorPos
          < (loopHead demoDirEnv demoStart).rendered.scrollOffset
            + max 3 ((loopHead demoDirEnv demoStart).rendered.height - 6) :=
  ⟨by decide!, by decide!,
    (render_scroll_rule demoDirEnv [] (str "/t") [] false [[4]] [] [] demoStart
      Reachable.init).2.2⟩

/-- C13, the code at the failing input: three directories `a1`, `a2`, `a3`, a terminal of 9
lines (so `maxVisible = 3`), the input `a` and the keys Down, Down, Down. The cursor is on
the row "Create new" (index 3, the number of matches), the scroll offset becomes 1, and the
body written is the rows 1 and 2 and the empty separator line: the `break` after the
separator leaves the row "Create new", the cursor row, unwritten. -/
theorem render_omits_cursor_row :
    Reachable demoSmallEnv
        (NewTrySelector (str "a") (str "/t") [] false [[14], [14], [14]] [] [])
        demoOnCreateRow
      ∧ (loopHead demoSmallEnv demoOnCreateRow).tries.length = 3
      ∧ (loopHead demoSmallEnv demoOnCreateRow).rendered.inputBuffer = str "a"
      ∧ (loopHead demoSmallEnv demoOnCreateRow).rendered.height = 9
      ∧ (loopHead demoSmallEnv demoOnCreateRow).rendered.cursorPos = 3
      ∧ (loopHead demoSmallEnv demoOnCreateRow).rendered.scrollOffset = 1
      ∧ renderBody (loopHead demoSmallEnv demoOnCreateRow).rendered
          (loopHead demoSmallEnv demoOnCreateRow).tries
        = [.entry 1 false, .entry 2 false, .blank] := by
  refine ⟨?_, by decide!, by decide!, by decide!, by decide!, by decide!, by decide!⟩
  exact iterate_reachable demoSmallEnv 0 _ 3 _ demoOnCreateRow Reachable.init (by decide!)

/-- C14: `finalizeRename` returns a non-empty error message and leaves the selector as it
is (no result set) whenever the new name is empty, contains `/`, or differs from the old
name and exists in the base directory. -/
theorem finalizeRename_rejects (env : Env K) (s : TrySelector K) (entry : TryEntry K)
    (renameBuffer : GoString)
    (h : env.trimSpace (replaceSpaces renameBuffer) = []
      ∨ 47 ∈ env.trimSpace (replaceSpaces renameBuffer)
      ∨ (env.trimSpace (replaceSpaces renameBuffer) ≠ entry.Item.Basename
        ∧ env.statOk (env.filepathJoin s.basePath (env.trimSpace (replaceSpaces renameBuffer)))
          = true)) :
    (finalizeRename env s entry renameBuffer).1 ≠ []
      ∧ (finalizeRename env s entry renameBuffer).2 = s
      ∧ ((finalizeRename env s entry renameBuffer).1 = str "Name cannot be empty"
        ∨ (finalizeRename env s entry renameBuffer).1 = str "Name cannot contain /"
        ∨ (finalizeRename env s entry renameBuffer).1
          = str "Directory exists: " ++ env.trimSpace (replaceSpaces renameBuffer)) := by
  unfold finalizeRename
  dsimp only
  by_cases h1 : env.trimSpace (replaceSpaces renameBuffer) = []
  · rw [if_pos h1]
    exact ⟨by show str "Name cannot be empty" ≠ []; decide, rfl, Or.inl rfl⟩
  · rw [if_neg h1]
    by_cases h2 : 47 ∈ env.trimSpace (replaceSpaces renameBuffer)
    · rw [if_pos h2]
      exact ⟨by show str "Name cannot contain /" ≠ []; decide, rfl, Or.inr (Or.inl rfl)⟩
    · rw [if_neg h2]
      rcases h with h | h | ⟨h3, h4⟩
      · exact absurd h h1
      · exact absurd h h2
      · rw [if_neg h3, if_pos h4]
        refine ⟨?_, rfl, Or.inr (Or.inr rfl)⟩
        exact List.append_ne_nil_of_left_ne_nil (by decide) _

/-- An instance of the theorem above: renaming `foo` to the existing sibling `bar` yields
the error `Directory exists: bar` and no result. -/
theorem finalizeRename_rejects_witness :
    (finalizeRename demoStatEnv demoStart (demoEntry "foo") (str "bar")
        = (str "Directory exists: bar", demoStart))
      ∧ demoStart.selected = none
      ∧ (finalizeRename demoStatEnv demoStart (demoEntry "foo") (str "bar")).1 ≠ []
      ∧ (finalizeRename demoStatEnv demoStart (demoEntry "foo") (str "bar")).2 = demoStart :=
  ⟨by decide, by decide,
    (finalizeRename_rejects demoStatEnv demoStart (demoEntry "foo") (str "bar")
      (Or.inr (Or.inr ⟨by decide, by decide⟩))).1,
    (finalizeRename_rejects demoStatEnv demoStart (demoEntry "foo") (str "bar")
      (Or.inr (Or.inr ⟨by decide, by decide⟩))).2.1⟩

/-- C15, counterexample: the entry `my dir` exists in the base directory; the rename buffer
holds its current name `my dir`. `finalizeRename` replaces the space, finds `my-dir`
different from `my dir` and free, and sets a Rename result: not a no-op. -/
theorem finalizeRename_own_name_with_space :
    demoSpaceEnv.statOk (demoSpaceEnv.filepathJoin demoStart.basePath (str "my dir")) = true
      ∧ (demoEntry "my dir").Item.Basename = str "my dir"
      ∧ finalizeRename demoSpaceEnv demoStart (demoEntry "my dir") (str "my dir")
        = ([], { demoStart with
            selected := some
              { Kind := str "rename", Path := [], Paths := [], BasePath := str "/t",
                OldName := str "my dir", NewName := str "my-dir" } }) := by
  decide

/-- C15, amended: let the new name be the buffer with spaces replaced by hyphens and white
space trimmed at both ends, non-empty and without `/`. If it equals the entry's basename,
`finalizeRename` returns no error and sets no result, whether or not the directory exists
(it only asks for a redraw). If it differs and no such directory exists, the result is
Rename with `BasePath` the selector's base path, `OldName` the basename and `NewName` the
new name. -/
theorem finalizeRename_accepts (env : Env K) (s : TrySelector K) (entry : TryEntry K)
    (renameBuffer : GoString)
    (hne : env.trimSpace (replaceSpaces renameBuffer) ≠ [])
    (hslash : 47 ∉ env.trimSpace (replaceSpaces renameBuffer)) :
    (env.trimSpace (replaceSpaces renameBuffer) = entry.Item.Basename →
        finalizeRename env s entry renameBuffer = ([], { s with needsRedraw := true }))
      ∧ (env.trimSpace (replaceSpaces renameBuffer) ≠ entry.Item.Basename →
          env.statOk (env.filepathJoin s.basePath (env.trimSpace (replaceSpaces renameBuffer)))
            = false →
          finalizeRename env s entry renameBuffer
            = ([], { s with
                selected := some
                  { Kind := str "rename", Path := [], Paths := [], BasePath := s.basePath,
                    OldName := entry.Item.Basename,
                    NewName := env.trimSpace (replaceSpaces renameBuffer) } })) := by
  unfold finalizeRename
  dsimp only
  rw [if_neg hne, if_neg hslash]
  constructor
  · intro h
    rw [if_pos h]
  · intro h1 h2
    rw [if_neg h1, if_neg (by simp [h2])]

/-- An instance of the theorem above: renaming `foo` to `foo`, which exists, changes
nothing but the redraw flag; renaming `foo` to `new name` yields Rename to `new-name`. -/
theorem finalizeRename_accepts_witness :
    demoStatEnv.statOk (demoStatEnv.filepathJoin demoStart.basePath (str "foo")) = true
      ∧ finalizeRename demoStatEnv demoStart (demoEntry "foo") (str "foo")
        = ([], { demoStart with needsRedraw := true })
      ∧ finalizeRename demoStatEnv demoStart (demoEntry "foo") (str "new name")
        = ([], { demoStart with
            selected := some
              { Kind := str "rename", Path := [], Paths := [], BasePath := str "/t",
                OldName := str "foo", NewName := str "new-name" } }) :=
  ⟨by decide,
    (finalizeRename_accepts demoStatEnv demoStart (demoEntry "foo") (str "foo")
      (by decide) (by decide)).1 (by decide),
    (finalizeRename_accepts demoStatEnv demoStart (demoEntry "foo") (str "new name")
      (by decide) (by decide)).2 (by decide) (by decide)⟩

/-- C16: outside delete mode, Enter with the list cursor on an existing entry sets the
result Cd with the path of the entry at the cursor in the ranked list of the input buffer,
and `mainLoop` returns. -/
theorem enter_on_entry_gives_cd (env : Env K) (fuel : Nat) (s : TrySelector K)
    (hkey : (loopHead env s).key = [13] ∨ (loopHead env s).key = [10])
    (hmode : (loopHead env s).sel.deleteMode = false)
    (hcur : (loopHead env s).sel.cursorPos < (loopHead env s).tries.length) :
    ∃ (f : Fuzzy K) (t : TryEntry K),
      (loopHead env s).tries[(loopHead env s).sel.cursorPos.toNat]? = some t
      ∧ (getTries env s).2.fuzzy = some f
      ∧ (loopHead env s).tries
        = (Fuzzy.Match env f (loopHead env s).sel.inputBuffer).map
            (fun m => TryEntry.mk m.Entry m.Score m.Positions)
      ∧ mainLoopIter env fuel s
        = some (.done { (loopHead env s).sel with
            selected := some
              { Kind := str "cd", Path := t.Item.Path, Paths := [], BasePath := [],
                OldName := [], NewName := [] } })
      ∧ mainLoop env (fuel + 1) s
        = some { (loopHead env s).sel with
            selected := some
              { Kind := str "cd", Path := t.Item.Path, Paths := [], BasePath := [],
                OldName := [], NewName := [] } } := by
  have hc0 : 0 ≤ (loopHead env s).sel.cursorPos := by
    rw [(loopHead_sel env s).1]
    exact (loopHead_clamped env s).1
  have hlt : (loopHead env s).sel.cursorPos.toNat < (loopHead env s).tries.length := by
    omega
  have hne : (loopHead env s).key ≠ [] := by
    rcases hkey with h | h <;> rw [h] <;> simp
  have hiter : mainLoopIter env fuel s
      = some (.done { (loopHead env s).sel with
          selected := some
            { Kind := str "cd",
              Path := ((loopHead env s).tries[(loopHead env s).sel.cursorPos.toNat]).Item.Path,
              Paths := [], BasePath := [], OldName := [], NewName := [] } }) := by
    rw [mainLoopIter_key env fuel s hne, handleKey_enter env fuel _ _ _ _ _ hkey,
      if_neg (by simp [hmode]), if_pos hcur, List.getElem?_eq_getElem hlt]
    rfl
  refine ⟨_, (loopHead env s).tries[(loopHead env s).sel.cursorPos.toNat],
    List.getElem?_eq_getElem hlt, rfl, ?_, hiter, ?_⟩
  · rw [(loopHead_sel env s).2.2.2.2.1, ← (getTries_frame env s).2.2.1]
    rfl
  · rw [mainLoop, hiter]

/-- An instance of the theorem above, the scenario of the specification: with the input
`be`, `alpha` is rejected, `beta` is matched at positions 11 and 12 and ranked first, and
Enter yields Cd with the path of `beta`. -/
theorem enter_on_entry_gives_cd_witness :
    (loopHead demoScenarioEnv demoBeStart).key = [13]
      ∧ (loopHead demoScenarioEnv demoBeStart).tries.map
          (fun t => (t.Item.Basename, t.HighlightPositions))
        = [(str "2024-05-02-beta", [11, 12])]
      ∧ (mainLoop demoScenarioEnv 1 demoBeStart).map (fun s => s.selected)
        = some (some
            { Kind := str "cd", Path := str "/t/2024-05-02-beta", Paths := [], BasePath := [],
              OldName := [], NewName := [] })
      ∧ ∃ (f : Fuzzy ℚ) (t : TryEntry ℚ),
          (loopHead demoScenarioEnv demoBeStart).tries[
              (loopHead demoScenarioEnv demoBeStart).sel.cursorPos.toNat]? = some t
            ∧ (getTries demoScenarioEnv demoBeStart).2.fuzzy = some f
            ∧ (loopHead demoScenarioEnv demoBeStart).tries
              = (Fuzzy.Match demoScenarioEnv f
                  (loopHead demoScenarioEnv demoBeStart).sel.inputBuffer).map
                  (fun m => TryEntry.mk m.Entry m.Score m.Positions)
            ∧ mainLoopIter demoScenarioEnv 0 demoBeStart
              = some (.done { (loopHead demoScenarioEnv demoBeStart).sel with
                  selected := some
                    { Kind := str "cd", Path := t.Item.Path, Paths := [], BasePath := [],
                      OldName := [], NewName := [] } })
            ∧ mainLoop demoScenarioEnv (0 + 1) demoBeStart
              = some { (loopHead demoScenarioEnv demoBeStart).sel with
                  selected := some
                    { Kind := str "cd", Path := t.Item.Path, Paths := [], BasePath := [],
                      OldName := [], NewName := [] } } :=
  ⟨by decide!, by decide!, by decide!,
    enter_on_entry_gives_cd demoScenarioEnv 0 demoBeStart (Or.inl (by decide!)) (by decide!)
      (by decide!)⟩

/-- C17, counterexample: `alpha` is marked, delete mode is on, and the input `be` leaves
only `beta` in the list. Enter finds no marked entry in the list and returns at once: no
confirmation is opened (no status message, the scripted `Y`, `E`, `S` stay unread), the
marks and delete mode stay, and the loop goes on. -/
theorem enter_in_delete_mode_opens_nothing :
    Reachable demoScenarioEnv
        (NewTrySelector [] (str "/t") [] false
          [[14], [4], [98], [101], [13], [89], [69], [83], [13]] [] [])
        demoMarkedHidden
      ∧ demoMarkedHidden.deleteMode = true
      ∧ demoMarkedHidden.markedForDelete = [str "/t/2024-05-01-alpha"]
      ∧ (loopHead demoScenarioEnv demoMarkedHidden).key = [13]
      ∧ (loopHead demoScenarioEnv demoMarkedHidden).tries.map (fun t => t.Item.Path)
        = [str "/t/2024-05-02-beta"]
      ∧ mainLoopIter demoScenarioEnv 8 demoMarkedHidden
        = some (.next (loopHead demoScenarioEnv demoMarkedHidden).sel)
      ∧ (loopHead demoScenarioEnv demoMarkedHidden).sel.deleteStatus = []
      ∧ (loopHead demoScenarioEnv demoMarkedHidden).sel.testKeys = [[89], [69], [83], [13]]
      ∧ (loopHead demoScenarioEnv demoMarkedHidden).sel.deleteMode = true
      ∧ (loopHead demoScenarioEnv demoMarkedHidden).sel.markedForDelete
        = [str "/t/2024-05-01-alpha"] := by
  refine ⟨?_, by decide!, by decide!, by decide!, by decide!, by decide!, by decide!,
    by decide!, by decide!, by decide!⟩
  exact iterate_reachable demoScenarioEnv 8 _ 4 _ demoMarkedHidden Reachable.init (by decide!)

/-- C17, amended: if delete mode is active with at least one mark, Enter never sets a Cd or
Mkdir result, whatever row the cursor is on: the result stays as it was or becomes Delete.
If no entry of the current list is marked, Enter changes nothing and opens no confirmation;
if some entry of the list is marked, the confirmation is run and leaves its status
message. -/
theorem enter_in_delete_mode (env : Env K) (fuel : Nat) (s : TrySelector K) (r : LoopStep K)
    (hkey : (loopHead env s).key = [13] ∨ (loopHead env s).key = [10])
    (hmode : (loopHead env s).sel.deleteMode = true)
    (hmarks : (loopHead env s).sel.markedForDelete ≠ [])
    (hr : mainLoopIter env fuel s = some r) :
    (r.state.selected = (loopHead env s).sel.selected
        ∨ ∃ res, r.state.selected = some res ∧ res.Kind = str "delete")
      ∧ ((∀ t ∈ (loopHead env s).tries, t.Item.Path ∉ (loopHead env s).sel.markedForDelete) →
          r.state = (loopHead env s).sel)
      ∧ ((∃ t ∈ (loopHead env s).tries, t.Item.Path ∈ (loopHead env s).sel.markedForDelete) →
          r.state.deleteStatus ≠ []) := by
  have hne : (loopHead env s).key ≠ [] := by
    rcases hkey with h | h <;> rw [h] <;> simp
  have hlen : (loopHead env s).sel.markedForDelete.length > 0 :=
    List.length_pos.mpr hmarks
  rw [mainLoopIter_key env fuel s hne, handleKey_enter env fuel _ _ _ _ _ hkey,
    if_pos ⟨hmode, hlen⟩] at hr
  cases hc : confirmBatchDelete env fuel (loopHead env s).sel (loopHead env s).tries with
  | none => rw [hc] at hr; cases hr
  | some t =>
    rw [hc] at hr
    simp only [Option.map_some', Option.some.injEq] at hr
    subst hr
    rw [returnIfSelected_state]
    obtain ⟨h1, h2⟩ := confirmBatchDelete_outcome env fuel _ _ t hc
    by_cases hi : ((loopHead env s).tries.filter fun x =>
        decide (x.Item.Path ∈ (loopHead env s).sel.markedForDelete)) = []
    · have ht := h1 hi
      refine ⟨Or.inl (by rw [ht]), fun _ => ht, ?_⟩
      rintro ⟨x, hx1, hx2⟩
      have : x ∈ ((loopHead env s).tries.filter fun x =>
          decide (x.Item.Path ∈ (loopHead env s).sel.markedForDelete)) :=
        List.mem_filter.mpr ⟨hx1, by simpa using hx2⟩
      rw [hi] at this
      cases this
    · obtain ⟨hst, hsel⟩ := h2 hi
      refine ⟨?_, ?_, fun _ => hst⟩
      · rcases hsel with h | h
        · exact Or.inl h
        · exact Or.inr ⟨_, h.1, rfl⟩
      · intro hno
        exfalso
        apply hi
        rw [List.filter_eq_nil_iff]
        intro x hx
        simpa using hno x hx

/-- An instance of the theorem above: `beta` is marked and in the list, Enter runs the
confirmation, which reads `YES` and sets the Delete result. -/
theorem enter_in_delete_mode_witness :
    demoConfirmed.state.selected
        = some { Kind := str "delete", Path := [],
                 Paths := [{ Path := str "/t/2024-05-02-beta",
                             Basename := str "2024-05-02-beta" }],
                 BasePath := str "/t", OldName := [], NewName := [] }
      ∧ (demoConfirmed.state.selected = (loopHead demoScenarioEnv demoBeforeConfirm).sel.selected
        ∨ ∃ res, demoConfirmed.state.selected = some res ∧ res.Kind = str "delete")
      ∧ ((∀ t ∈ (loopHead demoScenarioEnv demoBeforeConfirm).tries,
            t.Item.Path ∉ (loopHead demoScenarioEnv demoBeforeConfirm).sel.markedForDelete) →
          demoConfirmed.state = (loopHead demoScenarioEnv demoBeforeConfirm).sel)
      ∧ ((∃ t ∈ (loopHead demoScenarioEnv demoBeforeConfirm).tries,
            t.Item.Path ∈ (loopHead demoScenarioEnv demoBeforeConfirm).sel.markedForDelete) →
          demoConfirmed.state.deleteStatus ≠ []) :=
  ⟨by decide!,
    enter_in_delete_mode demoScenarioEnv 8 demoBeforeConfirm demoConfirmed
      (Or.inl (by decide!)) (by decide!) (by decide!) (by decide!)⟩

/-- C18, counterexample: `beta` and `alpha` are marked, and the input `be` leaves only
`beta` in the list. Enter and `YES` set a Delete result with the single entry `beta`, and
the marks are cleared: the marked path of `alpha` has no entry in the result. -/
theorem confirmed_delete_drops_hidden_mark :
    Reachable demoScenarioEnv
        (NewTrySelector [] (str "/t") [] false
          [[4], [14], [4], [98], [101], [13], [89], [69], [83], [13]] [] [])
        demoTwoMarked
      ∧ demoTwoMarked.markedForDelete
        = [str "/t/2024-05-02-beta", str "/t/2024-05-01-alpha"]
      ∧ (loopHead demoScenarioEnv demoTwoMarked).key = [13]
      ∧ (mainLoopIter demoScenarioEnv 8 demoTwoMarked).map
          (fun r => (r.state.selected, r.state.markedForDelete))
        = some (some
            { Kind := str "delete", Path := [],
              Paths := [{ Path := str "/t/2024-05-02-beta",
                          Basename := str "2024-05-02-beta" }],
              BasePath := str "/t", OldName := [], NewName := [] }, []) := by
  refine ⟨?_, by decide!, by decide!, by decide!⟩
  exact iterate_reachable demoScenarioEnv 8 _ 5 _ demoTwoMarked Reachable.init (by decide!)

/-- C18, amended: on a confirmed delete the Delete result carries one entry, real path and
basename, for every entry of the current ranked list whose path is marked, in the order of
the list; `BasePath` is the real base path, every real path lies under it, the candidate
cache (`allTries`, `fuzzy`) is dropped and the marks are cleared. Conversely the
confirmation `YES` with every safety check passing sets exactly this result. -/
theorem confirmed_delete_result (env : Env K) (fuel : Nat) (s : TrySelector K)
    (tries : List (TryEntry K)) (t : TrySelector K)
    (h : confirmBatchDelete env fuel s tries = some t)
    (hsel : s.selected = none) (hres : t.selected ≠ none) :
    (t.selected = some
        { Kind := str "delete", Path := [],
          Paths := (tries.filter fun x => decide (x.Item.Path ∈ s.markedForDelete)).map
            fun it => { Path := realPath env it.Item.Path, Basename := it.Item.Basename },
          BasePath := realPath env s.basePath, OldName := [], NewName := [] }
      ∧ (∀ it ∈ (tries.filter fun x => decide (x.Item.Path ∈ s.markedForDelete)),
          (realPath env s.basePath ++ str "/").isPrefixOf (realPath env it.Item.Path) = true)
      ∧ t.allTries = none ∧ t.fuzzy = none ∧ t.markedForDelete = [] ∧ t.deleteMode = false)
      ∧ ∀ (u : TrySelector K) (items : List (TryEntry K)),
          (∀ it ∈ items,
            (realPath env u.basePath ++ str "/").isPrefixOf (realPath env it.Item.Path) = true) →
          processDeleteConfirmation env u items (str "YES")
            = { u with
                selected := some
                  { Kind := str "delete", Path := [],
                    Paths := items.map fun it =>
                      { Path := realPath env it.Item.Path, Basename := it.Item.Basename },
                    BasePath := realPath env u.basePath, OldName := [], NewName := [] }
                deleteStatus := str "Deleted: "
                  ++ (str ", ").intercalate (items.map fun it => it.Item.Basename)
                allTries := none
                fuzzy := none
                markedForDelete := []
                deleteMode := false } := by
  constructor
  · obtain ⟨h1, h2⟩ := confirmBatchDelete_outcome env fuel s tries t h
    by_cases hi : (tries.filter fun x => decide (x.Item.Path ∈ s.markedForDelete)) = []
    · rw [h1 hi, hsel] at hres
      exact absurd rfl hres
    · rcases (h2 hi).2 with hs | hd
      · rw [hs, hsel] at hres
        exact absurd rfl hres
      · exact hd
  · intro u items hall
    have hc := checkPaths_all_ok env (realPath env u.basePath) items [] hall
    unfold processDeleteConfirmation
    rw [if_pos rfl]
    dsimp only
    have hc2 : checkPaths env ((env.evalSymlinks u.basePath).getD u.basePath) items []
        = .ok ([] ++ items.map (fun it =>
            { Path := realPath env it.Item.Path, Basename := it.Item.Basename })) := hc
    rw [hc2]
    simp only [List.nil_append, List.map_map]
    rfl

/-- An instance of the theorem above: `beta` is marked and confirmed with `YES`. -/
theorem confirmed_delete_result_witness :
    confirmBatchDelete demoScenarioEnv 8 (loopHead demoScenarioEnv demoBeforeConfirm).sel
        (loopHead demoScenarioEnv demoBeforeConfirm).tries = some demoConfirmed.state
      ∧ demoConfirmed.state.selected = some
        { Kind := str "delete", Path := [],
          Paths := ((loopHead demoScenarioEnv demoBeforeConfirm).tries.filter fun x =>
              decide (x.Item.Path
                ∈ (loopHead demoScenarioEnv demoBeforeConfirm).sel.markedForDelete)).map
            fun it => { Path := realPath demoScenarioEnv it.Item.Path,
                        Basename := it.Item.Basename },
          BasePath := realPath demoScenarioEnv
            (loopHead demoScenarioEnv demoBeforeConfirm).sel.basePath,
          OldName := [], NewName := [] }
      ∧ demoConfirmed.state.allTries = none ∧ demoConfirmed.state.fuzzy = none
      ∧ demoConfirmed.state.markedForDelete = [] ∧ demoConfirmed.state.deleteMode = false :=
  ⟨by decide!,
    (confirmed_delete_result demoScenarioEnv 8 (loopHead demoScenarioEnv demoBeforeConfirm).sel
      (loopHead demoScenarioEnv demoBeforeConfirm).tries demoConfirmed.state
      (by decide!) (by decide!) (by decide!)).1.1,
    by decide!, by decide!, by decide!, by decide!⟩

/-- C19: Esc or Ctrl-C in the main list. In delete mode the marks are cleared and
`deleteMode` becomes false; nothing else changes (no result, same input buffer and cursors)
and the loop goes on. Outside delete mode `mainLoop` returns with no result. -/
theorem esc_in_main_list (env : Env K) (fuel : Nat) (s : TrySelector K)
    (hkey : (loopHead env s).key = [27] ∨ (loopHead env s).key = [3]) :
    ((loopHead env s).sel.deleteMode = true →
        mainLoopIter env fuel s
          = some (.next { (loopHead env s).sel with markedForDelete := [], deleteMode := false }))
      ∧ ((loopHead env s).sel.deleteMode = false →
          mainLoopIter env fuel s = some (.done { (loopHead env s).sel with selected := none })
            ∧ mainLoop env (fuel + 1) s = some { (loopHead env s).sel with selected := none }
            ∧ ({ (loopHead env s).sel with selected := none } : TrySelector K).selected = none) := by
  have hne : (loopHead env s).key ≠ [] := by
    rcases hkey with h | h <;> rw [h] <;> simp
  have hk := mainLoopIter_key env fuel s hne
  rw [handleKey_esc env fuel _ _ _ _ _ hkey] at hk
  constructor
  · intro hm
    rw [hk, if_pos hm]
  · intro hm
    have hi : mainLoopIter env fuel s
        = some (.done { (loopHead env s).sel with selected := none }) := by
      rw [hk, if_neg (by simp [hm])]
    refine ⟨hi, ?_, rfl⟩
    rw [mainLoop, hi]

/-- An instance of the theorem above: in the sample session, after Ctrl-D has marked
`beta`, the scripted keys are used up and `readKey` yields Esc, which clears the mark. -/
theorem esc_in_main_list_witness :
    (loopHead demoDirEnv demoMarked).key = [27]
      ∧ (loopHead demoDirEnv demoMarked).sel.deleteMode = true
      ∧ mainLoopIter demoDirEnv 0 demoMarked
        = some (.next { (loopHead demoDirEnv demoMarked).sel with
            markedForDelete := [], deleteMode := false }) :=
  ⟨by decide!, by decide!,
    (esc_in_main_list demoDirEnv 0 demoMarked (Or.inl (by decide!))).1 (by decide!)⟩

/-- C20: Ctrl-D in a state of the loop of `mainLoop`. With the cursor on an existing entry
`t` only the marks and `deleteMode` change: the path of `t` is marked if and only if it was
not marked before, every other path keeps its status, and `deleteMode` is true if and only
if the marks are non-empty. A second Ctrl-D right after is on the same entry `t` and gives
back the marks as a set and `deleteMode`. With the cursor past the entries (the row
"Create new") the iteration changes nothing. -/
theorem ctrlD_toggles_mark (env : Env K) (searchTerm basePath andType : GoString)
    (andExit : Bool) (andKeys : List GoString) (andConfirm : GoString) (stdin : List ReadEvent)
    (fuel : Nat) (s : TrySelector K)
    (h : Reachable env
      (NewTrySelector searchTerm basePath andType andExit andKeys andConfirm stdin) s)
    (hkey : (loopHead env s).key = [4]) :
    mainLoopIter env fuel s
        = some (.next (toggleMark (loopHead env s).sel (loopHead env s).tries))
      ∧ (∀ t, (loopHead env s).tries[(loopHead env s).sel.cursorPos.toNat]? = some t →
          (∃ marks mode, toggleMark (loopHead env s).sel (loopHead env s).tries
              = { (loopHead env s).sel with markedForDelete := marks, deleteMode := mode })
          ∧ (t.Item.Path ∈ (toggleMark (loopHead env s).sel (loopHead env s).tries).markedForDelete
              ↔ t.Item.Path ∉ (loopHead env s).sel.markedForDelete)
          ∧ (∀ p, p ≠ t.Item.Path →
              (p ∈ (toggleMark (loopHead env s).sel (loopHead env s).tries).markedForDelete
                ↔ p ∈ (loopHead env s).sel.markedForDelete))
          ∧ ((toggleMark (loopHead env s).sel (loopHead env s).tries).deleteMode = true
              ↔ (toggleMark (loopHead env s).sel (loopHead env s).tries).markedForDelete ≠ [])
          ∧ ∀ fuel2,
              (loopHead env (toggleMark (loopHead env s).sel (loopHead env s).tries)).key = [4] →
              ∃ u, mainLoopIter env fuel2 (toggleMark (loopHead env s).sel (loopHead env s).tries)
                  = some (.next u)
                ∧ (loopHead env (toggleMark (loopHead env s).sel (loopHead env s).tries)).tries[
                    (loopHead env
                      (toggleMark (loopHead env s).sel (loopHead env s).tries)).sel.cursorPos.toNat]?
                  = some t
                ∧ (∀ p, p ∈ u.markedForDelete ↔ p ∈ (loopHead env s).sel.markedForDelete)
                ∧ u.deleteMode = (loopHead env s).sel.deleteMode)
      ∧ (((loopHead env s).tries.length : Int) ≤ (loopHead env s).sel.cursorPos →
          mainLoopIter env fuel s = some (.next (loopHead env s).sel)) := by
  have hinv : LoopInv (loopHead env s).sel :=
    loopHead_loopInv env s
      (reachable_loopInv env _ s (NewTrySelector_loopInv _ _ _ _ _ _ _) h)
  have hiter : ∀ (fuel : Nat) (v : TrySelector K), (loopHead env v).key = [4] →
      mainLoopIter env fuel v
        = some (.next (toggleMark (loopHead env v).sel (loopHead env v).tries)) := by
    intro fuel v hv
    rw [mainLoopIter_key env fuel v (by rw [hv]; simp), hv, handleKey_ctrlD]
  have hc0 : 0 ≤ (loopHead env s).sel.cursorPos := by
    rw [(loopHead_sel env s).1]
    exact (loopHead_clamped env s).1
  refine ⟨hiter fuel s hkey, ?_, ?_⟩
  · intro t ht
    have hmem := toggleMark_mem _ _ t hc0 ht hinv
    have hinv1 := LoopInv_stable.toggle _ (loopHead env s).tries hinv
    refine ⟨⟨_, _, toggleMark_eq _ _ t hc0 ht hinv.2.2⟩, ?_, ?_, hinv1.2.2, ?_⟩
    · rw [hmem]
      constructor
      · rintro (⟨h1, _⟩ | ⟨_, h2⟩)
        · exact absurd rfl h1
        · exact h2
      · intro h2
        exact Or.inr ⟨rfl, h2⟩
    · intro p hp
      rw [hmem]
      constructor
      · rintro (⟨_, h1⟩ | ⟨h1, _⟩)
        · exact h1
        · exact absurd h1 hp
      · intro h1
        exact Or.inl ⟨hp, h1⟩
    · intro fuel2 hkey2
      obtain ⟨f1, f2, f3⟩ := toggleMark_frame (loopHead env s).sel (loopHead env s).tries
      obtain ⟨a1, a2⟩ := loopHead_again env s _ f1 f2 f3
      have hinv2 := loopHead_loopInv env _ hinv1
      have ht2 : (loopHead env (toggleMark (loopHead env s).sel (loopHead env s).tries)).tries[
          (loopHead env
            (toggleMark (loopHead env s).sel (loopHead env s).tries)).sel.cursorPos.toNat]?
          = some t := by
        rw [a1, a2]; exact ht
      have hc2 : 0 ≤ (loopHead env
          (toggleMark (loopHead env s).sel (loopHead env s).tries)).sel.cursorPos := by
        rw [a2]; exact hc0
      have hmem2 := toggleMark_mem _ _ t hc2 ht2 hinv2
      have hinv3 := LoopInv_stable.toggle _
        (loopHead env (toggleMark (loopHead env s).sel (loopHead env s).tries)).tries hinv2
      have hset : ∀ p, p ∈ (toggleMark
            (loopHead env (toggleMark (loopHead env s).sel (loopHead env s).tries)).sel
            (loopHead env (toggleMark (loopHead env s).sel (loopHead env s).tries)).tries
            ).markedForDelete
          ↔ p ∈ (loopHead env s).sel.markedForDelete := by
        intro p
        rw [hmem2, (loopHead_sel env _).2.2.1, hmem, hmem]
        by_cases hp : p = t.Item.Path
        · subst hp
          by_cases hm : t.Item.Path ∈ (loopHead env s).sel.markedForDelete <;> simp [hm]
        · simp [hp]
      exact ⟨_, hiter fuel2 _ hkey2, ht2, hset, marks_mode_eq _ _ hinv.2.2 hinv3.2.2 hset⟩
  · intro hge
    rw [hiter fuel s hkey, toggleMark_off_list _ _ hge]

/-- An instance of the theorem above: the first Ctrl-D of the session marks `beta`, the
entry in the first row, and the second one removes the mark again. -/
theorem ctrlD_toggles_mark_witness :
    (loopHead demoScenarioEnv demoDoubleStart).key = [4]
      ∧ mainLoopIter demoScenarioEnv 0 demoDoubleStart
        = some (.next (toggleMark (loopHead demoScenarioEnv demoDoubleStart).sel
            (loopHead demoScenarioEnv demoDoubleStart).tries))
      ∧ (toggleMark (loopHead demoScenarioEnv demoDoubleStart).sel
            (loopHead demoScenarioEnv demoDoubleStart).tries).markedForDelete
          = [str "/t/2024-05-02-beta"]
      ∧ (iterate demoScenarioEnv 0 2 demoDoubleStart).map
          (fun u => (u.markedForDelete, u.deleteMode)) = some ([], false) :=
  ⟨by decide!,
    (ctrlD_toggles_mark demoScenarioEnv [] (str "/t") [] false [[4], [4]] [] [] 0
      demoDoubleStart Reachable.init (by decide!)).1,
    by decide!, by decide!⟩

/-- C21, counterexample: `beta` is marked (delete mode), the input is `b` and the cursor is
on the row "Create new". From this state Ctrl-T returns with the Mkdir result
`/t/2024-05-03-b`, while Enter runs the delete confirmation and sets no result: the two keys
are not equivalent there. -/
theorem ctrlT_differs_from_enter_in_delete_mode :
    Reachable demoScenarioEnv
        (NewTrySelector [] (str "/t") [] false [[4], [98], [14], [20]] [] [])
        demoCreateRowCtrlT
      ∧ Reachable demoScenarioEnv
        (NewTrySelector [] (str "/t") [] false [[4], [98], [14], [13]] [] [])
        demoCreateRowEnter
      ∧ (loopHead demoScenarioEnv demoCreateRowCtrlT).key = [20]
      ∧ (loopHead demoScenarioEnv demoCreateRowEnter).key = [13]
      ∧ (loopHead demoScenarioEnv demoCreateRowEnter).sel
        = (loopHead demoScenarioEnv demoCreateRowCtrlT).sel
      ∧ (loopHead demoScenarioEnv demoCreateRowEnter).tries
        = (loopHead demoScenarioEnv demoCreateRowCtrlT).tries
      ∧ (loopHead demoScenarioEnv demoCreateRowCtrlT).sel.inputBuffer = str "b"
      ∧ (loopHead demoScenarioEnv demoCreateRowCtrlT).sel.deleteMode = true
      ∧ (loopHead demoScenarioEnv demoCreateRowCtrlT).sel.markedForDelete
        = [str "/t/2024-05-02-beta"]
      ∧ (loopHead demoScenarioEnv demoCreateRowCtrlT).tries.length = 1
      ∧ (loopHead demoScenarioEnv demoCreateRowCtrlT).sel.cursorPos = 1
      ∧ mainLoopIter demoScenarioEnv 8 demoCreateRowCtrlT
        = some (.done { (loopHead demoScenarioEnv demoCreateRowCtrlT).sel with
            selected := some
              { Kind := str "mkdir", Path := str "/t/2024-05-03-b", Paths := [],
                BasePath := [], OldName := [], NewName := [] } })
      ∧ (mainLoopIter demoScenarioEnv 8 demoCreateRowEnter).map
          (fun r => (r.state.selected, r.state.deleteStatus, decide (r = .next r.state)))
        = some (none, str "Delete cancelled", true) := by
  refine ⟨?_, ?_, by decide!, by decide!, by decide!, by decide!, by decide!, by decide!,
    by decide!, by decide!, by decide!, by decide!, by decide!⟩
  · exact iterate_reachable demoScenarioEnv 8 _ 3 _ demoCreateRowCtrlT Reachable.init
      (by decide!)
  · exact iterate_reachable demoScenarioEnv 8 _ 3 _ demoCreateRowEnter Reachable.init
      (by decide!)

/-- C21, amended: in every state of the loop, Ctrl-T with a non-empty input buffer makes
`mainLoop` return with the result Mkdir whose path joins the base path and
`<today>-<input with every space replaced by '-'>`, in delete mode or not and whatever row the
cursor is on; with an empty input buffer it sets no result and the loop goes on. Enter gives
the same result when the cursor is past the entries (the row "Create new") and delete mode
is not active with a mark. -/
theorem ctrlT_gives_mkdir (env : Env K) (fuel : Nat) (s : TrySelector K)
    (hkey : (loopHead env s).key = [20] ∨
      (((loopHead env s).key = [13] ∨ (loopHead env s).key = [10])
        ∧ ¬ ((loopHead env s).sel.deleteMode = true
            ∧ (loopHead env s).sel.markedForDelete ≠ [])
        ∧ ((loopHead env s).tries.length : Int) ≤ (loopHead env s).sel.cursorPos)) :
    ((loopHead env s).sel.inputBuffer ≠ [] →
        mainLoopIter env fuel s
          = some (.done { (loopHead env s).sel with
              selected := some
                { Kind := str "mkdir",
                  Path := env.filepathJoin (loopHead env s).sel.basePath
                    (env.today ++ str "-" ++ replaceSpaces (loopHead env s).sel.inputBuffer),
                  Paths := [], BasePath := [], OldName := [], NewName := [] } })
        ∧ mainLoop env (fuel + 1) s
          = some { (loopHead env s).sel with
              selected := some
                { Kind := str "mkdir",
                  Path := env.filepathJoin (loopHead env s).sel.basePath
                    (env.today ++ str "-" ++ replaceSpaces (loopHead env s).sel.inputBuffer),
                  Paths := [], BasePath := [], OldName := [], NewName := [] } })
      ∧ ((loopHead env s).key = [20] → (loopHead env s).sel.inputBuffer = [] →
          mainLoopIter env fuel s
            = some (.next { (loopHead env s).sel with selected := none })) := by
  have hshow : (loopHead env s).showCreateNew
      = decide ((loopHead env s).sel.inputBuffer ≠ []) := by
    rw [(loopHead_sel env s).2.2.2.2.1, ← (getTries_frame env s).2.2.1]
    rfl
  have hcreate : (loopHead env s).sel.inputBuffer ≠ [] →
      mainLoopIter env fuel s
        = some (returnIfSelected (handleCreateNew env (loopHead env s).sel)) := by
    intro hb
    rcases hkey with h | ⟨h, hmode, hcur⟩
    · rw [mainLoopIter_key env fuel s (by rw [h]; simp), h, handleKey_ctrlT]
    · have hne : (loopHead env s).key ≠ [] := by
        rcases h with h | h <;> rw [h] <;> simp
      have hm : ¬ ((loopHead env s).sel.deleteMode = true
          ∧ (loopHead env s).sel.markedForDelete.length > 0) := by
        intro ⟨h1, h2⟩
        exact hmode ⟨h1, List.length_pos.mp h2⟩
      rw [mainLoopIter_key env fuel s hne, handleKey_enter env fuel _ _ _ _ _ h, if_neg hm,
        if_neg (by omega), hshow, if_pos (by simpa using hb)]
  constructor
  · intro hb
    have hi : mainLoopIter env fuel s
        = some (.done { (loopHead env s).sel with
            selected := some
              { Kind := str "mkdir",
                Path := env.filepathJoin (loopHead env s).sel.basePath
                  (env.today ++ str "-" ++ replaceSpaces (loopHead env s).sel.inputBuffer),
                Paths := [], BasePath := [], OldName := [], NewName := [] } }) := by
      rw [hcreate hb]
      unfold handleCreateNew
      rw [if_pos hb]
      rfl
    refine ⟨hi, ?_⟩
    rw [mainLoop, hi]
  · intro h hb
    rw [mainLoopIter_key env fuel s (by rw [h]; simp), h, handleKey_ctrlT]
    unfold handleCreateNew
    rw [if_neg (by simp [hb])]
    rfl

/-- An instance of the theorem above: Ctrl-T with the input `my x` returns with Mkdir
`/t/2024-05-03-my-x`, and Enter on the row "Create new" of the input `zz` returns with
Mkdir `/t/2024-05-03-zz`. -/
theorem ctrlT_gives_mkdir_witness :
    (loopHead demoScenarioEnv demoCtrlTStart).sel.inputBuffer = str "my x"
      ∧ (mainLoop demoScenarioEnv 1 demoCtrlTStart).map (fun t => t.selected)
        = some (some
            { Kind := str "mkdir", Path := str "/t/2024-05-03-my-x", Paths := [],
              BasePath := [], OldName := [], NewName := [] })
      ∧ (mainLoop demoScenarioEnv 1 demoEnterCreateStart).map (fun t => t.selected)
        = some (some
            { Kind := str "mkdir", Path := str "/t/2024-05-03-zz", Paths := [],
              BasePath := [], OldName := [], NewName := [] })
      ∧ mainLoop demoScenarioEnv (0 + 1) demoCtrlTStart
        = some { (loopHead demoScenarioEnv demoCtrlTStart).sel with
            selected := some
              { Kind := str "mkdir",
                Path := demoScenarioEnv.filepathJoin
                  (loopHead demoScenarioEnv demoCtrlTStart).sel.basePath
                  (demoScenarioEnv.today ++ str "-"
                    ++ replaceSpaces (loopHead demoScenarioEnv demoCtrlTStart).sel.inputBuffer),
                Paths := [], BasePath := [], OldName := [], NewName := [] } }
      ∧ mainLoop demoScenarioEnv (0 + 1) demoEnterCreateStart
        = some { (loopHead demoScenarioEnv demoEnterCreateStart).sel with
            selected := some
              { Kind := str "mkdir",
                Path := demoScenarioEnv.filepathJoin
                  (loopHead demoScenarioEnv demoEnterCreateStart).sel.basePath
                  (demoScenarioEnv.today ++ str "-"
                    ++ replaceSpaces
                      (loopHead demoScenarioEnv demoEnterCreateStart).sel.inputBuffer),
                Paths := [], BasePath := [], OldName := [], NewName := [] } } :=
  ⟨by decide!, by decide!, by decide!,
    ((ctrlT_gives_mkdir demoScenarioEnv 0 demoCtrlTStart (Or.inl (by decide!))).1
      (by decide!)).2,
    ((ctrlT_gives_mkdir demoScenarioEnv 0 demoEnterCreateStart
      (Or.inr ⟨Or.inl (by decide!), by decide!, by decide!⟩)).1 (by decide!)).2⟩

/-- C22, counterexample: the key `!` (0x21, printable ASCII) is not inserted: the iteration
leaves the input buffer `a` and the cursors as they are. -/
theorem bang_key_ignored :
    (loopHead demoScenarioEnv demoBangStart).key = [33]
      ∧ (loopHead demoScenarioEnv demoBangStart).sel.inputBuffer = str "a"
      ∧ mainLoopIter demoScenarioEnv 0 demoBangStart
        = some (.next (loopHead demoScenarioEnv demoBangStart).sel) := by
  decide!

/-- C22, amended: a key of one byte `b` in the range 0x20..0x7E is inserted if and only if
`isPrintable b` holds, that is for the letters, the digits, `-`, `_`, `.` and the space. It is
then inserted at the input cursor (the bytes before and after the cursor are kept), the input
cursor advances by one and the list cursor is reset to 0. Every other key of that range
leaves the selector as it is. -/
theorem printable_key_inserted (env : Env K) (searchTerm basePath andType : GoString)
    (andExit : Bool) (andKeys : List GoString) (andConfirm : GoString) (stdin : List ReadEvent)
    (fuel : Nat) (s : TrySelector K) (b : Byte)
    (h : Reachable env
      (NewTrySelector searchTerm basePath andType andExit andKeys andConfirm stdin) s)
    (hkey : (loopHead env s).key = [b]) (h1 : 32 ≤ b.val) (h2 : b.val ≤ 126) :
    (isPrintable b = true ↔
        (97 ≤ b.val ∧ b.val ≤ 122) ∨ (65 ≤ b.val ∧ b.val ≤ 90) ∨ (48 ≤ b.val ∧ b.val ≤ 57)
          ∨ b = 45 ∨ b = 95 ∨ b = 46 ∨ b = 32)
      ∧ (isPrintable b = true →
          ∃ t, mainLoopIter env fuel s = some (.next t)
            ∧ t = { (loopHead env s).sel with
                inputBuffer :=
                  (loopHead env s).sel.inputBuffer.take (loopHead env s).sel.inputCursorPos
                    ++ [b]
                    ++ (loopHead env s).sel.inputBuffer.drop (loopHead env s).sel.inputCursorPos
                inputCursorPos := (loopHead env s).sel.inputCursorPos + 1
                cursorPos := 0 }
            ∧ t.inputBuffer.take (loopHead env s).sel.inputCursorPos
              = (loopHead env s).sel.inputBuffer.take (loopHead env s).sel.inputCursorPos
            ∧ t.inputBuffer[(loopHead env s).sel.inputCursorPos]? = some b
            ∧ t.inputBuffer.drop ((loopHead env s).sel.inputCursorPos + 1)
              = (loopHead env s).sel.inputBuffer.drop (loopHead env s).sel.inputCursorPos
            ∧ t.inputBuffer.length = (loopHead env s).sel.inputBuffer.length + 1)
      ∧ (isPrintable b = false →
          mainLoopIter env fuel s = some (.next (loopHead env s).sel)) := by
  have hinv : (loopHead env s).sel.inputCursorPos ≤ (loopHead env s).sel.inputBuffer.length :=
    loopHead_inputInv env s
      (reachable_inputInv env _ s (NewTrySelector_inputInv _ _ _ _ _ _ _) h)
  have hk : mainLoopIter env fuel s
      = handleKey env fuel (loopHead env s).sel (loopHead env s).tries
          (loopHead env s).showCreateNew (loopHead env s).totalItems [b] := by
    rw [mainLoopIter_key env fuel s (by rw [hkey]; simp), hkey]
  rw [hk, handleKey_byte env fuel _ _ _ _ b h1 h2]
  generalize (loopHead env s).sel = sel at hinv ⊢
  refine ⟨?_, ?_, ?_⟩
  · unfold isPrintable
    simp only [Bool.or_eq_true, Bool.and_eq_true, decide_eq_true_eq]
    tauto
  · intro hp
    rw [if_pos hp]
    refine ⟨_, rfl, rfl, ?_, ?_, ?_, ?_⟩
    · show (sel.inputBuffer.take sel.inputCursorPos ++ [b]
          ++ sel.inputBuffer.drop sel.inputCursorPos).take sel.inputCursorPos = _
      rw [List.append_assoc, List.take_left']
      simp only [List.length_take]
      omega
    · show (sel.inputBuffer.take sel.inputCursorPos ++ [b]
          ++ sel.inputBuffer.drop sel.inputCursorPos)[sel.inputCursorPos]? = some b
      rw [List.append_assoc, List.getElem?_append_right (by simp)]
      simp only [List.length_take]
      rw [Nat.min_eq_left hinv, Nat.sub_self]
      simp
    · show (sel.inputBuffer.take sel.inputCursorPos ++ [b]
          ++ sel.inputBuffer.drop sel.inputCursorPos).drop (sel.inputCursorPos + 1) = _
      rw [List.drop_left']
      simp only [List.length_append, List.length_take, List.length_singleton]
      omega
    · show (sel.inputBuffer.take sel.inputCursorPos ++ [b]
          ++ sel.inputBuffer.drop sel.inputCursorPos).length = _
      simp only [List.length_append, List.length_take, List.length_drop, List.length_singleton]
      omega
  · intro hp
    rw [if_neg (by simp [hp])]

/-- An instance of the theorem above: with the input `a` and the list cursor on the second
row, the key `x` gives the input `ax`, the input cursor 2 and the list cursor 0. -/
theorem printable_key_inserted_witness :
    (loopHead demoScenarioEnv demoTypeStart).sel.inputBuffer = str "a"
      ∧ (loopHead demoScenarioEnv demoTypeStart).sel.cursorPos = 1
      ∧ (mainLoopIter demoScenarioEnv 0 demoTypeStart).map
          (fun r => (r.state.inputBuffer, r.state.inputCursorPos, r.state.cursorPos))
        = some (str "ax", 2, 0)
      ∧ (isPrintable 120 = true ↔
        (97 ≤ (120 : Byte).val ∧ (120 : Byte).val ≤ 122)
          ∨ (65 ≤ (120 : Byte).val ∧ (120 : Byte).val ≤ 90)
          ∨ (48 ≤ (120 : Byte).val ∧ (120 : Byte).val ≤ 57)
          ∨ (120 : Byte) = 45 ∨ (120 : Byte) = 95 ∨ (120 : Byte) = 46 ∨ (120 : Byte) = 32) :=
  ⟨by decide!, by decide!, by decide!,
    (printable_key_inserted demoScenarioEnv (str "a") (str "/t") [] false [[14], [120]] [] []
      0 demoTypeStart 120
      (iterate_reachable demoScenarioEnv 0 _ 1 _ demoTypeStart Reachable.init (by decide!))
      (by decide!) (by decide) (by decide)).1⟩

/-- C23: Ctrl-W in a state of the loop of `mainLoop` with input cursor `c`. With `c = 0`
nothing changes. With `c > 0` the new buffer is `buffer[:p] + buffer[c:]` and the input
cursor is `p`, where `buffer[p:c] = w ++ n`, `w` consists of word characters and is maximal
(`p = 0` or `buffer[p-1]` is no word character), and `n` consists of non-word characters and
is maximal (it follows `w`, or it starts the buffer); the bytes after the cursor are kept. -/
theorem ctrlW_deletes_word (env : Env K) (searchTerm basePath andType : GoString)
    (andExit : Bool) (andKeys : List GoString) (andConfirm : GoString) (stdin : List ReadEvent)
    (fuel : Nat) (s : TrySelector K)
    (h : Reachable env
      (NewTrySelector searchTerm basePath andType andExit andKeys andConfirm stdin) s)
    (hkey : (loopHead env s).key = [23]) :
    mainLoopIter env fuel s = some (.next (deleteWordBack (loopHead env s).sel))
      ∧ ((loopHead env s).sel.inputCursorPos = 0 →
          deleteWordBack (loopHead env s).sel = (loopHead env s).sel)
      ∧ (0 < (loopHead env s).sel.inputCursorPos →
          ∃ (p : Nat) (w n : GoString),
            (loopHead env s).sel.inputBuffer.take (loopHead env s).sel.inputCursorPos
                = (loopHead env s).sel.inputBuffer.take p ++ w ++ n
              ∧ p + w.length + n.length = (loopHead env s).sel.inputCursorPos
              ∧ (∀ b ∈ w, isWordChar (Char.ofNat b.val) = true)
              ∧ (∀ b ∈ n, isWordChar (Char.ofNat b.val) = false)
              ∧ (p = 0 ∨ ∃ b, (loopHead env s).sel.inputBuffer[p - 1]? = some b
                  ∧ isWordChar (Char.ofNat b.val) = false)
              ∧ (w = [] → p = 0)
              ∧ deleteWordBack (loopHead env s).sel
                = { (loopHead env s).sel with
                    inputBuffer := (loopHead env s).sel.inputBuffer.take p
                      ++ (loopHead env s).sel.inputBuffer.drop
                          (loopHead env s).sel.inputCursorPos
                    inputCursorPos := p }
              ∧ (deleteWordBack (loopHead env s).sel).inputBuffer.take p
                = (loopHead env s).sel.inputBuffer.take p
              ∧ (deleteWordBack (loopHead env s).sel).inputBuffer.drop p
                = (loopHead env s).sel.inputBuffer.drop (loopHead env s).sel.inputCursorPos) := by
  have hinv : (loopHead env s).sel.inputCursorPos ≤ (loopHead env s).sel.inputBuffer.length :=
    loopHead_inputInv env s
      (reachable_inputInv env _ s (NewTrySelector_inputInv _ _ _ _ _ _ _) h)
  have hk : mainLoopIter env fuel s = some (.next (deleteWordBack (loopHead env s).sel)) := by
    rw [mainLoopIter_key env fuel s (by rw [hkey]; simp), hkey, handleKey_ctrlW]
  refine ⟨hk, ?_, ?_⟩
  · intro h0
    unfold deleteWordBack
    rw [if_neg (by omega)]
  generalize (loopHead env s).sel = sel at hinv ⊢
  intro hpos
  obtain ⟨q1, q2, q3⟩ := skipBack_spec (fun r => !isWordChar r) sel.inputBuffer
    sel.inputCursorPos
  obtain ⟨p1, p2, p3⟩ := skipBack_spec isWordChar sel.inputBuffer
    (skipBack (fun r => !isWordChar r) sel.inputBuffer sel.inputCursorPos)
  have hdel : deleteWordBack sel
      = { sel with
          inputBuffer := sel.inputBuffer.take
              (skipBack isWordChar sel.inputBuffer
                (skipBack (fun r => !isWordChar r) sel.inputBuffer sel.inputCursorPos))
            ++ sel.inputBuffer.drop sel.inputCursorPos
          inputCursorPos := skipBack isWordChar sel.inputBuffer
            (skipBack (fun r => !isWordChar r) sel.inputBuffer sel.inputCursorPos) } := by
    unfold deleteWordBack
    rw [if_pos hpos]
  generalize skipBack (fun r => !isWordChar r) sel.inputBuffer sel.inputCursorPos = q
    at q1 q2 q3 p1 p2 p3 hdel
  generalize skipBack isWordChar sel.inputBuffer q = p at p1 p2 p3 hdel
  generalize sel.inputCursorPos = c at *
  generalize hbuf : sel.inputBuffer = buf at *
  refine ⟨p, (buf.take q).drop p, (buf.take c).drop q, ?_, ?_, ?_, ?_, ?_, ?_, hdel, ?_, ?_⟩
  · have e1 : buf.take q = buf.take p ++ (buf.take q).drop p := by
      conv_lhs => rw [← List.take_append_drop p (buf.take q)]
      rw [List.take_take, Nat.min_eq_left p1]
    have e2 : buf.take c = buf.take q ++ (buf.take c).drop q := by
      conv_lhs => rw [← List.take_append_drop q (buf.take c)]
      rw [List.take_take, Nat.min_eq_left q1]
    rw [← e1, ← e2]
  · simp only [List.length_drop, List.length_take]
    omega
  · intro b hb
    obtain ⟨i, hi1, hi2, hi3⟩ := mem_slice buf p q b hb
    rw [← byteRune_of_getElem? buf i b hi3]
    exact p2 i hi1 hi2
  · intro b hb
    obtain ⟨i, hi1, hi2, hi3⟩ := mem_slice buf q c b hb
    rw [← byteRune_of_getElem? buf i b hi3]
    simpa using q2 i hi1 hi2
  · rcases p3 with h0 | h0
    · exact Or.inl h0
    · by_cases hp : p = 0
      · exact Or.inl hp
      · have hlt : p - 1 < buf.length := by omega
        refine Or.inr ⟨buf[p - 1], List.getElem?_eq_getElem hlt, ?_⟩
        rw [← byteRune_of_getElem? buf (p - 1) _ (List.getElem?_eq_getElem hlt)]
        exact h0
  · intro hw
    have hlen : ((buf.take q).drop p).length = 0 := by rw [hw]; rfl
    simp only [List.length_drop, List.length_take] at hlen
    have hpq : p = q := by omega
    by_contra hp
    rcases p3 with h0 | h0
    · exact hp h0
    · rcases q3 with h1 | h1
      · omega
      · rw [hpq] at h0
        simp only [Bool.not_eq_false'] at h1
        rw [h0] at h1
        cases h1
  · rw [hdel]
    show (buf.take p ++ buf.drop c).take p = buf.take p
    rw [List.take_left']
    simp only [List.length_take]
    omega
  · rw [hdel]
    show (buf.take p ++ buf.drop c).drop p = buf.drop c
    rw [List.drop_left']
    simp only [List.length_take]
    omega

/-- An instance of the theorem above: with the input `foo-bar--` and the cursor at its
end, Ctrl-W removes `bar--` and leaves `foo-` with the cursor at 4. -/
theorem ctrlW_deletes_word_witness :
    (loopHead demoScenarioEnv demoCtrlWStart).sel.inputBuffer = str "foo-bar--"
      ∧ (loopHead demoScenarioEnv demoCtrlWStart).sel.inputCursorPos = 9
      ∧ (deleteWordBack (loopHead demoScenarioEnv demoCtrlWStart).sel).inputBuffer = str "foo-"
      ∧ (deleteWordBack (loopHead demoScenarioEnv demoCtrlWStart).sel).inputCursorPos = 4
      ∧ mainLoopIter demoScenarioEnv 0 demoCtrlWStart
        = some (.next (deleteWordBack (loopHead demoScenarioEnv demoCtrlWStart).sel)) :=
  ⟨by decide!, by decide!, by decide!, by decide!,
    (ctrlW_deletes_word demoScenarioEnv (str "foo bar--") (str "/t") [] false [[23]] [] [] 0
      demoCtrlWStart Reachable.init (by decide!)).1⟩

/-- C24, amended: Backspace or Ctrl-H in a state of the loop of `mainLoop` with input cursor
`c`, which counts bytes. With `c > 0` the byte before the input cursor is removed (a whole
character exactly when that character takes one byte), the bytes before it and the bytes at
and after the cursor are kept, and the input cursor becomes `c - 1`; with `c = 0` the buffer
and the input cursor stay. In both cases the list cursor is reset to 0 and nothing else
changes. -/
theorem backspace_deletes_before_cursor (env : Env K) (searchTerm basePath andType : GoString)
    (andExit : Bool) (andKeys : List GoString) (andConfirm : GoString) (stdin : List ReadEvent)
    (fuel : Nat) (s : TrySelector K)
    (h : Reachable env
      (NewTrySelector searchTerm basePath andType andExit andKeys andConfirm stdin) s)
    (hkey : (loopHead env s).key = [127] ∨ (loopHead env s).key = [8]) :
    (0 < (loopHead env s).sel.inputCursorPos →
        ∃ t, mainLoopIter env fuel s = some (.next t)
          ∧ t = { (loopHead env s).sel with
              inputBuffer :=
                (loopHead env s).sel.inputBuffer.take ((loopHead env s).sel.inputCursorPos - 1)
                  ++ (loopHead env s).sel.inputBuffer.drop (loopHead env s).sel.inputCursorPos
              inputCursorPos := (loopHead env s).sel.inputCursorPos - 1
              cursorPos := 0 }
          ∧ t.inputBuffer.take ((loopHead env s).sel.inputCursorPos - 1)
            = (loopHead env s).sel.inputBuffer.take ((loopHead env s).sel.inputCursorPos - 1)
          ∧ t.inputBuffer.drop ((loopHead env s).sel.inputCursorPos - 1)
            = (loopHead env s).sel.inputBuffer.drop (loopHead env s).sel.inputCursorPos
          ∧ t.inputBuffer.length + 1 = (loopHead env s).sel.inputBuffer.length)
      ∧ ((loopHead env s).sel.inputCursorPos = 0 →
          mainLoopIter env fuel s = some (.next { (loopHead env s).sel with cursorPos := 0 })) := by
  have hinv : (loopHead env s).sel.inputCursorPos ≤ (loopHead env s).sel.inputBuffer.length :=
    loopHead_inputInv env s
      (reachable_inputInv env _ s (NewTrySelector_inputInv _ _ _ _ _ _ _) h)
  have hne : (loopHead env s).key ≠ [] := by
    rcases hkey with h | h <;> rw [h] <;> simp
  rw [mainLoopIter_key env fuel s hne, handleKey_backspace env fuel _ _ _ _ _ hkey]
  generalize (loopHead env s).sel = sel at hinv ⊢
  constructor
  · intro hpos
    rw [if_pos hpos]
    refine ⟨_, rfl, rfl, ?_, ?_, ?_⟩
    · show (sel.inputBuffer.take (sel.inputCursorPos - 1)
          ++ sel.inputBuffer.drop sel.inputCursorPos).take (sel.inputCursorPos - 1) = _
      rw [List.take_left']
      simp only [List.length_take]
      omega
    · show (sel.inputBuffer.take (sel.inputCursorPos - 1)
          ++ sel.inputBuffer.drop sel.inputCursorPos).drop (sel.inputCursorPos - 1) = _
      rw [List.drop_left']
      simp only [List.length_take]
      omega
    · show (sel.inputBuffer.take (sel.inputCursorPos - 1)
          ++ sel.inputBuffer.drop sel.inputCursorPos).length + 1 = _
      simp only [List.length_append, List.length_take, List.length_drop]
      omega
  · intro h0
    rw [if_neg (by omega)]

/-- An instance of the theorem above: with the input `alp`, the input cursor 2 and the list
cursor 1, Backspace gives the input `ap`, the input cursor 1 and the list cursor 0. -/
theorem backspace_deletes_before_cursor_witness :
    (loopHead demoScenarioEnv demoBackspaceStart).key = [127]
      ∧ (loopHead demoScenarioEnv demoBackspaceStart).sel.inputBuffer = str "alp"
      ∧ (loopHead demoScenarioEnv demoBackspaceStart).sel.inputCursorPos = 2
      ∧ (loopHead demoScenarioEnv demoBackspaceStart).sel.cursorPos = 1
      ∧ (mainLoopIter demoScenarioEnv 0 demoBackspaceStart).map
          (fun r => (r.state.inputBuffer, r.state.inputCursorPos, r.state.cursorPos))
        = some (str "ap", 1, 0)
      ∧ ((loopHead demoScenarioEnv demoBackspaceStart).sel.inputCursorPos = 0 →
          mainLoopIter demoScenarioEnv 0 demoBackspaceStart
            = some (.next { (loopHead demoScenarioEnv demoBackspaceStart).sel with
                cursorPos := 0 })) :=
  ⟨by decide!, by decide!, by decide!, by decide!, by decide!,
    (backspace_deletes_before_cursor demoScenarioEnv (str "alp") (str "/t") [] false
      [[14], [2], [127]] [] [] 0 demoBackspaceStart
      (iterate_reachable demoScenarioEnv 0 _ 2 _ demoBackspaceStart Reachable.init
        (by decide!))
      (Or.inl (by decide!))).2⟩

/-- C25, counterexample: `beta` is marked and delete mode is on. Ctrl-R opens the rename
dialog, Esc aborts it, and the loop goes on with no result, with delete mode off and no
marks: `deleteMode` and `markedForDelete` are not what they were before Ctrl-R. -/
theorem rename_abort_clears_marks :
    Reachable demoScenarioEnv
        (NewTrySelector [] (str "/t") [] false [[4], [18], [27]] [] [])
        demoBeforeRename
      ∧ (loopHead demoScenarioEnv demoBeforeRename).key = [18]
      ∧ (loopHead demoScenarioEnv demoBeforeRename).sel.deleteMode = true
      ∧ (loopHead demoScenarioEnv demoBeforeRename).sel.markedForDelete
        = [str "/t/2024-05-02-beta"]
      ∧ (readKey demoScenarioEnv
          { (loopHead demoScenarioEnv demoBeforeRename).sel with
            deleteMode := false, markedForDelete := [] }).1 = [27]
      ∧ (mainLoopIter demoScenarioEnv 8 demoBeforeRename).map
          (fun r => (r.state.selected, r.state.deleteMode, r.state.markedForDelete,
            decide (r = .next r.state)))
        = some (none, false, [], true) := by
  refine ⟨?_, by decide!, by decide!, by decide!, by decide!, by decide!⟩
  exact iterate_reachable demoScenarioEnv 8 _ 1 _ demoBeforeRename Reachable.init (by decide!)

/-- C25, amended: Ctrl-R in a state of the loop of `mainLoop`. With the cursor past the
entries nothing happens. With the cursor on an entry the rename dialog runs, and whatever
keys it reads, it leaves the input buffer, the input cursor and the list cursor as they
were, delete mode off and no marks, and the result as it was or a Rename result. If its
first key is Esc or Ctrl-C it returns at once with the result as it was, and the loop goes
on when there was none. -/
theorem rename_abort_frame (env : Env K) (fuel : Nat) (s : TrySelector K)
    (hkey : (loopHead env s).key = [18]) :
    ((((loopHead env s).tries.length : Int) ≤ (loopHead env s).sel.cursorPos) →
        mainLoopIter env fuel s = some (.next (loopHead env s).sel))
      ∧ ∀ t, (loopHead env s).tries[(loopHead env s).sel.cursorPos.toNat]? = some t →
          (∀ r, mainLoopIter env fuel s = some r →
            r.state.inputBuffer = (loopHead env s).sel.inputBuffer
              ∧ r.state.inputCursorPos = (loopHead env s).sel.inputCursorPos
              ∧ r.state.cursorPos = (loopHead env s).sel.cursorPos
              ∧ r.state.deleteMode = false ∧ r.state.markedForDelete = []
              ∧ (r.state.selected = (loopHead env s).sel.selected
                ∨ ∃ res, r.state.selected = some res ∧ res.Kind = str "rename"))
          ∧ (((readKey env { (loopHead env s).sel with
                  deleteMode := false, markedForDelete := [] }).1 = [27]
              ∨ (readKey env { (loopHead env s).sel with
                  deleteMode := false, markedForDelete := [] }).1 = [3]) →
              mainLoopIter env (fuel + 1) s
                  = some (returnIfSelected
                      { (readKey env { (loopHead env s).sel with
                          deleteMode := false, markedForDelete := [] }).2 with
                        needsRedraw := true })
                ∧ ((loopHead env s).sel.selected = none →
                    mainLoopIter env (fuel + 1) s
                      = some (.next
                          { (readKey env { (loopHead env s).sel with
                              deleteMode := false, markedForDelete := [] }).2 with
                            needsRedraw := true }))) := by
  have hc0 : 0 ≤ (loopHead env s).sel.cursorPos := by
    rw [(loopHead_sel env s).1]
    exact (loopHead_clamped env s).1
  have hk : ∀ fuel, mainLoopIter env fuel s
      = handleKey env fuel (loopHead env s).sel (loopHead env s).tries
          (loopHead env s).showCreateNew (loopHead env s).totalItems [18] := by
    intro fuel
    rw [mainLoopIter_key env fuel s (by rw [hkey]; simp), hkey]
  constructor
  · intro hge
    rw [hk, handleKey_ctrlR, if_neg (by omega)]
  · intro t ht
    have hlt : (loopHead env s).sel.cursorPos < (loopHead env s).tries.length := by
      have := (List.getElem?_eq_some_iff.mp ht).1
      omega
    have hk2 : ∀ fuel, mainLoopIter env fuel s
        = (runRenameDialog env fuel (loopHead env s).sel t).map returnIfSelected := by
      intro fuel
      rw [hk, handleKey_ctrlR, if_pos hlt, ht]
    constructor
    · intro r hr
      rw [hk2] at hr
      cases hd : runRenameDialog env fuel (loopHead env s).sel t with
      | none => rw [hd] at hr; cases hr
      | some u =>
        rw [hd] at hr
        simp only [Option.map_some', Option.some.injEq] at hr
        subst hr
        rw [returnIfSelected_state]
        exact runRenameDialog_outcome env fuel _ t u hd
    · intro hesc
      have hi : mainLoopIter env (fuel + 1) s
          = some (returnIfSelected
              { (readKey env { (loopHead env s).sel with
                  deleteMode := false, markedForDelete := [] }).2 with
                needsRedraw := true }) := by
        rw [hk2, runRenameDialog_abort env fuel _ t hesc]
        rfl
      refine ⟨hi, ?_⟩
      intro hsel
      rw [hi]
      unfold returnIfSelected
      have : ({ (readKey env { (loopHead env s).sel with
            deleteMode := false, markedForDelete := [] }).2 with
          needsRedraw := true } : TrySelector K).selected = none := by
        show (readKey env { (loopHead env s).sel with
            deleteMode := false, markedForDelete := [] }).2.selected = none
        rw [(readKey_frame env _).2.2.2.2.1]
        exact hsel
      rw [this]
      rfl

/-- An instance of the theorem above: with the input `be` and the cursor on `beta`, Ctrl-R
and then Esc leave the input `be`, the input cursor 2 and the list cursor 0, and the loop
goes on with no result. -/
theorem rename_abort_frame_witness :
    (loopHead demoScenarioEnv demoRenameStart).key = [18]
      ∧ (loopHead demoScenarioEnv demoRenameStart).tries.map (fun t => t.Item.Basename)
        = [str "2024-05-02-beta"]
      ∧ (mainLoopIter demoScenarioEnv 1 demoRenameStart).map
          (fun r => (r.state.selected, r.state.inputBuffer, r.state.inputCursorPos,
            r.state.cursorPos, decide (r = .next r.state)))
        = some (none, str "be", 2, 0, true)
      ∧ ((((loopHead demoScenarioEnv demoRenameStart).tries.length : Int)
            ≤ (loopHead demoScenarioEnv demoRenameStart).sel.cursorPos) →
          mainLoopIter demoScenarioEnv 1 demoRenameStart
            = some (.next (loopHead demoScenarioEnv demoRenameStart).sel)) :=
  ⟨by decide!, by decide!, by decide!,
    (rename_abort_frame demoScenarioEnv 1 demoRenameStart (by decide!)).1⟩

/-- C27, the code at the failing input: the text `🗑️ab` has visible width 4 (the emoji
counts 2, the variation selector 0), and `🗑️a` has visible width 3. With `n = 3`,
`truncateWithAnsi` counts the variation selector as one column and stops before `a`: it
returns `🗑️`, of visible width 2, although the longer prefix `🗑️a` fits. -/
theorem truncateWithAnsi_counts_variation_selector :
    runes demoTrashText = [Char.ofNat 0x1F5D1, Char.ofNat 0xFE0F, 'a', 'b']
      ∧ visibleLen demoTrashText = 4
      ∧ visibleLen (demoTrashText.take 8) = 3
      ∧ truncateWithAnsi demoTrashText 3 = demoTrashText.take 7
      ∧ visibleLen (truncateWithAnsi demoTrashText 3) = 2
      ∧ runeWidth (Char.ofNat 0xFE0F) = 0
      ∧ truncWidth (Char.ofNat 0xFE0F) = 1 := by
  refine ⟨by decide, by decide, by decide, by decide, by decide, ?_, ?_⟩
  · decide
  · decide

/-- C29: with colours disabled `dim`, `bold`, `highlight` and `accent` return their text,
`highlightWithPositions` returns the encoding of the runes of its text, which is the text
itself when it is valid UTF-8 (the encoding of a list of runes), and `formattedEntryName`
returns the basename as plain and as rendered name when the basename is valid UTF-8. -/
theorem colours_disabled_identity (t : GoString) (positions : List Nat) (offset : Nat)
    (rs : List Rune) (entry : TryEntry K) (hvalid : entry.Item.Basename = encodeRunes rs) :
    dim false t = t ∧ bold false t = t ∧ highlight false t = t ∧ accent false t = t
      ∧ highlightWithPositions false t positions offset = encodeRunes (runes t)
      ∧ highlightWithPositions false (encodeRunes rs) positions offset = encodeRunes rs
      ∧ formattedEntryName false entry = (entry.Item.Basename, entry.Item.Basename) := by
  refine ⟨ansiWrap_off _ _ _, ansiWrap_off _ _ _, ansiWrap_off _ _ _, ansiWrap_off _ _ _,
    highlightWithPositions_off _ _ _, ?_, ?_⟩
  · rw [highlightWithPositions_off, runes_encodeRunes]
  · apply formattedEntryName_off
    rw [hvalid, runes_encodeRunes]

/-- An instance of the theorem above: the entry `2024-05-02-beta` with the positions 11 and
12 is rendered as its basename when colours are disabled, and with escape sequences when
they are enabled. -/
theorem colours_disabled_identity_witness :
    formattedEntryName true demoBetaEntry
        = (str "2024-05-02-beta",
            dim true (str "2024-05-02") ++ dim true (str "-") ++ highlight true (str "b")
              ++ highlight true (str "e") ++ str "ta")
      ∧ formattedEntryName false demoBetaEntry
        = (demoBetaEntry.Item.Basename, demoBetaEntry.Item.Basename) :=
  ⟨by decide,
    (colours_disabled_identity [] [] 0 "2024-05-02-beta".toList demoBetaEntry rfl).2.2.2.2.2.2⟩

/-- C30, the code at the failing input: the candidate `éab` and the query `b`. The match
position is 2, the index of `b` among the runes `é`, `a`, `b`. `highlightWithPositions`
compares the positions with the byte offsets 0, 2, 3 that `range` yields, so it highlights
`a`, at byte offset 2, and leaves the matched `b` plain. -/
theorem highlight_uses_byte_offsets :
    runes demoAccentItem.Text = [Char.ofNat 0xE9, 'a', 'b']
      ∧ rangeString demoAccentItem.Text = [(0, Char.ofNat 0xE9), (2, 'a'), (3, 'b')]
      ∧ (Fuzzy.Match demoEnv (NewFuzzy demoEnv [demoAccentItem]) (str "b")).map
          (fun m => m.Positions) = [[2]]
      ∧ highlightWithPositions true demoAccentItem.Text [2] 0
        = [0xC3, 0xA9] ++ highlight true (str "a") ++ str "b" := by
  refine ⟨by decide, by decide, by decide!, by decide⟩

/-- C28, amended: for a text that is valid UTF-8 (the encoding of runes) in which every
escape byte starts a sequence `ESC [ parameters letter`, and every `maxLen`:
`truncateWithAnsi` returns a prefix of the text in which again every escape byte starts a
complete sequence. When the text is cut, the result is the trimmed encoding of a prefix `p`
of the runes such that `p` without its escape sequences is what the loop keeps of the text
without its escape sequences: the sequences take nothing of the budget, which the kept
visible runes respect. -/
theorem truncateWithAnsi_keeps_sequences (rs : List Rune) (maxLen : Int)
    (hwf : (27 : Byte) ∉ stripAnsi (encodeRunes rs)) :
    truncateWithAnsi (encodeRunes rs) maxLen <+: encodeRunes rs
      ∧ (27 : Byte) ∉ stripAnsi (truncateWithAnsi (encodeRunes rs) maxLen)
      ∧ (visibleLen (encodeRunes rs) ≤ maxLen →
          truncateWithAnsi (encodeRunes rs) maxLen = encodeRunes rs)
      ∧ (maxLen < visibleLen (encodeRunes rs) →
          ∃ p, p <+: rs
            ∧ truncateWithAnsi (encodeRunes rs) maxLen = trimRightSpaces (encodeRunes p)
            ∧ (27 : Byte) ∉ stripAnsi (encodeRunes p)
            ∧ stripAnsi (encodeRunes p)
              = encodeRunes (truncLoop maxLen (runes (stripAnsi (encodeRunes rs))) 0 false)
            ∧ (0 ≤ maxLen →
                ((runes (stripAnsi (encodeRunes p))).map truncWidth).sum ≤ maxLen)) := by
  have hwf2 : escRune ∉ stripRunes rs := (wf_iff rs).mp hwf
  refine ⟨truncateWithAnsi_isPrefix rs maxLen, truncateWithAnsi_wf rs maxLen hwf2, ?_, ?_⟩
  · intro hl
    unfold truncateWithAnsi
    rw [if_pos hl]
  · intro hl
    have e1 : runes (stripAnsi (encodeRunes rs)) = stripRunes rs := by
      rw [stripAnsi_encodeRunes, runes_encodeRunes]
    have e2 : stripAnsi (encodeRunes (truncLoop maxLen rs 0 false))
        = encodeRunes (truncLoop maxLen (stripRunes rs) 0 false) := by
      rw [stripAnsi_encodeRunes, stripRunes_truncLoop maxLen rs hwf2 0]
    refine ⟨truncLoop maxLen rs 0 false, truncLoop_isPrefix maxLen rs 0 false, ?_,
      (wf_iff _).mpr (truncLoop_wf maxLen rs hwf2 0), ?_, ?_⟩
    · unfold truncateWithAnsi
      rw [if_neg (by omega), runes_encodeRunes]
    · rw [e1, e2]
    · intro hn
      rw [e2, runes_encodeRunes]
      have := truncLoop_budget maxLen (stripRunes rs) hwf2 0 hn
      omega

/-- An instance of the theorem above: `dim("abc") + highlight("xyz")` cut to 4 columns
keeps `abc`, the sequences around it, the two sequences that open the highlight, and `x`. -/
theorem truncateWithAnsi_keeps_sequences_witness :
    encodeRunes demoColouredRunes = dim true (str "abc") ++ highlight true (str "xyz")
      ∧ visibleLen (encodeRunes demoColouredRunes) = 6
      ∧ truncateWithAnsi (encodeRunes demoColouredRunes) 4
        = dim true (str "abc") ++ colorHighlight ++ str "x"
      ∧ truncateWithAnsi (encodeRunes demoColouredRunes) 4 <+: encodeRunes demoColouredRunes
      ∧ (27 : Byte) ∉ stripAnsi (truncateWithAnsi (encodeRunes demoColouredRunes) 4) :=
  ⟨by decide, by decide, by decide,
    (truncateWithAnsi_keeps_sequences demoColouredRunes 4 (by decide)).1,
    (truncateWithAnsi_keeps_sequences demoColouredRunes 4 (by decide)).2.1⟩

/-- C33: the selector that `NewTrySelector` returns holds, as input buffer, the option
`andType` when it is not empty and the search term otherwise, with every space replaced by
`-` (same length, byte by byte, no space left); the input cursor is at the end of the
buffer, the list cursor and the scroll offset are 0, delete mode is off, nothing is marked
and no result is set. -/
theorem NewTrySelector_initial_state (searchTerm basePath andType : GoString)
    (andExit : Bool) (andKeys : List GoString) (andConfirm : GoString)
    (stdin : List ReadEvent) :
    (NewTrySelector searchTerm basePath andType andExit andKeys andConfirm stdin :
        TrySelector K).inputBuffer
        = replaceSpaces (if andType ≠ [] then andType else searchTerm)
      ∧ (∀ t : GoString, (replaceSpaces t).length = t.length
          ∧ (32 : Byte) ∉ replaceSpaces t
          ∧ ∀ i : Nat, (replaceSpaces t)[i]?
              = (t[i]?).map fun (b : Byte) => if b = 32 then 45 else b)
      ∧ (NewTrySelector searchTerm basePath andType andExit andKeys andConfirm stdin :
          TrySelector K).inputCursorPos
        = (NewTrySelector searchTerm basePath andType andExit andKeys andConfirm stdin :
          TrySelector K).inputBuffer.length
      ∧ (NewTrySelector searchTerm basePath andType andExit andKeys andConfirm stdin :
          TrySelector K).cursorPos = 0
      ∧ (NewTrySelector searchTerm basePath andType andExit andKeys andConfirm stdin :
          TrySelector K).scrollOffset = 0
      ∧ (NewTrySelector searchTerm basePath andType andExit andKeys andConfirm stdin :
          TrySelector K).deleteMode = false
      ∧ (NewTrySelector searchTerm basePath andType andExit andKeys andConfirm stdin :
          TrySelector K).markedForDelete = []
      ∧ (NewTrySelector searchTerm basePath andType andExit andKeys andConfirm stdin :
          TrySelector K).selected = none :=
  ⟨rfl, fun t => ⟨replaceSpaces_length t, replaceSpaces_no_space t,
    replaceSpaces_getElem? t⟩, rfl, rfl, rfl, rfl, rfl, rfl⟩

/-- C34: Ctrl-W of the rename dialog and Ctrl-W of the main list are the same editing
operation. For every buffer and cursor, the two loops of the dialog stop at the position
the two loops of the main list compute; hence, when the dialog reads Ctrl-W with the buffer
and cursor that a selector `s` holds as input buffer and input cursor, it goes on with the
buffer and the cursor that the main list leaves in `s` after Ctrl-W. -/
theorem rename_ctrlW_same_as_main (env : Env K) (entry : TryEntry K) (s d : TrySelector K)
    (renameError : GoString) (hk : (readKey env d).1 = [23]) :
    (∀ (buf : GoString) (c : Nat), 0 < c →
        renameSkipWord buf (renameSkipNonWord buf (c - 1))
          = skipBack isWordChar buf (skipBack (fun r => !isWordChar r) buf c))
      ∧ renameIter env entry d s.inputBuffer s.inputCursorPos renameError
        = .again (readKey env d).2 (deleteWordBack s).inputBuffer
            (deleteWordBack s).inputCursorPos [] := by
  have key : ∀ (buf : GoString) (c : Nat), 0 < c →
      renameSkipWord buf (renameSkipNonWord buf (c - 1))
        = skipBack isWordChar buf (skipBack (fun r => !isWordChar r) buf c) := by
    intro buf c hc
    obtain ⟨n, rfl⟩ : ∃ n, c = n + 1 := ⟨c - 1, by omega⟩
    rw [Nat.add_sub_cancel, renameSkipWord_eq_skipBack, skipBack_renameSkipNonWord]
  refine ⟨key, ?_⟩
  unfold renameIter
  simp only [hk]
  rw [if_neg (by decide), if_neg (by decide), if_neg (by decide), if_neg (by decide),
    if_neg (by decide), if_neg (by decide), if_neg (by decide), if_neg (by decide),
    if_pos trivial]
  unfold deleteWordBack
  by_cases hc : s.inputCursorPos > 0
  · rw [if_pos hc, if_pos hc]
    simp only [key s.inputBuffer s.inputCursorPos hc]
  · rw [if_neg hc, if_neg hc]

/-- An instance of the theorem above: the dialog reads Ctrl-W with the buffer `foo-bar--` and
the cursor at its end, and goes on with `foo-` and the cursor 4, as the main list does. -/
theorem rename_ctrlW_same_as_main_witness :
    (readKey demoEnv demoCtrlWStart).1 = [23]
      ∧ (deleteWordBack demoCtrlWStart).inputBuffer = str "foo-"
      ∧ (deleteWordBack demoCtrlWStart).inputCursorPos = 4
      ∧ renameIter demoEnv (demoEntry "x") demoCtrlWStart demoCtrlWStart.inputBuffer
          demoCtrlWStart.inputCursorPos []
        = .again (readKey demoEnv demoCtrlWStart).2 (deleteWordBack demoCtrlWStart).inputBuffer
            (deleteWordBack demoCtrlWStart).inputCursorPos [] :=
  ⟨by decide, by decide, by decide,
    (rename_ctrlW_same_as_main demoEnv (demoEntry "x") demoCtrlWStart demoCtrlWStart []
      (by decide)).2⟩

/-- C35: a truncated line fits. For a line that is valid UTF-8 (the encoding of runes) in
which every escape byte starts a sequence `ESC [ parameters letter`: on a viewport of at
least 2 columns the result of `truncateLine` has a visible width of at most `width - 1`, and
for every `maxLen ≥ 0` the result of `truncateWithAnsi` has a visible width of at most
`maxLen`. -/
theorem truncated_line_fits (s : TrySelector K) (rs : List Rune) (maxLen : Int)
    (hwf : (27 : Byte) ∉ stripAnsi (encodeRunes rs)) (hw : 2 ≤ s.width) :
    visibleLen (truncateLine s (encodeRunes rs)) ≤ s.width - 1
      ∧ (0 ≤ maxLen → visibleLen (truncateWithAnsi (encodeRunes rs) maxLen) ≤ maxLen) := by
  have hwf2 : escRune ∉ stripRunes rs := (wf_iff rs).mp hwf
  refine ⟨?_, fun hn => visibleLen_truncateWithAnsi rs maxLen hwf2 hn⟩
  unfold truncateLine
  by_cases hl : visibleLen (encodeRunes rs) ≤ s.width - 1
  · rw [if_pos hl]
    exact hl
  · rw [if_neg hl]
    have hb := visibleLen_truncateWithAnsi rs (s.width - 2) hwf2 (by omega)
    obtain ⟨ys, e, hys⟩ := truncateWithAnsi_form rs (s.width - 2) hwf2
    rw [e, visibleLen_append_ellipsis ys hys, ← e]
    omega

/-- An instance of the theorem above: the coloured text `abcxyz`, of visible width 6, on the
terminal of 5 columns, and cut to 3 columns. -/
theorem truncated_line_fits_witness :
    (27 : Byte) ∉ stripAnsi (encodeRunes demoColouredRunes)
      ∧ (2 : Int) ≤ demoNarrow.width
      ∧ visibleLen (encodeRunes demoColouredRunes) = 6
      ∧ visibleLen (truncateLine demoNarrow (encodeRunes demoColouredRunes))
          ≤ demoNarrow.width - 1
      ∧ visibleLen (truncateWithAnsi (encodeRunes demoColouredRunes) 3) ≤ 3 :=
  ⟨by decide, by decide!, by decide,
    (truncated_line_fits demoNarrow demoColouredRunes 3 (by decide) (by decide!)).1,
    (truncated_line_fits demoNarrow demoColouredRunes 3 (by decide) (by decide!)).2
      (by decide)⟩

/-- C39: when `calculateMatch` accepts an entry for a non-empty query of `n` runes, it
returns `n` strictly increasing positions, so the last one `l` satisfies `n ≤ l + 1` and
every gap between two consecutive positions is at least 0 (a gap below 16 is an index of
`sqrtTable`). The score carries the factor `n / (l + 1)`, which lies in `(0, 1]`; it is 1
exactly when the positions are `0, ..., n - 1`, that is exactly when the lower-cased runes
of the query are a prefix of the lower-cased runes of the text. -/
theorem compactness_multiplier (env : Env K) (e : FuzzyEntry K) (q : GoString) (score : K)
    (ps : List Nat) (hq : q ≠ []) (h : calculateMatch env e q = some (score, ps)) :
    ∃ hne : ps ≠ [],
      ps.length = (lowerRunes env q).length
        ∧ (lowerRunes env q).length ≤ ps.getLast hne + 1
        ∧ (∀ (i : Nat) (hi : i + 1 < ps.length),
            (0 : Int) ≤ (ps[i + 1] : Int) - (ps[i] : Int) - 1
              ∧ ((ps[i + 1] : Int) - (ps[i] : Int) - 1 < 16 →
                  ((ps[i + 1] : Int) - (ps[i] : Int) - 1).toNat < (sqrtTable env).length))
        ∧ score = (e.BaseScore + boundaryTerms e.TextRunes ps + gapTerms env (-1) ps)
            * ((((lowerRunes env q).length : Nat) : K) / (((ps.getLast hne : Nat) : K) + 1))
            * (10 / ((((runes e.Text).length : Nat) : K) + 10))
        ∧ 0 < (((lowerRunes env q).length : Nat) : K) / (((ps.getLast hne : Nat) : K) + 1)
        ∧ (((lowerRunes env q).length : Nat) : K) / (((ps.getLast hne : Nat) : K) + 1) ≤ 1
        ∧ ((((lowerRunes env q).length : Nat) : K) / (((ps.getLast hne : Nat) : K) + 1) = 1
            ↔ ps = List.range (lowerRunes env q).length)
        ∧ (ps = List.range (lowerRunes env q).length
            ↔ lowerRunes env q <+: e.TextRunes) := by
  have hg := calculateMatch_positions env e q score ps h
  obtain ⟨hf, hpw, _⟩ := greedy_sound e.TextRunes (lowerRunes env q) 0 ps hg
  have hlen : ps.length = (lowerRunes env q).length := hf.length_eq
  have hn : (lowerRunes env q) ≠ [] := lowerRunes_ne_nil env q hq
  have hnpos : 0 < (lowerRunes env q).length := List.length_pos.mpr hn
  have hne : ps ≠ [] := by
    intro h0
    rw [h0] at hlen
    simp at hlen
    omega
  have hge := increasing_getElem_ge ps 0 hpw (fun _ _ => Nat.zero_le _)
  have hlast : ps.getLast hne = ps[ps.length - 1] := List.getLast_eq_getElem ps hne
  have hl : (lowerRunes env q).length ≤ ps.getLast hne + 1 := by
    have := hge (ps.length - 1) (by omega)
    rw [hlast]
    omega
  have hspec := calculateMatch_spec env e q
  simp only [hg] at hspec
  obtain ⟨score2, hs2, _, hform⟩ := hspec
  rw [h] at hs2
  cases hs2
  have hden : (0 : K) < ((ps.getLast hne : Nat) : K) + 1 := by positivity
  have hnum : (0 : K) < (((lowerRunes env q).length : Nat) : K) := by exact_mod_cast hnpos
  have hone : (((lowerRunes env q).length : Nat) : K) / (((ps.getLast hne : Nat) : K) + 1) = 1
      ↔ ps = List.range (lowerRunes env q).length := by
    rw [div_eq_one_iff_eq (ne_of_gt hden)]
    constructor
    · intro heq
      have heq2 : (lowerRunes env q).length = ps.getLast hne + 1 := by exact_mod_cast heq
      rw [← hlen]
      apply eq_range_of_getElem
      intro i hi
      have h1 := hge i hi
      by_contra hcon
      have hlt : i < ps[i] := by omega
      -- the positions after index i stay ahead of their index
      have : ∀ (j : Nat) (hj : j < ps.length), i ≤ j → j < ps[j] := by
        intro j hj hij
        induction j with
        | zero =>
          have : i = 0 := by omega
          subst this
          exact hlt
        | succ j ih =>
          by_cases hij2 : i = j + 1
          · subst hij2; exact hlt
          · have hj1 := ih (by omega) (by omega)
            have := (List.pairwise_iff_getElem.mp hpw) j (j + 1) (by omega) hj (by omega)
            omega
      have := this (ps.length - 1) (by omega) (by omega)
      rw [hlast] at heq2
      omega
    · intro hr
      have : ps.getLast hne = (lowerRunes env q).length - 1 := by
        rw [hlast]
        have hi : ps.length - 1 < (List.range (lowerRunes env q).length).length := by
          simp only [List.length_range]; omega
        have : ps[ps.length - 1] = (List.range (lowerRunes env q).length)[ps.length - 1] := by
          congr 1
        rw [this, List.getElem_range]
        omega
      rw [this]
      have : ((((lowerRunes env q).length - 1 : Nat)) : K) + 1
          = (((lowerRunes env q).length : Nat) : K) := by
        have h1 : (lowerRunes env q).length - 1 + 1 = (lowerRunes env q).length := by omega
        exact_mod_cast h1
      rw [this]
  refine ⟨hne, hlen, hl, ?_, hform hne hq, div_pos hnum hden, ?_, hone, ?_⟩
  · intro i hi
    have := (List.pairwise_iff_getElem.mp hpw) i (i + 1) (by omega) hi (by omega)
    refine ⟨by omega, fun hlt => ?_⟩
    simp only [sqrtTable, List.length_map, List.length_range]
    omega
  · rw [div_le_one hden]
    exact_mod_cast hl
  · constructor
    · intro hr
      rw [hr] at hf
      exact (forall₂_range_isPrefix _ _).mp hf
    · intro hp
      have he := (forall₂_range_isPrefix _ _).mpr hp
      have hmin := greedy_minimal e.TextRunes (lowerRunes env q) 0 ps
        (List.range (lowerRunes env q).length) hg he
        (by simpa using List.pairwise_lt_range _) (fun _ _ => Nat.zero_le _)
      rw [← hlen]
      apply eq_range_of_getElem
      intro i hi
      have h1 := hge i hi
      have h2 := hmin.get hi (by simpa using (by omega : i < (lowerRunes env q).length))
      simp only [List.get_eq_getElem, List.getElem_range] at h2
      omega

/-- An instance of the theorem above: the query `be` against `beta` matches at the positions
0 and 1, the factor is 2 / 2, and `be` is a prefix of `beta`. -/
theorem compactness_multiplier_witness :
    calculateMatch demoEnv (demoFuzzyEntry "beta") (str "be") = some (30 / 7, [0, 1])
      ∧ (lowerRunes demoEnv (str "be")).length ≤ ([0, 1] : List Nat).getLast (by decide) + 1
      ∧ (([0, 1] : List Nat) = List.range (lowerRunes demoEnv (str "be")).length
          ↔ lowerRunes demoEnv (str "be") <+: (demoFuzzyEntry "beta").TextRunes) := by
  refine ⟨by decide!, ?_⟩
  obtain ⟨hne, _, h2, _, _, _, _, _, h8⟩ :=
    compactness_multiplier demoEnv (demoFuzzyEntry "beta") (str "be") (30 / 7) [0, 1]
      (by decide) (by decide!)
  exact ⟨h2, h8⟩

/-- C37: the input cursor stays within the input buffer, `inputCursorPos ≤ len(inputBuffer)`
(the cursor is a natural number: every decrement in the code is guarded by `> 0`). This
holds for the selector that `NewTrySelector` returns, for every selector `s` reached from
it, at the `switch` of the next iteration and after it, whichever key is read. Hence no
slice or index expression on the input buffer panics: `renderInput` and the cases
Backspace, Ctrl-K, Ctrl-W and insertion, run with checked expressions, return what the
unchecked model returns. The list cursor at the `switch` is not negative, so under the
guard `cursorPos < len(tries)` of Enter, Ctrl-D and Ctrl-R the access `tries[cursorPos]` is
within bounds. -/
theorem input_cursor_within_bounds (env : Env K) (colorsEnabled : Bool)
    (searchTerm basePath andType : GoString) (andExit : Bool) (andKeys : List GoString)
    (andConfirm : GoString) (stdin : List ReadEvent) (s : TrySelector K) (fuel : Nat)
    (hr : Reachable env
      (NewTrySelector searchTerm basePath andType andExit andKeys andConfirm stdin) s) :
    InputInv (NewTrySelector searchTerm basePath andType andExit andKeys andConfirm stdin :
        TrySelector K)
      ∧ InputInv s
      ∧ InputInv (loopHead env s).sel
      ∧ (∀ r, mainLoopIter env fuel s = some r → InputInv r.state)
      ∧ renderInputChecked colorsEnabled (loopHead env s).rendered.inputBuffer
            (loopHead env s).rendered.inputCursorPos
          = some (renderInput colorsEnabled (loopHead env s).rendered.inputBuffer
              (loopHead env s).rendered.inputCursorPos)
      ∧ (∀ (tries : List (TryEntry K)) (showCreateNew : Bool) (totalItems : Int),
          (∀ key, key = [127] ∨ key = [8] →
            ∃ t, backspaceChecked (loopHead env s).sel = some t
              ∧ handleKey env fuel (loopHead env s).sel tries showCreateNew totalItems key
                = some (.next t))
          ∧ (∃ t, killLineChecked (loopHead env s).sel = some t
              ∧ handleKey env fuel (loopHead env s).sel tries showCreateNew totalItems [11]
                = some (.next t))
          ∧ (∃ t, deleteWordBackChecked (loopHead env s).sel = some t
              ∧ handleKey env fuel (loopHead env s).sel tries showCreateNew totalItems [23]
                = some (.next t))
          ∧ (∀ b, isPrintable b = true →
              ∃ t, insertChecked (loopHead env s).sel [b] = some t
                ∧ handleKey env fuel (loopHead env s).sel tries showCreateNew totalItems [b]
                  = some (.next t)))
      ∧ 0 ≤ (loopHead env s).sel.cursorPos
      ∧ ((loopHead env s).sel.cursorPos < (loopHead env s).tries.length →
          ∃ t, indexChecked (loopHead env s).tries (loopHead env s).sel.cursorPos = some t
            ∧ (loopHead env s).tries[(loopHead env s).sel.cursorPos.toNat]? = some t) := by
  have h0 := NewTrySelector_inputInv (K := K) searchTerm basePath andType andExit andKeys
    andConfirm stdin
  have hs : InputInv s := reachable_inputInv env _ s h0 hr
  have hsel : InputInv (loopHead env s).sel := loopHead_inputInv env s hs
  have hrend : (loopHead env s).rendered.inputCursorPos
      ≤ (loopHead env s).rendered.inputBuffer.length := by
    obtain ⟨_, hr2, _, hs2, _⟩ := loopHead_fields env s
    have h1 : InputInv (loopHead env s).sel := hsel
    unfold InputInv at h1
    rw [hs2, (readKey_frame env _).2.2.1, (readKey_frame env _).2.2.2.1] at h1
    exact h1
  have hcur : 0 ≤ (loopHead env s).sel.cursorPos := by
    rw [(loopHead_sel env s).1]
    exact (loopHead_clamped env s).1
  refine ⟨h0, hs, hsel, fun r h => mainLoopIter_inputInv env fuel s r hs h,
    renderInputChecked_eq colorsEnabled _ _ hrend, ?_, hcur, ?_⟩
  · intro tries showCreateNew totalItems
    refine ⟨?_, ?_, ?_, ?_⟩
    · intro key hk
      exact ⟨_, backspaceChecked_eq _ hsel, handleKey_backspace env fuel _ tries _ _ key hk⟩
    · refine ⟨_, killLineChecked_eq _ hsel, ?_⟩
      unfold handleKey
      rw [if_neg (by decide), if_neg (by decide), if_neg (by decide), if_neg (by decide),
        if_neg (by decide), if_neg (by decide), if_neg (by decide), if_neg (by decide),
        if_neg (by decide), if_pos rfl]
    · exact ⟨_, deleteWordBackChecked_eq _ hsel, handleKey_ctrlW env fuel _ tries _ _⟩
    · intro b hb
      obtain ⟨hb1, hb2⟩ := isPrintable_range b hb
      refine ⟨_, insertChecked_eq _ [b] hsel, ?_⟩
      rw [handleKey_byte env fuel _ tries _ _ b hb1 hb2, if_pos hb]
  · intro hlt
    have hlt2 : (loopHead env s).sel.cursorPos.toNat < (loopHead env s).tries.length := by
      omega
    refine ⟨(loopHead env s).tries.get ⟨_, hlt2⟩, ?_, List.getElem?_eq_getElem hlt2⟩
    unfold indexChecked
    rw [if_pos ⟨hcur, hlt⟩]
    exact List.getElem?_eq_getElem hlt2

/-- An instance of the theorem above: the first iteration of the scripted session of the
specification's scenario with the input `foo-bar--`, the cursor at its end, and Ctrl-W. -/
theorem input_cursor_within_bounds_witness :
    Reachable demoScenarioEnv
        (NewTrySelector (str "foo bar--") (str "/t") [] false [[23]] [] []) demoCtrlWStart
      ∧ InputInv (loopHead demoScenarioEnv demoCtrlWStart).sel
      ∧ ∃ t, deleteWordBackChecked (loopHead demoScenarioEnv demoCtrlWStart).sel = some t
          ∧ handleKey demoScenarioEnv 0 (loopHead demoScenarioEnv demoCtrlWStart).sel []
              true 1 [23] = some (.next t) :=
  ⟨Reachable.init,
    (input_cursor_within_bounds demoScenarioEnv false (str "foo bar--") (str "/t") [] false
      [[23]] [] [] demoCtrlWStart 0 Reachable.init).2.2.1,
    ((input_cursor_within_bounds demoScenarioEnv false (str "foo bar--") (str "/t") [] false
      [[23]] [] [] demoCtrlWStart 0 Reachable.init).2.2.2.2.2.1 [] true 1).2.2.1⟩

/-- The quoting function `q` is faithful. For every string `s`, `q s` starts and ends
with a single quote; between the two stands `s` with every single quote replaced by the
five bytes `'"'"'` and every other byte kept; read by the quoting rules of the POSIX shell,
`q s` is one word and that word is `s`; and `q` is injective. In the lines of
`scriptDelete` and `scriptRename` every quoted string is read back as one word: `cd`,
`test -d`, `rm -rf`, `mv` and `echo` get exactly the strings that were passed to `q`. -/
theorem q_faithful (env : Env K) (s cwd basePath oldName newName : GoString)
    (paths : List DeletePath) :
    (q s).head? = some 39
      ∧ (q s).getLast? = some 39
      ∧ q s = [39] ++ (s.map fun b => if b = 39 then [39, 34, 39, 34, 39] else [b]).flatten
          ++ [39]
      ∧ posixWords (q s) = some [s]
      ∧ Function.Injective q
      ∧ (scriptDelete cwd paths basePath).map posixWords
          = [some [str "cd", basePath]]
            ++ paths.map (fun item =>
                some [str "test", str "-d", item.Basename, str "&&", str "rm", str "-rf",
                  item.Basename])
            ++ [some [str "(", str "cd", cwd, str "2>/dev/null", str "||", str "cd",
                  str "$HOME", str ")"]]
      ∧ (scriptRename env basePath oldName newName).map posixWords
          = [some [str "cd", basePath], some [str "mv", oldName, newName],
              some [str "echo", env.filepathJoin basePath newName],
              some [str "cd", env.filepathJoin basePath newName]] := by
  have h1 : (str "'" : GoString) = [39] := by decide
  have h5 : (str "'\"'\"'" : GoString) = [39, 34, 39, 34, 39] := by decide
  have hq : q s = [39] ++ (s.map fun b => if b = 39 then [39, 34, 39, 34, 39] else [b]).flatten
      ++ [39] := by
    unfold q replaceAllByte
    rw [h1, h5, List.flatMap_def]
  refine ⟨?_, ?_, hq, posixWords_q s, fun a b h => q_injective a b h, ?_, ?_⟩
  · rw [hq]; rfl
  · rw [hq, List.getLast?_concat]
  · simp only [scriptDelete, List.map_append, List.map_cons, List.map_nil, List.map_map,
      posixWords_cd, posixWords_cd_back]
    congr 2
    apply List.map_congr_left
    intro item _
    exact posixWords_rm item.Basename
  · simp only [scriptRename, List.map_cons, List.map_nil, posixWords_cd, posixWords_mv,
      posixWords_echo]

/-- C38: a scripted session terminates. For every non-empty list of scripted keys, whatever
the environment (and so the candidates) is, `mainLoop` returns: there is a selector `t`
that it returns with any fuel above twice the number of keys (two iterations per key cover
the key itself and the Esc that leaves delete mode; dialogs read from the same keys). The
reasons, for every selector `u` of a scripted session: a read takes the first scripted key
and leaves the rest; once the keys are used up a read returns Esc and changes nothing, so
the rename dialog and the delete confirmation return at once, and an iteration of
`mainLoop` clears delete mode when it is set and otherwise cancels the session. -/
theorem scripted_session_terminates (env : Env K) (searchTerm basePath andType : GoString)
    (andExit : Bool) (andKeys : List GoString) (andConfirm : GoString)
    (stdin : List ReadEvent) (hk : andKeys ≠ []) :
    (∃ t, ∀ fuel, 2 * andKeys.length < fuel →
        mainLoop env fuel
          (NewTrySelector searchTerm basePath andType andExit andKeys andConfirm stdin)
          = some t)
      ∧ ∀ u : TrySelector K, u.testHadKeys = true →
          (∀ key rest, u.testKeys = key :: rest →
              readKey env u = (key, { u with testKeys := rest }))
            ∧ (u.testKeys = [] →
                readKey env u = ([27], u)
                  ∧ (∀ entry buf cur err,
                      renameIter env entry u buf cur err = .exit { u with needsRedraw := true })
                  ∧ (∀ items buf cur,
                      confirmIter env items u buf cur
                        = .exit { u with deleteStatus := str "Delete cancelled",
                                         markedForDelete := [], deleteMode := false })
                  ∧ ∀ fuel, mainLoopIter env fuel u
                      = if u.deleteMode then
                          some (.next { (loopHead env u).rendered with
                            markedForDelete := [], deleteMode := false })
                        else some (.done { (loopHead env u).rendered with selected := none }))
      := by
  constructor
  · have hlen : 0 < andKeys.length := List.length_pos.mpr hk
    have hh : (NewTrySelector searchTerm basePath andType andExit andKeys andConfirm stdin :
        TrySelector K).testHadKeys = true := by
      show decide (andKeys.length > 0) = true
      exact decide_eq_true hlen
    obtain ⟨t, ht⟩ := mainLoop_total env (2 * andKeys.length + 1)
      (NewTrySelector searchTerm basePath andType andExit andKeys andConfirm stdin) hh
      (by
        show 2 * andKeys.length + (if false = true then 1 else 0) < 2 * andKeys.length + 1
        simp)
    exact ⟨t, fun fuel hf => mainLoop_mono_le env _ t _ fuel (by omega) ht⟩
  · intro u hu
    refine ⟨(readKey_scripted env u hu).1, fun h0 => ?_⟩
    have hz : ScriptLeft 0 u := ⟨hu, by rw [h0]; simp⟩
    exact ⟨(readKey_scripted env u hu).2 h0,
      fun entry buf cur err => renameIter_exhausted env entry u buf cur err hz,
      fun items buf cur => confirmIter_exhausted env items u buf cur hz,
      fun fuel => mainLoopIter_exhausted env fuel u hz⟩

/-- An instance of the theorem above: the scripted session whose only key is Ctrl-D returns
with fuel 3 (Ctrl-D marks the first entry, Esc leaves delete mode, Esc cancels). -/
theorem scripted_session_terminates_witness :
    ([[4]] : List GoString) ≠ []
      ∧ (mainLoop demoDirEnv 3 demoStart).isSome = true
      ∧ ∃ t, ∀ fuel, 2 * ([[4]] : List GoString).length < fuel →
          mainLoop demoDirEnv fuel (NewTrySelector [] (str "/t") [] false [[4]] [] [])
            = some t :=
  ⟨by decide, by decide!,
    (scripted_session_terminates demoDirEnv [] (str "/t") [] false [[4]] [] []
      (by decide)).1⟩

/-- C40, the code at the failing input: `scriptWorktree` for the repository `/r/my repo`,
given on the command line, and the path `/t/2024-05-03-x`. The line `mkdir -p` passes the
path as one word. In the third line the result of `q` stands inside the single-quoted
argument of `sh -c`, so its quotes end that argument: read by the quoting rules of the POSIX
shell, the argument of `-c` is `if git -C /r/my`, the rest of the script is split into
further words, and no word is the repository path. -/
theorem scriptWorktree_splits_quoted_path :
    (scriptWorktree none (str "/t/2024-05-03-x") (str "/r/my repo") true)[0]?.bind posixWords
        = some [str "mkdir", str "-p", str "/t/2024-05-03-x"]
      ∧ (scriptWorktree none (str "/t/2024-05-03-x") (str "/r/my repo") true)[2]?
        = some (str "/usr/bin/env sh -c 'if git -C " ++ q (str "/r/my repo")
            ++ str " rev-parse --is-inside-work-tree >/dev/null 2>&1; then repo=$(git -C "
            ++ q (str "/r/my repo")
            ++ str " rev-parse --show-toplevel); git -C \"$repo\" worktree add --detach "
            ++ q (str "/t/2024-05-03-x") ++ str " >/dev/null 2>&1 || true; fi; exit 0'")
      ∧ (scriptWorktree none (str "/t/2024-05-03-x") (str "/r/my repo") true)[2]?.bind posixWords
        = some [str "/usr/bin/env", str "sh", str "-c", str "if git -C /r/my",
            str "repo rev-parse --is-inside-work-tree >/dev/null 2>&1; then repo=$(git -C /r/my",
            str "repo rev-parse --show-toplevel); git -C \"$repo\" worktree add --detach "
              ++ str "/t/2024-05-03-x >/dev/null 2>&1 || true; fi; exit 0"]
      ∧ posixWords (q (str "/r/my repo")) = some [str "/r/my repo"] := by
  refine ⟨by decide, by decide!, by decide!, by decide⟩

/-- C24, counterexample: the input `café` comes from the command line and is 5 bytes long,
the input cursor is 5. Backspace removes the byte 0xA9 only: the buffer becomes `caf` followed
by the byte 0xC3, which is not `caf`, the buffer without its last character; the cursor
becomes 4. The buffer decodes to `c`, `a`, `f` and the replacement rune. -/
theorem backspace_splits_character :
    demoCafeStart.inputBuffer = [99, 97, 102, 0xC3, 0xA9]
      ∧ runes demoCafeStart.inputBuffer = ['c', 'a', 'f', 'é']
      ∧ demoCafeStart.inputCursorPos = 5
      ∧ (mainLoopIter demoScenarioEnv 0 demoCafeStart).map
          (fun r => (r.state.inputBuffer, r.state.inputCursorPos))
        = some ([99, 97, 102, 0xC3], 4)
      ∧ ([99, 97, 102, 0xC3] : GoString) ≠ encodeRunes ['c', 'a', 'f']
      ∧ runes ([99, 97, 102, 0xC3] : GoString) = ['c', 'a', 'f', runeError] := by
  refine ⟨by decide, by decide, by decide, by decide!, by decide, by decide⟩

/-- C28, counterexample: the text of the bytes 0xFF, `a`, `b`, `c` holds no escape byte, so
all its escape sequences are well formed, and has visible width 4. Cut to 2 columns, it
becomes the three bytes of the replacement rune followed by `a`, which is not a prefix of
the text. -/
theorem truncateWithAnsi_rewrites_invalid_byte :
    (27 : Byte) ∉ ([0xFF, 97, 98, 99] : GoString)
      ∧ visibleLen ([0xFF, 97, 98, 99] : GoString) = 4
      ∧ truncateWithAnsi ([0xFF, 97, 98, 99] : GoString) 2 = [0xEF, 0xBF, 0xBD, 97]
      ∧ ¬ (truncateWithAnsi ([0xFF, 97, 98, 99] : GoString) 2 <+: [0xFF, 97, 98, 99]) := by
  refine ⟨by decide, by decide, by decide, ?_⟩
  rw [← List.isPrefixOf_iff_prefix]
  decide

/-- C2, counterexample: the directory `b-ahead` was modified 3 hours ahead of the clock, so
`loadAllTries` gives it the base score NaN, and with it every score of `b-ahead` is NaN. For
the query `-` the method `Match` returns `c-new`, `b-ahead`, `a-old` with the scores 4/3,
NaN, 5/9: neither `4/3 >= NaN` nor `NaN >= 5/9` holds, so the list is not in descending
order of score. -/
theorem Match_nan_not_descending :
    demoSkewItems.map (fun it => (it.Text, it.BaseScore))
        = [(str "a-old", .num (2 / 3)), (str "b-ahead", .nan), (str "c-new", .num 3)]
      ∧ (Ieee.Match demoEnv (Ieee.NewFuzzy demoEnv demoSkewItems) (str "-")).map
          (fun m => (m.Entry.Text, m.Score))
        = [(str "c-new", .num (4 / 3)), (str "b-ahead", .nan), (str "a-old", .num (5 / 9))]
      ∧ F64.ge (.num (4 / 3) : F64 ℚ) .nan = false
      ∧ F64.ge (.nan : F64 ℚ) (.num (5 / 9)) = false
      ∧ ¬ (Ieee.Match demoEnv (Ieee.NewFuzzy demoEnv demoSkewItems) (str "-")).Pairwise
          (fun a b => F64.ge a.Score b.Score = true) := by
  refine ⟨by decide!, by decide!, by decide!, by decide!, by decide!⟩

/-- C2, amended: the list returned by `Fuzzy.Match` holds exactly the scored matches, and no
result is followed by one with a greater score. When no score is NaN the list is sorted by
descending score: every score is `>=` every later one. -/
theorem Match_sorted_unless_nan (env : Env K) (f : Fuzzy (F64 K)) (q : GoString) :
    (Ieee.Match env f q).Perm (Ieee.scoreEntries env f.Entries q)
      ∧ (Ieee.Match env f q).Pairwise (fun a b => F64.gt b.Score a.Score = false)
      ∧ ((∀ m ∈ Ieee.scoreEntries env f.Entries q, m.Score ≠ .nan) →
          (Ieee.Match env f q).Pairwise (fun a b => F64.ge a.Score b.Score = true)) := by
  obtain ⟨hperm, hs⟩ := ieee_sortByScore_spec (Ieee.scoreEntries env f.Entries q)
  refine ⟨hperm, hs, fun hnan => ?_⟩
  exact F64.pairwise_ge_of_not_gt _ (fun m hm => hnan m (hperm.subset hm)) hs

/-- C2, amended, at a sample: for the query `-` the candidates `a-old` and `c-new` are
scored 5/9 and 4/3 in this order, and `Match` returns `c-new` before `a-old`. -/
theorem Match_sorted_unless_nan_witness :
    (∀ m ∈ Ieee.scoreEntries demoEnv (Ieee.NewFuzzy demoEnv demoPastItems).Entries (str "-"),
        m.Score ≠ .nan)
      ∧ (Ieee.scoreEntries demoEnv (Ieee.NewFuzzy demoEnv demoPastItems).Entries (str "-")).map
          (fun m => (m.Entry.Text, m.Score))
        = [(str "a-old", .num (5 / 9)), (str "c-new", .num (4 / 3))]
      ∧ (Ieee.Match demoEnv (Ieee.NewFuzzy demoEnv demoPastItems) (str "-")).map
          (fun m => (m.Entry.Text, m.Score))
        = [(str "c-new", .num (4 / 3)), (str "a-old", .num (5 / 9))]
      ∧ (Ieee.Match demoEnv (Ieee.NewFuzzy demoEnv demoPastItems) (str "-")).Pairwise
          (fun a b => F64.ge a.Score b.Score = true) :=
  ⟨by decide!, by decide!, by decide!,
    (Match_sorted_unless_nan demoEnv (Ieee.NewFuzzy demoEnv demoPastItems) (str "-")).2.2
      (by decide!)⟩

/-- C7, counterexample: with the empty query `Match` returns the three candidates of the
listing in the order `c-new`, `b-ahead`, `a-old`, whose base scores are 3, NaN and 2/3. The
candidate `b-ahead` is neither `>=` the one after it nor `<=` the one before it, so the
list is not ordered by base score descending. -/
theorem Match_empty_query_nan :
    demoSkewEntries.map (fun e => (e.Name, e.Info))
        = [(str "a-old", some (0, 7)), (str "b-ahead", some (0, -3)),
            (str "c-new", some (0, 0))]
      ∧ (Ieee.Match demoEnv (Ieee.NewFuzzy demoEnv demoSkewItems) []).map
          (fun m => (m.Entry.Text, m.Entry.BaseScore))
        = [(str "c-new", .num 3), (str "b-ahead", .nan), (str "a-old", .num (2 / 3))]
      ∧ ¬ (Ieee.Match demoEnv (Ieee.NewFuzzy demoEnv demoSkewItems) []).Pairwise
          (fun a b => F64.ge a.Entry.BaseScore b.Entry.BaseScore = true) := by
  refine ⟨by decide!, by decide!, by decide!⟩

/-- C7, amended: for the empty query `Fuzzy.Match` returns every held candidate, each with
`Score` equal to its `BaseScore` and with no positions; no candidate is followed by one
with a greater `BaseScore`, and when no `BaseScore` is NaN the candidates are ordered by
`BaseScore` descending. -/
theorem Match_empty_query_unless_nan (env : Env K) (items : List (TryItem (F64 K))) :
    (Ieee.Match env (Ieee.NewFuzzy env items) []).Perm
        (items.map fun it => { Entry := it, Positions := [], Score := it.BaseScore })
      ∧ (Ieee.Match env (Ieee.NewFuzzy env items) []).length = items.length
      ∧ (Ieee.Match env (Ieee.NewFuzzy env items) []).Pairwise
          (fun a b => F64.gt b.Entry.BaseScore a.Entry.BaseScore = false)
      ∧ ((∀ it ∈ items, it.BaseScore ≠ .nan) →
          (Ieee.Match env (Ieee.NewFuzzy env items) []).Pairwise
            (fun a b => F64.ge a.Entry.BaseScore b.Entry.BaseScore = true)) := by
  obtain ⟨hperm0, hs⟩ :=
    ieee_sortByScore_spec (Ieee.scoreEntries env (Ieee.NewFuzzy env items).Entries [])
  have hperm : (Ieee.Match env (Ieee.NewFuzzy env items) []).Perm
      (items.map fun it => { Entry := it, Positions := [], Score := it.BaseScore }) := by
    rw [← ieee_scoreEntries_empty]
    exact hperm0
  have hmem : ∀ m ∈ Ieee.Match env (Ieee.NewFuzzy env items) [],
      m.Score = m.Entry.BaseScore ∧ m.Entry ∈ items := by
    intro m hm
    obtain ⟨it, hit, rfl⟩ := List.mem_map.mp (hperm.subset hm)
    exact ⟨rfl, hit⟩
  have hgt : (Ieee.Match env (Ieee.NewFuzzy env items) []).Pairwise
      (fun a b => F64.gt b.Entry.BaseScore a.Entry.BaseScore = false) := by
    refine List.Pairwise.imp_of_mem ?_ hs
    intro a b ha hb hab
    rw [← (hmem a ha).1, ← (hmem b hb).1]
    exact hab
  refine ⟨hperm, by simpa using hperm.length_eq, hgt, fun hnan => ?_⟩
  refine hgt.imp_of_mem ?_
  intro a b ha hb hab
  exact (F64.ge_iff_not_gt _ _ (hnan _ (hmem a ha).2) (hnan _ (hmem b hb).2)).mpr hab

/-- C7, amended, at a sample: the candidates `a-old` and `c-new` have the base scores 2/3 and
3, and with the empty query `Match` returns `c-new` before `a-old`. -/
theorem Match_empty_query_unless_nan_witness :
    (∀ it ∈ demoPastItems, it.BaseScore ≠ .nan)
      ∧ demoPastItems.map (fun it => (it.Text, it.BaseScore))
        = [(str "a-old", .num (2 / 3)), (str "c-new", .num 3)]
      ∧ (Ieee.Match demoEnv (Ieee.NewFuzzy demoEnv demoPastItems) []).map
          (fun m => (m.Entry.Text, m.Positions, m.Score))
        = [(str "c-new", [], .num 3), (str "a-old", [], .num (2 / 3))]
      ∧ (Ieee.Match demoEnv (Ieee.NewFuzzy demoEnv demoPastItems) []).Pairwise
          (fun a b => F64.ge a.Entry.BaseScore b.Entry.BaseScore = true) :=
  ⟨by decide!, by decide!, by decide!,
    (Match_empty_query_unless_nan demoEnv demoPastItems).2.2.2 (by decide!)⟩

/-- C36, counterexample: a session started with the query `a`, line feed, `l` on a terminal
of 9 lines. The input buffer holds the line feed, no directory matches, and the frame that
`render` writes holds 10 line feeds, one in the search line and one in the row "Create new"
besides the 8 that end lines: 11 lines for the height 9. With `TRY_WIDTH` set to 2^62 the
call `strings.Repeat("─", width - 1)` panics on the overflow of the length, and `render`
writes nothing. -/
theorem render_line_feed_in_input :
    (loopHead demoSmallEnv demoFeedStart).clamped.inputBuffer = str "a\nl"
      ∧ (loopHead demoSmallEnv demoFeedStart).tries = []
      ∧ (render demoSmallEnv (loopHead demoSmallEnv demoFeedStart).clamped []).height = 9
      ∧ renderSearchLine false (loopHead demoSmallEnv demoFeedStart).clamped
          = some (str "Search: a\nl ")
      ∧ renderCreateLine false demoSmallEnv (loopHead demoSmallEnv demoFeedStart).clamped true
          = str "→ 📂 Create new: 2024-05-03-a\nl"
      ∧ (renderOutput false demoRowEnv demoSmallEnv (loopHead demoSmallEnv demoFeedStart).clamped
            (loopHead demoSmallEnv demoFeedStart).tries).map lineFeeds = some 10
      ∧ (render demoWideEnv (loopHead demoWideEnv demoAlStart).clamped
            (loopHead demoWideEnv demoAlStart).tries).width = 2 ^ 62
      ∧ stringsRepeat (str "─") (2 ^ 62 - 1) = none
      ∧ renderOutput false demoRowEnv demoWideEnv (loopHead demoWideEnv demoAlStart).clamped
            (loopHead demoWideEnv demoAlStart).tries = none := by
  refine ⟨by decide!, by decide!, by decide!, by decide!, by decide!, by decide!, by decide!,
    by decide!, by decide!⟩


/-- C36, amended: in a state `s` that the loop of `mainLoop` reaches, let `st` and `tries`
be the selector and the ranked list that the iteration passes to `render`. Let the width be
one for which `strings.Repeat` does not overflow, and let the input buffer, the status
message, the names of the entries, the date and the formatted scores hold no line feed. Then
`render` writes the text of a frame of exactly 4 header lines, exactly
`maxVisible = max(3, height - 6)` body lines and 2 footer lines, none of which holds a line
feed. The body lines are, in this order, the rows of the entries from the scroll offset on
that fit, then, when the row "Create new" lies in the window, an empty separator (if there
are entries) and that row (left out when the separator fills the window), then empty lines
up to `maxVisible`. The text holds one line feed after every line but the last, and for
`height ≥ 9` it has exactly `height` lines. -/
theorem render_frame_lines (colorsEnabled : Bool) (renv : RowEnv K) (env : Env K)
    (searchTerm basePath andType : GoString) (andExit : Bool) (andKeys : List GoString)
    (andConfirm : GoString) (stdin : List ReadEvent) (s st : TrySelector K)
    (tries : List (TryEntry K))
    (h : Reachable env
      (NewTrySelector searchTerm basePath andType andExit andKeys andConfirm stdin) s)
    (hst : st = (loopHead env s).clamped) (htries : tries = (loopHead env s).tries)
    (hw : 3 * ((render env st tries).width - 1) ≤ maxInt)
    (hbuf : (10 : Byte) ∉ st.inputBuffer) (hstatus : (10 : Byte) ∉ st.deleteStatus)
    (hnames : ∀ e ∈ tries, (10 : Byte) ∉ e.Item.Basename)
    (htoday : (10 : Byte) ∉ env.today) (hscore : ∀ x, (10 : Byte) ∉ renv.formatScore x) :
    ∃ header body footer : List GoString,
      renderOutput colorsEnabled renv env st tries
          = some (frameText header body footer (8 + st.inputCursorPos + 1))
        ∧ (headerLines colorsEnabled (refreshSize env st)).map
            (List.map (truncateLine (render env st tries))) = some header
        ∧ (footerLines colorsEnabled (refreshSize env st)).map
            (List.map (truncateLine (render env st tries))) = some footer
        ∧ List.Forall₂
            (fun kind line =>
              bodyLineText colorsEnabled renv env (render env st tries) tries kind = some line)
            (renderBody (render env st tries) tries) body
        ∧ renderBody (render env st tries) tries
          = bodyKinds tries.length (decide (st.inputBuffer ≠ [])) st.cursorPos
              (render env st tries).scrollOffset (max 3 ((render env st tries).height - 6))
            ++ List.replicate
              (max 3 ((render env st tries).height - 6)
                - (bodyKinds tries.length (decide (st.inputBuffer ≠ [])) st.cursorPos
                    (render env st tries).scrollOffset
                    (max 3 ((render env st tries).height - 6))).length).toNat
              BodyLine.blank
        ∧ header.length = 4
        ∧ ((body.length : Nat) : Int) = max 3 ((render env st tries).height - 6)
        ∧ footer.length = 2
        ∧ (∀ line ∈ header ++ body ++ footer, (10 : Byte) ∉ line)
        ∧ lineFeeds (frameText header body footer (8 + st.inputCursorPos + 1)) + 1
          = 4 + body.length + 2
        ∧ ((render env st tries).height ≥ 9 →
            ((lineFeeds (frameText header body footer (8 + st.inputCursorPos + 1)) + 1 : Nat) : Int)
              = (render env st tries).height) := by
  subst hst htries
  obtain ⟨h1, h2, h3⟩ := reachable_render_state env searchTerm basePath andType andExit andKeys
    andConfirm stdin s h
  exact renderOutput_frame colorsEnabled renv env _ _ h1 h2 h3 hw hbuf hstatus hnames htoday
    hscore

/-- C36, amended, at a sample: the first frame of a session with the query `a` in the
scenario of the specification, on a terminal of 24 lines. Both directories match; the body
holds their two rows, the empty separator, the row "Create new" and 14 empty lines, and the
text of the frame holds 23 line feeds. -/
theorem render_frame_lines_witness :
    (Reachable demoScenarioEnv
          (NewTrySelector (str "a") (str "/t") [] false [] [] []) demoFrameStart
        ∧ demoFrameState = (loopHead demoScenarioEnv demoFrameStart).clamped
        ∧ demoFrameTries = (loopHead demoScenarioEnv demoFrameStart).tries
        ∧ 3 * ((render demoScenarioEnv demoFrameState demoFrameTries).width - 1) ≤ maxInt
        ∧ (10 : Byte) ∉ demoFrameState.inputBuffer ∧ (10 : Byte) ∉ demoFrameState.deleteStatus
        ∧ (∀ e ∈ demoFrameTries, (10 : Byte) ∉ e.Item.Basename)
        ∧ (10 : Byte) ∉ demoScenarioEnv.today)
      ∧ demoFrameTries.map (fun e => e.Item.Basename)
        = [str "2024-05-01-alpha", str "2024-05-02-beta"]
      ∧ (render demoScenarioEnv demoFrameState demoFrameTries).height = 24
      ∧ renderBody (render demoScenarioEnv demoFrameState demoFrameTries) demoFrameTries
        = [BodyLine.entry 0 true, BodyLine.entry 1 false, BodyLine.blank, BodyLine.create false]
            ++ List.replicate 14 BodyLine.blank
      ∧ (renderOutput false demoRowEnv demoScenarioEnv demoFrameState demoFrameTries).map
          lineFeeds = some 23
      ∧ ∃ header body footer : List GoString,
          renderOutput false demoRowEnv demoScenarioEnv demoFrameState demoFrameTries
              = some (frameText header body footer (8 + demoFrameState.inputCursorPos + 1))
            ∧ (headerLines false (refreshSize demoScenarioEnv demoFrameState)).map
                (List.map (truncateLine (render demoScenarioEnv demoFrameState demoFrameTries)))
              = some header
            ∧ (footerLines false (refreshSize demoScenarioEnv demoFrameState)).map
                (List.map (truncateLine (render demoScenarioEnv demoFrameState demoFrameTries)))
              = some footer
            ∧ List.Forall₂
                (fun kind line =>
                  bodyLineText false demoRowEnv demoScenarioEnv
                    (render demoScenarioEnv demoFrameState demoFrameTries) demoFrameTries kind
                    = some line)
                (renderBody (render demoScenarioEnv demoFrameState demoFrameTries)
                  demoFrameTries) body
            ∧ renderBody (render demoScenarioEnv demoFrameState demoFrameTries) demoFrameTries
              = bodyKinds demoFrameTries.length (decide (demoFrameState.inputBuffer ≠ []))
                  demoFrameState.cursorPos
                  (render demoScenarioEnv demoFrameState demoFrameTries).scrollOffset
                  (max 3 ((render demoScenarioEnv demoFrameState demoFrameTries).height - 6))
                ++ List.replicate
                  (max 3 ((render demoScenarioEnv demoFrameState demoFrameTries).height - 6)
                    - (bodyKinds demoFrameTries.length (decide (demoFrameState.inputBuffer ≠ []))
                        demoFrameState.cursorPos
                        (render demoScenarioEnv demoFrameState demoFrameTries).scrollOffset
                        (max 3 ((render demoScenarioEnv demoFrameState demoFrameTries).height
                          - 6))).length).toNat
                  BodyLine.blank
            ∧ header.length = 4
            ∧ ((body.length : Nat) : Int)
              = max 3 ((render demoScenarioEnv demoFrameState demoFrameTries).height - 6)
            ∧ footer.length = 2
            ∧ (∀ line ∈ header ++ body ++ footer, (10 : Byte) ∉ line)
            ∧ lineFeeds (frameText header body footer (8 + demoFrameState.inputCursorPos + 1)) + 1
              = 4 + body.length + 2
            ∧ ((render demoScenarioEnv demoFrameState demoFrameTries).height ≥ 9 →
                ((lineFeeds (frameText header body footer
                    (8 + demoFrameState.inputCursorPos + 1)) + 1 : Nat) : Int)
                  = (render demoScenarioEnv demoFrameState demoFrameTries).height) :=
  ⟨⟨Reachable.init, rfl, rfl, by decide!, by decide!, by decide!, by decide!, by decide!⟩,
    by decide!, by decide!, by decide!, by decide!,
    render_frame_lines false demoRowEnv demoScenarioEnv (str "a") (str "/t") [] false [] [] []
      demoFrameStart demoFrameState demoFrameTries Reachable.init rfl rfl
      (by decide!) (by decide!) (by decide!) (by decide!) (by decide!) demoFormatScore_noLF⟩

end claims

end Try
